import Mathlib

/-! # Grid war simulation: model, combat resolver and purchase API

A shallow embedding of the turn engine of the repository (`Constants.h`,
`Model.cpp`, `CombatSystem.cpp`, `AIController.cpp` and the turn processing of
`Controller.cpp`), followed by the properties that are established about it.

Conventions of the embedding.

* A C++ `int` is a Lean `Int`.  Every stored quantity of the program (hit
  points, armour, attack, energy, coordinates) stays far inside the 32-bit
  range, so the arithmetic on stored quantities is exact.  The one place where
  an argument of arbitrary size meets arithmetic is `Soldier::takeDamage`,
  whose subtraction `damage - armor` is wrapped into the 32-bit range
  (`wrapInt32`), as the compiled code does.
* Objects held through `shared_ptr` in `GameModel::soldiers` are identified by
  their index in the unit list; a mutation through a pointer is a replacement
  of the list entry.
* Mutexes and atomics are dropped: every function is run to completion on its
  own (single-threaded reading of the code).
* Whatever the code leaves to chance is a parameter of the function that uses
  it: the draws from `rng`, the order in which `std::sort` leaves records that
  its comparator does not separate, the outcome of `std::shuffle`, and the
  replies of the Python agent.  A property stated for all values of these
  parameters holds for every run.
* The single floating point expression of the resolver,
  `static_cast<int>(damage * 1.2f)`, is modelled exactly (binary32 product,
  round to nearest even, truncation).
-/

set_option autoImplicit false

/-! ## Constants.h -/

namespace GameConstants

def MAP_SIZE : Int := 64
def MAX_TURNS : Int := 500
def BASE_COUNT_PER_TEAM : Int := 3
def BASE_HP : Int := 5000

def INITIAL_ENERGY : Int := 200
def ENERGY_PER_TURN : Int := 30
def ARCHER_COST : Int := 80
def INFANTRY_COST : Int := 80
def CAVALRY_COST : Int := 100
def CASTER_COST : Int := 100
def DOCTOR_COST : Int := 80

def BASE_DEFENSE_RANGE : Int := 6

/-- The float constant `1.2f` is the binary32 number `10066330 / 2^23`
(bit pattern `0x3F99999A`); this is its 24-bit significand. -/
def BASE_DEFENSE_DAMAGE_MULTIPLIER_SIG : Nat := 10066330

def COMMUNICATION_RANGE : Int := 15

inductive SoldierType where
  | ARCHER
  | INFANTRY
  | CAVALRY
  | CASTER
  | DOCTOR
deriving DecidableEq, Repr

inductive TerrainType where
  | PLAIN
  | MOUNTAIN
  | RIVER
  | BASE_A
  | BASE_B
deriving DecidableEq, Repr

inductive Team where
  | TEAM_A
  | TEAM_B
deriving DecidableEq, Repr

namespace Archer
def HP : Int := 100
def ATTACK : Int := 50
def ATTACK_RANGE : Int := 3
def VISION_RANGE : Int := 7
def MOVE_SPEED : Int := 1
def ARMOR : Int := 5
end Archer

namespace Infantry
def HP : Int := 180
def ATTACK : Int := 70
def ATTACK_RANGE : Int := 1
def VISION_RANGE : Int := 4
def MOVE_SPEED : Int := 1
def ARMOR : Int := 20
end Infantry

namespace Cavalry
def HP : Int := 170
def ATTACK : Int := 60
def ATTACK_RANGE : Int := 1
def VISION_RANGE : Int := 5
def MOVE_SPEED : Int := 3
def ARMOR : Int := 15
end Cavalry

namespace Caster
def HP : Int := 90
def ATTACK : Int := 50
def ATTACK_RANGE : Int := 3
def VISION_RANGE : Int := 7
def MOVE_SPEED : Int := 1
def ARMOR : Int := 0
def AOE_RANGE : Int := 1
end Caster

namespace Doctor
def HP : Int := 120
def ATTACK : Int := 10
def ATTACK_RANGE : Int := 1
def VISION_RANGE : Int := 3
def MOVE_SPEED : Int := 1
def ARMOR : Int := 5
def HEAL_AMOUNT : Int := 30
def HEAL_RANGE : Int := 2
end Doctor

end GameConstants

open GameConstants

/-- The C function `abs` on `int`. -/
def cabs (a : Int) : Int := if a < 0 then -a else a

/-- The index of a team, `static_cast<int>(team)`. -/
def GameConstants.Team.toInt : Team → Int
  | Team.TEAM_A => 0
  | Team.TEAM_B => 1

/-! ## Model.h / Model.cpp : positions and units -/

structure Position where
  x : Int
  y : Int
deriving DecidableEq, Repr

/-- Manhattan distance, `Position::distanceTo`. -/
def Position.distanceTo (p other : Position) : Int :=
  cabs (p.x - other.x) + cabs (p.y - other.y)

/-- Chebyshev distance, `Position::chebyshevDistanceTo`. -/
def Position.chebyshevDistanceTo (p other : Position) : Int :=
  max (cabs (p.x - other.x)) (cabs (p.y - other.y))

/-- The data members of `class Soldier`.  The two `std::set<int>` members of
the vision sharing system are finite sets of unit indices. -/
structure Soldier where
  position : Position
  type : SoldierType
  team : Team
  hp : Int
  maxHp : Int
  attack : Int
  attackRange : Int
  visionRange : Int
  moveSpeed : Int
  armor : Int
  alive : Bool
  lastTurnVisibleEnemies : Finset Int
  sharedVisibleEnemies : Finset Int
deriving DecidableEq

/-- The constructor `Soldier::Soldier(pos, type, team)`: the statistics are
read off the kind, the unit starts alive at full hit points, with empty vision
sets. -/
def Soldier.new (pos : Position) (type : SoldierType) (team : Team) : Soldier :=
  match type with
  | SoldierType.ARCHER =>
      { position := pos, type := type, team := team, hp := Archer.HP, maxHp := Archer.HP,
        attack := Archer.ATTACK, attackRange := Archer.ATTACK_RANGE,
        visionRange := Archer.VISION_RANGE, moveSpeed := Archer.MOVE_SPEED,
        armor := Archer.ARMOR, alive := true,
        lastTurnVisibleEnemies := ∅, sharedVisibleEnemies := ∅ }
  | SoldierType.INFANTRY =>
      { position := pos, type := type, team := team, hp := Infantry.HP, maxHp := Infantry.HP,
        attack := Infantry.ATTACK, attackRange := Infantry.ATTACK_RANGE,
        visionRange := Infantry.VISION_RANGE, moveSpeed := Infantry.MOVE_SPEED,
        armor := Infantry.ARMOR, alive := true,
        lastTurnVisibleEnemies := ∅, sharedVisibleEnemies := ∅ }
  | SoldierType.CAVALRY =>
      { position := pos, type := type, team := team, hp := Cavalry.HP, maxHp := Cavalry.HP,
        attack := Cavalry.ATTACK, attackRange := Cavalry.ATTACK_RANGE,
        visionRange := Cavalry.VISION_RANGE, moveSpeed := Cavalry.MOVE_SPEED,
        armor := Cavalry.ARMOR, alive := true,
        lastTurnVisibleEnemies := ∅, sharedVisibleEnemies := ∅ }
  | SoldierType.CASTER =>
      { position := pos, type := type, team := team, hp := Caster.HP, maxHp := Caster.HP,
        attack := Caster.ATTACK, attackRange := Caster.ATTACK_RANGE,
        visionRange := Caster.VISION_RANGE, moveSpeed := Caster.MOVE_SPEED,
        armor := Caster.ARMOR, alive := true,
        lastTurnVisibleEnemies := ∅, sharedVisibleEnemies := ∅ }
  | SoldierType.DOCTOR =>
      { position := pos, type := type, team := team, hp := Doctor.HP, maxHp := Doctor.HP,
        attack := Doctor.ATTACK, attackRange := Doctor.ATTACK_RANGE,
        visionRange := Doctor.VISION_RANGE, moveSpeed := Doctor.MOVE_SPEED,
        armor := Doctor.ARMOR, alive := true,
        lastTurnVisibleEnemies := ∅, sharedVisibleEnemies := ∅ }

def Soldier.getPosition (s : Soldier) : Position := s.position
def Soldier.getType (s : Soldier) : SoldierType := s.type
def Soldier.getTeam (s : Soldier) : Team := s.team
def Soldier.getHp (s : Soldier) : Int := s.hp
def Soldier.getMaxHp (s : Soldier) : Int := s.maxHp
def Soldier.getAttack (s : Soldier) : Int := s.attack
def Soldier.getAttackRange (s : Soldier) : Int := s.attackRange
def Soldier.getArmor (s : Soldier) : Int := s.armor
def Soldier.isAlive (s : Soldier) : Bool := s.alive

def Soldier.setPosition (s : Soldier) (pos : Position) : Soldier :=
  { s with position := pos }

/-- The method `Soldier::setHp`: clamp into `[0, maxHp]`, clear liveness at 0. -/
def Soldier.setHp (s : Soldier) (newHp : Int) : Soldier :=
  let hp := max 0 (min newHp s.maxHp)
  if hp ≤ 0 then { s with hp := hp, alive := false } else { s with hp := hp }

/-- The value of an `int` expression whose exact value is `x`: `x` itself when
it lies in the 32-bit range, and otherwise the value of the same residue
modulo `2^32` in that range (two's complement wrap-around). -/
def wrapInt32 (x : Int) : Int := (x + 2147483648) % 4294967296 - 2147483648

/-- The method `Soldier::takeDamage`: armour is subtracted first (in `int`
arithmetic, hence wrapped), the hit points are lowered, and at or below zero
they are reset to 0 and liveness is cleared.  The second subtraction is exact:
the hit points of a unit lie between 0 and `maxHp`, and `actualDamage` between
0 and `2^31 - 1`. -/
def Soldier.takeDamage (s : Soldier) (damage : Int) : Soldier :=
  let actualDamage := max 0 (wrapInt32 (damage - s.armor))
  let hp := s.hp - actualDamage
  if hp ≤ 0 then { s with hp := 0, alive := false } else { s with hp := hp }

/-- The method `Soldier::canAttack`. -/
def Soldier.canAttack (s : Soldier) (target : Position) : Bool :=
  decide (s.position.chebyshevDistanceTo target ≤ s.attackRange)

/-- The method `Soldier::canSee`. -/
def Soldier.canSee (s : Soldier) (target : Position) : Bool :=
  decide (s.position.chebyshevDistanceTo target ≤ s.visionRange)

/-- One call of a hit point mutator of `Soldier`, with its argument. -/
inductive SoldierCall where
  | takeDamage (amount : Int)
  | setHp (value : Int)
deriving DecidableEq, Repr

/-- Apply one mutator call to a unit. -/
def Soldier.call (s : Soldier) : SoldierCall → Soldier
  | SoldierCall.takeDamage amount => s.takeDamage amount
  | SoldierCall.setHp value => s.setHp value

/-- Apply a sequence of mutator calls, first call first. -/
def Soldier.run (s : Soldier) (calls : List SoldierCall) : Soldier :=
  calls.foldl Soldier.call s

/-- Every `setHp` of the sequence is issued while the unit is alive (as the
heal phase of the resolver does, which skips dead units). -/
def Soldier.healsOnlyAlive (s : Soldier) : List SoldierCall → Bool
  | [] => true
  | SoldierCall.takeDamage amount :: rest =>
      Soldier.healsOnlyAlive (s.takeDamage amount) rest
  | SoldierCall.setHp value :: rest =>
      s.alive && Soldier.healsOnlyAlive (s.setHp value) rest

/-- The statistics of the unit are those its constructor assigned from its
kind; no method of `Soldier` changes them. -/
def Soldier.StatsOfKind (s : Soldier) : Prop :=
  s.maxHp = (Soldier.new s.position s.type s.team).maxHp ∧
  s.attack = (Soldier.new s.position s.type s.team).attack ∧
  s.attackRange = (Soldier.new s.position s.type s.team).attackRange ∧
  s.visionRange = (Soldier.new s.position s.type s.team).visionRange ∧
  s.moveSpeed = (Soldier.new s.position s.type s.team).moveSpeed ∧
  s.armor = (Soldier.new s.position s.type s.team).armor

instance (s : Soldier) : Decidable s.StatsOfKind := by
  unfold Soldier.StatsOfKind
  infer_instance

/-! ## Model.h / Model.cpp : bases, map and world state -/

/-- The data members of `class Base`. -/
structure Base where
  position : Position
  team : Team
  hp : Int
  maxHp : Int
deriving DecidableEq, Repr

/-- The constructor `Base::Base(pos, team)`. -/
def Base.new (pos : Position) (team : Team) : Base :=
  { position := pos, team := team, hp := BASE_HP, maxHp := BASE_HP }

def Base.getPosition (b : Base) : Position := b.position
def Base.getHp (b : Base) : Int := b.hp

/-- The method `Base::isAlive`. -/
def Base.isAlive (b : Base) : Bool := decide (b.hp > 0)

/-- The method `Base::takeDamage`: no armour, clamped at 0. -/
def Base.takeDamage (b : Base) (damage : Int) : Base :=
  { b with hp := max 0 (b.hp - damage) }

/-- The terrain grid of `class GameMap`; `terrain x y` is the C++
`terrain[x][y]`, which the code reads only for `0 ≤ x, y < MAP_SIZE`. -/
structure GameMap where
  terrain : Int → Int → TerrainType

/-- The method `GameMap::isValidPosition`. -/
def GameMap.isValidPosition (_g : GameMap) (pos : Position) : Bool :=
  decide (pos.x ≥ 0) && decide (pos.x < MAP_SIZE) && decide (pos.y ≥ 0) && decide (pos.y < MAP_SIZE)

/-- The method `GameMap::isWalkable`. -/
def GameMap.isWalkable (g : GameMap) (pos : Position) : Bool :=
  if !g.isValidPosition pos then false
  else
    let type := g.terrain pos.x pos.y
    decide (type = TerrainType.PLAIN) || decide (type = TerrainType.BASE_A) ||
      decide (type = TerrainType.BASE_B)

/-- The method `GameMap::getTerrainAt`. -/
def GameMap.getTerrainAt (g : GameMap) (pos : Position) : TerrainType :=
  if !g.isValidPosition pos then TerrainType.MOUNTAIN else g.terrain pos.x pos.y

/-- The method `GameMap::setTerrainAt`. -/
def GameMap.setTerrainAt (g : GameMap) (pos : Position) (type : TerrainType) : GameMap :=
  if g.isValidPosition pos then
    { terrain := fun x y => if x = pos.x ∧ y = pos.y then type else g.terrain x y }
  else g

structure TeamData where
  energy : Int
deriving DecidableEq, Repr

/-- The data members of `class GameModel`.  The unified list `bases` only
aliases the two per-team lists and is the derived function `GameModel.bases`. -/
structure GameModel where
  gameMap : GameMap
  basesTeamA : List Base
  basesTeamB : List Base
  soldiers : List Soldier
  gameOver : Bool
  winner : Team
  turnCount : Int
  energyTeamA : Int
  energyTeamB : Int
  teams0 : TeamData
  teams1 : TeamData

def GameModel.bases (m : GameModel) : List Base := m.basesTeamA ++ m.basesTeamB

def GameModel.getSoldiers (m : GameModel) : List Soldier := m.soldiers

/-- The bases of one team: `getBasesTeamA()` or `getBasesTeamB()`. -/
def GameModel.basesOf (m : GameModel) (team : Team) : List Base :=
  if team = Team.TEAM_A then m.basesTeamA else m.basesTeamB

/-- The method `GameModel::getEnergy`. -/
def GameModel.getEnergy (m : GameModel) (team : Team) : Int :=
  if team = Team.TEAM_A then m.energyTeamA else m.energyTeamB

/-- The method `GameModel::addSoldier`. -/
def GameModel.addSoldier (m : GameModel) (soldier : Soldier) : GameModel :=
  { m with soldiers := m.soldiers ++ [soldier] }

/-- The method `GameModel::addEnergy`. -/
def GameModel.addEnergy (m : GameModel) (team : Team) (amount : Int) : GameModel :=
  if team = Team.TEAM_A then { m with energyTeamA := m.energyTeamA + amount }
  else { m with energyTeamB := m.energyTeamB + amount }

/-- The method `GameModel::spendEnergy`: the new world and the returned flag. -/
def GameModel.spendEnergy (m : GameModel) (team : Team) (amount : Int) : GameModel × Bool :=
  if team = Team.TEAM_A then
    let current := m.energyTeamA
    if current ≥ amount then ({ m with energyTeamA := current - amount }, true)
    else (m, false)
  else
    let current := m.energyTeamB
    if current ≥ amount then ({ m with energyTeamB := current - amount }, true)
    else (m, false)

/-- No two distinct living units of the list stand on the same cell. -/
def NoStacking (soldiers : List Soldier) : Prop :=
  ∀ i j : Nat, ∀ s t : Soldier, soldiers[i]? = some s → soldiers[j]? = some t →
    i ≠ j → s.alive = true → t.alive = true → s.position ≠ t.position

/-! ## AIController.cpp : occupancy and crowdedness queries -/

namespace AIController

/-- The method `AIController::isPositionOccupied`; the excluded unit is given
by its index in the unit list (`none` for `nullptr`). -/
def isPositionOccupied (m : GameModel) (pos : Position) (excludeSoldier : Option Nat) : Bool :=
  m.getSoldiers.enum.any fun p =>
    decide (some p.1 ≠ excludeSoldier) && p.2.isAlive && decide (p.2.getPosition = pos)

/-- The method `AIController::getCrowdednessAtPosition`. -/
def getCrowdednessAtPosition (m : GameModel) (pos : Position) (team : Team) (radius : Int) : Int :=
  m.getSoldiers.foldl
    (fun count s =>
      if s.isAlive && decide (s.getTeam = team) then
        let dist := cabs (s.getPosition.x - pos.x) + cabs (s.getPosition.y - pos.y)
        if dist ≤ radius then count + 1 else count
      else count)
    0

end AIController

/-! ## CombatSystem.cpp : prices -/

namespace CombatSystem

/-- The function `CombatSystem::getSoldierCost` (its `default` branch is not
reachable for a value of the enumeration). -/
def getSoldierCost : SoldierType → Int
  | SoldierType.ARCHER => ARCHER_COST
  | SoldierType.INFANTRY => INFANTRY_COST
  | SoldierType.CAVALRY => CAVALRY_COST
  | SoldierType.CASTER => CASTER_COST
  | SoldierType.DOCTOR => DOCTOR_COST

end CombatSystem

/-! ## Controller.cpp : the purchase entry point -/

namespace GameController

/-- The values of the loop variables `dx` and `dy` of `findSpawnPosition`, in
loop order. -/
def spawnRange : List Int := [-3, -2, -1, 0, 1, 2, 3]

/-- The list `possiblePositions` built by the scan of `findSpawnPosition`. -/
def possiblePositions (m : GameModel) (basePos : Position) : List Position :=
  spawnRange.flatMap fun dx =>
    spawnRange.filterMap fun dy =>
      if dx = 0 ∧ dy = 0 then none
      else
        let spawnPos : Position := { x := basePos.x + dx, y := basePos.y + dy }
        if m.gameMap.isWalkable spawnPos then
          if !AIController.isPositionOccupied m spawnPos none then some spawnPos else none
        else none

/-- The method `GameController::findSpawnPosition`. -/
def findSpawnPosition (m : GameModel) (team : Team) (basePos : Position) : Position :=
  match possiblePositions m basePos with
  | [] => basePos
  | first :: rest =>
      let start : Position × Int :=
        (first, AIController.getCrowdednessAtPosition m first team 2)
      ((first :: rest).foldl
        (fun (best : Position × Int) pos =>
          let crowdedness := AIController.getCrowdednessAtPosition m pos team 2
          if crowdedness < best.2 then (pos, crowdedness) else best)
        start).1

/-- The method `GameController::purchaseSoldier`: the new world and the
returned flag. -/
def purchaseSoldier (m : GameModel) (team : Team) (type : SoldierType) (basePos : Position) :
    GameModel × Bool :=
  let cost := CombatSystem.getSoldierCost type
  let spent := m.spendEnergy team cost
  if !spent.2 then (m, false)
  else
    let m1 := spent.1
    let spawnPos := findSpawnPosition m1 team basePos
    if !m1.gameMap.isWalkable spawnPos then (m1.addEnergy team cost, false)
    else (m1.addSoldier (Soldier.new spawnPos type team), true)

end GameController

/-! ## GameTypes.h : events -/

inductive EventType where
  | SPAWN
  | MOVE
  | ATTACK
  | KILL
  | BASE_DAMAGED
  | GAME_OVER
deriving DecidableEq, Repr

/-- The members of `struct GameEvent`. -/
structure GameEvent where
  type : EventType
  team : Int
  turn : Int
  description : String
  soldier_id : Int
  target_id : Int
  damage : Int
  reward_energy : Int
deriving DecidableEq, Repr

/-- The constructor `GameEvent(t, tm, tn, desc)` with the default members. -/
def GameEvent.new (t : EventType) (tm tn : Int) (desc : String) : GameEvent :=
  { type := t, team := tm, turn := tn, description := desc,
    soldier_id := -1, target_id := -1, damage := 0, reward_energy := 0 }

/-! ## binary32 arithmetic for the home bonus -/

namespace F32

/-- Number of binary digits of `n`, for `n < 2 ^ fuel`. -/
def bits : Nat → Nat → Nat
  | 0, _ => 0
  | fuel + 1, n => if n = 0 then 0 else bits fuel (n / 2) + 1

/-- Round a natural number (below `2 ^ 64`) to the nearest number with a
24-bit significand, ties to even: the binary32 rounding of a value in the
normal range, up to the power of two that scales it. -/
def round (n : Nat) : Nat :=
  let s := bits 64 n - 24
  let m := n / 2 ^ s
  let r := n % 2 ^ s
  let m1 := if 2 * r > 2 ^ s ∨ (2 * r = 2 ^ s ∧ m % 2 = 1) then m + 1 else m
  m1 * 2 ^ s

end F32

namespace CombatSystem

/-- The expression `static_cast<int>(damage * BASE_DEFENSE_DAMAGE_MULTIPLIER)`:
`damage` is converted to binary32, multiplied by `1.2f = 10066330 / 2^23` with
one rounding, and the product is truncated toward zero. -/
def applyBaseMultiplier (damage : Int) : Int :=
  let mag : Nat :=
    F32.round (F32.round damage.natAbs * BASE_DEFENSE_DAMAGE_MULTIPLIER_SIG) / 2 ^ 23
  if damage < 0 then -(mag : Int) else (mag : Int)

/-- The flag `nearOwnBase` computed by `attackTarget` and `attackBase`: some
living base of the attacker's team is within Manhattan distance
`BASE_DEFENSE_RANGE`. -/
def nearOwnBase (attacker : Soldier) (m : GameModel) : Bool :=
  (m.basesOf attacker.getTeam).any fun base =>
    base.isAlive &&
      decide (cabs (attacker.getPosition.x - base.getPosition.x) +
        cabs (attacker.getPosition.y - base.getPosition.y) ≤ BASE_DEFENSE_RANGE)

/-- The value of `damage` that `attackTarget` and `attackBase` pass on. -/
def attackDamage (attacker : Soldier) (m : GameModel) : Int :=
  let damage := attacker.getAttack
  if nearOwnBase attacker m then applyBaseMultiplier damage else damage

/-- The function `CombatSystem::attackTarget`: the target after the call, the
event list after the call and the returned flag. -/
def attackTarget (attacker target : Soldier) (m : GameModel) (events : List GameEvent)
    (currentTurn : Int) : Soldier × List GameEvent × Bool :=
  if !attacker.isAlive || !target.isAlive then (target, events, false)
  else
    let damage := attackDamage attacker m
    let target1 := target.takeDamage damage
    let events1 :=
      if !target1.isAlive then
        events ++ [GameEvent.new EventType.KILL attacker.getTeam.toInt currentTurn "Kill"]
      else events
    (target1, events1, !target1.isAlive)

/-- The function `CombatSystem::attackBase`: the base and the event list after
the call. -/
def attackBase (attacker : Soldier) (base : Base) (m : GameModel) (events : List GameEvent)
    (currentTurn : Int) : Base × List GameEvent :=
  if !attacker.isAlive || !base.isAlive then (base, events)
  else
    let damage := attackDamage attacker m
    let base1 := base.takeDamage damage
    let evt := GameEvent.new EventType.BASE_DAMAGED base1.team.toInt currentTurn "Base Damaged"
    (base1, events ++ [{ evt with damage := damage }])

/-- The mutable state that `processCombat` works on: the world, the event
vector and the two entries of the `healStats` map. -/
structure CombatState where
  model : GameModel
  events : List GameEvent
  healStats0 : Int
  healStats1 : Int

/-- The state at the entry of `processCombat`: `healStats[0] = healStats[1] = 0`. -/
def CombatState.start (m : GameModel) (events : List GameEvent) : CombatState :=
  { model := m, events := events, healStats0 := 0, healStats1 := 0 }

/-- Replace the unit at one index of the unit list. -/
def CombatState.setSoldier (st : CombatState) (i : Nat) (s : Soldier) : CombatState :=
  { st with model := { st.model with soldiers := st.model.soldiers.set i s } }

/-- The update `healStats[static_cast<int>(team)] += amount`. -/
def CombatState.addHeal (st : CombatState) (team : Team) (amount : Int) : CombatState :=
  match team with
  | Team.TEAM_A => { st with healStats0 := st.healStats0 + amount }
  | Team.TEAM_B => { st with healStats1 := st.healStats1 + amount }

/-- The entry `healStats[static_cast<int>(team)]`. -/
def CombatState.healOf (st : CombatState) (team : Team) : Int :=
  match team with
  | Team.TEAM_A => st.healStats0
  | Team.TEAM_B => st.healStats1

/-- Body of the inner loop of the heal phase, for the doctor at index `d` and
the ally at index `a`. -/
def healAlly (st : CombatState) (d a : Nat) : CombatState :=
  match st.model.soldiers[d]?, st.model.soldiers[a]? with
  | some doctor, some ally =>
      if !ally.isAlive then st
      else if ally.getTeam ≠ doctor.getTeam then st
      else if a = d then st
      else
        let dx := ally.getPosition.x - doctor.getPosition.x
        let dy := ally.getPosition.y - doctor.getPosition.y
        let distance := cabs dx + cabs dy
        if distance ≤ Doctor.HEAL_RANGE then
          let currentHp := ally.getHp
          let maxHp := ally.getMaxHp
          let healAmount := Doctor.HEAL_AMOUNT
          let newHp := min maxHp (currentHp + healAmount)
          let actualHeal := newHp - currentHp
          (st.setSoldier a (ally.setHp newHp)).addHeal doctor.getTeam actualHeal
        else st
  | _, _ => st

/-- Body of the outer loop of the heal phase, for the unit at index `d`. -/
def healFrom (st : CombatState) (d : Nat) : CombatState :=
  match st.model.soldiers[d]? with
  | some doctor =>
      if !doctor.isAlive then st
      else if doctor.getType ≠ SoldierType.DOCTOR then st
      else (List.range st.model.soldiers.length).foldl (fun acc a => healAlly acc d a) st
  | none => st

/-- Step 1 of `processCombat`: the heal phase. -/
def healPhase (st : CombatState) : CombatState :=
  (List.range st.model.soldiers.length).foldl healFrom st

/-- The truncation `static_cast<int>(cost * 0.5)`; the product is exact in
`double`. -/
def killReward (cost : Int) : Int := Int.tdiv cost 2

/-- A call `attackTarget(attacker, target, ...)` for the units at indices `i`
and `j`, followed by the reward `addEnergy` when it reports a kill. -/
def strike (st : CombatState) (i j : Nat) (currentTurn : Int) : CombatState :=
  match st.model.soldiers[i]?, st.model.soldiers[j]? with
  | some attacker, some target =>
      let r := attackTarget attacker target st.model st.events currentTurn
      let st1 := { st.setSoldier j r.1 with events := r.2.1 }
      if r.2.2 then
        let cost := getSoldierCost r.1.getType
        let reward := killReward cost
        { st1 with model := st1.model.addEnergy attacker.getTeam reward }
      else st1
  | _, _ => st

/-- The scan for the first living enemy in attack range, in unit-list order
(the loops that end with `break`). -/
def findTarget (st : CombatState) (i : Nat) : Option Nat :=
  match st.model.soldiers[i]? with
  | some attacker =>
      st.model.soldiers.findIdx? fun target =>
        target.isAlive && decide (attacker.getTeam ≠ target.getTeam) &&
          attacker.canAttack target.getPosition
  | none => none

/-- Body of the area loop of a Caster at index `i` with main target at index
`main`, for the unit at index `j`. -/
def casterHit (st : CombatState) (i main j : Nat) (currentTurn : Int) : CombatState :=
  match st.model.soldiers[i]?, st.model.soldiers[main]?, st.model.soldiers[j]? with
  | some attacker, some mainTarget, some target =>
      if !target.isAlive then st
      else if attacker.getTeam = target.getTeam then st
      else
        let dx := target.getPosition.x - mainTarget.getPosition.x
        let dy := target.getPosition.y - mainTarget.getPosition.y
        let distance := cabs dx + cabs dy
        if distance ≤ Caster.AOE_RANGE then strike st i j currentTurn else st
  | _, _, _ => st

/-- Body of the loop of the unit attack phase, for the unit at index `i`. -/
def attackFrom (currentTurn : Int) (st : CombatState) (i : Nat) : CombatState :=
  match st.model.soldiers[i]? with
  | some attacker =>
      if !attacker.isAlive then st
      else if attacker.getType = SoldierType.CASTER then
        match findTarget st i with
        | some main =>
            (List.range st.model.soldiers.length).foldl
              (fun acc j => casterHit acc i main j currentTurn) st
        | none => st
      else
        match findTarget st i with
        | some j => strike st i j currentTurn
        | none => st
  | none => st

/-- Step 2 of `processCombat`: the unit attack phase. -/
def attackPhase (currentTurn : Int) (st : CombatState) : CombatState :=
  (List.range st.model.soldiers.length).foldl (attackFrom currentTurn) st

/-- The team whose bases a unit of `team` besieges. -/
def enemyOf (team : Team) : Team :=
  if team = Team.TEAM_A then Team.TEAM_B else Team.TEAM_A

/-- Replace the base at one index of the base list of `team`. -/
def CombatState.setBase (st : CombatState) (team : Team) (b : Nat) (base : Base) : CombatState :=
  if team = Team.TEAM_A then
    { st with model := { st.model with basesTeamA := st.model.basesTeamA.set b base } }
  else
    { st with model := { st.model with basesTeamB := st.model.basesTeamB.set b base } }

/-- Body of the inner loop of the siege phase, for the unit at index `i` and
the enemy base at index `b`. -/
def siegeBase (st : CombatState) (i b : Nat) (currentTurn : Int) : CombatState :=
  match st.model.soldiers[i]? with
  | some attacker =>
      match (st.model.basesOf (enemyOf attacker.getTeam))[b]? with
      | some enemyBase =>
          if enemyBase.isAlive && attacker.canAttack enemyBase.getPosition then
            let r := attackBase attacker enemyBase st.model st.events currentTurn
            { st.setBase (enemyOf attacker.getTeam) b r.1 with events := r.2 }
          else st
      | none => st
  | none => st

/-- Body of the outer loop of the siege phase, for the unit at index `i`. -/
def siegeFrom (currentTurn : Int) (st : CombatState) (i : Nat) : CombatState :=
  match st.model.soldiers[i]? with
  | some attacker =>
      if !attacker.isAlive then st
      else
        (List.range (st.model.basesOf (enemyOf attacker.getTeam)).length).foldl
          (fun acc b => siegeBase acc i b currentTurn) st
  | none => st

/-- Step 3 of `processCombat`: the base siege phase. -/
def siegePhase (currentTurn : Int) (st : CombatState) : CombatState :=
  (List.range st.model.soldiers.length).foldl (siegeFrom currentTurn) st

/-- The function `CombatSystem::processCombat`: heal phase, unit attack
phase, base siege phase.  The result carries the world and the event vector
after the call and the returned heal statistics. -/
def processCombat (m : GameModel) (events : List GameEvent) (currentTurn : Int) : CombatState :=
  siegePhase currentTurn (attackPhase currentTurn (healPhase (CombatState.start m events)))

end CombatSystem

/-- The cells of the bases carry their terrain marker, as `GameModel::initialize`
leaves them (`setTerrainAt` is called nowhere else). -/
def GameModel.BasesMarked (m : GameModel) : Prop :=
  (∀ b ∈ m.basesTeamA, m.gameMap.getTerrainAt b.getPosition = TerrainType.BASE_A) ∧
  (∀ b ∈ m.basesTeamB, m.gameMap.getTerrainAt b.getPosition = TerrainType.BASE_B)

/-! ## Vocabulary of the resolver properties -/

/-- Every living unit of the list has positive hit points that do not exceed
its maximum (the state every unit is in between two calls: the constructor
sets `hp = maxHp > 0`, and `takeDamage` and `setHp` clear liveness at 0). -/
def LivingUnitsSound (soldiers : List Soldier) : Prop :=
  ∀ s ∈ soldiers, s.alive = true → 0 < s.hp ∧ s.hp ≤ s.maxHp

instance (soldiers : List Soldier) : Decidable (LivingUnitsSound soldiers) := by
  unfold LivingUnitsSound
  infer_instance

/-- The sum of the kill rewards for the units of the teams other than `team`
that are alive in `before` and dead in `after`; the two lists hold the same
units at the same indices. -/
def killRewardsEarned (team : Team) (before after : List Soldier) : Int :=
  ((before.zip after).map fun p =>
    if p.1.team ≠ team ∧ p.1.alive = true ∧ p.2.alive = false then
      CombatSystem.killReward (CombatSystem.getSoldierCost p.1.type)
    else 0).sum

/-- The unit `doctor` at index `d` is a living Doctor of the team of the unit
`u` at index `i`, is not `u` itself, and is within Manhattan distance 2 of it. -/
def isHealerOf (doctor : Soldier) (d : Nat) (u : Soldier) (i : Nat) : Bool :=
  doctor.alive && decide (doctor.type = SoldierType.DOCTOR) && decide (doctor.team = u.team) &&
    decide (d ≠ i) && decide (u.position.distanceTo doctor.position ≤ 2)

/-- The number `k(u)` of healers of the unit `u` at index `i` in the list. -/
def healerCount (soldiers : List Soldier) (u : Soldier) (i : Nat) : Nat :=
  ((List.range soldiers.length).filter fun d =>
    match soldiers[d]? with
    | some doctor => isHealerOf doctor d u i
    | none => false).length

/-- The sum, over the units of `team`, of the hit points gained between
`before` and `after`; the two lists hold the same units at the same indices. -/
def hpGained (team : Team) (before after : List Soldier) : Int :=
  ((before.zip after).map fun p => if p.1.team = team then p.2.hp - p.1.hp else 0).sum

/-- The kill reward a dead unit stands for in the accounts of `team`: its
reward if it belongs to another team and is dead, 0 otherwise. -/
def deadValue (team : Team) (s : Soldier) : Int :=
  if s.team ≠ team ∧ s.alive = false then
    CombatSystem.killReward (CombatSystem.getSoldierCost s.type)
  else 0

/-- The relation between a unit `s0` at the start of `processCombat` and the
same unit `s` later in the call: same team and kind, no revival, and a living
unit has positive hit points and a positive maximum. -/
def UnitTracks (s0 s : Soldier) : Prop :=
  s.team = s0.team ∧ s.type = s0.type ∧ (s.alive = true → s0.alive = true) ∧
    (s.alive = true → 0 < s.hp ∧ 0 < s.maxHp)

/-- The accounting invariant of `processCombat` for `team`: the unit list
`ss` tracks the initial list `ss0` index by index, and the energy `e` of the
team exceeds its initial energy `e0` by the rewards of the enemy units that
died since. -/
def CombatInv (team : Team) (ss0 : List Soldier) (e0 : Int) (ss : List Soldier) (e : Int) :
    Prop :=
  ss.length = ss0.length ∧
  (∀ (i : Nat) (s0 s : Soldier), ss0[i]? = some s0 → ss[i]? = some s → UnitTracks s0 s) ∧
  e - (ss.map (deadValue team)).sum = e0 - (ss0.map (deadValue team)).sum

/-- The number of healers of the unit `u` at index `i` among the units at the
indices below `bound`. -/
def healersBelow (soldiers : List Soldier) (bound : Nat) (u : Soldier) (i : Nat) : Nat :=
  ((List.range bound).filter fun d =>
    match soldiers[d]? with
    | some doctor => isHealerOf doctor d u i
    | none => false).length

/-- The unit `s` after `k` heals of 30 hit points, each capped at `maxHp`;
a dead unit is never healed. -/
def healedBy (s : Soldier) (k : Nat) : Soldier :=
  if s.alive = true then { s with hp := min s.maxHp (s.hp + 30 * (k : Int)) } else s

/-- The hit points of a unit as they count for `team`: its own if it belongs
to the team, 0 otherwise. -/
def teamHp (team : Team) (s : Soldier) : Int :=
  if s.team = team then s.hp else 0

/-- The accounting invariant of the heal phase for `team`: the unit list `ss`
tracks the initial list `ss0` index by index, and the heal total `h` credited
to the team is the number of hit points its units gained since. -/
def HealInv (team : Team) (ss0 ss : List Soldier) (h : Int) : Prop :=
  ss.length = ss0.length ∧
  (∀ (i : Nat) (s0 s : Soldier), ss0[i]? = some s0 → ss[i]? = some s → UnitTracks s0 s) ∧
  h - (ss.map (teamHp team)).sum = 0 - (ss0.map (teamHp team)).sum

/-! ## GameTypes.h and Controller.h : the controller state -/

inductive GameMode where
  | TRAINING
  | AI_VS_AI
  | HUMAN_VS_AI
deriving DecidableEq, Repr

inductive PlayerType where
  | HUMAN
  | AI_PYTHON
  | AI_RULE_BASED
deriving DecidableEq, Repr

/-- The part of `class TrainingLogger` that the turn engine reads and writes:
the vector `currentTurnEvents`, the counter `totalTurns` and the flag
`gameStarted` (the text buffer `logData` is left out). -/
structure TrainingLogger where
  currentTurnEvents : List GameEvent
  totalTurns : Int
  gameStarted : Bool
deriving DecidableEq, Repr

/-- The method `TrainingLogger::addEvent`. -/
def TrainingLogger.addEvent (l : TrainingLogger) (event : GameEvent) : TrainingLogger :=
  { l with currentTurnEvents := l.currentTurnEvents ++ [event] }

/-- The data member of `class AIController` that the purchase heuristic keeps:
the queue `purchaseQueue` (the generator `rng` is a reference to the one of the
controller; its draws are parameters of the functions that draw). -/
structure AIController where
  purchaseQueue : List SoldierType
deriving DecidableEq, Repr

/-- The `switch (choice)` of the constructor and of `tryPurchaseOnce`, with
its `default` branch. -/
def AIController.kindOfChoice (choice : Int) : SoldierType :=
  if choice = 0 then SoldierType.ARCHER
  else if choice = 1 then SoldierType.INFANTRY
  else if choice = 2 then SoldierType.CAVALRY
  else if choice = 3 then SoldierType.CASTER
  else if choice = 4 then SoldierType.DOCTOR
  else SoldierType.ARCHER

/-- The constructor `AIController::AIController(rng)`; `typeDraw i` is the
outcome of the `i`-th call `typeDis(rng)`. -/
def AIController.new (typeDraw : Nat → Int) : AIController :=
  { purchaseQueue :=
      (List.range 5).foldl (fun queue i => queue ++ [AIController.kindOfChoice (typeDraw i)]) [] }

/-- The data members of `class GameController` that the turn engine reads and
writes; `trainingLogger` is `none` for the null pointer, and `pythonReady` is
the value of `pythonAgent && pythonAgent->isInitialized()`. -/
structure GameController where
  model : GameModel
  gameMode : GameMode
  team0Type : PlayerType
  team1Type : PlayerType
  trainingLogger : Option TrainingLogger
  currentTurn : Int
  team0HealThisTurn : Int
  team1HealThisTurn : Int
  aiControllerTeam0 : AIController
  aiControllerTeam1 : AIController
  pythonReady : Bool

/-- The statement `if (trainingLogger) trainingLogger->addEvent(event)`. -/
def GameController.logEvent (c : GameController) (event : GameEvent) : GameController :=
  match c.trainingLogger with
  | some l => { c with trainingLogger := some (l.addEvent event) }
  | none => c

/-- The method `GameModel::setGameOver`. -/
def GameModel.setGameOver (m : GameModel) (winningTeam : Team) : GameModel :=
  { m with gameOver := true, winner := winningTeam }

/-- The sum of the hit points of a list of bases, as the accumulation loops of
`checkGameOver` compute it. -/
def totalBaseHp (bases : List Base) : Int :=
  bases.foldl (fun acc base => acc + base.getHp) 0

/-- The scan `for (base : bases) if (base->isAlive()) { alive = true; break; }`. -/
def anyBaseAlive (bases : List Base) : Bool :=
  bases.any fun base => base.isAlive

/-- The method `GameController::checkGameOver`. -/
def GameController.checkGameOver (c : GameController) : GameController :=
  if c.currentTurn ≥ MAX_TURNS then
    let teamAHp := totalBaseHp c.model.basesTeamA
    let teamBHp := totalBaseHp c.model.basesTeamB
    if teamAHp > teamBHp then
      ({ c with model := c.model.setGameOver Team.TEAM_A }).logEvent
        (GameEvent.new EventType.GAME_OVER 0 c.currentTurn "Time Limit Reached - Team A Wins")
    else
      ({ c with model := c.model.setGameOver Team.TEAM_B }).logEvent
        (GameEvent.new EventType.GAME_OVER 1 c.currentTurn "Time Limit Reached - Team B Wins")
  else
    let teamAAlive := anyBaseAlive c.model.basesTeamA
    let teamBAlive := anyBaseAlive c.model.basesTeamB
    if !teamAAlive then
      ({ c with model := c.model.setGameOver Team.TEAM_B }).logEvent
        (GameEvent.new EventType.GAME_OVER 1 c.currentTurn "Domination - Team B Wins")
    else if !teamBAlive then
      ({ c with model := c.model.setGameOver Team.TEAM_A }).logEvent
        (GameEvent.new EventType.GAME_OVER 0 c.currentTurn "Domination - Team A Wins")
    else c

/-- A parsed action record `{action_type, base_id, unit_type}` with integer
members. -/
structure GameAction where
  action_type : Int
  base_id : Int
  unit_type : Int
deriving DecidableEq, Repr

/-- The list `teamBases` of `parseAndExecuteAction`: the bases of the unified
list whose team index is `team`. -/
def GameController.teamBases (c : GameController) (team : Team) : List Base :=
  c.model.bases.filter fun base => decide (base.team.toInt = team.toInt)

/-- The list `aliveBases` of `parseAndExecuteAction`: the indices of the
living bases of `teamBases`, in order. -/
def aliveBaseIndices (teamBases : List Base) : List Nat :=
  (List.range teamBases.length).filter fun i =>
    match teamBases[i]? with
    | some base => base.isAlive
    | none => false

/-- The condition `baseId < 0 || baseId >= teamBases.size() ||
!teamBases[baseId]->isAlive()`. -/
def baseIdUnusable (teamBases : List Base) (baseId : Int) : Bool :=
  decide (baseId < 0) || decide (baseId ≥ (teamBases.length : Int)) ||
    (match teamBases[baseId.toNat]? with
      | some base => !base.isAlive
      | none => true)

/-- The `switch (unitType)` of `parseAndExecuteAction`; `none` is the
`default` branch. -/
def soldierTypeOfInt (unitType : Int) : Option SoldierType :=
  if unitType = 0 then some SoldierType.ARCHER
  else if unitType = 1 then some SoldierType.INFANTRY
  else if unitType = 2 then some SoldierType.CAVALRY
  else if unitType = 3 then some SoldierType.CASTER
  else if unitType = 4 then some SoldierType.DOCTOR
  else none

/-- The function `CombatSystem::getSoldierTypeName`. -/
def CombatSystem.getSoldierTypeName : SoldierType → String
  | SoldierType.ARCHER => "Archer"
  | SoldierType.INFANTRY => "Infantry"
  | SoldierType.CAVALRY => "Cavalry"
  | SoldierType.CASTER => "Caster"
  | SoldierType.DOCTOR => "Doctor"

/-- The tail of `parseAndExecuteAction` once `baseId` is settled: the unit
type switch, the purchase at the position of `teamBases[baseId]` and the
spawn event. -/
def GameController.executeSpawn (c : GameController) (team : Team) (baseId : Nat)
    (unitType : Int) : GameController × Bool :=
  match soldierTypeOfInt unitType with
  | none => (c, false)
  | some soldierType =>
      match (c.teamBases team)[baseId]? with
      | none => (c, false)
      | some base =>
          let basePos := base.getPosition
          let r := GameController.purchaseSoldier c.model team soldierType basePos
          let c1 := { c with model := r.1 }
          if r.2 && c1.trainingLogger.isSome && decide (c1.gameMode = GameMode.TRAINING) then
            let typeName := CombatSystem.getSoldierTypeName soldierType
            let spawnEvent :=
              GameEvent.new EventType.SPAWN team.toInt c1.currentTurn ("Spawn " ++ typeName)
            (c1.logEvent { spawnEvent with soldier_id := (baseId : Int) }, r.2)
          else (c1, r.2)

/-- The method `GameController::parseAndExecuteAction` on a parsed action;
`rnd` is the outcome of the random draw, reduced into the index range of
`aliveBases`. -/
def GameController.parseAndExecuteAction (c : GameController) (team : Team) (action : GameAction)
    (rnd : Nat) : GameController × Bool :=
  let actionType := action.action_type
  if actionType = 0 then (c, true)
  else
    let baseId := action.base_id
    let unitType := action.unit_type
    let teamBases := c.teamBases team
    if baseIdUnusable teamBases baseId then
      let aliveBases := aliveBaseIndices teamBases
      if aliveBases.isEmpty then (c, true)
      else c.executeSpawn team (aliveBases.getD (rnd % aliveBases.length) 0) unitType
    else c.executeSpawn team baseId.toNat unitType

/-! ## Model.cpp : vision sharing -/

/-- The method `Soldier::updateLastTurnVision`. -/
def Soldier.updateLastTurnVision (s : Soldier) (enemyIds : Finset Int) : Soldier :=
  { s with lastTurnVisibleEnemies := enemyIds }

/-- The method `Soldier::updateSharedVision`. -/
def Soldier.updateSharedVision (s : Soldier) (sharedEnemyIds : Finset Int) : Soldier :=
  { s with sharedVisibleEnemies := sharedEnemyIds }

def Soldier.getLastTurnVisibleEnemies (s : Soldier) : Finset Int := s.lastTurnVisibleEnemies
def Soldier.getSharedVisibleEnemies (s : Soldier) : Finset Int := s.sharedVisibleEnemies

/-- Body of the inner loop of the first loop of `updateSharedVision`, for the
observer `soldier` and the index `i`; the accumulator is the set
`currentVisibleEnemies`. -/
def visibleStep (soldiers : List Soldier) (soldier : Soldier) (acc : Finset Int) (i : Nat) :
    Finset Int :=
  match soldiers[i]? with
  | some other =>
      if !other.isAlive then acc
      else if other.getTeam = soldier.getTeam then acc
      else if soldier.canSee other.getPosition then insert (i : Int) acc
      else acc
  | none => acc

/-- The set `currentVisibleEnemies` that the first loop of
`updateSharedVision` builds for `soldier`: the inner loop over all indices. -/
def currentVisibleEnemies (soldiers : List Soldier) (soldier : Soldier) : Finset Int :=
  (List.range soldiers.length).foldl (visibleStep soldiers soldier) ∅

/-- Body of the first loop of `updateSharedVision`, for the unit at index `k`. -/
def visionStep1 (soldiers : List Soldier) (k : Nat) : List Soldier :=
  match soldiers[k]? with
  | some soldier =>
      if !soldier.isAlive then soldiers
      else soldiers.set k (soldier.updateLastTurnVision (currentVisibleEnemies soldiers soldier))
  | none => soldiers

/-- Body of the inner loop of the second loop of `updateSharedVision`, for the
unit `soldier` at index `k` and the index `j`; the accumulator is the set
`sharedEnemies`. -/
def shareStep (soldiers : List Soldier) (k : Nat) (soldier : Soldier) (acc : Finset Int)
    (j : Nat) : Finset Int :=
  match soldiers[j]? with
  | some teammate =>
      if !teammate.isAlive then acc
      else if teammate.getTeam ≠ soldier.getTeam then acc
      else if j = k then acc
      else
        let distance := soldier.getPosition.chebyshevDistanceTo teammate.getPosition
        if distance ≤ COMMUNICATION_RANGE then acc ∪ teammate.getLastTurnVisibleEnemies
        else acc
  | none => acc

/-- The set `sharedEnemies` that the second loop of `updateSharedVision`
builds for the unit `soldier` at index `k`: the inner loop over all teammates. -/
def sharedEnemies (soldiers : List Soldier) (k : Nat) (soldier : Soldier) : Finset Int :=
  (List.range soldiers.length).foldl (shareStep soldiers k soldier) ∅

/-- Body of the second loop of `updateSharedVision`, for the unit at index `k`. -/
def visionStep2 (soldiers : List Soldier) (k : Nat) : List Soldier :=
  match soldiers[k]? with
  | some soldier =>
      if !soldier.isAlive then soldiers
      else soldiers.set k (soldier.updateSharedVision (sharedEnemies soldiers k soldier))
  | none => soldiers

/-- The method `GameModel::updateSharedVision`: the first loop over all units,
then the second loop over all units. -/
def GameModel.updateSharedVision (m : GameModel) : GameModel :=
  let afterFirst := (List.range m.soldiers.length).foldl visionStep1 m.soldiers
  { m with soldiers := (List.range afterFirst.length).foldl visionStep2 afterFirst }

/-! ## AIController.cpp : target search -/

/-- Body of the loop of `findNearestEnemy` for index `i`; the accumulator holds
`nearest` (as an index) and `minDistance`. -/
def AIController.nearestStep (soldiers : List Soldier) (soldier : Soldier)
    (acc : Option Nat × Int) (i : Nat) : Option Nat × Int :=
  match soldiers[i]? with
  | some other =>
      if !other.isAlive then acc
      else if other.getTeam = soldier.getTeam then acc
      else
        let otherPos := other.getPosition
        let canDetect :=
          soldier.canSee otherPos || decide ((i : Int) ∈ soldier.getSharedVisibleEnemies)
        if !canDetect then acc
        else
          let distance := soldier.getPosition.distanceTo otherPos
          if distance < acc.2 then (some i, distance) else acc
  | none => acc

/-- The method `AIController::findNearestEnemy`; the returned pointer is the
index of the unit in the unit list, `none` for `nullptr`. -/
def AIController.findNearestEnemy (m : GameModel) (soldier : Soldier) : Option Nat :=
  ((List.range m.getSoldiers.length).foldl (AIController.nearestStep m.getSoldiers soldier)
    (none, 999999)).1

/-! ## Vocabulary of the attack, siege, vision and search properties -/

/-- The unit `target` is alive, on another team than `attacker`, and within
Chebyshev distance `attacker.attackRange` of it. -/
def isEnemyInRange (attacker target : Soldier) : Prop :=
  target.alive = true ∧ target.team ≠ attacker.team ∧
    attacker.position.chebyshevDistanceTo target.position ≤ attacker.attackRange

instance (attacker target : Soldier) : Decidable (isEnemyInRange attacker target) := by
  unfold isEnemyInRange
  infer_instance

/-- The unit `target` is alive, on another team than `attacker`, and within
Manhattan distance 1 of the position `center`: it is caught by the area
attack of a Caster whose main target stands at `center`. -/
def isInBlast (attacker : Soldier) (center : Position) (target : Soldier) : Prop :=
  target.alive = true ∧ target.team ≠ attacker.team ∧ target.position.distanceTo center ≤ 1

instance (attacker : Soldier) (center : Position) (target : Soldier) :
    Decidable (isInBlast attacker center target) := by
  unfold isInBlast
  infer_instance

/-- The unit `other` at index `i` is a living enemy that `soldier` can detect:
it is within Chebyshev distance `visionRange` of `soldier`, or its index is in
the shared visible set of `soldier`. -/
def isDetectableEnemy (soldier : Soldier) (i : Nat) (other : Soldier) : Prop :=
  other.alive = true ∧ other.team ≠ soldier.team ∧
    (soldier.position.chebyshevDistanceTo other.position ≤ soldier.visionRange ∨
      (i : Int) ∈ soldier.sharedVisibleEnemies)

instance (soldier : Soldier) (i : Nat) (other : Soldier) :
    Decidable (isDetectableEnemy soldier i other) := by
  unfold isDetectableEnemy
  infer_instance

/-- The unit `t` is alive, on another team than `u`, and within Chebyshev
distance `u.visionRange` of `u`. -/
def seesEnemy (u t : Soldier) : Prop :=
  t.alive = true ∧ t.team ≠ u.team ∧
    u.position.chebyshevDistanceTo t.position ≤ u.visionRange

instance (u t : Soldier) : Decidable (seesEnemy u t) := by
  unfold seesEnemy
  infer_instance

/-- The unit `t` at index `j` is a living teammate of the unit `u` at index
`k`, other than `u` itself, within Chebyshev distance 15 of it. -/
def relaysTo (t : Soldier) (j : Nat) (u : Soldier) (k : Nat) : Prop :=
  t.alive = true ∧ t.team = u.team ∧ j ≠ k ∧
    u.position.chebyshevDistanceTo t.position ≤ 15

instance (t : Soldier) (j : Nat) (u : Soldier) (k : Nat) : Decidable (relaysTo t j u k) := by
  unfold relaysTo
  infer_instance

/-- What the first loop of `updateSharedVision` does to one unit, with the
enemies looked up in the unit list `soldiers`. -/
def firstPass (soldiers : List Soldier) (u : Soldier) : Soldier :=
  if u.alive then u.updateLastTurnVision (currentVisibleEnemies soldiers u) else u

/-- What the second loop of `updateSharedVision` does to the unit at index
`k`, with the teammates looked up in the unit list `soldiers`. -/
def secondPass (soldiers : List Soldier) (k : Nat) (u : Soldier) : Soldier :=
  if u.alive then u.updateSharedVision (sharedEnemies soldiers k u) else u

/-! ## Vocabulary of the siege phase -/

/-- The unit `a` is alive, is not of team `team`, and the base is within its
attack range (Chebyshev distance): `a` attacks this base of `team` in the siege
phase when the base is alive. -/
def besieges (a : Soldier) (team : Team) (base : Base) : Prop :=
  a.alive = true ∧ a.team ≠ team ∧
    a.position.chebyshevDistanceTo base.position ≤ a.attackRange

instance (a : Soldier) (team : Team) (base : Base) : Decidable (besieges a team base) := by
  unfold besieges
  infer_instance

/-- The damage `D(a)` of the unit `a` to a base of `team`, read in the world
`m`: the value that `attackBase` passes to `Base::takeDamage`, and 0 for a unit
that does not besiege the base. -/
def siegeDamage (m : GameModel) (team : Team) (base : Base) (a : Soldier) : Int :=
  if besieges a team base then CombatSystem.attackDamage a m else 0

/-- The sum of `D(a)` over the first `n` units of the unit list. -/
def siegeTotalUpTo (m : GameModel) (team : Team) (base : Base) (n : Nat) : Int :=
  ((m.soldiers.take n).map (siegeDamage m team base)).sum

/-- The sum of `D(a)` over all units of the unit list. -/
def siegeTotal (m : GameModel) (team : Team) (base : Base) : Int :=
  (m.soldiers.map (siegeDamage m team base)).sum

/-- The base with its hit points lowered by the first `n` units, floored at 0. -/
def Base.afterSiegeUpTo (m : GameModel) (team : Team) (n : Nat) (base : Base) : Base :=
  { base with hp := max 0 (base.hp - siegeTotalUpTo m team base n) }

/-- Every base has between 0 and `BASE_HP` hit points. -/
def BasesSound (m : GameModel) : Prop :=
  ∀ base ∈ m.bases, 0 ≤ base.hp ∧ base.hp ≤ BASE_HP

/-- No unit has a negative attack value. -/
def AttacksNonneg (m : GameModel) : Prop :=
  ∀ a ∈ m.soldiers, 0 ≤ a.attack

/-- A living base that gives the home bonus to a unit besieging a living enemy
base is itself out of the attack range of every living enemy unit, so that the
bonus of a besieging unit cannot end in the middle of the siege phase.  With
the bases where `GameModel::initialize` puts them this holds for all units of
attack range at most 3 (`SiegeBonusStable_of_layout`). -/
def SiegeBonusStable (m : GameModel) : Prop :=
  ∀ a ∈ m.soldiers, ∀ target ∈ m.basesOf (CombatSystem.enemyOf a.team),
    target.hp > 0 → besieges a (CombatSystem.enemyOf a.team) target →
      ∀ home ∈ m.basesOf a.team, home.hp > 0 → a.position.distanceTo home.position ≤ 6 →
        ∀ e ∈ m.soldiers, ¬ besieges e a.team home

/-- What one round of the inner loop of the siege phase does to an enemy base,
for the living attacker `a` whose damage is `damage`. -/
def CombatSystem.hitBase (a : Soldier) (damage : Int) (base : Base) : Base :=
  if base.isAlive && a.canAttack base.getPosition then base.takeDamage damage else base

instance (m : GameModel) : Decidable (BasesSound m) := by
  unfold BasesSound
  infer_instance

instance (m : GameModel) : Decidable (AttacksNonneg m) := by
  unfold AttacksNonneg
  infer_instance

instance (m : GameModel) : Decidable (SiegeBonusStable m) := by
  unfold SiegeBonusStable
  infer_instance

/-! ## AIController.cpp : the purchase heuristic -/

/-- The wait action `{"action_type": 0, "base_id": -1, "unit_type": -1}`. -/
def defaultAction : GameAction := { action_type := 0, base_id := -1, unit_type := -1 }

/-- The expression `unitTypeInt` of `tryPurchaseOnce`. -/
def AIController.unitTypeInt (type : SoldierType) : Int :=
  if type = SoldierType.ARCHER then 0
  else if type = SoldierType.INFANTRY then 1
  else if type = SoldierType.CAVALRY then 2
  else if type = SoldierType.CASTER then 3
  else 4

/-- The method `AIController::tryPurchaseOnce`: the heuristic after the call,
the world after the call and the returned action.  `baseDraw` is the outcome of
`baseDis(rng)`, reduced into the index range of `aliveBases`, and `typeDraw` the
outcome of `typeDis(rng)`. -/
def AIController.tryPurchaseOnce (ai : AIController) (m : GameModel) (team : Team)
    (baseDraw : Nat) (typeDraw : Int) : AIController × GameModel × GameAction :=
  match ai.purchaseQueue with
  | [] => (ai, m, defaultAction)
  | type :: rest =>
      let currentEnergy := m.getEnergy team
      let cost := CombatSystem.getSoldierCost type
      if currentEnergy < cost then (ai, m, defaultAction)
      else
        let bases := m.basesOf team
        let aliveBases := bases.filter fun base => base.isAlive
        if h : aliveBases = [] then (ai, m, defaultAction)
        else
          let selectedBaseIdx := baseDraw % aliveBases.length
          let selectedBase := aliveBases.get
            ⟨selectedBaseIdx, Nat.mod_lt _ (List.length_pos.mpr h)⟩
          let basePos := selectedBase.getPosition
          let r := GameController.purchaseSoldier m team type basePos
          if r.2 then
            ({ purchaseQueue := rest ++ [AIController.kindOfChoice typeDraw] }, r.1,
              { action_type := 1, base_id := (selectedBaseIdx : Int),
                unit_type := AIController.unitTypeInt type })
          else (ai, r.1, defaultAction)

/-! ## AIController.cpp : movement queries -/

/-- The method `AIController::countNearbyAllies`; the unit itself is excluded
by its index `i`. -/
def AIController.countNearbyAllies (m : GameModel) (i : Nat) (soldier : Soldier)
    (radius : Int) : Int :=
  m.getSoldiers.enum.foldl
    (fun count p =>
      if decide (p.1 ≠ i) && p.2.isAlive && decide (p.2.getTeam = soldier.getTeam) then
        let dist := cabs (p.2.getPosition.x - soldier.getPosition.x) +
          cabs (p.2.getPosition.y - soldier.getPosition.y)
        if dist ≤ radius then count + 1 else count
      else count)
    0

/-- The method `AIController::findEnemyBase`. -/
def AIController.findEnemyBase (m : GameModel) (team : Team) (fromPos : Position) : Position :=
  let enemyBases := if team = Team.TEAM_A then m.basesTeamB else m.basesTeamA
  let found : Option Base × Int :=
    enemyBases.foldl
      (fun acc base =>
        if base.isAlive then
          let distance := fromPos.distanceTo base.getPosition
          if distance < acc.2 then (some base, distance) else acc
        else acc)
      (none, 999999)
  match found.1 with
  | some nearestBase => nearestBase.getPosition
  | none => { x := Int.tdiv MAP_SIZE 2, y := Int.tdiv MAP_SIZE 2 }

/-- The method `AIController::getRetreatPositions`. -/
def AIController.getRetreatPositions (currentPos enemyPos : Position) : List Position :=
  let dx : Int := if enemyPos.x > currentPos.x then -1 else if enemyPos.x < currentPos.x then 1 else 0
  let dy : Int := if enemyPos.y > currentPos.y then -1 else if enemyPos.y < currentPos.y then 1 else 0
  (if dx ≠ 0 ∧ dy ≠ 0 then [({ x := currentPos.x + dx, y := currentPos.y + dy } : Position)]
    else []) ++
  (if dx ≠ 0 then [({ x := currentPos.x + dx, y := currentPos.y } : Position)] else []) ++
  (if dy ≠ 0 then [({ x := currentPos.x, y := currentPos.y + dy } : Position)] else []) ++
  (if dy ≠ 0 then
      [({ x := currentPos.x + 1, y := currentPos.y + dy } : Position),
       { x := currentPos.x - 1, y := currentPos.y + dy }]
    else []) ++
  (if dx ≠ 0 then
      [({ x := currentPos.x + dx, y := currentPos.y + 1 } : Position),
       { x := currentPos.x + dx, y := currentPos.y - 1 }]
    else [])

/-- The local record `CandidateMove` of `getMoveCandidates`. -/
structure CandidateMove where
  pos : Position
  priority : Int
  crowdedness : Int
deriving DecidableEq, Repr

/-- The outcomes of the choices that one round of the movement loop leaves
open: the three draws of `getMoveCandidates` (`randomDis`, then `sideDis`
twice), the order in which `std::sort` leaves the candidate records (the order
of records that the comparator does not separate is unspecified), and the
outcomes of the two `std::shuffle` calls. -/
structure MoveChoices where
  randomDraw : Int
  sideDraw : Int
  signDraw : Int
  sorted : List CandidateMove → List CandidateMove
  shuffleNear : List Position → List Position
  shuffleFar : List Position → List Position

/-- The values of the loop variables `i` and `j` of the third candidate loop of
`getMoveCandidates`, in loop order. -/
def AIController.stepRange : List Int := [-1, 0, 1]

/-- The target of a move in `getMoveCandidates`: the position of the nearest
detectable enemy, or else of the nearest living enemy base. -/
def AIController.targetPosition (m : GameModel) (soldier : Soldier) : Position :=
  match AIController.findNearestEnemy m soldier with
  | some j =>
      (match m.getSoldiers[j]? with
        | some nearestEnemy => nearestEnemy.getPosition
        | none => AIController.findEnemyBase m soldier.getTeam soldier.getPosition)
  | none => AIController.findEnemyBase m soldier.getTeam soldier.getPosition

/-- The direction `(dx, dy)` of `getMoveCandidates` after the random side
step. -/
def AIController.moveDirection (currentPos targetPos : Position) (ch : MoveChoices) : Int × Int :=
  let dx0 : Int := if targetPos.x > currentPos.x then 1 else if targetPos.x < currentPos.x then -1 else 0
  let dy0 : Int := if targetPos.y > currentPos.y then 1 else if targetPos.y < currentPos.y then -1 else 0
  if ch.randomDraw < 3 then
    if ch.sideDraw = 0 then
      if dx0 ≠ 0 then (dx0, if dy0 = 0 then (if ch.signDraw = 0 then 1 else -1) else -dy0)
      else (dx0, dy0)
    else
      if dy0 ≠ 0 then (if dx0 = 0 then (if ch.signDraw = 0 then 1 else -1) else -dx0, dy0)
      else (dx0, dy0)
  else (dx0, dy0)

/-- The vector `candidateMoves` of `getMoveCandidates` before the sort, for the
direction `(dx, dy)`; `crowd` is the crowdedness of a cell. -/
def AIController.candidateMoves (currentPos : Position) (crowd : Position → Int)
    (dx dy : Int) : List CandidateMove :=
  let first : List CandidateMove :=
    (if dx ≠ 0 ∧ dy ≠ 0 then
        [{ pos := { x := currentPos.x + dx, y := currentPos.y + dy }, priority := 1,
           crowdedness := crowd { x := currentPos.x + dx, y := currentPos.y + dy } }]
      else []) ++
    (if dx ≠ 0 then
        [{ pos := { x := currentPos.x + dx, y := currentPos.y }, priority := 2,
           crowdedness := crowd { x := currentPos.x + dx, y := currentPos.y } }]
      else []) ++
    (if dy ≠ 0 then
        [{ pos := { x := currentPos.x, y := currentPos.y + dy }, priority := 2,
           crowdedness := crowd { x := currentPos.x, y := currentPos.y + dy } }]
      else [])
  AIController.stepRange.foldl
    (fun acc i =>
      AIController.stepRange.foldl
        (fun acc j =>
          if i = 0 ∧ j = 0 then acc
          else
            let newPos : Position := { x := currentPos.x + i, y := currentPos.y + j }
            let alreadyAdded := acc.any fun c => decide (c.pos = newPos)
            if !alreadyAdded then
              acc ++ [{ pos := newPos, priority := 3, crowdedness := crowd newPos }]
            else acc)
        acc)
    first

/-- The comparator that `getMoveCandidates` passes to `std::sort`. -/
def AIController.moveBefore (currentCrowdedness : Int) (a b : CandidateMove) : Bool :=
  if a.priority ≠ b.priority then decide (a.priority < b.priority)
  else if currentCrowdedness ≥ 5 then decide (a.crowdedness < b.crowdedness)
  else decide (a.crowdedness < b.crowdedness)

/-- The vector `candidateMoves` that `getMoveCandidates` hands to `std::sort`
for the unit `soldier`. -/
def AIController.unsortedMoves (m : GameModel) (soldier : Soldier) (ch : MoveChoices) :
    List CandidateMove :=
  let d := AIController.moveDirection soldier.getPosition
    (AIController.targetPosition m soldier) ch
  AIController.candidateMoves soldier.getPosition
    (fun pos => AIController.getCrowdednessAtPosition m pos soldier.getTeam 2) d.1 d.2

/-- The method `AIController::getMoveCandidates` for the unit `soldier`. -/
def AIController.getMoveCandidates (m : GameModel) (soldier : Soldier) (ch : MoveChoices) :
    List Position :=
  let currentCrowdedness :=
    AIController.getCrowdednessAtPosition m soldier.getPosition soldier.getTeam 2
  let sortedMoves := ch.sorted (AIController.unsortedMoves m soldier ch)
  match sortedMoves with
  | [] => []
  | best :: _ =>
      if best.crowdedness ≥ 6 ∧ currentCrowdedness < 6 then []
      else sortedMoves.map fun cm => cm.pos

/-! ## Controller.cpp : movement of one unit -/

/-- The statement `soldier->setPosition(newPos)` for the unit at index `i`. -/
def GameModel.moveSoldier (m : GameModel) (i : Nat) (newPos : Position) : GameModel :=
  match m.soldiers[i]? with
  | some soldier => { m with soldiers := m.soldiers.set i (soldier.setPosition newPos) }
  | none => m

/-- The test `model->getMap()->isWalkable(newPos) &&
!aiControllerTeam0->isPositionOccupied(model, newPos, soldier)` that guards
every `setPosition` of `processSoldierBehavior`. -/
def GameController.canEnter (m : GameModel) (i : Nat) (newPos : Position) : Bool :=
  m.gameMap.isWalkable newPos && !AIController.isPositionOccupied m newPos (some i)

/-- The loop `for (newPos : candidates) if (canEnter) { setPosition; break; }`
(or `return`): the world after the move, `none` when no candidate can be
entered. -/
def GameController.moveToFirstFree (m : GameModel) (i : Nat) (candidates : List Position) :
    Option GameModel :=
  match candidates.find? (fun newPos => GameController.canEnter m i newPos) with
  | some newPos => some (m.moveSoldier i newPos)
  | none => none

/-- The scan `inCombat` of `processSoldierBehavior`. -/
def GameController.inCombat (m : GameModel) (soldier : Soldier) (currentPos : Position) : Bool :=
  m.getSoldiers.any fun enemy =>
    if !enemy.isAlive || decide (enemy.getTeam = soldier.getTeam) then false
    else
      let dist := currentPos.chebyshevDistanceTo enemy.getPosition
      decide (dist ≤ soldier.getAttackRange + 2)

/-- The scan `hasTargetInRange` of the Archer branch. -/
def GameController.hasTargetInRange (m : GameModel) (soldier : Soldier) : Bool :=
  m.getSoldiers.any fun target =>
    target.isAlive && decide (target.getTeam ≠ soldier.getTeam) &&
      soldier.canAttack target.getPosition

/-- Body of the scan for `nearestMelee` of the Archer branch; the accumulator
holds `nearestMelee` and `minDistance`. -/
def GameController.meleeStep (soldier : Soldier) (currentPos : Position)
    (acc : Option Soldier × Int) (enemy : Soldier) : Option Soldier × Int :=
  if !enemy.isAlive || decide (enemy.getTeam = soldier.getTeam) then acc
  else if enemy.getAttackRange ≤ 1 then
    let dist := cabs (enemy.getPosition.x - currentPos.x) + cabs (enemy.getPosition.y - currentPos.y)
    if dist ≤ 2 ∧ dist < acc.2 then (some enemy, dist) else acc
  else acc

/-- The scan for `nearestMelee` of the Archer branch. -/
def GameController.nearestMelee (m : GameModel) (soldier : Soldier) (currentPos : Position) :
    Option Soldier :=
  (m.getSoldiers.foldl (GameController.meleeStep soldier currentPos) (none, 999)).1

/-- The list `dispersePositions` of the movement loop.  The base read is
`getBasesTeamA()[0]` or `getBasesTeamB()[0]`; these vectors hold three bases
from `GameModel::initialize` on, and for an empty vector (where the C++ read is
undefined) the list is left empty. -/
def GameController.dispersePositions (m : GameModel) (soldier : Soldier)
    (currentPos : Position) : List Position :=
  match (if soldier.getTeam = Team.TEAM_A then m.basesTeamA else m.basesTeamB)[0]? with
  | none => []
  | some base =>
      let basePos := base.getPosition
      let baseDx := currentPos.x - basePos.x
      let baseDy := currentPos.y - basePos.y
      if cabs baseDx > 0 ∨ cabs baseDy > 0 then
        let normDx : Int := if baseDx > 0 then 1 else if baseDx < 0 then -1 else 0
        let normDy : Int := if baseDy > 0 then 1 else if baseDy < 0 then -1 else 0
        [{ x := currentPos.x + normDx, y := currentPos.y + normDy },
         { x := currentPos.x + normDx, y := currentPos.y },
         { x := currentPos.x, y := currentPos.y + normDy }]
      else []

/-- The dispersal loop `for (newPos : dispersePositions) if (canEnter)
{ setPosition; continue; }`: the `continue` goes on with the next candidate, so
every candidate that can be entered is entered in turn. -/
def GameController.disperse (m : GameModel) (i : Nat) (positions : List Position) : GameModel :=
  positions.foldl
    (fun acc newPos => if GameController.canEnter acc i newPos then acc.moveSoldier i newPos else acc)
    m

/-- The list `neighbors` of the movement loop, before the shuffle. -/
def GameController.neighbors (currentPos : Position) : List Position :=
  [{ x := currentPos.x + 1, y := currentPos.y },
   { x := currentPos.x - 1, y := currentPos.y },
   { x := currentPos.x, y := currentPos.y + 1 },
   { x := currentPos.x, y := currentPos.y - 1 },
   { x := currentPos.x + 1, y := currentPos.y + 1 },
   { x := currentPos.x + 1, y := currentPos.y - 1 },
   { x := currentPos.x - 1, y := currentPos.y + 1 },
   { x := currentPos.x - 1, y := currentPos.y - 1 }]

/-- The values of the loop variables of the `farPositions` loops. -/
def GameController.farRange : List Int := [-2, -1, 0, 1, 2]

/-- The list `farPositions` of the movement loop, before the shuffle. -/
def GameController.farPositions (currentPos : Position) : List Position :=
  GameController.farRange.flatMap fun i =>
    GameController.farRange.filterMap fun j =>
      if cabs i + cabs j ≤ 2 ∧ (i ≠ 0 ∨ j ≠ 0) then
        some { x := currentPos.x + i, y := currentPos.y + j }
      else none

/-- Body of the loop `for (step = 0; step < moveSpeed; ++step)` of
`processSoldierBehavior` for the unit at index `i`.  The accumulator holds the
world and a flag that is set once the loop has been left by `break`. -/
def GameController.moveStep (isCrowded : Bool) (i : Nat) (choices : Nat → MoveChoices)
    (acc : GameModel × Bool) (step : Nat) : GameModel × Bool :=
  if acc.2 then acc
  else
    match acc.1.soldiers[i]? with
    | none => (acc.1, true)
    | some soldier =>
        let currentPos := soldier.getPosition
        let m1 :=
          if isCrowded && decide (step = 0) then
            GameController.disperse acc.1 i
              (GameController.dispersePositions acc.1 soldier currentPos)
          else acc.1
        match m1.soldiers[i]? with
        | none => (m1, true)
        | some soldier1 =>
            let candidates := AIController.getMoveCandidates m1 soldier1 (choices step)
            if candidates.isEmpty then (m1, true)
            else
              match GameController.moveToFirstFree m1 i candidates with
              | some m2 => (m2, false)
              | none =>
                  match GameController.moveToFirstFree m1 i
                      ((choices step).shuffleNear (GameController.neighbors currentPos)) with
                  | some m2 => (m2, false)
                  | none =>
                      match GameController.moveToFirstFree m1 i
                          ((choices step).shuffleFar
                            (GameController.farPositions currentPos)) with
                      | some m2 => (m2, false)
                      | none => (m1, true)

/-- The movement loop of `processSoldierBehavior`. -/
def GameController.moveLoop (m : GameModel) (isCrowded : Bool) (i : Nat) (moveSpeed : Int)
    (choices : Nat → MoveChoices) : GameModel :=
  ((List.range moveSpeed.toNat).foldl (GameController.moveStep isCrowded i choices) (m, false)).1

/-- The method `GameController::processSoldierBehavior` for the unit at index
`i` of the unit list; `choices step` holds the outcomes of the random choices
of round `step` of the movement loop. -/
def GameController.processSoldierBehavior (m : GameModel) (i : Nat)
    (choices : Nat → MoveChoices) : GameModel :=
  match m.soldiers[i]? with
  | none => m
  | some soldier =>
      if !soldier.isAlive then m
      else
        let currentPos := soldier.getPosition
        let nearbyAllies := AIController.countNearbyAllies m i soldier 2
        let isCrowded := decide (nearbyAllies ≥ 6)
        let isVeryCrowded := decide (nearbyAllies ≥ 8)
        if isVeryCrowded && !GameController.inCombat m soldier currentPos then m
        else if soldier.getType = SoldierType.ARCHER then
          if GameController.hasTargetInRange m soldier then m
          else
            match GameController.nearestMelee m soldier currentPos with
            | some nearestMelee =>
                let enemyPos := nearestMelee.getPosition
                let retreatCandidates := AIController.getRetreatPositions currentPos enemyPos
                (match GameController.moveToFirstFree m i retreatCandidates with
                  | some m1 => m1
                  | none => GameController.moveLoop m isCrowded i soldier.moveSpeed choices)
            | none => GameController.moveLoop m isCrowded i soldier.moveSpeed choices
        else GameController.moveLoop m isCrowded i soldier.moveSpeed choices

/-! ## Controller.cpp : one turn -/

/-- What one call `pythonAgent->getAction(...)` delivers to `processTurn`:
whether the text contains `"action_type": 0`, and the record that
`parseAndExecuteAction` reads from it (`none` when reading it throws, which
makes `parseAndExecuteAction` return false). -/
structure PythonReply where
  saysWait : Bool
  parsed : Option GameAction

/-- The outcomes of the choices of one round of a purchase loop of
`processTurn`: the two draws of `tryPurchaseOnce`, the draw of
`parseAndExecuteAction`, and the reply of the Python agent. -/
structure PurchaseChoices where
  baseDraw : Nat
  typeDraw : Int
  fallbackDraw : Nat
  python : PythonReply

/-- The outcomes of all choices of one call of `processTurn`: per team and
round of the purchase loop, and per unit and round of its movement loop. -/
structure TurnChoices where
  purchase : Team → Nat → PurchaseChoices
  moves : Nat → Nat → MoveChoices

/-- The constant `MAX_PURCHASES_PER_TURN` of `processTurn`. -/
def MAX_PURCHASES_PER_TURN : Nat := 3

/-- The heuristic of a team: `aiControllerTeam0` or `aiControllerTeam1`. -/
def GameController.aiControllerOf (c : GameController) (team : Team) : AIController :=
  if team = Team.TEAM_A then c.aiControllerTeam0 else c.aiControllerTeam1

/-- The controller after one call of `tryPurchaseOnce` on the heuristic of
`team` has changed that heuristic and the world. -/
def GameController.afterTry (c : GameController) (team : Team)
    (r : AIController × GameModel × GameAction) : GameController :=
  if team = Team.TEAM_A then { c with aiControllerTeam0 := r.1, model := r.2.1 }
  else { c with aiControllerTeam1 := r.1, model := r.2.1 }

/-- Body of the purchase loop of `processTurn` for a team played by the
rule-based heuristic.  The accumulator holds the controller and a flag that is
set once the loop has been left by `break`.  The test
`action.find("\"action_type\": 0") != npos` holds exactly for the wait action
among the texts that `tryPurchaseOnce` returns. -/
def GameController.rulePurchaseStep (team : Team) (choices : Nat → PurchaseChoices)
    (acc : GameController × Bool) (i : Nat) : GameController × Bool :=
  if acc.2 then acc
  else
    let r := (acc.1.aiControllerOf team).tryPurchaseOnce acc.1.model team
      (choices i).baseDraw (choices i).typeDraw
    let c1 := acc.1.afterTry team r
    let action := r.2.2
    if action.action_type = 0 then (c1, true)
    else
      let p := c1.parseAndExecuteAction team action (choices i).fallbackDraw
      if p.2 then (p.1, false) else (p.1, true)

/-- Body of the purchase loop of `processTurn` for a team played by the
Python agent. -/
def GameController.pythonPurchaseStep (team : Team) (choices : Nat → PurchaseChoices)
    (acc : GameController × Bool) (i : Nat) : GameController × Bool :=
  if acc.2 then acc
  else
    let reply := (choices i).python
    if reply.saysWait then (acc.1, true)
    else
      let p : GameController × Bool :=
        match reply.parsed with
        | some action => acc.1.parseAndExecuteAction team action (choices i).fallbackDraw
        | none => (acc.1, false)
      if p.2 then (p.1, false) else (p.1, true)

/-- The decision block of `processTurn` for one team of the given player
type. -/
def GameController.decisionsOf (c : GameController) (team : Team) (type : PlayerType)
    (choices : Nat → PurchaseChoices) : GameController :=
  if type = PlayerType.AI_PYTHON ∧ c.pythonReady = true then
    ((List.range MAX_PURCHASES_PER_TURN).foldl
      (GameController.pythonPurchaseStep team choices) (c, false)).1
  else if type = PlayerType.AI_RULE_BASED then
    ((List.range MAX_PURCHASES_PER_TURN).foldl
      (GameController.rulePurchaseStep team choices) (c, false)).1
  else c

/-- The method `GameController::generateEnergy`. -/
def GameController.generateEnergy (c : GameController) : GameController :=
  { c with model :=
      (c.model.addEnergy Team.TEAM_A ENERGY_PER_TURN).addEnergy Team.TEAM_B ENERGY_PER_TURN }

/-- Steps 1 to 4 of `processTurn`: income, vision sharing, the decisions of
Team 0 and the decisions of Team 1. -/
def GameController.purchasePhase (c : GameController) (ch : TurnChoices) : GameController :=
  let c1 := c.generateEnergy
  let c2 := { c1 with model := c1.model.updateSharedVision }
  let c3 := c2.decisionsOf Team.TEAM_A c2.team0Type (ch.purchase Team.TEAM_A)
  c3.decisionsOf Team.TEAM_B c3.team1Type (ch.purchase Team.TEAM_B)

/-- Step 5 of `processTurn`: the movement of every unit of the snapshot of the
unit list, in list order. -/
def GameController.movementPhase (m : GameModel) (moves : Nat → Nat → MoveChoices) : GameModel :=
  (List.range m.getSoldiers.length).foldl
    (fun acc i =>
      match acc.soldiers[i]? with
      | some soldier =>
          if soldier.isAlive then GameController.processSoldierBehavior acc i (moves i) else acc
      | none => acc)
    m

/-- The method `GameModel::removeSoldier` on the unit list whose entries carry
their identity (the index they had in the snapshot): `std::remove` drops every
entry that is the given pointer. -/
def GameModel.removeSoldier (soldiers : List (Nat × Soldier)) (dead : Nat) :
    List (Nat × Soldier) :=
  soldiers.filter fun p => decide (p.1 ≠ dead)

/-- The method `GameController::cleanupDeadSoldiers`. -/
def GameController.cleanupDeadSoldiers (m : GameModel) : GameModel :=
  let soldiers := m.getSoldiers.enum
  let deadSoldiers := soldiers.filter fun p => !p.2.isAlive
  let remaining := deadSoldiers.foldl (fun acc dead => GameModel.removeSoldier acc dead.1) soldiers
  { m with soldiers := remaining.map Prod.snd }

/-- The method `TrainingLogger::recordTurn`, on the modelled members. -/
def TrainingLogger.recordTurn (l : TrainingLogger) (turn : Int) : TrainingLogger :=
  if !l.gameStarted then l
  else { l with currentTurnEvents := [], totalTurns := turn + 1 }

/-- Steps 5 to 9 of `processTurn`: movement, combat, removal of the dead, the
end-of-game test and the training record. -/
def GameController.resolveTurn (c : GameController) (moves : Nat → Nat → MoveChoices) :
    GameController :=
  let c4 := { c with model := GameController.movementPhase c.model moves }
  let st := CombatSystem.processCombat c4.model [] c4.currentTurn
  let c5 := { c4 with model := st.model, team0HealThisTurn := st.healStats0,
                      team1HealThisTurn := st.healStats1 }
  let c6 :=
    if c5.trainingLogger.isSome && decide (c5.gameMode = GameMode.TRAINING) then
      st.events.foldl (fun acc evt => acc.logEvent evt) c5
    else c5
  let c7 := { c6 with model := GameController.cleanupDeadSoldiers c6.model }
  let c8 := c7.checkGameOver
  match c8.trainingLogger with
  | some l =>
      if c8.gameMode = GameMode.TRAINING then
        { c8 with trainingLogger := some (l.recordTurn c8.currentTurn) }
      else c8
  | none => c8

/-- The method `GameController::processTurn` (the console report of step 10
changes nothing). -/
def GameController.processTurn (c : GameController) (ch : TurnChoices) : GameController :=
  (c.purchasePhase ch).resolveTurn ch.moves

/-! ## Model.cpp : `GameModel::initialize` -/

/-- The bases that `GameModel::initialize` creates for Team A. -/
def GameModel.newBasesTeamA : List Base :=
  if BASE_COUNT_PER_TEAM = 1 then [Base.new ⟨5, 5⟩ Team.TEAM_A]
  else if BASE_COUNT_PER_TEAM = 3 then
    [Base.new ⟨8, 12⟩ Team.TEAM_A, Base.new ⟨32, 5⟩ Team.TEAM_A, Base.new ⟨55, 18⟩ Team.TEAM_A]
  else
    (List.range BASE_COUNT_PER_TEAM.toNat).map fun i =>
      Base.new ⟨5 + (i : Int) * 15, 8 + ((i : Int) % 2) * 8⟩ Team.TEAM_A

/-- The bases that `GameModel::initialize` creates for Team B. -/
def GameModel.newBasesTeamB : List Base :=
  if BASE_COUNT_PER_TEAM = 1 then [Base.new ⟨MAP_SIZE - 6, MAP_SIZE - 6⟩ Team.TEAM_B]
  else if BASE_COUNT_PER_TEAM = 3 then
    [Base.new ⟨10, MAP_SIZE - 15⟩ Team.TEAM_B, Base.new ⟨35, MAP_SIZE - 8⟩ Team.TEAM_B,
     Base.new ⟨58, MAP_SIZE - 20⟩ Team.TEAM_B]
  else
    (List.range BASE_COUNT_PER_TEAM.toNat).map fun i =>
      Base.new ⟨MAP_SIZE - 6 - (i : Int) * 15, MAP_SIZE - 8 - ((i : Int) % 2) * 8⟩ Team.TEAM_B

/-- The method `GameModel::initialize`; `generated` is the map that
`GameMap::initialize` leaves (plain ground with the randomly placed
obstacles).  The members `energyTeamA` and `energyTeamB` are not assigned. -/
def GameModel.initialize (m : GameModel) (generated : GameMap) : GameModel :=
  let basesA := GameModel.newBasesTeamA
  let basesB := GameModel.newBasesTeamB
  let g1 := basesA.foldl (fun g base => g.setTerrainAt base.getPosition TerrainType.BASE_A) generated
  let g2 := basesB.foldl (fun g base => g.setTerrainAt base.getPosition TerrainType.BASE_B) g1
  { m with gameMap := g2, basesTeamA := basesA, basesTeamB := basesB, soldiers := [],
           gameOver := false, turnCount := 0,
           teams0 := { energy := INITIAL_ENERGY }, teams1 := { energy := INITIAL_ENERGY } }

/-! ## Vocabulary of the movement properties -/

/-- The unit list `after` differs from `before` at most in the entry at index
`i`: same length, and every other entry is the same. -/
def OnlyUnitChanged (i : Nat) (before after : List Soldier) : Prop :=
  after.length = before.length ∧ ∀ k : Nat, k ≠ i → after[k]? = before[k]?

/-! ## Vocabulary of the spawn search -/

/-- The cells of the 7x7 box around `basePos` without the base cell, in the
scan order of `findSpawnPosition` (`dx` ascending, then `dy` ascending). -/
def GameController.boxCells (basePos : Position) : List Position :=
  GameController.spawnRange.flatMap fun dx =>
    GameController.spawnRange.filterMap fun dy =>
      if dx = 0 ∧ dy = 0 then none else some { x := basePos.x + dx, y := basePos.y + dy }

/-- The cell is walkable and no living unit stands on it. -/
def GameController.isSpawnCandidate (m : GameModel) (p : Position) : Bool :=
  m.gameMap.isWalkable p && !AIController.isPositionOccupied m p none

/-- The number of living units of `team` within Manhattan distance `radius` of
`pos`. -/
def crowdCount (m : GameModel) (pos : Position) (team : Team) (radius : Int) : Nat :=
  (m.soldiers.filter fun s =>
    s.alive && decide (s.team = team) &&
      decide (cabs (s.position.x - pos.x) + cabs (s.position.y - pos.y) ≤ radius)).length

/-! ## Concrete worlds used in the instances -/

/-- A small world for the instances below: an empty plain map without bases or
units, Team A holding 100 energy and Team B 40. -/
def smallWorld : GameModel :=
  { gameMap := { terrain := fun _ _ => TerrainType.PLAIN },
    basesTeamA := [], basesTeamB := [], soldiers := [],
    gameOver := false, winner := Team.TEAM_A, turnCount := 0,
    energyTeamA := 100, energyTeamB := 40,
    teams0 := { energy := 200 }, teams1 := { energy := 200 } }

/-- A world whose map is all Mountain, so that no cell is walkable; Team A
holds 100 energy. -/
def blockedWorld : GameModel :=
  { smallWorld with gameMap := { terrain := fun _ _ => TerrainType.MOUNTAIN } }

/-- The three bases of Team A as `GameModel::initialize` creates them. -/
def initialBasesTeamA : List Base :=
  [Base.new ⟨8, 12⟩ Team.TEAM_A, Base.new ⟨32, 5⟩ Team.TEAM_A, Base.new ⟨55, 18⟩ Team.TEAM_A]

/-- The three bases of Team B as `GameModel::initialize` creates them. -/
def initialBasesTeamB : List Base :=
  [Base.new ⟨10, 49⟩ Team.TEAM_B, Base.new ⟨35, 56⟩ Team.TEAM_B, Base.new ⟨58, 44⟩ Team.TEAM_B]

/-- A map without obstacles that carries the six base markers. -/
def openMap : GameMap :=
  { terrain := fun x y =>
      if (x = 8 ∧ y = 12) ∨ (x = 32 ∧ y = 5) ∨ (x = 55 ∧ y = 18) then TerrainType.BASE_A
      else if (x = 10 ∧ y = 49) ∨ (x = 35 ∧ y = 56) ∨ (x = 58 ∧ y = 44) then TerrainType.BASE_B
      else TerrainType.PLAIN }

/-- A map on which all 48 cells of the 7x7 box around the Team A base at
(8, 12) are Mountain; the rest is as in `openMap`. -/
def enclosedMap : GameMap :=
  { terrain := fun x y =>
      if (x = 8 ∧ y = 12) ∨ (x = 32 ∧ y = 5) ∨ (x = 55 ∧ y = 18) then TerrainType.BASE_A
      else if (x = 10 ∧ y = 49) ∨ (x = 35 ∧ y = 56) ∨ (x = 58 ∧ y = 44) then TerrainType.BASE_B
      else if 5 ≤ x ∧ x ≤ 11 ∧ 9 ≤ y ∧ y ≤ 15 then TerrainType.MOUNTAIN
      else TerrainType.PLAIN }

/-- A world at turn 0 with the initial bases on the given map, the given units
and the given energy of Team A and Team B. -/
def worldOn (g : GameMap) (soldiers : List Soldier) (energyA energyB : Int) : GameModel :=
  { gameMap := g, basesTeamA := initialBasesTeamA, basesTeamB := initialBasesTeamB,
    soldiers := soldiers, gameOver := false, winner := Team.TEAM_A, turnCount := 0,
    energyTeamA := energyA, energyTeamB := energyB,
    teams0 := { energy := INITIAL_ENERGY }, teams1 := { energy := INITIAL_ENERGY } }

/-- A Team A Infantry at (20, 20) with the given hit points. -/
def woundedInfantry (hp : Int) : Soldier :=
  { Soldier.new ⟨20, 20⟩ SoldierType.INFANTRY Team.TEAM_A with hp := hp }

/-- The wounded Infantry with one Team A Doctor on the neighbouring cell, on
the obstacle-free map. -/
def healWorld (hp : Int) : GameModel :=
  worldOn openMap [woundedInfantry hp, Soldier.new ⟨20, 21⟩ SoldierType.DOCTOR Team.TEAM_A] 200 200

/-- A skirmish far from all bases: a Team A Caster at (30, 30), a Team A
Infantry at (32, 31), and three Team B units in front of them, two of which
are nearly dead. -/
def skirmishWorld : GameModel :=
  worldOn openMap
    [Soldier.new ⟨30, 30⟩ SoldierType.CASTER Team.TEAM_A,
     { Soldier.new ⟨32, 30⟩ SoldierType.ARCHER Team.TEAM_B with hp := 40 },
     { Soldier.new ⟨33, 30⟩ SoldierType.CAVALRY Team.TEAM_B with hp := 30 },
     Soldier.new ⟨32, 31⟩ SoldierType.INFANTRY Team.TEAM_A,
     Soldier.new ⟨33, 31⟩ SoldierType.INFANTRY Team.TEAM_B]
    200 200

/-- A controller in spectator mode without training logger, at the given turn
of the given world; both purchase queues hold five Infantry. -/
def controllerOf (m : GameModel) (turn : Int) : GameController :=
  { model := m, gameMode := GameMode.AI_VS_AI, team0Type := PlayerType.AI_RULE_BASED,
    team1Type := PlayerType.AI_RULE_BASED, trainingLogger := none, currentTurn := turn,
    team0HealThisTurn := 0, team1HealThisTurn := 0,
    aiControllerTeam0 := AIController.new fun _ => 1,
    aiControllerTeam1 := AIController.new fun _ => 1,
    pythonReady := false }

/-- The obstacle-free world without units in which every base of Team A has
`hpA` hit points and every base of Team B has `hpB`. -/
def worldWithBaseHp (hpA hpB : Int) : GameModel :=
  { worldOn openMap [] 200 200 with
    basesTeamA := initialBasesTeamA.map fun b => { b with hp := hpA },
    basesTeamB := initialBasesTeamB.map fun b => { b with hp := hpB } }

/-- The obstacle-free world without units in which only the third base of
Team A, at (55, 18), is still alive. -/
def lastBaseWorld : GameModel :=
  { worldOn openMap [] 200 200 with
    basesTeamA := [{ Base.new ⟨8, 12⟩ Team.TEAM_A with hp := 0 },
      { Base.new ⟨32, 5⟩ Team.TEAM_A with hp := 0 }, Base.new ⟨55, 18⟩ Team.TEAM_A] }

/-- The combat state at the entry of `processCombat` for the skirmish world at
turn 3. -/
def skirmishState : CombatSystem.CombatState :=
  CombatSystem.CombatState.start skirmishWorld []

/-- The bases stand where `GameModel::initialize` puts them (their hit points
are free). -/
def InitialBaseLayout (m : GameModel) : Prop :=
  m.basesTeamA.map Base.getPosition = initialBasesTeamA.map Base.getPosition ∧
  m.basesTeamB.map Base.getPosition = initialBasesTeamB.map Base.getPosition

/-- A siege of the Team B base at (10, 49), which has 150 hit points left: a
Team A Archer at (10, 47), a Team A Infantry at (11, 48) and a Team A Cavalry
at (9, 50) are in range, a Team A Infantry at (20, 20) is not, and a Team B
Infantry stands next to its base. -/
def siegeWorld : GameModel :=
  { worldOn openMap
      [Soldier.new ⟨10, 47⟩ SoldierType.ARCHER Team.TEAM_A,
       Soldier.new ⟨11, 48⟩ SoldierType.INFANTRY Team.TEAM_A,
       Soldier.new ⟨11, 50⟩ SoldierType.INFANTRY Team.TEAM_B,
       Soldier.new ⟨9, 50⟩ SoldierType.CAVALRY Team.TEAM_A,
       Soldier.new ⟨20, 20⟩ SoldierType.INFANTRY Team.TEAM_A]
      200 200 with
    basesTeamB :=
      [{ Base.new ⟨10, 49⟩ Team.TEAM_B with hp := 150 }, Base.new ⟨35, 56⟩ Team.TEAM_B,
       Base.new ⟨58, 44⟩ Team.TEAM_B] }

/-- The siege at the start of the siege phase, with an empty event vector. -/
def siegeState : CombatSystem.CombatState := CombatSystem.CombatState.start siegeWorld []

/-- Outcomes of the choices of one movement round in which no side step is
drawn and the sort and the shuffles leave their input in place. -/
def plainChoices : MoveChoices :=
  { randomDraw := 5, sideDraw := 0, signDraw := 0, sorted := fun l => l,
    shuffleNear := fun l => l, shuffleFar := fun l => l }

/-- A Team A Archer at (30, 30) with a Team B Infantry two cells to its right
and a Team A Infantry behind it, far from all bases. -/
def archerWorld : GameModel :=
  worldOn openMap
    [Soldier.new ⟨30, 30⟩ SoldierType.ARCHER Team.TEAM_A,
     Soldier.new ⟨32, 30⟩ SoldierType.INFANTRY Team.TEAM_B,
     Soldier.new ⟨29, 30⟩ SoldierType.INFANTRY Team.TEAM_A]
    200 200

/-- Outcomes of the choices of one call of `processTurn`: every draw of the
purchase loops is 0 except the kind drawn for the queue, which is Cavalry,
the Python agent waits, and the movement rounds use `plainChoices`. -/
def plainTurn : TurnChoices :=
  { purchase := fun _ _ =>
      { baseDraw := 0, typeDraw := 2, fallbackDraw := 0,
        python := { saysWait := true, parsed := none } },
    moves := fun _ _ => plainChoices }

/-- The controller at the first turn of a game between two rule-based teams on
the obstacle-free map: no unit, 200 energy each, both queues hold five
Infantry. -/
def firstTurn : GameController := controllerOf (worldOn openMap [] 200 200) 0

/-- The same controller at a later turn at which both teams hold 450 energy and
no unit is on the map. -/
def richTurn : GameController := controllerOf (worldOn openMap [] 450 450) 40

/-! ## Vocabulary of the resolver order -/

/-- The unit at index `i` of the unit list is there and is not alive. -/
def CombatSystem.CombatState.isDead (st : CombatSystem.CombatState) (i : Nat) : Bool :=
  match st.model.soldiers[i]? with
  | some s => !s.isAlive
  | none => false

/-! ## Model.cpp : `GameMap::initialize` and `GameMap::generateObstacles` -/

/-- The outcomes of the draws of `generateObstacles`, per round `i` of the seed
loop: the two draws of `dis`, the draw of `typeDis`, and, per direction `d` of
the two cluster loops, the draw of `clusterDis` (each of them is drawn at most
once per round and direction). -/
structure ObstacleDraws where
  x : Nat → Int
  y : Nat → Int
  typeDraw : Nat → Int
  nearDraw : Nat → Nat → Int
  farDraw : Nat → Nat → Int

/-- The test `(x >= 2 && x <= 8 && y >= 2 && y <= 8) || (x >= MAP_SIZE - 9 &&
x <= MAP_SIZE - 3 && y >= MAP_SIZE - 9 && y <= MAP_SIZE - 3)` that
`generateObstacles` applies to seeds and to cluster cells. -/
def GameMap.inBaseZone (x y : Int) : Bool :=
  (decide (x ≥ 2) && decide (x ≤ 8) && decide (y ≥ 2) && decide (y ≤ 8)) ||
  (decide (x ≥ MAP_SIZE - 9) && decide (x ≤ MAP_SIZE - 3) &&
    decide (y ≥ MAP_SIZE - 9) && decide (y ≤ MAP_SIZE - 3))

/-- The assignment `terrain[x][y] = type`. -/
def GameMap.setCell (g : GameMap) (x y : Int) (type : TerrainType) : GameMap :=
  { terrain := fun a b => if a = x ∧ b = y then type else g.terrain a b }

/-- The array `directions` of `generateObstacles`. -/
def GameMap.directions : List (Int × Int) := [(-1, 0), (1, 0), (0, -1), (0, 1)]

/-- Body of the first cluster loop, for the direction of index `d`: the
neighbour of the seed becomes an obstacle when it is Plain and the draw is
below 70. -/
def GameMap.nearStep (obstacleType : TerrainType) (x y : Int) (draw : Nat → Int)
    (g : GameMap) (d : Nat) : GameMap :=
  match GameMap.directions[d]? with
  | none => g
  | some dir =>
      let nx := x + dir.1
      let ny := y + dir.2
      if nx < 0 ∨ nx ≥ MAP_SIZE ∨ ny < 0 ∨ ny ≥ MAP_SIZE then g
      else if GameMap.inBaseZone nx ny then g
      else if g.terrain nx ny = TerrainType.PLAIN ∧ draw d < 70 then g.setCell nx ny obstacleType
      else g

/-- Body of the second cluster loop, for the direction of index `d`: the cell
two steps from the seed becomes an obstacle when it is Plain and the draw is
below 40. -/
def GameMap.farStep (obstacleType : TerrainType) (x y : Int) (draw : Nat → Int)
    (g : GameMap) (d : Nat) : GameMap :=
  match GameMap.directions[d]? with
  | none => g
  | some dir =>
      let nx := x + dir.1 * 2
      let ny := y + dir.2 * 2
      if nx < 0 ∨ nx ≥ MAP_SIZE ∨ ny < 0 ∨ ny ≥ MAP_SIZE then g
      else if GameMap.inBaseZone nx ny then g
      else if g.terrain nx ny = TerrainType.PLAIN ∧ draw d < 40 then g.setCell nx ny obstacleType
      else g

/-- Body of the seed loop of `generateObstacles`, for round `i`. -/
def GameMap.obstacleStep (draws : ObstacleDraws) (g : GameMap) (i : Nat) : GameMap :=
  let x := draws.x i
  let y := draws.y i
  if GameMap.inBaseZone x y then g
  else if g.terrain x y = TerrainType.PLAIN then
    let obstacleType :=
      if draws.typeDraw i = 0 then TerrainType.MOUNTAIN else TerrainType.RIVER
    let g1 := g.setCell x y obstacleType
    let g2 := (List.range 4).foldl (GameMap.nearStep obstacleType x y (draws.nearDraw i)) g1
    (List.range 4).foldl (GameMap.farStep obstacleType x y (draws.farDraw i)) g2
  else g

/-- The values `lo, lo + 1, ..., hi` of a loop variable. -/
def GameMap.cellRange (lo hi : Int) : List Int :=
  (List.range (hi + 1 - lo).toNat).map fun k => lo + (k : Int)

/-- One of the two clearing loops at the end of `generateObstacles`: every
Mountain or River cell of the square `lo..hi` times `lo..hi` becomes Plain. -/
def GameMap.clearSquare (lo hi : Int) (g : GameMap) : GameMap :=
  (GameMap.cellRange lo hi).foldl
    (fun g x =>
      (GameMap.cellRange lo hi).foldl
        (fun g y =>
          if g.terrain x y = TerrainType.MOUNTAIN ∨ g.terrain x y = TerrainType.RIVER then
            g.setCell x y TerrainType.PLAIN
          else g)
        g)
    g

/-- The method `GameMap::generateObstacles`. -/
def GameMap.generateObstacles (g : GameMap) (draws : ObstacleDraws) : GameMap :=
  let obstacleCount := (MAP_SIZE * MAP_SIZE) / 70
  let g1 := (List.range obstacleCount.toNat).foldl (GameMap.obstacleStep draws) g
  let g2 := GameMap.clearSquare 2 8 g1
  GameMap.clearSquare (MAP_SIZE - 9) (MAP_SIZE - 3) g2

/-- The method `GameMap::initialize`: every cell of the grid is set to Plain,
then the obstacles are generated. -/
def GameMap.initialize (g : GameMap) (draws : ObstacleDraws) : GameMap :=
  GameMap.generateObstacles
    { terrain := fun x y =>
        if 0 ≤ x ∧ x < MAP_SIZE ∧ 0 ≤ y ∧ y < MAP_SIZE then TerrainType.PLAIN
        else g.terrain x y }
    draws

/-! ## Vocabulary of the map generation -/

/-- Every cell of the two exclusion squares is Plain. -/
def GameMap.ZonePlain (g : GameMap) : Prop :=
  ∀ x y : Int, GameMap.inBaseZone x y = true → g.terrain x y = TerrainType.PLAIN

/-! ## Vocabulary of the ground under the units -/

/-- Every unit of the world stands on a cell that `isWalkable` accepts. -/
def GameModel.UnitsOnWalkable (m : GameModel) : Prop :=
  ∀ s ∈ m.soldiers, m.gameMap.isWalkable s.getPosition = true

instance (m : GameModel) : Decidable m.UnitsOnWalkable := by
  unfold GameModel.UnitsOnWalkable
  infer_instance

/-- Every unit of the world stands on a cell of the grid whose terrain is
Plain or the marker of a base. -/
def GameModel.UnitsOnOpenGround (m : GameModel) : Prop :=
  ∀ s ∈ m.soldiers,
    (0 ≤ s.getPosition.x ∧ s.getPosition.x < MAP_SIZE ∧
      0 ≤ s.getPosition.y ∧ s.getPosition.y < MAP_SIZE) ∧
    (m.gameMap.terrain s.getPosition.x s.getPosition.y = TerrainType.PLAIN ∨
      m.gameMap.terrain s.getPosition.x s.getPosition.y = TerrainType.BASE_A ∨
      m.gameMap.terrain s.getPosition.x s.getPosition.y = TerrainType.BASE_B)

/-! ## Controller.cpp : `GameController::gameLoop` -/

/-- The method `GameModel::isGameOver`. -/
def GameModel.isGameOver (m : GameModel) : Bool := m.gameOver

/-- The method `GameModel::getWinner`. -/
def GameModel.getWinner (m : GameModel) : Team := m.winner

/-- The method `GameModel::incrementTurn`. -/
def GameModel.incrementTurn (m : GameModel) : GameModel :=
  { m with turnCount := m.turnCount + 1 }

/-- The method `TrainingLogger::endGame`, on the modelled members. -/
def TrainingLogger.endGame (l : TrainingLogger) (_winner : Int) : TrainingLogger :=
  if !l.gameStarted then l else { l with gameStarted := false }

/-- One round of the `while` loop of `gameLoop`: `processTurn()`, then
`currentTurn++` and `model->incrementTurn()` (training mode and the other modes
differ only in the speed report and in the wait). -/
def GameController.loopRound (c : GameController) (ch : TurnChoices) : GameController :=
  let c1 := c.processTurn ch
  { c1 with currentTurn := c1.currentTurn + 1, model := c1.model.incrementTurn }

/-- The `while (running.load() && !model->isGameOver())` loop of `gameLoop`
with `running` left true, bounded by `fuel` tests of the loop condition:
`none` when the fuel runs out, otherwise the controller at the exit of the loop
and the number of calls of `processTurn`.  `choices k` holds the outcomes of
the choices of call number `k`, and `calls` counts the calls made so far. -/
def GameController.loopFrom (choices : Nat → TurnChoices) :
    Nat → GameController → Nat → Option (GameController × Nat)
  | 0, _, _ => none
  | fuel + 1, c, calls =>
      if c.model.isGameOver then some (c, calls)
      else GameController.loopFrom choices fuel (c.loopRound (choices calls)) (calls + 1)

/-- The method `GameController::gameLoop` when it is not stopped from outside:
`currentTurn = 0`, the loop, and `endGame` on the training logger. -/
def GameController.gameLoop (c : GameController) (fuel : Nat) (choices : Nat → TurnChoices) :
    Option (GameController × Nat) :=
  match GameController.loopFrom choices fuel { c with currentTurn := 0 } 0 with
  | none => none
  | some (c1, calls) =>
      match c1.trainingLogger with
      | some l =>
          some ({ c1 with trainingLogger := some (l.endGame c1.model.getWinner.toInt) }, calls)
      | none => some (c1, calls)

/-- The winner that `checkGameOver` records when it ends the game at turn
`turn`: at the turn limit the team with more base hit points in total (Team B
on a tie), before it the team that still has a living base. -/
def GameController.winnerAt (turn : Int) (m : GameModel) : Team :=
  if turn ≥ MAX_TURNS then
    if totalBaseHp m.basesTeamA > totalBaseHp m.basesTeamB then Team.TEAM_A else Team.TEAM_B
  else if !anyBaseAlive m.basesTeamA then Team.TEAM_B
  else Team.TEAM_A

/-- The members of the world that only `checkGameOver` and `gameLoop` write:
the game-over flag, the winner and the turn counter. -/
def GameModel.clock (m : GameModel) : Bool × Team × Int := (m.gameOver, m.winner, m.turnCount)

/-! ## Vocabulary of the candidate order -/

/-- The list `out` is an outcome that `std::sort` with the comparator `before`
may leave from `input`: a rearrangement of `input` in which no element is
`before` an element that precedes it (the order of elements that the comparator
does not separate is left open). -/
def IsSortOutcome {α : Type} (before : α → α → Bool) (input out : List α) : Prop :=
  out.Perm input ∧ out.Pairwise fun a b => before b a = false

/-- The priority class of the cell `pos` for a unit at `cur` and the direction
`(dx, dy)`: 1 for the diagonal cell in that direction, 2 for the axis cells in
that direction, 3 for every other cell. -/
def AIController.priorityOf (cur : Position) (dx dy : Int) (pos : Position) : Int :=
  if dx ≠ 0 ∧ dy ≠ 0 ∧ pos = { x := cur.x + dx, y := cur.y + dy } then 1
  else if (dx ≠ 0 ∧ pos = { x := cur.x + dx, y := cur.y }) ∨
      (dy ≠ 0 ∧ pos = { x := cur.x, y := cur.y + dy }) then 2
  else 3

/-- The sign of `t - c`: the step from `c` toward `t` on one axis. -/
def AIController.stepToward (c t : Int) : Int :=
  if t > c then 1 else if t < c then -1 else 0

/-- The cell `p` seen from `cur`: the cell at offset `(p.x, p.y)` from `cur`. -/
def Position.shift (cur p : Position) : Position := { x := cur.x + p.x, y := cur.y + p.y }

/-! ## Vocabulary of the reach of a move -/

/-- The sort and the two shuffles of a movement round rearrange their input:
what they return is a permutation of what they are given. -/
def MoveChoices.Rearranges (ch : MoveChoices) : Prop :=
  (∀ l : List CandidateMove, (ch.sorted l).Perm l) ∧
  (∀ l : List Position, (ch.shuffleNear l).Perm l) ∧
  (∀ l : List Position, (ch.shuffleFar l).Perm l)

/-! ## Vocabulary of the siege rule -/

/-- The damage of the unit `a` by the rule of the resolver, read in the world
`m`: its attack, multiplied by 1.2 and truncated when some living base of its
own team is within Manhattan distance 6 of it. -/
def ruleDamage (m : GameModel) (a : Soldier) : Int :=
  if ∃ b ∈ m.basesOf a.team, b.hp > 0 ∧ a.position.distanceTo b.position ≤ 6 then
    Int.tdiv (a.attack * 12) 10
  else a.attack

/-- The sum of the rule damage, read in the world `m`, over the living units of
the other team that have the base within their attack range (Chebyshev
distance). -/
def ruleSiegeTotal (m : GameModel) (team : Team) (base : Base) : Int :=
  ((m.soldiers.filter fun a =>
      decide (a.alive = true ∧ a.team ≠ team ∧
        a.position.chebyshevDistanceTo base.position ≤ a.attackRange)).map
    (ruleDamage m)).sum

/-- The obstacle-free world without units in which the first base of Team A, at
(8, 12), is destroyed and its other two bases are alive; 200 energy each. -/
def firstBaseLostWorld : GameModel :=
  { worldOn openMap [] 200 200 with
    basesTeamA :=
      [{ Base.new ⟨8, 12⟩ Team.TEAM_A with hp := 0 }, Base.new ⟨32, 5⟩ Team.TEAM_A,
       Base.new ⟨55, 18⟩ Team.TEAM_A] }

/-- A Team A Infantry at (10, 12), two cells from the Team A base at (8, 12),
next to a Team B Archer at full hit points. -/
def homeDefenceWorld : GameModel :=
  worldOn openMap
    [Soldier.new ⟨10, 12⟩ SoldierType.INFANTRY Team.TEAM_A,
     Soldier.new ⟨11, 12⟩ SoldierType.ARCHER Team.TEAM_B]
    200 200

/-- An Infantry of `team` at `pos` with 40 hit points left: one Infantry hit
(70 - 20 = 50) kills it. -/
def weakInfantry (pos : Position) (team : Team) : Soldier :=
  { Soldier.new pos SoldierType.INFANTRY team with hp := 40 }

/-- Two adjacent weak Infantry, far from every base; the Team A unit is first
in the unit list. -/
def duelWorld : GameModel :=
  worldOn openMap [weakInfantry ⟨30, 30⟩ Team.TEAM_A, weakInfantry ⟨31, 30⟩ Team.TEAM_B] 200 200

/-- The world `duelWorld` with the unit list in the other order. -/
def duelWorldSwapped : GameModel :=
  worldOn openMap [weakInfantry ⟨31, 30⟩ Team.TEAM_B, weakInfantry ⟨30, 30⟩ Team.TEAM_A] 200 200

/-- Draws of `generateObstacles` that place one Mountain seed at (9, 12) in the
first round and nothing else: every later seed falls on (5, 5), inside the
first exclusion square, and no cluster draw is below its threshold. -/
def nearBaseDraws : ObstacleDraws :=
  { x := fun i => if i = 0 then 9 else 5,
    y := fun i => if i = 0 then 12 else 5,
    typeDraw := fun _ => 0,
    nearDraw := fun _ _ => 100,
    farDraw := fun _ _ => 100 }

/-- Draws of `generateObstacles` for which every seed lands next to the first
exclusion square, at (9, 5), and every cluster draw is below its threshold. -/
def denseDraws : ObstacleDraws :=
  { x := fun _ => 9,
    y := fun _ => 5,
    typeDraw := fun i => (i : Int) % 2,
    nearDraw := fun _ _ => 0,
    farDraw := fun _ _ => 0 }

/-- A single Team A Infantry at (30, 30) on the obstacle-free map; its target
is the Team B base at (35, 56), up and to the right. -/
def loneWorld : GameModel :=
  worldOn openMap [Soldier.new ⟨30, 30⟩ SoldierType.INFANTRY Team.TEAM_A] 200 200

/-- Outcomes of the choices of a movement round in which the side step is drawn
(`randomDis` gives 0, `sideDis` gives 0) and the sort and the shuffles leave
their input in place. -/
def sideStepChoices : MoveChoices :=
  { plainChoices with randomDraw := 0 }

/-- A Team A Infantry at (30, 30) with five teammates around the cell (31, 31):
the unit counts one living unit of its team within two cells of its own cell
and six within two cells of (31, 31). -/
def crowdAheadWorld : GameModel :=
  worldOn openMap
    [Soldier.new ⟨30, 30⟩ SoldierType.INFANTRY Team.TEAM_A,
     Soldier.new ⟨32, 31⟩ SoldierType.INFANTRY Team.TEAM_A,
     Soldier.new ⟨31, 32⟩ SoldierType.INFANTRY Team.TEAM_A,
     Soldier.new ⟨33, 31⟩ SoldierType.INFANTRY Team.TEAM_A,
     Soldier.new ⟨31, 33⟩ SoldierType.INFANTRY Team.TEAM_A,
     Soldier.new ⟨32, 32⟩ SoldierType.INFANTRY Team.TEAM_A]
    200 200

/-- The obstacle-free map with a ring of Mountain on the 8 cells around
(30, 30). -/
def ringMap : GameMap :=
  { terrain := fun x y =>
      if 29 ≤ x ∧ x ≤ 31 ∧ 29 ≤ y ∧ y ≤ 31 ∧ ¬ (x = 30 ∧ y = 30) then TerrainType.MOUNTAIN
      else openMap.terrain x y }

/-- A single Team A Infantry at (30, 30) inside the ring of Mountain. -/
def ringWorld : GameModel :=
  worldOn ringMap [Soldier.new ⟨30, 30⟩ SoldierType.INFANTRY Team.TEAM_A] 200 200

/-- A Team A Infantry at (30, 30), first in the unit list, with six teammates
within Manhattan distance 2 behind it. -/
def crowdBehindWorld : GameModel :=
  worldOn openMap
    [Soldier.new ⟨30, 30⟩ SoldierType.INFANTRY Team.TEAM_A,
     Soldier.new ⟨29, 30⟩ SoldierType.INFANTRY Team.TEAM_A,
     Soldier.new ⟨30, 29⟩ SoldierType.INFANTRY Team.TEAM_A,
     Soldier.new ⟨28, 30⟩ SoldierType.INFANTRY Team.TEAM_A,
     Soldier.new ⟨30, 28⟩ SoldierType.INFANTRY Team.TEAM_A,
     Soldier.new ⟨29, 29⟩ SoldierType.INFANTRY Team.TEAM_A,
     Soldier.new ⟨29, 31⟩ SoldierType.INFANTRY Team.TEAM_A]
    200 200

/-- A world with a Team A base at (30, 30) that has 50 hit points left and a
Team B base at (33, 30): a Team B Infantry at (29, 30), first in the unit list,
is next to the Team A base and within Manhattan distance 6 of its own base; a
Team A Infantry at (34, 30) is next to the Team B base and within Manhattan
distance 6 of its own base. -/
def bonusEndsWorld : GameModel :=
  { worldOn openMap
      [Soldier.new ⟨29, 30⟩ SoldierType.INFANTRY Team.TEAM_B,
       Soldier.new ⟨34, 30⟩ SoldierType.INFANTRY Team.TEAM_A]
      200 200 with
    basesTeamA := [{ Base.new ⟨30, 30⟩ Team.TEAM_A with hp := 50 }],
    basesTeamB := [Base.new ⟨33, 30⟩ Team.TEAM_B] }

/-- A world with a Team A base at (30, 30) and a Team B base at (33, 30), both
at full hit points: a Team A Infantry at (34, 30) besieges the Team B base with
the home bonus, a Team A Archer at (35, 32) besieges it without, and a Team B
Infantry at (36, 30) has no base in range. -/
def homeSiegeWorld : GameModel :=
  { worldOn openMap
      [Soldier.new ⟨34, 30⟩ SoldierType.INFANTRY Team.TEAM_A,
       Soldier.new ⟨36, 30⟩ SoldierType.INFANTRY Team.TEAM_B,
       Soldier.new ⟨35, 32⟩ SoldierType.ARCHER Team.TEAM_A]
      200 200 with
    basesTeamA := [Base.new ⟨30, 30⟩ Team.TEAM_A],
    basesTeamB := [Base.new ⟨33, 30⟩ Team.TEAM_B] }

/-- The obstacle-free world with two Team A Infantry at (5, 10) and (6, 9), in
the corner of the 7x7 box around the Team A base at (8, 12) where the scan of
`findSpawnPosition` starts. -/
def spawnCrowdWorld : GameModel :=
  worldOn openMap
    [Soldier.new ⟨5, 10⟩ SoldierType.INFANTRY Team.TEAM_A,
     Soldier.new ⟨6, 9⟩ SoldierType.INFANTRY Team.TEAM_A]
    200 200

/-! # Properties -/

/-! ## Units: `takeDamage` and `setHp` -/

theorem cabs_nonneg (a : Int) : 0 ≤ cabs a := by
  unfold cabs
  split <;> omega

theorem Soldier.new_hp_eq_maxHp (pos : Position) (type : SoldierType) (team : Team) :
    (Soldier.new pos type team).hp = (Soldier.new pos type team).maxHp := by
  cases type <;> rfl

theorem Soldier.new_maxHp_pos (pos : Position) (type : SoldierType) (team : Team) :
    0 < (Soldier.new pos type team).maxHp := by
  cases type
  · exact (by decide : (0 : Int) < Archer.HP)
  · exact (by decide : (0 : Int) < Infantry.HP)
  · exact (by decide : (0 : Int) < Cavalry.HP)
  · exact (by decide : (0 : Int) < Caster.HP)
  · exact (by decide : (0 : Int) < Doctor.HP)

theorem Soldier.new_alive (pos : Position) (type : SoldierType) (team : Team) :
    (Soldier.new pos type team).alive = true := by
  cases type <;> rfl

theorem Soldier.new_type (pos : Position) (type : SoldierType) (team : Team) :
    (Soldier.new pos type team).type = type := by
  cases type <;> rfl

theorem Soldier.new_team (pos : Position) (type : SoldierType) (team : Team) :
    (Soldier.new pos type team).team = team := by
  cases type <;> rfl

theorem Soldier.new_position (pos : Position) (type : SoldierType) (team : Team) :
    (Soldier.new pos type team).position = pos := by
  cases type <;> rfl

theorem wrapInt32_eq (x : Int) (hlo : -2147483648 ≤ x) (hhi : x ≤ 2147483647) :
    wrapInt32 x = x := by
  unfold wrapInt32
  omega

theorem Soldier.takeDamage_hp (s : Soldier) (amount : Int) :
    (s.takeDamage amount).hp = max 0 (s.hp - max 0 (wrapInt32 (amount - s.armor))) := by
  unfold Soldier.takeDamage
  dsimp only
  split <;> simp only <;> omega

theorem Soldier.takeDamage_alive (s : Soldier) (amount : Int) :
    (s.takeDamage amount).alive =
      (if s.hp - max 0 (wrapInt32 (amount - s.armor)) ≤ 0 then false else s.alive) := by
  unfold Soldier.takeDamage
  dsimp only
  split <;> rfl

theorem Soldier.takeDamage_maxHp (s : Soldier) (amount : Int) :
    (s.takeDamage amount).maxHp = s.maxHp := by
  unfold Soldier.takeDamage
  dsimp only
  split <;> rfl

theorem Soldier.setHp_hp (s : Soldier) (value : Int) :
    (s.setHp value).hp = max 0 (min value s.maxHp) := by
  unfold Soldier.setHp
  dsimp only
  split <;> rfl

theorem Soldier.setHp_alive (s : Soldier) (value : Int) :
    (s.setHp value).alive = (if max 0 (min value s.maxHp) ≤ 0 then false else s.alive) := by
  unfold Soldier.setHp
  dsimp only
  split <;> rfl

theorem Soldier.setHp_maxHp (s : Soldier) (value : Int) :
    (s.setHp value).maxHp = s.maxHp := by
  unfold Soldier.setHp
  dsimp only
  split <;> rfl

/-- C2, amended: for every unit and every amount, `Soldier::takeDamage(amount)`
leaves hit points that are not negative, never increases the hit points of a
unit whose hit points are not negative, and clears the liveness flag exactly
when the new hit points are 0, leaving the flag as it was otherwise.  When the
difference `amount - armor` is representable in 32 bits, the new hit points are
`max(0, hp - max(0, amount - armor))`, and an amount at or below the armour (a
negative amount included) leaves them unchanged. -/
theorem Soldier.takeDamage_spec (s : Soldier) (amount : Int) :
    (s.takeDamage amount).alive = (if (s.takeDamage amount).hp = 0 then false else s.alive) ∧
    0 ≤ (s.takeDamage amount).hp ∧
    (0 ≤ s.hp → (s.takeDamage amount).hp ≤ s.hp) ∧
    (-2147483648 ≤ amount - s.armor → amount - s.armor ≤ 2147483647 →
      (s.takeDamage amount).hp = max 0 (s.hp - max 0 (amount - s.armor)) ∧
      (0 ≤ s.hp → amount ≤ s.armor → (s.takeDamage amount).hp = s.hp)) := by
  have hhp := Soldier.takeDamage_hp s amount
  have hal := Soldier.takeDamage_alive s amount
  refine ⟨?_, ?_, ?_, ?_⟩
  · rw [hal, hhp]
    by_cases h : s.hp - max 0 (wrapInt32 (amount - s.armor)) ≤ 0
    · have h0 : max 0 (s.hp - max 0 (wrapInt32 (amount - s.armor))) = 0 := by omega
      rw [if_pos h, if_pos h0]
    · have h0 : ¬ max 0 (s.hp - max 0 (wrapInt32 (amount - s.armor))) = 0 := by omega
      rw [if_neg h, if_neg h0]
  · rw [hhp]
    omega
  · intro h
    rw [hhp]
    omega
  · intro hlo hhi
    rw [wrapInt32_eq _ hlo hhi] at hhp
    refine ⟨hhp, ?_⟩
    intro h ha
    rw [hhp]
    omega

/-- The instance of C2 for a full-health Archer (armour 5): hit for 3 it keeps
its 100 hit points, hit for 30 it is left with 75. -/
theorem Soldier.takeDamage_spec_witness :
    ((Soldier.new ⟨0, 0⟩ SoldierType.ARCHER Team.TEAM_A).takeDamage 3).hp = 100 ∧
    ((Soldier.new ⟨0, 0⟩ SoldierType.ARCHER Team.TEAM_A).takeDamage 30).hp =
      max 0 ((Soldier.new ⟨0, 0⟩ SoldierType.ARCHER Team.TEAM_A).hp -
        max 0 (30 - (Soldier.new ⟨0, 0⟩ SoldierType.ARCHER Team.TEAM_A).armor)) ∧
    ((Soldier.new ⟨0, 0⟩ SoldierType.ARCHER Team.TEAM_A).takeDamage 30).hp = 75 :=
  ⟨((Soldier.takeDamage_spec (Soldier.new ⟨0, 0⟩ SoldierType.ARCHER Team.TEAM_A) 3).2.2.2
      (by decide) (by decide)).2 (by decide) (by decide),
   ((Soldier.takeDamage_spec (Soldier.new ⟨0, 0⟩ SoldierType.ARCHER Team.TEAM_A) 30).2.2.2
      (by decide) (by decide)).1,
   by decide⟩

/-- C2 as stated fails at the least `int`: for a full-health Archer (armour 5)
the amount -2147483648 is below the armour, and
`max(0, hp - max(0, amount - armor))` is 100, but `amount - armor` wraps around
to 2147483643 and `takeDamage` leaves the unit dead with 0 hit points. -/
theorem Soldier.takeDamage_wraps :
    (-2147483648 : Int) ≤ (Soldier.new ⟨0, 0⟩ SoldierType.ARCHER Team.TEAM_A).armor ∧
    wrapInt32 (-2147483648 - (Soldier.new ⟨0, 0⟩ SoldierType.ARCHER Team.TEAM_A).armor)
      = 2147483643 ∧
    ((Soldier.new ⟨0, 0⟩ SoldierType.ARCHER Team.TEAM_A).takeDamage (-2147483648)).hp = 0 ∧
    ((Soldier.new ⟨0, 0⟩ SoldierType.ARCHER Team.TEAM_A).takeDamage (-2147483648)).alive
      = false ∧
    max 0 ((Soldier.new ⟨0, 0⟩ SoldierType.ARCHER Team.TEAM_A).hp -
      max 0 (-2147483648 - (Soldier.new ⟨0, 0⟩ SoldierType.ARCHER Team.TEAM_A).armor)) = 100 := by
  decide

theorem Soldier.call_maxHp (s : Soldier) (c : SoldierCall) : (s.call c).maxHp = s.maxHp := by
  cases c with
  | takeDamage amount => exact Soldier.takeDamage_maxHp s amount
  | setHp value => exact Soldier.setHp_maxHp s value

theorem Soldier.call_hp_bounds (s : Soldier) (c : SoldierCall) (hmax : 0 ≤ s.maxHp)
    (hle : s.hp ≤ s.maxHp) : 0 ≤ (s.call c).hp ∧ (s.call c).hp ≤ (s.call c).maxHp := by
  cases c with
  | takeDamage amount =>
      show 0 ≤ (s.takeDamage amount).hp ∧ (s.takeDamage amount).hp ≤ (s.takeDamage amount).maxHp
      rw [Soldier.takeDamage_hp, Soldier.takeDamage_maxHp]
      omega
  | setHp value =>
      show 0 ≤ (s.setHp value).hp ∧ (s.setHp value).hp ≤ (s.setHp value).maxHp
      rw [Soldier.setHp_hp, Soldier.setHp_maxHp]
      omega

theorem Soldier.run_hp_bounds (calls : List SoldierCall) :
    ∀ s : Soldier, 0 ≤ s.hp → s.hp ≤ s.maxHp →
      0 ≤ (s.run calls).hp ∧ (s.run calls).hp ≤ (s.run calls).maxHp := by
  induction calls with
  | nil => intro s h0 h1; exact ⟨h0, h1⟩
  | cons c rest ih =>
      intro s h0 h1
      have hb := Soldier.call_hp_bounds s c (by omega) h1
      exact ih (s.call c) hb.1 hb.2

theorem Soldier.run_maxHp (calls : List SoldierCall) :
    ∀ s : Soldier, (s.run calls).maxHp = s.maxHp := by
  induction calls with
  | nil => intro s; rfl
  | cons c rest ih =>
      intro s
      show ((s.call c).run rest).maxHp = s.maxHp
      rw [ih, Soldier.call_maxHp]

/-- C3: for every unit kind and every finite sequence of `takeDamage` and
`setHp` calls with arbitrary integer arguments applied to a newly created unit,
the hit points satisfy `0 ≤ hp ≤ maxHp` afterwards (hence after every call, a
prefix of a sequence being a sequence); `maxHp` is still the value the
constructor gave. -/
theorem Soldier.hp_within_bounds (pos : Position) (type : SoldierType) (team : Team)
    (calls : List SoldierCall) :
    0 ≤ ((Soldier.new pos type team).run calls).hp ∧
    ((Soldier.new pos type team).run calls).hp ≤ ((Soldier.new pos type team).run calls).maxHp ∧
    ((Soldier.new pos type team).run calls).maxHp = (Soldier.new pos type team).maxHp := by
  have hpos := Soldier.new_maxHp_pos pos type team
  have heq := Soldier.new_hp_eq_maxHp pos type team
  have h := Soldier.run_hp_bounds calls (Soldier.new pos type team) (by omega) (by omega)
  exact ⟨h.1, h.2, Soldier.run_maxHp calls _⟩

/-- C4, as stated, fails: an Archer that is killed and then handed to `setHp 50`
has 50 hit points and is still not alive. -/
theorem Soldier.liveness_iff_counterexample :
    ¬ (((Soldier.new ⟨0, 0⟩ SoldierType.ARCHER Team.TEAM_A).run
          [SoldierCall.takeDamage 1000, SoldierCall.setHp 50]).alive = false ↔
       ((Soldier.new ⟨0, 0⟩ SoldierType.ARCHER Team.TEAM_A).run
          [SoldierCall.takeDamage 1000, SoldierCall.setHp 50]).hp = 0) := by
  decide

theorem Soldier.call_dead_of_zero (s : Soldier) (c : SoldierCall)
    (h : (s.call c).hp = 0) : (s.call c).alive = false := by
  cases c with
  | takeDamage amount =>
      have h1 : (s.takeDamage amount).hp = 0 := h
      show (s.takeDamage amount).alive = false
      rw [Soldier.takeDamage_hp] at h1
      rw [Soldier.takeDamage_alive, if_pos (by omega)]
  | setHp value =>
      have h1 : (s.setHp value).hp = 0 := h
      show (s.setHp value).alive = false
      rw [Soldier.setHp_hp] at h1
      rw [Soldier.setHp_alive, if_pos (by omega)]

theorem Soldier.run_dead_of_zero (calls : List SoldierCall) :
    ∀ s : Soldier, (s.hp = 0 → s.alive = false) →
      (s.run calls).hp = 0 → (s.run calls).alive = false := by
  induction calls with
  | nil => intro s h; exact h
  | cons c rest ih =>
      intro s _
      exact ih (s.call c) (Soldier.call_dead_of_zero s c)

theorem Soldier.run_liveness_iff (calls : List SoldierCall) :
    ∀ s : Soldier, 0 ≤ s.hp → (s.alive = false ↔ s.hp = 0) →
      s.healsOnlyAlive calls = true →
      0 ≤ (s.run calls).hp ∧ ((s.run calls).alive = false ↔ (s.run calls).hp = 0) := by
  induction calls with
  | nil => intro s h0 h _; exact ⟨h0, h⟩
  | cons c rest ih =>
      intro s h0 h hg
      cases c with
      | takeDamage amount =>
          have hg1 : (s.takeDamage amount).healsOnlyAlive rest = true := hg
          have hhp := Soldier.takeDamage_hp s amount
          have hal := Soldier.takeDamage_alive s amount
          refine ih (s.takeDamage amount) (by omega) ?_ hg1
          by_cases hk : s.hp - max 0 (wrapInt32 (amount - s.armor)) ≤ 0
          · rw [hal, if_pos hk, hhp]
            constructor
            · intro _; omega
            · intro _; rfl
          · rw [hal, if_neg hk, hhp]
            constructor
            · intro ha; have := h.mp ha; omega
            · intro hz; omega
      | setHp value =>
          have hg0 : (s.alive && (s.setHp value).healsOnlyAlive rest) = true := hg
          rw [Bool.and_eq_true] at hg0
          have hhp := Soldier.setHp_hp s value
          have hal := Soldier.setHp_alive s value
          refine ih (s.setHp value) (by omega) ?_ hg0.2
          by_cases hk : max 0 (min value s.maxHp) ≤ 0
          · rw [hal, if_pos hk, hhp]
            constructor
            · intro _; omega
            · intro _; rfl
          · rw [hal, if_neg hk, hhp]
            constructor
            · intro ha; rw [hg0.1] at ha; exact absurd ha (by decide)
            · intro hz; omega

/-- C4 (amended): for every unit kind and every finite sequence of `takeDamage`
and `setHp` calls applied to a newly created unit, `hp == 0` implies that the
liveness flag is false after the calls; and when every `setHp` of the sequence
is issued while the unit is alive, the liveness flag is false if and only if
`hp == 0`. -/
theorem Soldier.liveness_after_calls (pos : Position) (type : SoldierType) (team : Team)
    (calls : List SoldierCall) :
    (((Soldier.new pos type team).run calls).hp = 0 →
      ((Soldier.new pos type team).run calls).alive = false) ∧
    ((Soldier.new pos type team).healsOnlyAlive calls = true →
      (((Soldier.new pos type team).run calls).alive = false ↔
        ((Soldier.new pos type team).run calls).hp = 0)) := by
  have hpos := Soldier.new_maxHp_pos pos type team
  have heq := Soldier.new_hp_eq_maxHp pos type team
  have hal := Soldier.new_alive pos type team
  constructor
  · apply Soldier.run_dead_of_zero
    intro h0
    omega
  · intro hg
    refine (Soldier.run_liveness_iff calls (Soldier.new pos type team) (by omega) ?_ hg).2
    rw [hal]
    constructor
    · intro h; exact absurd h (by decide)
    · intro h; omega

/-- The instance of the amended C4 for an Infantry that is wounded, healed and
then killed. -/
theorem Soldier.liveness_after_calls_witness :
    (((Soldier.new ⟨3, 4⟩ SoldierType.INFANTRY Team.TEAM_B).run
        [SoldierCall.takeDamage 70, SoldierCall.setHp 160, SoldierCall.takeDamage 500]).alive
          = false ↔
      ((Soldier.new ⟨3, 4⟩ SoldierType.INFANTRY Team.TEAM_B).run
        [SoldierCall.takeDamage 70, SoldierCall.setHp 160, SoldierCall.takeDamage 500]).hp = 0) :=
  (Soldier.liveness_after_calls ⟨3, 4⟩ SoldierType.INFANTRY Team.TEAM_B
    [SoldierCall.takeDamage 70, SoldierCall.setHp 160, SoldierCall.takeDamage 500]).2 (by decide)

/-! ## Energy and the purchase entry point -/

theorem GameModel.spendEnergy_flag (m : GameModel) (team : Team) (c : Int) :
    (m.spendEnergy team c).2 = decide (m.getEnergy team ≥ c) := by
  unfold GameModel.spendEnergy GameModel.getEnergy
  by_cases ht : team = Team.TEAM_A
  · simp only [if_pos ht]
    by_cases h : m.energyTeamA ≥ c
    · simp [h]
    · simp [h]
  · simp only [if_neg ht]
    by_cases h : m.energyTeamB ≥ c
    · simp [h]
    · simp [h]

theorem GameModel.spendEnergy_fail (m : GameModel) (team : Team) (c : Int)
    (h : (m.spendEnergy team c).2 = false) : (m.spendEnergy team c).1 = m := by
  unfold GameModel.spendEnergy at h ⊢
  by_cases ht : team = Team.TEAM_A
  · simp only [if_pos ht] at h ⊢
    by_cases hc : m.energyTeamA ≥ c
    · simp [hc] at h
    · simp [hc]
  · simp only [if_neg ht] at h ⊢
    by_cases hc : m.energyTeamB ≥ c
    · simp [hc] at h
    · simp [hc]

theorem GameModel.spendEnergy_energy (m : GameModel) (team other : Team) (c : Int)
    (h : (m.spendEnergy team c).2 = true) :
    (m.spendEnergy team c).1.getEnergy other =
      if other = team then m.getEnergy team - c else m.getEnergy other := by
  unfold GameModel.spendEnergy at h ⊢
  unfold GameModel.getEnergy
  by_cases ht : team = Team.TEAM_A
  · simp only [if_pos ht] at h ⊢
    by_cases hc : m.energyTeamA ≥ c
    · subst ht
      cases other <;> simp [hc]
    · simp [hc] at h
  · simp only [if_neg ht] at h ⊢
    by_cases hc : m.energyTeamB ≥ c
    · have htb : team = Team.TEAM_B := by cases team <;> simp_all
      subst htb
      cases other <;> simp [hc]
    · simp [hc] at h

theorem GameModel.spendEnergy_rest (m : GameModel) (team : Team) (c : Int) :
    (m.spendEnergy team c).1.soldiers = m.soldiers ∧
    (m.spendEnergy team c).1.gameMap = m.gameMap ∧
    (m.spendEnergy team c).1.basesTeamA = m.basesTeamA ∧
    (m.spendEnergy team c).1.basesTeamB = m.basesTeamB := by
  unfold GameModel.spendEnergy
  by_cases ht : team = Team.TEAM_A
  · simp only [if_pos ht]
    by_cases hc : m.energyTeamA ≥ c <;> simp [hc]
  · simp only [if_neg ht]
    by_cases hc : m.energyTeamB ≥ c <;> simp [hc]

theorem GameModel.addEnergy_energy (m : GameModel) (team other : Team) (c : Int) :
    (m.addEnergy team c).getEnergy other =
      if other = team then m.getEnergy team + c else m.getEnergy other := by
  unfold GameModel.addEnergy GameModel.getEnergy
  cases team <;> cases other <;> simp

theorem GameModel.addEnergy_soldiers (m : GameModel) (team : Team) (c : Int) :
    (m.addEnergy team c).soldiers = m.soldiers := by
  unfold GameModel.addEnergy
  split <;> rfl

/-- C5: for every team, balance `b` and amount `c` (in particular for `b ≥ 0`
and `c ≥ 0`), `GameModel::spendEnergy(team, c)` returns true iff `b ≥ c`; on
true the balance of the team becomes `b - c`, which is not negative; on false
the balance is still `b`; the balance of the other team is unchanged in both
cases. -/
theorem GameModel.spendEnergy_spec (m : GameModel) (team : Team) (c : Int) :
    ((m.spendEnergy team c).2 = true ↔ m.getEnergy team ≥ c) ∧
    ((m.spendEnergy team c).2 = true →
      (m.spendEnergy team c).1.getEnergy team = m.getEnergy team - c ∧
      0 ≤ (m.spendEnergy team c).1.getEnergy team) ∧
    ((m.spendEnergy team c).2 = false →
      (m.spendEnergy team c).1.getEnergy team = m.getEnergy team) ∧
    (∀ other : Team, other ≠ team →
      (m.spendEnergy team c).1.getEnergy other = m.getEnergy other) := by
  have hflag := GameModel.spendEnergy_flag m team c
  refine ⟨?_, ?_, ?_, ?_⟩
  · rw [hflag, decide_eq_true_iff]
  · intro h
    have he := GameModel.spendEnergy_energy m team team c h
    rw [if_pos rfl] at he
    rw [hflag, decide_eq_true_iff] at h
    rw [he]
    exact ⟨rfl, by omega⟩
  · intro h
    rw [GameModel.spendEnergy_fail m team c h]
  · intro other hne
    cases hres : (m.spendEnergy team c).2 with
    | true =>
        have he := GameModel.spendEnergy_energy m team other c hres
        rw [if_neg hne] at he
        exact he
    | false => rw [GameModel.spendEnergy_fail m team c hres]

/-- The instance of C5 for Team A holding 100 energy and spending 80. -/
theorem GameModel.spendEnergy_spec_witness :
    (smallWorld.spendEnergy Team.TEAM_A 80).2 = true ∧
    (smallWorld.spendEnergy Team.TEAM_A 80).1.getEnergy Team.TEAM_A =
      smallWorld.getEnergy Team.TEAM_A - 80 :=
  ⟨(GameModel.spendEnergy_spec smallWorld Team.TEAM_A 80).1.mpr
      (by decide),
   ((GameModel.spendEnergy_spec smallWorld Team.TEAM_A 80).2.1
      (by decide)).1⟩

theorem GameController.purchaseSoldier_fail_eq (m : GameModel) (team : Team)
    (type : SoldierType) (basePos : Position)
    (h : (GameController.purchaseSoldier m team type basePos).2 = false) :
    (∀ t : Team,
      (GameController.purchaseSoldier m team type basePos).1.getEnergy t = m.getEnergy t) ∧
    (GameController.purchaseSoldier m team type basePos).1.soldiers = m.soldiers := by
  unfold GameController.purchaseSoldier at h ⊢
  dsimp only at h ⊢
  cases hs : (m.spendEnergy team (CombatSystem.getSoldierCost type)).2 with
  | false =>
      simp [hs]
  | true =>
      simp only [hs, Bool.not_true, Bool.false_eq_true, if_false] at h ⊢
      split at h
      · rename_i hw
        simp only [if_pos hw]
        constructor
        · intro t
          rw [GameModel.addEnergy_energy, GameModel.spendEnergy_energy m team t _ hs,
            GameModel.spendEnergy_energy m team team _ hs]
          by_cases ht : t = team
          · subst ht
            simp
          · simp [ht]
        · rw [GameModel.addEnergy_soldiers]
          exact (GameModel.spendEnergy_rest m team _).1
      · simp at h

/-- C6: for every world state, team, unit kind and base position, if
`GameController::purchaseSoldier` returns false then both teams' energy
balances and the unit list are exactly what they were before the call. -/
theorem GameController.purchaseSoldier_failure_no_change (m : GameModel) (team : Team)
    (type : SoldierType) (basePos : Position)
    (h : (GameController.purchaseSoldier m team type basePos).2 = false) :
    (GameController.purchaseSoldier m team type basePos).1.getEnergy Team.TEAM_A =
      m.getEnergy Team.TEAM_A ∧
    (GameController.purchaseSoldier m team type basePos).1.getEnergy Team.TEAM_B =
      m.getEnergy Team.TEAM_B ∧
    (GameController.purchaseSoldier m team type basePos).1.soldiers = m.soldiers := by
  have hh := GameController.purchaseSoldier_fail_eq m team type basePos h
  exact ⟨hh.1 Team.TEAM_A, hh.1 Team.TEAM_B, hh.2⟩

/-- The instance of C6 on both failing paths: Team B cannot afford an Archer
with 40 energy, and Team A finds no walkable cell on an all-Mountain map. -/
theorem GameController.purchaseSoldier_failure_no_change_witness :
    (GameController.purchaseSoldier smallWorld Team.TEAM_B SoldierType.ARCHER ⟨5, 5⟩).1.soldiers
      = smallWorld.soldiers ∧
    (GameController.purchaseSoldier blockedWorld Team.TEAM_A SoldierType.ARCHER ⟨5, 5⟩).1.getEnergy
      Team.TEAM_A = blockedWorld.getEnergy Team.TEAM_A :=
  ⟨(GameController.purchaseSoldier_failure_no_change smallWorld Team.TEAM_B SoldierType.ARCHER
      ⟨5, 5⟩ (by decide)).2.2,
   (GameController.purchaseSoldier_failure_no_change blockedWorld Team.TEAM_A SoldierType.ARCHER
      ⟨5, 5⟩ (by decide)).1⟩

theorem GameController.mem_possiblePositions (m : GameModel) (basePos p : Position)
    (h : p ∈ GameController.possiblePositions m basePos) :
    m.gameMap.isWalkable p = true ∧ AIController.isPositionOccupied m p none = false := by
  unfold GameController.possiblePositions at h
  rw [List.mem_flatMap] at h
  obtain ⟨dx, _, h⟩ := h
  rw [List.mem_filterMap] at h
  obtain ⟨dy, _, h⟩ := h
  dsimp only at h
  split at h
  · exact absurd h (by simp)
  · split at h
    · rename_i hw
      split at h
      · rename_i ho
        have hp : ({ x := basePos.x + dx, y := basePos.y + dy } : Position) = p :=
          Option.some.inj h
        rw [← hp]
        refine ⟨hw, ?_⟩
        simpa using ho
      · exact absurd h (by simp)
    · exact absurd h (by simp)

theorem GameController.foldl_best_mem (f : Position → Int) (l : List Position) :
    ∀ best : Position × Int,
      (l.foldl (fun (b : Position × Int) pos => if f pos < b.2 then (pos, f pos) else b) best).1
        = best.1 ∨
      (l.foldl (fun (b : Position × Int) pos => if f pos < b.2 then (pos, f pos) else b) best).1
        ∈ l := by
  induction l with
  | nil => intro best; exact Or.inl rfl
  | cons a rest ih =>
      intro best
      rw [List.foldl_cons]
      rcases ih (if f a < best.2 then (a, f a) else best) with h | h
      · by_cases hlt : f a < best.2
        · rw [if_pos hlt] at h ⊢
          exact Or.inr (by rw [h]; exact List.mem_cons_self _ _)
        · rw [if_neg hlt] at h ⊢
          exact Or.inl h
      · exact Or.inr (List.mem_cons_of_mem _ h)

theorem GameController.findSpawnPosition_cases (m : GameModel) (team : Team)
    (basePos : Position) :
    (GameController.possiblePositions m basePos = [] ∧
      GameController.findSpawnPosition m team basePos = basePos) ∨
    GameController.findSpawnPosition m team basePos ∈
      GameController.possiblePositions m basePos := by
  unfold GameController.findSpawnPosition
  cases hp : GameController.possiblePositions m basePos with
  | nil => exact Or.inl ⟨rfl, rfl⟩
  | cons first rest =>
      right
      dsimp only
      rcases GameController.foldl_best_mem
        (fun pos => AIController.getCrowdednessAtPosition m pos team 2) (first :: rest)
        (first, AIController.getCrowdednessAtPosition m first team 2) with h | h
      · rw [h]
        exact List.mem_cons_self _ _
      · exact h

theorem GameMap.isWalkable_of_marker (g : GameMap) (pos : Position)
    (h : g.getTerrainAt pos = TerrainType.BASE_A ∨ g.getTerrainAt pos = TerrainType.BASE_B) :
    g.isWalkable pos = true := by
  unfold GameMap.getTerrainAt at h
  unfold GameMap.isWalkable
  cases hv : g.isValidPosition pos with
  | false =>
      simp only [hv, Bool.not_false, if_true] at h
      rcases h with h | h <;> exact absurd h (by decide)
  | true =>
      simp only [hv, Bool.not_true, Bool.false_eq_true, if_false] at h ⊢
      rcases h with h | h <;> simp [h]

theorem GameModel.base_cell_walkable (m : GameModel) (team : Team) (basePos : Position)
    (hmark : m.BasesMarked) (hbase : ∃ b ∈ m.basesOf team, b.getPosition = basePos) :
    m.gameMap.isWalkable basePos = true := by
  obtain ⟨b, hb, hpos⟩ := hbase
  apply GameMap.isWalkable_of_marker
  unfold GameModel.basesOf at hb
  rw [← hpos]
  by_cases ht : team = Team.TEAM_A
  · rw [if_pos ht] at hb
    exact Or.inl (hmark.1 b hb)
  · rw [if_neg ht] at hb
    exact Or.inr (hmark.2 b hb)

theorem GameController.purchaseSoldier_eq (m : GameModel) (team : Team)
    (type : SoldierType) (basePos : Position) :
    GameController.purchaseSoldier m team type basePos =
      if m.getEnergy team ≥ CombatSystem.getSoldierCost type then
        if (m.spendEnergy team (CombatSystem.getSoldierCost type)).1.gameMap.isWalkable
            (GameController.findSpawnPosition
              (m.spendEnergy team (CombatSystem.getSoldierCost type)).1 team basePos) = true then
          ((m.spendEnergy team (CombatSystem.getSoldierCost type)).1.addSoldier
            (Soldier.new
              (GameController.findSpawnPosition
                (m.spendEnergy team (CombatSystem.getSoldierCost type)).1 team basePos)
              type team), true)
        else
          ((m.spendEnergy team (CombatSystem.getSoldierCost type)).1.addEnergy team
            (CombatSystem.getSoldierCost type), false)
      else (m, false) := by
  unfold GameController.purchaseSoldier
  dsimp only
  rw [GameModel.spendEnergy_flag]
  by_cases hc : m.getEnergy team ≥ CombatSystem.getSoldierCost type
  · simp only [hc, decide_True, Bool.not_true, Bool.false_eq_true, if_false, if_true]
    cases hw : (m.spendEnergy team (CombatSystem.getSoldierCost type)).1.gameMap.isWalkable
        (GameController.findSpawnPosition
          (m.spendEnergy team (CombatSystem.getSoldierCost type)).1 team basePos) <;> simp
  · simp only [hc, decide_False, Bool.not_false, if_true, if_false]

theorem GameModel.addSoldier_energy (m : GameModel) (s : Soldier) (t : Team) :
    (m.addSoldier s).getEnergy t = m.getEnergy t := rfl

/-- C7: for every world state in which the cells of the bases carry their
marker and `basePos` is the cell of one of the team's bases, and every unit
kind with cost `c`: with energy exactly `c`, `purchaseSoldier` returns true,
leaves the balance at 0 and appends exactly one unit of that kind and team
with `hp = maxHp` and liveness true.  For every world state: with energy
`c - 1` it returns false and the balance is still `c - 1`; and a successful
purchase lowers the buyer's balance by exactly `c`, leaves the other team's
balance unchanged and lengthens the unit list by exactly one. -/
theorem GameController.purchaseSoldier_exact_cost (m : GameModel) (team : Team)
    (type : SoldierType) (basePos : Position) :
    (m.BasesMarked → (∃ b ∈ m.basesOf team, b.getPosition = basePos) →
      m.getEnergy team = CombatSystem.getSoldierCost type →
      (GameController.purchaseSoldier m team type basePos).2 = true ∧
      (GameController.purchaseSoldier m team type basePos).1.getEnergy team = 0 ∧
      ∃ u : Soldier,
        (GameController.purchaseSoldier m team type basePos).1.soldiers = m.soldiers ++ [u] ∧
        u.type = type ∧ u.team = team ∧ u.hp = u.maxHp ∧ u.alive = true) ∧
    (m.getEnergy team = CombatSystem.getSoldierCost type - 1 →
      (GameController.purchaseSoldier m team type basePos).2 = false ∧
      (GameController.purchaseSoldier m team type basePos).1.getEnergy team =
        CombatSystem.getSoldierCost type - 1) ∧
    ((GameController.purchaseSoldier m team type basePos).2 = true →
      (GameController.purchaseSoldier m team type basePos).1.getEnergy team =
        m.getEnergy team - CombatSystem.getSoldierCost type ∧
      (∀ other : Team, other ≠ team →
        (GameController.purchaseSoldier m team type basePos).1.getEnergy other =
          m.getEnergy other) ∧
      (GameController.purchaseSoldier m team type basePos).1.soldiers.length =
        m.soldiers.length + 1) := by
  have heq := GameController.purchaseSoldier_eq m team type basePos
  have hrest := GameModel.spendEnergy_rest m team (CombatSystem.getSoldierCost type)
  refine ⟨?_, ?_, ?_⟩
  · intro hmark hbase he
    have hc : m.getEnergy team ≥ CombatSystem.getSoldierCost type := by omega
    have hs : (m.spendEnergy team (CombatSystem.getSoldierCost type)).2 = true := by
      rw [GameModel.spendEnergy_flag]
      exact decide_eq_true hc
    have hw : (m.spendEnergy team (CombatSystem.getSoldierCost type)).1.gameMap.isWalkable
        (GameController.findSpawnPosition
          (m.spendEnergy team (CombatSystem.getSoldierCost type)).1 team basePos) = true := by
      rcases GameController.findSpawnPosition_cases
        (m.spendEnergy team (CombatSystem.getSoldierCost type)).1 team basePos with h | h
      · rw [h.2, hrest.2.1]
        exact GameModel.base_cell_walkable m team basePos hmark hbase
      · exact (GameController.mem_possiblePositions _ _ _ h).1
    rw [if_pos hc, if_pos hw] at heq
    rw [heq]
    refine ⟨rfl, ?_,
      Soldier.new (GameController.findSpawnPosition
        (m.spendEnergy team (CombatSystem.getSoldierCost type)).1 team basePos) type team,
      ?_, Soldier.new_type _ _ _, Soldier.new_team _ _ _,
      Soldier.new_hp_eq_maxHp _ _ _, Soldier.new_alive _ _ _⟩
    · show (m.spendEnergy team (CombatSystem.getSoldierCost type)).1.getEnergy team = 0
      rw [GameModel.spendEnergy_energy m team team _ hs, if_pos rfl]
      omega
    · show (m.spendEnergy team (CombatSystem.getSoldierCost type)).1.soldiers ++ [_] = _
      rw [hrest.1]
  · intro he
    have hc : ¬ m.getEnergy team ≥ CombatSystem.getSoldierCost type := by omega
    rw [if_neg hc] at heq
    rw [heq]
    exact ⟨rfl, he⟩
  · intro hres
    by_cases hc : m.getEnergy team ≥ CombatSystem.getSoldierCost type
    · have hs : (m.spendEnergy team (CombatSystem.getSoldierCost type)).2 = true := by
        rw [GameModel.spendEnergy_flag]
        exact decide_eq_true hc
      rw [if_pos hc] at heq
      split at heq
      · rw [heq]
        refine ⟨?_, ?_, ?_⟩
        · show (m.spendEnergy team (CombatSystem.getSoldierCost type)).1.getEnergy team = _
          rw [GameModel.spendEnergy_energy m team team _ hs, if_pos rfl]
        · intro other hne
          show (m.spendEnergy team (CombatSystem.getSoldierCost type)).1.getEnergy other = _
          rw [GameModel.spendEnergy_energy m team other _ hs, if_neg hne]
        · show ((m.spendEnergy team (CombatSystem.getSoldierCost type)).1.soldiers ++ [_]).length
            = _
          rw [hrest.1, List.length_append]
          rfl
      · rw [heq] at hres
        exact absurd hres Bool.false_ne_true
    · rw [if_neg hc] at heq
      rw [heq] at hres
      exact absurd hres Bool.false_ne_true

/-- The instance of C7 for Team A buying an Archer (cost 80) at its base
(8, 12) on the obstacle-free map with exactly 80 energy. -/
theorem GameController.purchaseSoldier_exact_cost_witness :
    (GameController.purchaseSoldier (worldOn openMap [] 80 200) Team.TEAM_A SoldierType.ARCHER
      ⟨8, 12⟩).2 = true ∧
    (GameController.purchaseSoldier (worldOn openMap [] 80 200) Team.TEAM_A SoldierType.ARCHER
      ⟨8, 12⟩).1.getEnergy Team.TEAM_A = 0 :=
  ⟨((GameController.purchaseSoldier_exact_cost (worldOn openMap [] 80 200) Team.TEAM_A
      SoldierType.ARCHER ⟨8, 12⟩).1 ⟨by decide, by decide⟩
      ⟨Base.new ⟨8, 12⟩ Team.TEAM_A, by decide, rfl⟩ (by decide)).1,
   ((GameController.purchaseSoldier_exact_cost (worldOn openMap [] 80 200) Team.TEAM_A
      SoldierType.ARCHER ⟨8, 12⟩).1 ⟨by decide, by decide⟩
      ⟨Base.new ⟨8, 12⟩ Team.TEAM_A, by decide, rfl⟩ (by decide)).2.1⟩

theorem noStacking_singleton (a : Soldier) : NoStacking [a] := by
  intro i j s t hi hj hne _ _
  cases i with
  | zero =>
      cases j with
      | zero => exact absurd rfl hne
      | succ j => simp at hj
  | succ i => simp at hi

theorem not_noStacking_pair (a b : Soldier) (ha : a.alive = true) (hb : b.alive = true)
    (hp : a.position = b.position) : ¬ NoStacking [a, b] := by
  intro h
  exact h 0 1 a b rfl rfl (by decide) ha hb hp

theorem AIController.free_of_not_occupied (m : GameModel) (pos : Position)
    (h : AIController.isPositionOccupied m pos none = false) :
    ∀ (i : Nat) (s : Soldier), m.soldiers[i]? = some s → s.alive = true → s.position ≠ pos := by
  intro i s hi halive hpos
  unfold AIController.isPositionOccupied GameModel.getSoldiers at h
  rw [List.any_eq_false] at h
  have hx := h (i, s) (List.mk_mem_enum_iff_getElem?.mpr hi)
  apply hx
  simp [Soldier.isAlive, Soldier.getPosition, halive, hpos]

theorem noStacking_append_free (ss : List Soldier) (u : Soldier) (h : NoStacking ss)
    (hfree : ∀ (i : Nat) (s : Soldier), ss[i]? = some s → s.alive = true →
      s.position ≠ u.position) : NoStacking (ss ++ [u]) := by
  intro i j s t hi hj hne hs ht
  rw [List.getElem?_append] at hi hj
  by_cases hil : i < ss.length
  · rw [if_pos hil] at hi
    by_cases hjl : j < ss.length
    · rw [if_pos hjl] at hj
      exact h i j s t hi hj hne hs ht
    · rw [if_neg hjl] at hj
      have hju : t = u := by
        cases hk : j - ss.length with
        | zero => rw [hk] at hj; exact (Option.some.inj hj).symm
        | succ k => rw [hk] at hj; simp at hj
      rw [hju]
      exact hfree i s hi hs
  · rw [if_neg hil] at hi
    have hiu : s = u := by
      cases hk : i - ss.length with
      | zero => rw [hk] at hi; exact (Option.some.inj hi).symm
      | succ k => rw [hk] at hi; simp at hi
    by_cases hjl : j < ss.length
    · rw [if_pos hjl] at hj
      rw [hiu]
      exact fun heq => hfree j t hj ht heq.symm
    · rw [if_neg hjl] at hj
      have hi0 : i - ss.length = 0 := by
        cases hk : i - ss.length with
        | zero => rfl
        | succ k => rw [hk] at hi; simp at hi
      have hj0 : j - ss.length = 0 := by
        cases hk : j - ss.length with
        | zero => rfl
        | succ k => rw [hk] at hj; simp at hj
      exact absurd (by omega : i = j) hne

/-- The sibling path of the fallback: when the scan of `findSpawnPosition`
finds a candidate, a successful purchase preserves the no-stacking invariant. -/
theorem GameController.purchaseSoldier_noStacking_of_candidate (m : GameModel) (team : Team)
    (type : SoldierType) (basePos : Position) (hns : NoStacking m.soldiers)
    (hcand : GameController.possiblePositions
      (m.spendEnergy team (CombatSystem.getSoldierCost type)).1 basePos ≠ [])
    (hres : (GameController.purchaseSoldier m team type basePos).2 = true) :
    NoStacking (GameController.purchaseSoldier m team type basePos).1.soldiers := by
  have heq := GameController.purchaseSoldier_eq m team type basePos
  have hrest := GameModel.spendEnergy_rest m team (CombatSystem.getSoldierCost type)
  by_cases hc : m.getEnergy team ≥ CombatSystem.getSoldierCost type
  · rw [if_pos hc] at heq
    split at heq
    · rw [heq]
      show NoStacking ((m.spendEnergy team (CombatSystem.getSoldierCost type)).1.soldiers ++ [_])
      rcases GameController.findSpawnPosition_cases
        (m.spendEnergy team (CombatSystem.getSoldierCost type)).1 team basePos with h | h
      · exact absurd h.1 hcand
      · have hfree := AIController.free_of_not_occupied _ _
          (GameController.mem_possiblePositions _ _ _ h).2
        apply noStacking_append_free
        · rw [hrest.1]; exact hns
        · intro i s hi hs
          rw [Soldier.new_position]
          exact hfree i s hi hs
    · rw [heq] at hres
      exact absurd hres Bool.false_ne_true
  · rw [if_neg hc] at heq
    rw [heq] at hres
    exact absurd hres Bool.false_ne_true

/-- C8 evaluated on the failing input: on the map whose 48 cells around the
Team A base (8, 12) are Mountain, a first purchase puts an Archer on the base
cell (the fallback of `findSpawnPosition`), which satisfies the no-stacking
invariant; a second purchase succeeds and puts an Infantry on the same cell, so
two living units share a cell afterwards. -/
theorem GameController.purchaseSoldier_stacks_on_base_cell :
    (GameController.purchaseSoldier (worldOn enclosedMap [] 200 200) Team.TEAM_A
      SoldierType.ARCHER ⟨8, 12⟩).2 = true ∧
    NoStacking (GameController.purchaseSoldier (worldOn enclosedMap [] 200 200) Team.TEAM_A
      SoldierType.ARCHER ⟨8, 12⟩).1.soldiers ∧
    (GameController.purchaseSoldier
      (GameController.purchaseSoldier (worldOn enclosedMap [] 200 200) Team.TEAM_A
        SoldierType.ARCHER ⟨8, 12⟩).1 Team.TEAM_A SoldierType.INFANTRY ⟨8, 12⟩).2 = true ∧
    ¬ NoStacking (GameController.purchaseSoldier
      (GameController.purchaseSoldier (worldOn enclosedMap [] 200 200) Team.TEAM_A
        SoldierType.ARCHER ⟨8, 12⟩).1 Team.TEAM_A SoldierType.INFANTRY ⟨8, 12⟩).1.soldiers := by
  have h1 : (GameController.purchaseSoldier (worldOn enclosedMap [] 200 200) Team.TEAM_A
      SoldierType.ARCHER ⟨8, 12⟩).1.soldiers =
      [Soldier.new ⟨8, 12⟩ SoldierType.ARCHER Team.TEAM_A] := by decide
  have h2 : (GameController.purchaseSoldier
      (GameController.purchaseSoldier (worldOn enclosedMap [] 200 200) Team.TEAM_A
        SoldierType.ARCHER ⟨8, 12⟩).1 Team.TEAM_A SoldierType.INFANTRY ⟨8, 12⟩).1.soldiers =
      [Soldier.new ⟨8, 12⟩ SoldierType.ARCHER Team.TEAM_A,
       Soldier.new ⟨8, 12⟩ SoldierType.INFANTRY Team.TEAM_A] := by decide
  refine ⟨by decide, ?_, by decide, ?_⟩
  · rw [h1]
    exact noStacking_singleton _
  · rw [h2]
    exact not_noStacking_pair _ _ rfl rfl rfl

/-! ## Combat resolver: a single attack -/

theorem CombatSystem.nearOwnBase_iff (a : Soldier) (m : GameModel) :
    CombatSystem.nearOwnBase a m = true ↔
      ∃ b ∈ m.basesOf a.team, b.hp > 0 ∧ a.position.distanceTo b.position ≤ 6 := by
  unfold CombatSystem.nearOwnBase
  rw [List.any_eq_true]
  constructor
  · rintro ⟨b, hb, h⟩
    rw [Bool.and_eq_true, decide_eq_true_iff] at h
    refine ⟨b, hb, ?_, h.2⟩
    have h1 := h.1
    unfold Base.isAlive at h1
    exact of_decide_eq_true h1
  · rintro ⟨b, hb, h1, h2⟩
    refine ⟨b, hb, ?_⟩
    rw [Bool.and_eq_true, decide_eq_true_iff]
    refine ⟨?_, h2⟩
    unfold Base.isAlive
    exact decide_eq_true h1

theorem CombatSystem.applyBaseMultiplier_kind (pos : Position) (type : SoldierType)
    (team : Team) :
    CombatSystem.applyBaseMultiplier (Soldier.new pos type team).attack =
      Int.tdiv ((Soldier.new pos type team).attack * 12) 10 := by
  cases type
  · exact (by decide : CombatSystem.applyBaseMultiplier Archer.ATTACK
      = Int.tdiv (Archer.ATTACK * 12) 10)
  · exact (by decide : CombatSystem.applyBaseMultiplier Infantry.ATTACK
      = Int.tdiv (Infantry.ATTACK * 12) 10)
  · exact (by decide : CombatSystem.applyBaseMultiplier Cavalry.ATTACK
      = Int.tdiv (Cavalry.ATTACK * 12) 10)
  · exact (by decide : CombatSystem.applyBaseMultiplier Caster.ATTACK
      = Int.tdiv (Caster.ATTACK * 12) 10)
  · exact (by decide : CombatSystem.applyBaseMultiplier Doctor.ATTACK
      = Int.tdiv (Doctor.ATTACK * 12) 10)

theorem Soldier.new_attack_range (pos : Position) (type : SoldierType) (team : Team) :
    0 ≤ (Soldier.new pos type team).attack ∧ (Soldier.new pos type team).attack ≤ 70 ∧
    0 ≤ Int.tdiv ((Soldier.new pos type team).attack * 12) 10 ∧
    Int.tdiv ((Soldier.new pos type team).attack * 12) 10 ≤ 84 := by
  cases type
  · exact (by decide : (0 : Int) ≤ Archer.ATTACK ∧ Archer.ATTACK ≤ 70 ∧
      0 ≤ Int.tdiv (Archer.ATTACK * 12) 10 ∧ Int.tdiv (Archer.ATTACK * 12) 10 ≤ 84)
  · exact (by decide : (0 : Int) ≤ Infantry.ATTACK ∧ Infantry.ATTACK ≤ 70 ∧
      0 ≤ Int.tdiv (Infantry.ATTACK * 12) 10 ∧ Int.tdiv (Infantry.ATTACK * 12) 10 ≤ 84)
  · exact (by decide : (0 : Int) ≤ Cavalry.ATTACK ∧ Cavalry.ATTACK ≤ 70 ∧
      0 ≤ Int.tdiv (Cavalry.ATTACK * 12) 10 ∧ Int.tdiv (Cavalry.ATTACK * 12) 10 ≤ 84)
  · exact (by decide : (0 : Int) ≤ Caster.ATTACK ∧ Caster.ATTACK ≤ 70 ∧
      0 ≤ Int.tdiv (Caster.ATTACK * 12) 10 ∧ Int.tdiv (Caster.ATTACK * 12) 10 ≤ 84)
  · exact (by decide : (0 : Int) ≤ Doctor.ATTACK ∧ Doctor.ATTACK ≤ 70 ∧
      0 ≤ Int.tdiv (Doctor.ATTACK * 12) 10 ∧ Int.tdiv (Doctor.ATTACK * 12) 10 ≤ 84)

theorem CombatSystem.attackTarget_alive (a t : Soldier) (m : GameModel)
    (events : List GameEvent) (turn : Int) (ha : a.alive = true) (ht : t.alive = true) :
    (CombatSystem.attackTarget a t m events turn).1 =
      t.takeDamage (CombatSystem.attackDamage a m) ∧
    (CombatSystem.attackTarget a t m events turn).2.2 =
      !(t.takeDamage (CombatSystem.attackDamage a m)).alive := by
  unfold CombatSystem.attackTarget Soldier.isAlive
  simp [ha, ht]

/-- C1: for every living attacker `a` (carrying the attack value of its kind)
and living target `t` (whose armour is a non-negative `int`, as the armour of
every kind is), `CombatSystem::attackTarget` leaves
`t.hp' = max(0, t.hp - max(0, D - t.armor))`, where `D = trunc(a.attack * 1.2)`
when some living base of `a`'s team is within Manhattan distance 6 of `a` and
`D = a.attack` otherwise, and it returns true iff `t.hp' = 0`.  In particular
an Infantry without the bonus hitting a full-health Archer leaves it alive at
35 hit points and the call returns false. -/
theorem CombatSystem.attackTarget_spec :
    (∀ (a t : Soldier) (m : GameModel) (events : List GameEvent) (turn : Int),
      a.alive = true → t.alive = true →
      a.attack = (Soldier.new a.position a.type a.team).attack →
      (0 ≤ t.armor → t.armor ≤ 2147483647 →
        ((∃ b ∈ m.basesOf a.team, b.hp > 0 ∧ a.position.distanceTo b.position ≤ 6) →
          (CombatSystem.attackTarget a t m events turn).1.hp =
            max 0 (t.hp - max 0 (Int.tdiv (a.attack * 12) 10 - t.armor))) ∧
        ((¬ ∃ b ∈ m.basesOf a.team, b.hp > 0 ∧ a.position.distanceTo b.position ≤ 6) →
          (CombatSystem.attackTarget a t m events turn).1.hp =
            max 0 (t.hp - max 0 (a.attack - t.armor)))) ∧
      ((CombatSystem.attackTarget a t m events turn).2.2 = true ↔
        (CombatSystem.attackTarget a t m events turn).1.hp = 0)) ∧
    (∀ (pa pt : Position) (ta tt : Team) (m : GameModel) (events : List GameEvent) (turn : Int),
      (¬ ∃ b ∈ m.basesOf ta, b.hp > 0 ∧ pa.distanceTo b.position ≤ 6) →
      (CombatSystem.attackTarget (Soldier.new pa SoldierType.INFANTRY ta)
        (Soldier.new pt SoldierType.ARCHER tt) m events turn).1.hp = 35 ∧
      (CombatSystem.attackTarget (Soldier.new pa SoldierType.INFANTRY ta)
        (Soldier.new pt SoldierType.ARCHER tt) m events turn).1.alive = true ∧
      (CombatSystem.attackTarget (Soldier.new pa SoldierType.INFANTRY ta)
        (Soldier.new pt SoldierType.ARCHER tt) m events turn).2.2 = false) := by
  constructor
  · intro a t m events turn ha ht hs
    have hat := CombatSystem.attackTarget_alive a t m events turn ha ht
    have hiff := CombatSystem.nearOwnBase_iff a m
    have hkind := Soldier.new_attack_range a.position a.type a.team
    refine ⟨fun harm0 harm1 => ⟨?_, ?_⟩, ?_⟩
    · intro hnear
      rw [hat.1, Soldier.takeDamage_hp]
      unfold CombatSystem.attackDamage Soldier.getAttack
      rw [if_pos (hiff.mpr hnear), hs, CombatSystem.applyBaseMultiplier_kind,
        wrapInt32_eq _ (by omega) (by omega)]
    · intro hfar
      rw [hat.1, Soldier.takeDamage_hp]
      unfold CombatSystem.attackDamage Soldier.getAttack
      have hb : ¬ CombatSystem.nearOwnBase a m = true := fun h => hfar (hiff.mp h)
      rw [if_neg hb, wrapInt32_eq _ (by omega) (by omega)]
    · rw [hat.1, hat.2, Soldier.takeDamage_alive, Soldier.takeDamage_hp, ht]
      by_cases hk : t.hp - max 0 (wrapInt32 (CombatSystem.attackDamage a m - t.armor)) ≤ 0
      · rw [if_pos hk]
        constructor
        · intro _; omega
        · intro _; rfl
      · rw [if_neg hk]
        constructor
        · intro h; exact absurd h (by decide)
        · intro h; omega
  · intro pa pt ta tt m events turn hfar
    have hat := CombatSystem.attackTarget_alive (Soldier.new pa SoldierType.INFANTRY ta)
      (Soldier.new pt SoldierType.ARCHER tt) m events turn rfl rfl
    have hb : ¬ CombatSystem.nearOwnBase (Soldier.new pa SoldierType.INFANTRY ta) m = true :=
      fun h => hfar ((CombatSystem.nearOwnBase_iff _ m).mp h)
    have hd : CombatSystem.attackDamage (Soldier.new pa SoldierType.INFANTRY ta) m = 70 := by
      unfold CombatSystem.attackDamage
      rw [if_neg hb]
      rfl
    rw [hat.1, hat.2, hd]
    refine ⟨?_, ?_, ?_⟩
    · rw [Soldier.takeDamage_hp]
      rfl
    · rw [Soldier.takeDamage_alive]
      rfl
    · rw [Soldier.takeDamage_alive]
      rfl

/-- The instance of C1 for a Team A Cavalry next to its own base at (8, 12)
hitting a full-health Team B Infantry: the damage is 72 - 20 and the target
stays at 128 hit points. -/
theorem CombatSystem.attackTarget_spec_witness :
    (CombatSystem.attackTarget (Soldier.new ⟨9, 12⟩ SoldierType.CAVALRY Team.TEAM_A)
      (Soldier.new ⟨10, 12⟩ SoldierType.INFANTRY Team.TEAM_B)
      (worldOn openMap [] 200 200) [] 0).1.hp = 128 :=
  (((CombatSystem.attackTarget_spec.1 (Soldier.new ⟨9, 12⟩ SoldierType.CAVALRY Team.TEAM_A)
      (Soldier.new ⟨10, 12⟩ SoldierType.INFANTRY Team.TEAM_B)
      (worldOn openMap [] 200 200) [] 0 rfl rfl rfl).1 (by decide) (by decide)).1
    ⟨Base.new ⟨8, 12⟩ Team.TEAM_A, by decide, by decide, by decide⟩).trans (by decide)

/-! ## Combat resolver: energy accounting of `processCombat` -/

theorem foldl_preserves {σ α : Type} (P : σ → Prop) (f : σ → α → σ)
    (h : ∀ (s : σ) (x : α), P s → P (f s x)) (l : List α) :
    ∀ s : σ, P s → P (l.foldl f s) := by
  induction l with
  | nil => intro s hs; exact hs
  | cons x rest ih => intro s hs; exact ih (f s x) (h s x hs)

theorem sum_map_set (f : Soldier → Int) :
    ∀ (l : List Soldier) (j : Nat) (t u : Soldier), l[j]? = some t →
      ((l.set j u).map f).sum = (l.map f).sum + f u - f t := by
  intro l
  induction l with
  | nil => intro j t u h; simp at h
  | cons x rest ih =>
      intro j t u h
      cases j with
      | zero =>
          have hx : x = t := by simpa using h
          subst hx
          simp only [List.set_cons_zero, List.map_cons, List.sum_cons]
          omega
      | succ j =>
          have hj : rest[j]? = some t := by simpa using h
          have := ih j t u hj
          simp only [List.set_cons_succ, List.map_cons, List.sum_cons]
          omega

theorem CombatInv.of_sound (team : Team) (ss0 : List Soldier) (e0 : Int)
    (h : LivingUnitsSound ss0) : CombatInv team ss0 e0 ss0 e0 := by
  refine ⟨rfl, ?_, rfl⟩
  intro i s0 s h0 h1
  have hs : s0 = s := Option.some.inj (h0.symm.trans h1)
  subst hs
  refine ⟨rfl, rfl, fun ha => ha, fun ha => ?_⟩
  have hm := h s0 (List.mem_iff_getElem?.mpr ⟨i, h0⟩) ha
  exact ⟨hm.1, by omega⟩

theorem CombatInv.set_unit {team : Team} {ss0 ss : List Soldier} {e0 e e1 : Int} {j : Nat}
    {t u : Soldier} (hinv : CombatInv team ss0 e0 ss e) (hj : ss[j]? = some t)
    (hteam : u.team = t.team) (htype : u.type = t.type)
    (hrev : u.alive = true → t.alive = true)
    (hhp : u.alive = true → 0 < u.hp ∧ 0 < u.maxHp)
    (he : e1 = e + deadValue team u - deadValue team t) :
    CombatInv team ss0 e0 (ss.set j u) e1 := by
  obtain ⟨hlen, hpt, hsum⟩ := hinv
  refine ⟨by rw [List.length_set, hlen], ?_, ?_⟩
  · intro i s0 s h0 h1
    rw [List.getElem?_set] at h1
    by_cases hji : j = i
    · subst hji
      rw [if_pos rfl] at h1
      split at h1
      · have hu : u = s := Option.some.inj h1
        subst hu
        have ht := hpt j s0 t h0 hj
        exact ⟨hteam.trans ht.1, htype.trans ht.2.1, fun ha => ht.2.2.1 (hrev ha), hhp⟩
      · exact absurd h1 (by simp)
    · rw [if_neg hji] at h1
      exact hpt i s0 s h0 h1
  · rw [sum_map_set (deadValue team) ss j t u hj]
    omega

theorem deadValue_eq_of_same {team : Team} {t u : Soldier} (hteam : u.team = t.team)
    (htype : u.type = t.type) (halive : u.alive = t.alive) :
    deadValue team u = deadValue team t := by
  unfold deadValue
  rw [hteam, htype, halive]

theorem killRewards_of_tracks (team : Team) :
    ∀ (ss0 ss : List Soldier), ss.length = ss0.length →
      (∀ (i : Nat) (s0 s : Soldier), ss0[i]? = some s0 → ss[i]? = some s → UnitTracks s0 s) →
      (ss.map (deadValue team)).sum - (ss0.map (deadValue team)).sum =
        killRewardsEarned team ss0 ss := by
  intro ss0
  induction ss0 with
  | nil =>
      intro ss hlen _
      have : ss = [] := List.length_eq_zero.mp hlen
      subst this
      rfl
  | cons x0 rest0 ih =>
      intro ss hlen hpt
      cases ss with
      | nil => simp at hlen
      | cons x rest =>
          have hx := hpt 0 x0 x (by simp) (by simp)
          have hrest := ih rest (by simpa using hlen)
            (fun i s0 s h0 h1 => hpt (i + 1) s0 s (by simpa using h0) (by simpa using h1))
          unfold killRewardsEarned at hrest ⊢
          simp only [List.map_cons, List.sum_cons, List.zip_cons_cons]
          have hhead : deadValue team x - deadValue team x0 =
              (if x0.team ≠ team ∧ x0.alive = true ∧ x.alive = false then
                CombatSystem.killReward (CombatSystem.getSoldierCost x0.type) else 0) := by
            obtain ⟨h1, h2, h3, _⟩ := hx
            unfold deadValue
            rw [h1, h2]
            by_cases ht : x0.team ≠ team
            · cases hx0 : x0.alive <;> cases hxa : x.alive
              · simp [ht]
              · rw [hxa] at h3
                have := h3 rfl
                rw [hx0] at this
                exact absurd this (by decide)
              · simp [ht]
              · simp [ht]
            · simp [ht]
          omega

theorem CombatInv.energy {team : Team} {ss0 ss : List Soldier} {e0 e : Int}
    (hinv : CombatInv team ss0 e0 ss e) : e = e0 + killRewardsEarned team ss0 ss := by
  obtain ⟨hlen, hpt, hsum⟩ := hinv
  have := killRewards_of_tracks team ss0 ss hlen hpt
  omega

theorem CombatSystem.healAlly_eq (st : CombatSystem.CombatState) (d a : Nat)
    (doctor ally : Soldier) (hd : st.model.soldiers[d]? = some doctor)
    (ha : st.model.soldiers[a]? = some ally) :
    CombatSystem.healAlly st d a =
      if (ally.alive && decide (ally.team = doctor.team) && decide (a ≠ d) &&
          decide (ally.position.distanceTo doctor.position ≤ 2)) = true then
        (st.setSoldier a (ally.setHp (min ally.maxHp (ally.hp + 30)))).addHeal doctor.team
          (min ally.maxHp (ally.hp + 30) - ally.hp)
      else st := by
  unfold CombatSystem.healAlly
  rw [hd, ha]
  simp only [Soldier.isAlive, Soldier.getTeam, Soldier.getPosition, Soldier.getHp,
    Soldier.getMaxHp, Doctor.HEAL_RANGE, Doctor.HEAL_AMOUNT, Position.distanceTo]
  cases hal : ally.alive
  · simp
  · by_cases ht : ally.team = doctor.team
    · by_cases hne : a = d
      · simp [ht, hne]
      · by_cases hdist : cabs (ally.position.x - doctor.position.x) +
            cabs (ally.position.y - doctor.position.y) ≤ 2
        · simp [ht, hne, hdist]
        · simp [ht, hne, hdist]
    · simp [ht]

theorem CombatSystem.healAlly_none (st : CombatSystem.CombatState) (d a : Nat)
    (h : st.model.soldiers[d]? = none ∨ st.model.soldiers[a]? = none) :
    CombatSystem.healAlly st d a = st := by
  unfold CombatSystem.healAlly
  rcases h with h | h
  · rw [h]
  · rw [h]
    cases st.model.soldiers[d]? <;> rfl

theorem Soldier.setHp_heal (s : Soldier) (h0 : 0 < s.hp) (hmax : 0 < s.maxHp) :
    s.setHp (min s.maxHp (s.hp + 30)) = { s with hp := min s.maxHp (s.hp + 30) } := by
  unfold Soldier.setHp
  dsimp only
  have h1 : min (min s.maxHp (s.hp + 30)) s.maxHp = min s.maxHp (s.hp + 30) := by omega
  have h2 : max 0 (min s.maxHp (s.hp + 30)) = min s.maxHp (s.hp + 30) := by omega
  rw [h1, h2, if_neg (by omega)]

theorem CombatSystem.CombatState.addHeal_model (st : CombatSystem.CombatState) (team : Team)
    (amount : Int) : (st.addHeal team amount).model = st.model := by
  cases team <;> rfl

theorem CombatSystem.healAlly_inv (team : Team) (ss0 : List Soldier) (e0 : Int) (d : Nat)
    (st : CombatSystem.CombatState) (a : Nat)
    (hinv : CombatInv team ss0 e0 st.model.soldiers (st.model.getEnergy team)) :
    CombatInv team ss0 e0 (CombatSystem.healAlly st d a).model.soldiers
      ((CombatSystem.healAlly st d a).model.getEnergy team) := by
  cases hd : st.model.soldiers[d]? with
  | none => rw [CombatSystem.healAlly_none st d a (Or.inl hd)]; exact hinv
  | some doctor =>
      cases ha : st.model.soldiers[a]? with
      | none => rw [CombatSystem.healAlly_none st d a (Or.inr ha)]; exact hinv
      | some ally =>
          rw [CombatSystem.healAlly_eq st d a doctor ally hd ha]
          split
          · rename_i hc
            simp only [Bool.and_eq_true] at hc
            have halive : ally.alive = true := hc.1.1.1
            have hidx : a < ss0.length := by
              rw [← hinv.1]
              exact (List.getElem?_eq_some.mp ha).1
            obtain ⟨s0, hs0⟩ : ∃ s0, ss0[a]? = some s0 :=
              ⟨ss0[a], List.getElem?_eq_getElem hidx⟩
            have htr := hinv.2.1 a s0 ally hs0 ha
            have hpos := htr.2.2.2 halive
            have hset := Soldier.setHp_heal ally hpos.1 hpos.2
            rw [CombatSystem.CombatState.addHeal_model]
            show CombatInv team ss0 e0
              (st.model.soldiers.set a (ally.setHp (min ally.maxHp (ally.hp + 30))))
              (st.model.getEnergy team)
            refine CombatInv.set_unit hinv ha ?_ ?_ ?_ ?_ ?_
            · rw [hset]
            · rw [hset]
            · intro _; exact halive
            · intro _
              rw [hset]
              exact ⟨by show 0 < min ally.maxHp (ally.hp + 30); omega, hpos.2⟩
            · have : deadValue team (ally.setHp (min ally.maxHp (ally.hp + 30))) =
                  deadValue team ally :=
                deadValue_eq_of_same (by rw [hset]) (by rw [hset]) (by rw [hset])
              omega
          · exact hinv

theorem Soldier.takeDamage_team (s : Soldier) (amount : Int) :
    (s.takeDamage amount).team = s.team := by
  unfold Soldier.takeDamage
  dsimp only
  split <;> rfl

theorem Soldier.takeDamage_type (s : Soldier) (amount : Int) :
    (s.takeDamage amount).type = s.type := by
  unfold Soldier.takeDamage
  dsimp only
  split <;> rfl

theorem CombatSystem.attackTarget_dead (a t : Soldier) (m : GameModel)
    (events : List GameEvent) (turn : Int) (h : a.alive = false ∨ t.alive = false) :
    CombatSystem.attackTarget a t m events turn = (t, events, false) := by
  unfold CombatSystem.attackTarget Soldier.isAlive
  rcases h with h | h <;> simp [h]

/-- What a call of `attackTarget` does to the target, whatever the attacker. -/
theorem CombatSystem.attackTarget_facts (a t : Soldier) (m : GameModel)
    (events : List GameEvent) (turn : Int) :
    (CombatSystem.attackTarget a t m events turn).1.team = t.team ∧
    (CombatSystem.attackTarget a t m events turn).1.type = t.type ∧
    ((CombatSystem.attackTarget a t m events turn).1.alive = true → t.alive = true) ∧
    ((t.alive = true → 0 < t.hp ∧ 0 < t.maxHp) →
      (CombatSystem.attackTarget a t m events turn).1.alive = true →
      0 < (CombatSystem.attackTarget a t m events turn).1.hp ∧
      0 < (CombatSystem.attackTarget a t m events turn).1.maxHp) ∧
    ((CombatSystem.attackTarget a t m events turn).2.2 = true →
      t.alive = true ∧ (CombatSystem.attackTarget a t m events turn).1.alive = false) ∧
    ((CombatSystem.attackTarget a t m events turn).2.2 = false →
      (CombatSystem.attackTarget a t m events turn).1.alive = t.alive) := by
  by_cases hboth : a.alive = true ∧ t.alive = true
  · have hat := CombatSystem.attackTarget_alive a t m events turn hboth.1 hboth.2
    rw [hat.1, hat.2]
    have hal := Soldier.takeDamage_alive t (CombatSystem.attackDamage a m)
    have hhp := Soldier.takeDamage_hp t (CombatSystem.attackDamage a m)
    refine ⟨Soldier.takeDamage_team _ _, Soldier.takeDamage_type _ _, fun _ => hboth.2, ?_, ?_, ?_⟩
    · intro hpos halive
      rw [Soldier.takeDamage_maxHp]
      refine ⟨?_, (hpos hboth.2).2⟩
      rw [hal] at halive
      by_cases hk : t.hp - max 0 (wrapInt32 (CombatSystem.attackDamage a m - t.armor)) ≤ 0
      · rw [if_pos hk] at halive
        exact absurd halive (by decide)
      · rw [hhp]
        omega
    · intro hk
      refine ⟨hboth.2, ?_⟩
      cases hc : (t.takeDamage (CombatSystem.attackDamage a m)).alive with
      | false => rfl
      | true => rw [hc] at hk; exact absurd hk (by decide)
    · intro hk
      rw [hboth.2]
      cases hc : (t.takeDamage (CombatSystem.attackDamage a m)).alive with
      | false => rw [hc] at hk; exact absurd hk (by decide)
      | true => rfl
  · have hd : a.alive = false ∨ t.alive = false := by
      cases ha : a.alive <;> cases ht : t.alive <;> simp_all
    rw [CombatSystem.attackTarget_dead a t m events turn hd]
    exact ⟨rfl, rfl, fun h => h, fun hpos h => hpos h, fun h => absurd h Bool.false_ne_true,
      fun _ => rfl⟩

theorem CombatSystem.strike_none (st : CombatSystem.CombatState) (i j : Nat) (turn : Int)
    (h : st.model.soldiers[i]? = none ∨ st.model.soldiers[j]? = none) :
    CombatSystem.strike st i j turn = st := by
  unfold CombatSystem.strike
  rcases h with h | h
  · rw [h]
  · rw [h]
    cases st.model.soldiers[i]? <;> rfl

theorem CombatSystem.strike_inv (team : Team) (ss0 : List Soldier) (e0 : Int) (turn : Int)
    (st : CombatSystem.CombatState) (i j : Nat)
    (hinv : CombatInv team ss0 e0 st.model.soldiers (st.model.getEnergy team))
    (henemy : ∀ attacker target : Soldier, st.model.soldiers[i]? = some attacker →
      st.model.soldiers[j]? = some target → attacker.team ≠ target.team) :
    CombatInv team ss0 e0 (CombatSystem.strike st i j turn).model.soldiers
      ((CombatSystem.strike st i j turn).model.getEnergy team) := by
  cases hi : st.model.soldiers[i]? with
  | none => rw [CombatSystem.strike_none st i j turn (Or.inl hi)]; exact hinv
  | some attacker =>
      cases hj : st.model.soldiers[j]? with
      | none => rw [CombatSystem.strike_none st i j turn (Or.inr hj)]; exact hinv
      | some target =>
          have hne := henemy attacker target hi hj
          have hidx : j < ss0.length := by
            rw [← hinv.1]
            exact (List.getElem?_eq_some.mp hj).1
          obtain ⟨s0, hs0⟩ : ∃ s0, ss0[j]? = some s0 :=
            ⟨ss0[j], List.getElem?_eq_getElem hidx⟩
          have htr := hinv.2.1 j s0 target hs0 hj
          obtain ⟨f1, f2, f3, f4, f5, f6⟩ :=
            CombatSystem.attackTarget_facts attacker target st.model st.events turn
          unfold CombatSystem.strike
          rw [hi, hj]
          dsimp only
          cases hk : (CombatSystem.attackTarget attacker target st.model st.events turn).2.2 with
          | false =>
              simp only [Bool.false_eq_true, if_false]
              show CombatInv team ss0 e0 (st.model.soldiers.set j
                (CombatSystem.attackTarget attacker target st.model st.events turn).1)
                (st.model.getEnergy team)
              refine CombatInv.set_unit hinv hj f1 f2 f3 (f4 htr.2.2.2) ?_
              have := @deadValue_eq_of_same team _ _ f1 f2 (f6 hk)
              omega
          | true =>
              simp only [if_true]
              rw [GameModel.addEnergy_soldiers, GameModel.addEnergy_energy]
              show CombatInv team ss0 e0 (st.model.soldiers.set j
                (CombatSystem.attackTarget attacker target st.model st.events turn).1) _
              refine CombatInv.set_unit hinv hj f1 f2 f3 (f4 htr.2.2.2) ?_
              have hdead := f5 hk
              have hdt : deadValue team target = 0 := by
                unfold deadValue
                rw [hdead.1]
                simp
              have hdu : deadValue team
                  (CombatSystem.attackTarget attacker target st.model st.events turn).1 =
                  if target.team ≠ team then
                    CombatSystem.killReward (CombatSystem.getSoldierCost target.type)
                  else 0 := by
                unfold deadValue
                rw [hdead.2, f1, f2]
                simp
              rw [hdt, hdu]
              unfold Soldier.getTeam Soldier.getType
              rw [f2]
              show (if team = attacker.team then st.model.getEnergy attacker.team + _
                else st.model.getEnergy team) = _
              by_cases hta : team = attacker.team
              · have htt : target.team ≠ team := by rw [hta]; exact fun h => hne h.symm
                rw [if_pos hta, if_pos htt, ← hta]
                omega
              · have htt : ¬ target.team ≠ team := by
                  intro h
                  cases hx : team <;> cases hy : attacker.team <;> cases hz : target.team <;>
                    simp_all
                rw [if_neg hta, if_neg htt]
                omega

theorem CombatSystem.findTarget_enemy (st : CombatSystem.CombatState) (i j : Nat)
    (h : CombatSystem.findTarget st i = some j) (attacker target : Soldier)
    (hi : st.model.soldiers[i]? = some attacker) (hj : st.model.soldiers[j]? = some target) :
    target.alive = true ∧ attacker.team ≠ target.team ∧
      attacker.canAttack target.position = true := by
  unfold CombatSystem.findTarget at h
  rw [hi] at h
  have hp := List.findIdx?_of_eq_some h
  rw [hj] at hp
  simp only [Bool.and_eq_true, decide_eq_true_iff] at hp
  exact ⟨hp.1.1, hp.1.2, hp.2⟩

theorem CombatSystem.casterHit_inv (team : Team) (ss0 : List Soldier) (e0 : Int) (turn : Int)
    (i main : Nat) (st : CombatSystem.CombatState) (j : Nat)
    (hinv : CombatInv team ss0 e0 st.model.soldiers (st.model.getEnergy team)) :
    CombatInv team ss0 e0 (CombatSystem.casterHit st i main j turn).model.soldiers
      ((CombatSystem.casterHit st i main j turn).model.getEnergy team) := by
  unfold CombatSystem.casterHit
  split
  · rename_i attacker mainTarget target hi _ hj
    dsimp only
    split
    · exact hinv
    · split
      · exact hinv
      · rename_i hteam
        split
        · apply CombatSystem.strike_inv team ss0 e0 turn st i j hinv
          intro a t ha ht
          have h1 : a = attacker := Option.some.inj (ha.symm.trans hi)
          have h2 : t = target := Option.some.inj (ht.symm.trans hj)
          rw [h1, h2]
          exact hteam
        · exact hinv
  · exact hinv

theorem CombatSystem.attackFrom_inv (team : Team) (ss0 : List Soldier) (e0 : Int) (turn : Int)
    (st : CombatSystem.CombatState) (i : Nat)
    (hinv : CombatInv team ss0 e0 st.model.soldiers (st.model.getEnergy team)) :
    CombatInv team ss0 e0 (CombatSystem.attackFrom turn st i).model.soldiers
      ((CombatSystem.attackFrom turn st i).model.getEnergy team) := by
  unfold CombatSystem.attackFrom
  split
  · rename_i attacker hi
    split
    · exact hinv
    · split
      · split
        · rename_i main _
          exact foldl_preserves
            (fun s : CombatSystem.CombatState =>
              CombatInv team ss0 e0 s.model.soldiers (s.model.getEnergy team))
            (fun acc j => CombatSystem.casterHit acc i main j turn)
            (fun s j hs => CombatSystem.casterHit_inv team ss0 e0 turn i main s j hs) _ st hinv
        · exact hinv
      · split
        · rename_i j hfind
          apply CombatSystem.strike_inv team ss0 e0 turn st i j hinv
          intro a t ha ht
          exact (CombatSystem.findTarget_enemy st i j hfind a t ha ht).2.1
        · exact hinv
  · exact hinv

theorem CombatSystem.healFrom_inv (team : Team) (ss0 : List Soldier) (e0 : Int)
    (st : CombatSystem.CombatState) (d : Nat)
    (hinv : CombatInv team ss0 e0 st.model.soldiers (st.model.getEnergy team)) :
    CombatInv team ss0 e0 (CombatSystem.healFrom st d).model.soldiers
      ((CombatSystem.healFrom st d).model.getEnergy team) := by
  unfold CombatSystem.healFrom
  split
  · split
    · exact hinv
    · split
      · exact hinv
      · exact foldl_preserves
          (fun s : CombatSystem.CombatState =>
            CombatInv team ss0 e0 s.model.soldiers (s.model.getEnergy team))
          (fun acc a => CombatSystem.healAlly acc d a)
          (fun s a hs => CombatSystem.healAlly_inv team ss0 e0 d s a hs) _ st hinv
  · exact hinv

theorem CombatSystem.healPhase_inv (team : Team) (ss0 : List Soldier) (e0 : Int)
    (st : CombatSystem.CombatState)
    (hinv : CombatInv team ss0 e0 st.model.soldiers (st.model.getEnergy team)) :
    CombatInv team ss0 e0 (CombatSystem.healPhase st).model.soldiers
      ((CombatSystem.healPhase st).model.getEnergy team) :=
  foldl_preserves
    (fun s : CombatSystem.CombatState =>
      CombatInv team ss0 e0 s.model.soldiers (s.model.getEnergy team))
    CombatSystem.healFrom (fun s d hs => CombatSystem.healFrom_inv team ss0 e0 s d hs) _ st hinv

theorem CombatSystem.attackPhase_inv (team : Team) (ss0 : List Soldier) (e0 : Int) (turn : Int)
    (st : CombatSystem.CombatState)
    (hinv : CombatInv team ss0 e0 st.model.soldiers (st.model.getEnergy team)) :
    CombatInv team ss0 e0 (CombatSystem.attackPhase turn st).model.soldiers
      ((CombatSystem.attackPhase turn st).model.getEnergy team) :=
  foldl_preserves
    (fun s : CombatSystem.CombatState =>
      CombatInv team ss0 e0 s.model.soldiers (s.model.getEnergy team))
    (CombatSystem.attackFrom turn)
    (fun s i hs => CombatSystem.attackFrom_inv team ss0 e0 turn s i hs) _ st hinv

/-- The siege phase touches neither the unit list, nor the energy balances,
nor the heal statistics. -/
theorem CombatSystem.siegeBase_frame (st : CombatSystem.CombatState) (i b : Nat) (turn : Int) :
    (CombatSystem.siegeBase st i b turn).model.soldiers = st.model.soldiers ∧
    (CombatSystem.siegeBase st i b turn).model.energyTeamA = st.model.energyTeamA ∧
    (CombatSystem.siegeBase st i b turn).model.energyTeamB = st.model.energyTeamB ∧
    (CombatSystem.siegeBase st i b turn).healStats0 = st.healStats0 ∧
    (CombatSystem.siegeBase st i b turn).healStats1 = st.healStats1 := by
  unfold CombatSystem.siegeBase
  split
  · split
    · split
      · unfold CombatSystem.CombatState.setBase
        split <;> exact ⟨rfl, rfl, rfl, rfl, rfl⟩
      · exact ⟨rfl, rfl, rfl, rfl, rfl⟩
    · exact ⟨rfl, rfl, rfl, rfl, rfl⟩
  · exact ⟨rfl, rfl, rfl, rfl, rfl⟩

theorem CombatSystem.siegePhase_frame (turn : Int) (st : CombatSystem.CombatState) :
    (CombatSystem.siegePhase turn st).model.soldiers = st.model.soldiers ∧
    (CombatSystem.siegePhase turn st).model.energyTeamA = st.model.energyTeamA ∧
    (CombatSystem.siegePhase turn st).model.energyTeamB = st.model.energyTeamB ∧
    (CombatSystem.siegePhase turn st).healStats0 = st.healStats0 ∧
    (CombatSystem.siegePhase turn st).healStats1 = st.healStats1 := by
  have hstep : ∀ (s : CombatSystem.CombatState) (i : Nat),
      (s.model.soldiers = st.model.soldiers ∧ s.model.energyTeamA = st.model.energyTeamA ∧
        s.model.energyTeamB = st.model.energyTeamB ∧ s.healStats0 = st.healStats0 ∧
        s.healStats1 = st.healStats1) →
      ((CombatSystem.siegeFrom turn s i).model.soldiers = st.model.soldiers ∧
        (CombatSystem.siegeFrom turn s i).model.energyTeamA = st.model.energyTeamA ∧
        (CombatSystem.siegeFrom turn s i).model.energyTeamB = st.model.energyTeamB ∧
        (CombatSystem.siegeFrom turn s i).healStats0 = st.healStats0 ∧
        (CombatSystem.siegeFrom turn s i).healStats1 = st.healStats1) := by
    intro s i hs
    unfold CombatSystem.siegeFrom
    split
    · split
      · exact hs
      · refine foldl_preserves
          (fun x : CombatSystem.CombatState =>
            x.model.soldiers = st.model.soldiers ∧ x.model.energyTeamA = st.model.energyTeamA ∧
              x.model.energyTeamB = st.model.energyTeamB ∧ x.healStats0 = st.healStats0 ∧
              x.healStats1 = st.healStats1)
          (fun acc b => CombatSystem.siegeBase acc i b turn) ?_ _ s hs
        intro x b hx
        obtain ⟨h1, h2, h3, h4, h5⟩ := CombatSystem.siegeBase_frame x i b turn
        exact ⟨h1.trans hx.1, h2.trans hx.2.1, h3.trans hx.2.2.1, h4.trans hx.2.2.2.1,
          h5.trans hx.2.2.2.2⟩
    · exact hs
  exact foldl_preserves
    (fun x : CombatSystem.CombatState =>
      x.model.soldiers = st.model.soldiers ∧ x.model.energyTeamA = st.model.energyTeamA ∧
        x.model.energyTeamB = st.model.energyTeamB ∧ x.healStats0 = st.healStats0 ∧
        x.healStats1 = st.healStats1)
    (CombatSystem.siegeFrom turn) hstep _ st ⟨rfl, rfl, rfl, rfl, rfl⟩

theorem CombatSystem.siegePhase_energy (turn : Int) (st : CombatSystem.CombatState)
    (team : Team) :
    (CombatSystem.siegePhase turn st).model.getEnergy team = st.model.getEnergy team := by
  obtain ⟨_, h2, h3, _, _⟩ := CombatSystem.siegePhase_frame turn st
  unfold GameModel.getEnergy
  rw [h2, h3]

/-- C9: for every world state whose living units have positive hit points, and
for each team, the energy of the team after `CombatSystem::processCombat`
equals its energy before plus the sum, over the enemy units that were alive
before the call and are dead after it, of `trunc(0.5 * cost)` of the kind of
the unit, which is 40 for Archer, Infantry and Doctor and 50 for Cavalry and
Caster; the unit list keeps its length, so that index `i` denotes the same
unit before and after. -/
theorem CombatSystem.processCombat_energy (m : GameModel) (events : List GameEvent)
    (turn : Int) (team : Team) (hsound : LivingUnitsSound m.soldiers) :
    (CombatSystem.processCombat m events turn).model.soldiers.length = m.soldiers.length ∧
    (CombatSystem.processCombat m events turn).model.getEnergy team =
      m.getEnergy team +
        killRewardsEarned team m.soldiers
          (CombatSystem.processCombat m events turn).model.soldiers ∧
    (∀ kind : SoldierType,
      CombatSystem.killReward (CombatSystem.getSoldierCost kind) =
        match kind with
        | SoldierType.ARCHER => 40
        | SoldierType.INFANTRY => 40
        | SoldierType.DOCTOR => 40
        | SoldierType.CAVALRY => 50
        | SoldierType.CASTER => 50) := by
  have h0 : CombatInv team m.soldiers (m.getEnergy team) m.soldiers (m.getEnergy team) :=
    CombatInv.of_sound team m.soldiers (m.getEnergy team) hsound
  have h1 := CombatSystem.healPhase_inv team m.soldiers (m.getEnergy team)
    (CombatSystem.CombatState.start m events) h0
  have h2 := CombatSystem.attackPhase_inv team m.soldiers (m.getEnergy team) turn _ h1
  have hfr := CombatSystem.siegePhase_frame turn
    (CombatSystem.attackPhase turn
      (CombatSystem.healPhase (CombatSystem.CombatState.start m events)))
  have hen := CombatSystem.siegePhase_energy turn
    (CombatSystem.attackPhase turn
      (CombatSystem.healPhase (CombatSystem.CombatState.start m events)))
    team
  unfold CombatSystem.processCombat
  rw [hfr.1, hen]
  refine ⟨h2.1, CombatInv.energy h2, ?_⟩
  intro kind
  cases kind <;> decide

/-- The instance of C9 for the skirmish in which a Team A Caster kills a
Team B Archer and a Team B Cavalry with one area attack: Team A earns 40 + 50. -/
theorem CombatSystem.processCombat_energy_witness :
    (CombatSystem.processCombat skirmishWorld [] 3).model.getEnergy Team.TEAM_A =
      skirmishWorld.getEnergy Team.TEAM_A + 90 :=
  (CombatSystem.processCombat_energy skirmishWorld [] 3 Team.TEAM_A (by decide)).2.1.trans
    (by decide)

/-! ## Combat resolver: the heal phase -/

theorem CombatSystem.heal_cond_iff (doctor ally : Soldier) (d a : Nat)
    (hal : doctor.alive = true) (hty : doctor.type = SoldierType.DOCTOR) :
    (ally.alive && decide (ally.team = doctor.team) && decide (a ≠ d) &&
        decide (ally.position.distanceTo doctor.position ≤ 2)) = true ↔
      (ally.alive = true ∧ isHealerOf doctor d ally a = true) := by
  unfold isHealerOf
  simp only [hal, hty, Bool.and_eq_true, decide_eq_true_iff, Bool.true_and, decide_True]
  constructor
  · rintro ⟨⟨⟨h1, h2⟩, h3⟩, h4⟩
    exact ⟨h1, ⟨⟨h2.symm, fun h => h3 h.symm⟩, h4⟩⟩
  · rintro ⟨h1, ⟨⟨h2, h3⟩, h4⟩⟩
    exact ⟨⟨⟨h1, h2.symm⟩, fun h => h3 h.symm⟩, h4⟩

theorem isHealerOf_self (doctor : Soldier) (d : Nat) (u : Soldier) :
    isHealerOf doctor d u d = false := by
  unfold isHealerOf
  simp

/-- The inner loop of the heal phase for a living Doctor at index `d`, run over
the first `A` indices: exactly the living units below `A` that the Doctor is a
healer of have received one heal. -/
theorem CombatSystem.healInner_soldiers (st : CombatSystem.CombatState) (d : Nat)
    (doctor : Soldier) (hd : st.model.soldiers[d]? = some doctor)
    (hal : doctor.alive = true) (hty : doctor.type = SoldierType.DOCTOR)
    (hs : ∀ (a : Nat) (s : Soldier), st.model.soldiers[a]? = some s → s.alive = true →
      0 < s.hp ∧ 0 < s.maxHp) :
    ∀ (A a : Nat),
      ((List.range A).foldl (fun acc a => CombatSystem.healAlly acc d a) st).model.soldiers[a]? =
        (st.model.soldiers[a]?).map (fun s =>
          if a < A ∧ s.alive = true ∧ isHealerOf doctor d s a = true then
            { s with hp := min s.maxHp (s.hp + 30) }
          else s) := by
  intro A
  induction A with
  | zero =>
      intro a
      simp
  | succ A ih =>
      intro a
      rw [List.range_succ, List.foldl_append]
      simp only [List.foldl_cons, List.foldl_nil]
      cases hA : st.model.soldiers[A]? with
      | none =>
          have hAA := ih A
          rw [hA] at hAA
          rw [CombatSystem.healAlly_none _ d A (Or.inr hAA), ih a]
          cases ha : st.model.soldiers[a]? with
          | none => rfl
          | some s =>
              have h1 : a < st.model.soldiers.length := (List.getElem?_eq_some.mp ha).1
              have h2 : st.model.soldiers.length ≤ A := by
                by_contra hc
                have : st.model.soldiers[A]? = some st.model.soldiers[A] :=
                  List.getElem?_eq_getElem (by omega)
                rw [hA] at this
                exact absurd this (by simp)
              have h3 : a < A := by omega
              have h4 : a < A + 1 := by omega
              simp only [Option.map_some', h3, h4, true_and]
      | some sA =>
          have hAA := ih A
          rw [hA] at hAA
          simp only [Option.map_some', lt_self_iff_false, false_and, if_false] at hAA
          have hdd := ih d
          rw [hd] at hdd
          simp only [Option.map_some', isHealerOf_self, Bool.false_eq_true, and_false,
            if_false] at hdd
          rw [CombatSystem.healAlly_eq _ d A doctor sA hdd hAA]
          have hiff := CombatSystem.heal_cond_iff doctor sA d A hal hty
          by_cases hc : (sA.alive && decide (sA.team = doctor.team) && decide (A ≠ d) &&
              decide (sA.position.distanceTo doctor.position ≤ 2)) = true
          · rw [if_pos hc, CombatSystem.CombatState.addHeal_model]
            show (((List.range A).foldl (fun acc a => CombatSystem.healAlly acc d a)
              st).model.soldiers.set A (sA.setHp (min sA.maxHp (sA.hp + 30))))[a]? = _
            rw [List.getElem?_set]
            by_cases hAa : A = a
            · subst hAa
              have hlt : A < ((List.range A).foldl (fun acc a => CombatSystem.healAlly acc d a)
                  st).model.soldiers.length := (List.getElem?_eq_some.mp hAA).1
              have hsA := hs A sA hA (hiff.mp hc).1
              rw [if_pos rfl, if_pos hlt, hA, Soldier.setHp_heal sA hsA.1 hsA.2]
              simp only [Option.map_some']
              rw [if_pos ⟨by omega, hiff.mp hc⟩]
            · rw [if_neg hAa, ih a]
              have hlt : a < A + 1 ↔ a < A := by omega
              simp only [hlt]
          · rw [if_neg hc]
            by_cases hAa : A = a
            · subst hAa
              rw [hAA, hA]
              simp only [Option.map_some']
              rw [if_neg (fun h => hc (hiff.mpr h.2))]
            · rw [ih a]
              have hlt : a < A + 1 ↔ a < A := by omega
              simp only [hlt]

theorem healedBy_alive (s : Soldier) (k : Nat) : (healedBy s k).alive = s.alive := by
  unfold healedBy
  split <;> rfl

theorem healedBy_type (s : Soldier) (k : Nat) : (healedBy s k).type = s.type := by
  unfold healedBy
  split <;> rfl

theorem healedBy_team (s : Soldier) (k : Nat) : (healedBy s k).team = s.team := by
  unfold healedBy
  split <;> rfl

theorem healedBy_position (s : Soldier) (k : Nat) : (healedBy s k).position = s.position := by
  unfold healedBy
  split <;> rfl

theorem healedBy_maxHp (s : Soldier) (k : Nat) : (healedBy s k).maxHp = s.maxHp := by
  unfold healedBy
  split <;> rfl

theorem healedBy_hp (s : Soldier) (k : Nat) (h : s.alive = true) :
    (healedBy s k).hp = min s.maxHp (s.hp + 30 * (k : Int)) := by
  unfold healedBy
  rw [if_pos h]

theorem healedBy_dead (s : Soldier) (k : Nat) (h : s.alive = false) : healedBy s k = s := by
  unfold healedBy
  rw [if_neg (by rw [h]; decide)]

theorem healedBy_zero (s : Soldier) (h : s.alive = true → s.hp ≤ s.maxHp) :
    healedBy s 0 = s := by
  unfold healedBy
  split
  · rename_i ha
    have hle := h ha
    have hm : min s.maxHp (s.hp + 30 * ((0 : Nat) : Int)) = s.hp := by
      simp only [Nat.cast_zero, mul_zero, add_zero]
      omega
    rw [hm]
  · rfl

theorem healedBy_succ (s : Soldier) (k : Nat) (h : s.alive = true) :
    { healedBy s k with hp := min (healedBy s k).maxHp ((healedBy s k).hp + 30) } =
      healedBy s (k + 1) := by
  have hm : min s.maxHp (min s.maxHp (s.hp + 30 * (k : Int)) + 30) =
      min s.maxHp (s.hp + 30 * ((k + 1 : Nat) : Int)) := by
    push_cast
    omega
  unfold healedBy
  simp only [if_pos h]
  rw [hm]

theorem isHealerOf_healedBy (doctor u : Soldier) (d i k1 k2 : Nat) :
    isHealerOf (healedBy doctor k1) d (healedBy u k2) i = isHealerOf doctor d u i := by
  unfold isHealerOf
  rw [healedBy_alive, healedBy_type, healedBy_team, healedBy_team, healedBy_position,
    healedBy_position]

theorem healersBelow_zero (soldiers : List Soldier) (u : Soldier) (i : Nat) :
    healersBelow soldiers 0 u i = 0 := rfl

theorem healersBelow_succ (soldiers : List Soldier) (D : Nat) (u : Soldier) (i : Nat) :
    healersBelow soldiers (D + 1) u i =
      healersBelow soldiers D u i +
        (match soldiers[D]? with
          | some doctor => if isHealerOf doctor D u i = true then 1 else 0
          | none => 0) := by
  unfold healersBelow
  rw [List.range_succ, List.filter_append, List.length_append]
  congr 1
  cases hD : soldiers[D]? with
  | none => simp [List.filter_cons, hD]
  | some doctor =>
      cases h : isHealerOf doctor D u i <;> simp [List.filter_cons, hD, h]

theorem CombatSystem.healFrom_skip (st : CombatSystem.CombatState) (d : Nat)
    (h : ∀ doctor : Soldier, st.model.soldiers[d]? = some doctor →
      ¬ (doctor.alive = true ∧ doctor.type = SoldierType.DOCTOR)) :
    CombatSystem.healFrom st d = st := by
  unfold CombatSystem.healFrom
  split
  · rename_i doctor hd
    have hn := h doctor hd
    unfold Soldier.isAlive Soldier.getType
    cases hal : doctor.alive
    · simp
    · by_cases hty : doctor.type = SoldierType.DOCTOR
      · exact absurd ⟨hal, hty⟩ hn
      · simp [hty]
  · rfl

theorem CombatSystem.healFrom_doctor (st : CombatSystem.CombatState) (d : Nat)
    (doctor : Soldier) (hd : st.model.soldiers[d]? = some doctor)
    (hal : doctor.alive = true) (hty : doctor.type = SoldierType.DOCTOR) :
    CombatSystem.healFrom st d =
      (List.range st.model.soldiers.length).foldl
        (fun acc a => CombatSystem.healAlly acc d a) st := by
  unfold CombatSystem.healFrom
  rw [hd]
  unfold Soldier.isAlive Soldier.getType
  simp [hal, hty]

theorem isHealerOf_false_of_not_doctor (doctor u : Soldier) (d i : Nat)
    (h : ¬ (doctor.alive = true ∧ doctor.type = SoldierType.DOCTOR)) :
    isHealerOf doctor d u i = false := by
  unfold isHealerOf
  cases hal : doctor.alive
  · simp
  · by_cases hty : doctor.type = SoldierType.DOCTOR
    · exact absurd ⟨hal, hty⟩ h
    · simp [hty]

/-- The heal phase run over the first `D` indices of the unit list: every
unit has received one heal from each of its healers below `D`. -/
theorem CombatSystem.healOuter_soldiers (st0 : CombatSystem.CombatState)
    (hsound : LivingUnitsSound st0.model.soldiers) :
    ∀ (D a : Nat),
      ((List.range D).foldl CombatSystem.healFrom st0).model.soldiers[a]? =
        (st0.model.soldiers[a]?).map (fun s0 =>
          healedBy s0 (healersBelow st0.model.soldiers D s0 a)) := by
  intro D
  induction D with
  | zero =>
      intro a
      simp only [List.range_zero, List.foldl_nil]
      cases ha : st0.model.soldiers[a]? with
      | none => rfl
      | some s0 =>
          simp only [Option.map_some']
          rw [healersBelow_zero, healedBy_zero s0
            (fun h => (hsound s0 (List.mem_iff_getElem?.mpr ⟨a, ha⟩) h).2)]
  | succ D ih =>
      intro a
      rw [List.range_succ, List.foldl_append]
      simp only [List.foldl_cons, List.foldl_nil]
      cases hD : st0.model.soldiers[D]? with
      | none =>
          have hDD := ih D
          rw [hD] at hDD
          have hskip := CombatSystem.healFrom_skip
            ((List.range D).foldl CombatSystem.healFrom st0) D
            (fun doctor hd => by rw [hDD] at hd; exact absurd hd (by simp))
          rw [hskip, ih a]
          cases ha : st0.model.soldiers[a]? with
          | none => rfl
          | some s0 =>
              simp only [Option.map_some']
              rw [healersBelow_succ, hD]
              rfl
      | some d0 =>
          have hDD := ih D
          rw [hD] at hDD
          simp only [Option.map_some'] at hDD
          by_cases hdoc : d0.alive = true ∧ d0.type = SoldierType.DOCTOR
          · have hs : ∀ (a : Nat) (s : Soldier),
                ((List.range D).foldl CombatSystem.healFrom st0).model.soldiers[a]? = some s →
                s.alive = true → 0 < s.hp ∧ 0 < s.maxHp := by
              intro b s hsome halive
              rw [ih b] at hsome
              cases h0 : st0.model.soldiers[b]? with
              | none => rw [h0] at hsome; exact absurd hsome (by simp)
              | some s0 =>
                  rw [h0] at hsome
                  simp only [Option.map_some'] at hsome
                  have hs0 : healedBy s0 (healersBelow st0.model.soldiers D s0 b) = s :=
                    Option.some.inj hsome
                  rw [← hs0] at halive ⊢
                  rw [healedBy_alive] at halive
                  have hsd := hsound s0 (List.mem_iff_getElem?.mpr ⟨b, h0⟩) halive
                  rw [healedBy_hp _ _ halive, healedBy_maxHp]
                  omega
            rw [CombatSystem.healFrom_doctor _ D _ hDD
                (by rw [healedBy_alive]; exact hdoc.1) (by rw [healedBy_type]; exact hdoc.2),
              CombatSystem.healInner_soldiers _ D _ hDD
                (by rw [healedBy_alive]; exact hdoc.1) (by rw [healedBy_type]; exact hdoc.2) hs,
              ih a]
            cases ha : st0.model.soldiers[a]? with
            | none => rfl
            | some s0 =>
                simp only [Option.map_some']
                have hlt : a <
                    ((List.range D).foldl CombatSystem.healFrom st0).model.soldiers.length := by
                  have hx := ih a
                  rw [ha] at hx
                  exact (List.getElem?_eq_some.mp hx).1
                have hcond : (a <
                    ((List.range D).foldl CombatSystem.healFrom st0).model.soldiers.length ∧
                    (healedBy s0 (healersBelow st0.model.soldiers D s0 a)).alive = true ∧
                    isHealerOf (healedBy d0 (healersBelow st0.model.soldiers D d0 D)) D
                      (healedBy s0 (healersBelow st0.model.soldiers D s0 a)) a = true) ↔
                    (s0.alive = true ∧ isHealerOf d0 D s0 a = true) := by
                  rw [isHealerOf_healedBy, healedBy_alive]
                  exact ⟨fun h => h.2, fun h => ⟨hlt, h⟩⟩
                rw [healersBelow_succ, hD]
                by_cases halive : s0.alive = true
                · by_cases hh : isHealerOf d0 D s0 a = true
                  · rw [if_pos (hcond.mpr ⟨halive, hh⟩)]
                    simp only [hh, if_true]
                    exact congrArg some (healedBy_succ s0 _ halive)
                  · rw [if_neg (fun h => hh (hcond.mp h).2)]
                    simp only [hh, if_false]
                    rfl
                · have hdead : s0.alive = false := by
                    cases hx : s0.alive
                    · rfl
                    · exact absurd hx halive
                  rw [if_neg (fun h => halive (hcond.mp h).1), healedBy_dead _ _ hdead,
                    healedBy_dead _ _ hdead]
          · have hskip := CombatSystem.healFrom_skip
              ((List.range D).foldl CombatSystem.healFrom st0) D
              (fun doctor hd => by
                rw [hDD] at hd
                have hx : healedBy d0 (healersBelow st0.model.soldiers D d0 D) = doctor :=
                  Option.some.inj hd
                rw [← hx, healedBy_alive, healedBy_type]
                exact hdoc)
            rw [hskip, ih a]
            cases ha : st0.model.soldiers[a]? with
            | none => rfl
            | some s0 =>
                simp only [Option.map_some']
                rw [healersBelow_succ, hD]
                simp only [isHealerOf_false_of_not_doctor d0 s0 D a hdoc, Bool.false_eq_true,
                  if_false]
                rfl

theorem HealInv.at_entry (team : Team) (ss0 : List Soldier) (h : LivingUnitsSound ss0) :
    HealInv team ss0 ss0 0 := by
  refine ⟨rfl, ?_, rfl⟩
  intro i s0 s h0 h1
  have hs : s0 = s := Option.some.inj (h0.symm.trans h1)
  subst hs
  refine ⟨rfl, rfl, fun ha => ha, fun ha => ?_⟩
  have hm := h s0 (List.mem_iff_getElem?.mpr ⟨i, h0⟩) ha
  exact ⟨hm.1, by omega⟩

theorem HealInv.update_unit {team : Team} {ss0 ss : List Soldier} {h h1 : Int} {j : Nat}
    {t u : Soldier} (hinv : HealInv team ss0 ss h) (hj : ss[j]? = some t)
    (hteam : u.team = t.team) (htype : u.type = t.type)
    (hrev : u.alive = true → t.alive = true)
    (hhp : u.alive = true → 0 < u.hp ∧ 0 < u.maxHp)
    (he : h1 = h + teamHp team u - teamHp team t) :
    HealInv team ss0 (ss.set j u) h1 := by
  obtain ⟨hlen, hpt, hsum⟩ := hinv
  refine ⟨by rw [List.length_set, hlen], ?_, ?_⟩
  · intro i s0 s h0 hs
    rw [List.getElem?_set] at hs
    by_cases hji : j = i
    · subst hji
      rw [if_pos rfl] at hs
      split at hs
      · have hu : u = s := Option.some.inj hs
        subst hu
        have ht := hpt j s0 t h0 hj
        exact ⟨hteam.trans ht.1, htype.trans ht.2.1, fun ha => ht.2.2.1 (hrev ha), hhp⟩
      · exact absurd hs (by simp)
    · rw [if_neg hji] at hs
      exact hpt i s0 s h0 hs
  · rw [sum_map_set (teamHp team) ss j t u hj]
    omega

theorem hpGained_of_tracks (team : Team) :
    ∀ (ss0 ss : List Soldier), ss.length = ss0.length →
      (∀ (i : Nat) (s0 s : Soldier), ss0[i]? = some s0 → ss[i]? = some s → UnitTracks s0 s) →
      (ss.map (teamHp team)).sum - (ss0.map (teamHp team)).sum = hpGained team ss0 ss := by
  intro ss0
  induction ss0 with
  | nil =>
      intro ss hlen _
      have : ss = [] := List.length_eq_zero.mp hlen
      subst this
      rfl
  | cons x0 rest0 ih =>
      intro ss hlen hpt
      cases ss with
      | nil => simp at hlen
      | cons x rest =>
          have hx := hpt 0 x0 x (by simp) (by simp)
          have hrest := ih rest (by simpa using hlen)
            (fun i s0 s h0 h1 => hpt (i + 1) s0 s (by simpa using h0) (by simpa using h1))
          unfold hpGained at hrest ⊢
          simp only [List.map_cons, List.sum_cons, List.zip_cons_cons]
          have hhead : teamHp team x - teamHp team x0 =
              (if x0.team = team then x.hp - x0.hp else 0) := by
            unfold teamHp
            rw [hx.1]
            split <;> omega
          omega

theorem CombatSystem.CombatState.addHeal_healOf (st : CombatSystem.CombatState)
    (t team : Team) (amount : Int) :
    (st.addHeal t amount).healOf team = st.healOf team + (if t = team then amount else 0) := by
  cases t <;> cases team <;>
    simp [CombatSystem.CombatState.addHeal, CombatSystem.CombatState.healOf]

theorem CombatSystem.healAlly_healInv (team : Team) (ss0 : List Soldier) (d : Nat)
    (st : CombatSystem.CombatState) (a : Nat)
    (hinv : HealInv team ss0 st.model.soldiers (st.healOf team)) :
    HealInv team ss0 (CombatSystem.healAlly st d a).model.soldiers
      ((CombatSystem.healAlly st d a).healOf team) := by
  cases hd : st.model.soldiers[d]? with
  | none => rw [CombatSystem.healAlly_none st d a (Or.inl hd)]; exact hinv
  | some doctor =>
      cases ha : st.model.soldiers[a]? with
      | none => rw [CombatSystem.healAlly_none st d a (Or.inr ha)]; exact hinv
      | some ally =>
          rw [CombatSystem.healAlly_eq st d a doctor ally hd ha]
          split
          · rename_i hc
            simp only [Bool.and_eq_true, decide_eq_true_iff] at hc
            have halive : ally.alive = true := hc.1.1.1
            have hsame : ally.team = doctor.team := hc.1.1.2
            have hidx : a < ss0.length := by
              rw [← hinv.1]
              exact (List.getElem?_eq_some.mp ha).1
            obtain ⟨s0, hs0⟩ : ∃ s0, ss0[a]? = some s0 :=
              ⟨ss0[a], List.getElem?_eq_getElem hidx⟩
            have htr := hinv.2.1 a s0 ally hs0 ha
            have hpos := htr.2.2.2 halive
            have hset := Soldier.setHp_heal ally hpos.1 hpos.2
            rw [CombatSystem.CombatState.addHeal_model,
              CombatSystem.CombatState.addHeal_healOf]
            show HealInv team ss0
              (st.model.soldiers.set a (ally.setHp (min ally.maxHp (ally.hp + 30))))
              (st.healOf team + _)
            refine HealInv.update_unit hinv ha ?_ ?_ ?_ ?_ ?_
            · rw [hset]
            · rw [hset]
            · intro _; exact halive
            · intro _
              rw [hset]
              exact ⟨by show 0 < min ally.maxHp (ally.hp + 30); omega, hpos.2⟩
            · rw [hset]
              unfold teamHp
              simp only [← hsame]
              split <;> omega
          · exact hinv

theorem CombatSystem.healPhase_healInv (team : Team) (ss0 : List Soldier)
    (st : CombatSystem.CombatState)
    (hinv : HealInv team ss0 st.model.soldiers (st.healOf team)) :
    HealInv team ss0 (CombatSystem.healPhase st).model.soldiers
      ((CombatSystem.healPhase st).healOf team) := by
  refine foldl_preserves
    (fun s : CombatSystem.CombatState => HealInv team ss0 s.model.soldiers (s.healOf team))
    CombatSystem.healFrom ?_ _ st hinv
  intro s d hs
  unfold CombatSystem.healFrom
  split
  · split
    · exact hs
    · split
      · exact hs
      · exact foldl_preserves
          (fun x : CombatSystem.CombatState =>
            HealInv team ss0 x.model.soldiers (x.healOf team))
          (fun acc a => CombatSystem.healAlly acc d a)
          (fun x a hx => CombatSystem.healAlly_healInv team ss0 d x a hx) _ s hs
  · exact hs

theorem CombatSystem.strike_healStats (st : CombatSystem.CombatState) (i j : Nat)
    (turn : Int) :
    (CombatSystem.strike st i j turn).healStats0 = st.healStats0 ∧
    (CombatSystem.strike st i j turn).healStats1 = st.healStats1 := by
  unfold CombatSystem.strike
  split
  · dsimp only
    split <;> exact ⟨rfl, rfl⟩
  · exact ⟨rfl, rfl⟩

theorem CombatSystem.attackPhase_healStats (turn : Int) (st : CombatSystem.CombatState) :
    (CombatSystem.attackPhase turn st).healStats0 = st.healStats0 ∧
    (CombatSystem.attackPhase turn st).healStats1 = st.healStats1 := by
  have hcaster : ∀ (i main : Nat) (s : CombatSystem.CombatState) (j : Nat),
      (s.healStats0 = st.healStats0 ∧ s.healStats1 = st.healStats1) →
      ((CombatSystem.casterHit s i main j turn).healStats0 = st.healStats0 ∧
        (CombatSystem.casterHit s i main j turn).healStats1 = st.healStats1) := by
    intro i main s j hs
    unfold CombatSystem.casterHit
    split
    · dsimp only
      split
      · exact hs
      · split
        · exact hs
        · split
          · have h := CombatSystem.strike_healStats s i j turn
            exact ⟨h.1.trans hs.1, h.2.trans hs.2⟩
          · exact hs
    · exact hs
  refine foldl_preserves
    (fun s : CombatSystem.CombatState =>
      s.healStats0 = st.healStats0 ∧ s.healStats1 = st.healStats1)
    (CombatSystem.attackFrom turn) ?_ _ st ⟨rfl, rfl⟩
  intro s i hs
  unfold CombatSystem.attackFrom
  split
  · split
    · exact hs
    · split
      · split
        · rename_i main _
          exact foldl_preserves
            (fun x : CombatSystem.CombatState =>
              x.healStats0 = st.healStats0 ∧ x.healStats1 = st.healStats1)
            (fun acc j => CombatSystem.casterHit acc i main j turn)
            (fun x j hx => hcaster i main x j hx) _ s hs
        · exact hs
      · split
        · rename_i j _
          have h := CombatSystem.strike_healStats s i j turn
          exact ⟨h.1.trans hs.1, h.2.trans hs.2⟩
        · exact hs
  · exact hs

theorem CombatSystem.processCombat_healOf (m : GameModel) (events : List GameEvent)
    (turn : Int) (team : Team) :
    (CombatSystem.processCombat m events turn).healOf team =
      (CombatSystem.healPhase (CombatSystem.CombatState.start m events)).healOf team := by
  unfold CombatSystem.processCombat
  obtain ⟨_, _, _, h4, h5⟩ := CombatSystem.siegePhase_frame turn
    (CombatSystem.attackPhase turn
      (CombatSystem.healPhase (CombatSystem.CombatState.start m events)))
  obtain ⟨h6, h7⟩ := CombatSystem.attackPhase_healStats turn
    (CombatSystem.healPhase (CombatSystem.CombatState.start m events))
  cases team
  · exact h4.trans h6
  · exact h5.trans h7

/-- C10: heal phase of `CombatSystem::processCombat`.  For every world state
whose living units have `0 < hp ≤ maxHp`: the unit list keeps its length; each
living unit `u` ends the phase with `hp = min(maxHp, hp_before + 30 * k(u))`
and is otherwise unchanged, where `k(u)` is the number of living Doctors of
`u`'s team, other than `u` itself, within Manhattan distance 2 of `u`; dead
units and units with `k(u) = 0` are unchanged; the heal total of a team equals
the sum over the units of that team of `hp after - hp before`, and it is the
total that `processCombat` returns.  In particular one Doctor next to an ally
at 150/180 leaves it at 180 and credits 30, and at 170/180 leaves it at 180 and
credits 10. -/
theorem CombatSystem.healPhase_spec :
    (∀ (m : GameModel) (events : List GameEvent), LivingUnitsSound m.soldiers →
      (CombatSystem.healPhase (CombatSystem.CombatState.start m events)).model.soldiers.length =
        m.soldiers.length ∧
      (∀ (i : Nat) (u : Soldier), m.soldiers[i]? = some u →
        (u.alive = true →
          (CombatSystem.healPhase (CombatSystem.CombatState.start m events)).model.soldiers[i]? =
            some { u with hp := min u.maxHp (u.hp + 30 * (healerCount m.soldiers u i : Int)) }) ∧
        (u.alive = false ∨ healerCount m.soldiers u i = 0 →
          (CombatSystem.healPhase (CombatSystem.CombatState.start m events)).model.soldiers[i]? =
            some u)) ∧
      (∀ team : Team,
        (CombatSystem.healPhase (CombatSystem.CombatState.start m events)).healOf team =
          hpGained team m.soldiers
            (CombatSystem.healPhase (CombatSystem.CombatState.start m events)).model.soldiers) ∧
      (∀ (team : Team) (turn : Int),
        (CombatSystem.processCombat m events turn).healOf team =
          (CombatSystem.healPhase (CombatSystem.CombatState.start m events)).healOf team)) ∧
    ((CombatSystem.healPhase (CombatSystem.CombatState.start (healWorld 150) [])).model.soldiers.map
        Soldier.hp = [180, 120] ∧
      (CombatSystem.healPhase (CombatSystem.CombatState.start (healWorld 150) [])).healOf
        Team.TEAM_A = 30 ∧
      (CombatSystem.healPhase (CombatSystem.CombatState.start (healWorld 170) [])).model.soldiers.map
        Soldier.hp = [180, 120] ∧
      (CombatSystem.healPhase (CombatSystem.CombatState.start (healWorld 170) [])).healOf
        Team.TEAM_A = 10) := by
  refine ⟨?_, by decide, by decide, by decide, by decide⟩
  intro m events hsound
  have hinv : ∀ team : Team, HealInv team m.soldiers
      (CombatSystem.healPhase (CombatSystem.CombatState.start m events)).model.soldiers
      ((CombatSystem.healPhase (CombatSystem.CombatState.start m events)).healOf team) := by
    intro team
    apply CombatSystem.healPhase_healInv team m.soldiers (CombatSystem.CombatState.start m events)
    have h0 := HealInv.at_entry team m.soldiers hsound
    cases team <;> exact h0
  have hpt : ∀ (i : Nat),
      (CombatSystem.healPhase (CombatSystem.CombatState.start m events)).model.soldiers[i]? =
        (m.soldiers[i]?).map (fun s0 => healedBy s0 (healerCount m.soldiers s0 i)) :=
    fun i => CombatSystem.healOuter_soldiers (CombatSystem.CombatState.start m events) hsound
      m.soldiers.length i
  refine ⟨(hinv Team.TEAM_A).1, ?_, ?_, ?_⟩
  · intro i u hu
    constructor
    · intro halive
      rw [hpt i, hu]
      simp only [Option.map_some']
      unfold healedBy
      rw [if_pos halive]
    · intro h
      rw [hpt i, hu]
      simp only [Option.map_some']
      rcases h with h | h
      · rw [healedBy_dead u _ h]
      · rw [h, healedBy_zero u
          (fun ha => (hsound u (List.mem_iff_getElem?.mpr ⟨i, hu⟩) ha).2)]
  · intro team
    obtain ⟨hlen, htr, hsum⟩ := hinv team
    have := hpGained_of_tracks team m.soldiers _ hlen htr
    omega
  · intro team turn
    exact CombatSystem.processCombat_healOf m events turn team

/-- The instance of C10 for the Infantry at 150/180 with one Doctor next to
it: the heal total of Team A is the number of hit points its units gained. -/
theorem CombatSystem.healPhase_spec_witness :
    (CombatSystem.healPhase (CombatSystem.CombatState.start (healWorld 150) [])).healOf
        Team.TEAM_A =
      hpGained Team.TEAM_A (healWorld 150).soldiers
        (CombatSystem.healPhase (CombatSystem.CombatState.start (healWorld 150) [])).model.soldiers :=
  (CombatSystem.healPhase_spec.1 (healWorld 150) [] (by decide)).2.2.1 Team.TEAM_A

/-! ## End conditions: `checkGameOver` -/

theorem GameController.logEvent_model (c : GameController) (event : GameEvent) :
    (c.logEvent event).model = c.model := by
  unfold GameController.logEvent
  split <;> rfl

theorem foldl_add_hp (bases : List Base) :
    ∀ acc : Int, bases.foldl (fun acc base => acc + base.getHp) acc =
      acc + (bases.map Base.hp).sum := by
  induction bases with
  | nil => intro acc; simp
  | cons b rest ih =>
      intro acc
      rw [List.foldl_cons, ih, List.map_cons, List.sum_cons]
      unfold Base.getHp
      omega

theorem totalBaseHp_eq_sum (bases : List Base) :
    totalBaseHp bases = (bases.map Base.hp).sum := by
  unfold totalBaseHp
  rw [foldl_add_hp]
  omega

theorem anyBaseAlive_iff (bases : List Base) :
    anyBaseAlive bases = true ↔ ∃ b ∈ bases, b.hp > 0 := by
  unfold anyBaseAlive
  rw [List.any_eq_true]
  constructor
  · rintro ⟨b, hb, h⟩
    exact ⟨b, hb, of_decide_eq_true h⟩
  · rintro ⟨b, hb, h⟩
    exact ⟨b, hb, decide_eq_true h⟩

/-- C14: for every world state with `currentTurn >= MAX_TURNS` (500),
`GameController::checkGameOver` sets the game-over flag and declares Team A the
winner iff the sum of Team A's base hp is strictly greater than the sum of
Team B's base hp, and Team B otherwise; in particular with totals 9000 and
9000 Team B is the winner. -/
theorem GameController.checkGameOver_at_turn_limit (c : GameController)
    (hturn : c.currentTurn ≥ 500) :
    c.checkGameOver.model.gameOver = true ∧
    (c.checkGameOver.model.winner = Team.TEAM_A ↔
      (c.model.basesTeamA.map Base.hp).sum > (c.model.basesTeamB.map Base.hp).sum) ∧
    (¬ (c.model.basesTeamA.map Base.hp).sum > (c.model.basesTeamB.map Base.hp).sum →
      c.checkGameOver.model.winner = Team.TEAM_B) ∧
    ((c.model.basesTeamA.map Base.hp).sum = 9000 →
      (c.model.basesTeamB.map Base.hp).sum = 9000 →
      c.checkGameOver.model.winner = Team.TEAM_B) := by
  have hA := totalBaseHp_eq_sum c.model.basesTeamA
  have hB := totalBaseHp_eq_sum c.model.basesTeamB
  have hlimit : c.currentTurn ≥ MAX_TURNS := hturn
  by_cases hgt : totalBaseHp c.model.basesTeamA > totalBaseHp c.model.basesTeamB
  · have hres : c.checkGameOver.model = c.model.setGameOver Team.TEAM_A := by
      unfold GameController.checkGameOver
      rw [if_pos hlimit]
      dsimp only
      rw [if_pos hgt, GameController.logEvent_model]
    rw [hres]
    refine ⟨rfl, ⟨fun _ => by omega, fun _ => rfl⟩, fun h => absurd (by omega) h, ?_⟩
    intro h1 h2
    omega
  · have hres : c.checkGameOver.model = c.model.setGameOver Team.TEAM_B := by
      unfold GameController.checkGameOver
      rw [if_pos hlimit]
      dsimp only
      rw [if_neg hgt, GameController.logEvent_model]
    rw [hres]
    refine ⟨rfl, ⟨fun h => ?_, fun h => absurd (by omega) hgt⟩, fun _ => rfl, fun _ _ => rfl⟩
    exact absurd (show Team.TEAM_B = Team.TEAM_A from h) (by decide)

/-- C15: for every world state with `currentTurn < MAX_TURNS`,
`GameController::checkGameOver`: if Team A has no living base, sets game over
with winner Team B (whether or not Team B has a living base); otherwise, if
Team B has no living base, sets game over with winner Team A; otherwise
leaves the world, hence the game-over flag and the winner, unchanged. -/
theorem GameController.checkGameOver_before_turn_limit (c : GameController)
    (hturn : c.currentTurn < 500) :
    ((¬ ∃ b ∈ c.model.basesTeamA, b.hp > 0) →
      c.checkGameOver.model.gameOver = true ∧ c.checkGameOver.model.winner = Team.TEAM_B) ∧
    ((∃ b ∈ c.model.basesTeamA, b.hp > 0) → (¬ ∃ b ∈ c.model.basesTeamB, b.hp > 0) →
      c.checkGameOver.model.gameOver = true ∧ c.checkGameOver.model.winner = Team.TEAM_A) ∧
    ((∃ b ∈ c.model.basesTeamA, b.hp > 0) → (∃ b ∈ c.model.basesTeamB, b.hp > 0) →
      c.checkGameOver = c) := by
  have hlimit : ¬ c.currentTurn ≥ MAX_TURNS := by
    show ¬ c.currentTurn ≥ 500
    omega
  have hA := anyBaseAlive_iff c.model.basesTeamA
  have hB := anyBaseAlive_iff c.model.basesTeamB
  refine ⟨?_, ?_, ?_⟩
  · intro hno
    have ha : anyBaseAlive c.model.basesTeamA = false := by
      cases hx : anyBaseAlive c.model.basesTeamA
      · rfl
      · exact absurd (hA.mp hx) hno
    have hres : c.checkGameOver.model = c.model.setGameOver Team.TEAM_B := by
      unfold GameController.checkGameOver
      rw [if_neg hlimit]
      dsimp only
      rw [ha]
      simp only [Bool.not_false, if_true]
      rw [GameController.logEvent_model]
    rw [hres]
    exact ⟨rfl, rfl⟩
  · intro hyes hno
    have ha : anyBaseAlive c.model.basesTeamA = true := hA.mpr hyes
    have hb : anyBaseAlive c.model.basesTeamB = false := by
      cases hx : anyBaseAlive c.model.basesTeamB
      · rfl
      · exact absurd (hB.mp hx) hno
    have hres : c.checkGameOver.model = c.model.setGameOver Team.TEAM_A := by
      unfold GameController.checkGameOver
      rw [if_neg hlimit]
      dsimp only
      rw [ha, hb]
      simp only [Bool.not_true, Bool.not_false, Bool.false_eq_true, if_false, if_true]
      rw [GameController.logEvent_model]
    rw [hres]
    exact ⟨rfl, rfl⟩
  · intro hyesA hyesB
    have ha : anyBaseAlive c.model.basesTeamA = true := hA.mpr hyesA
    have hb : anyBaseAlive c.model.basesTeamB = true := hB.mpr hyesB
    unfold GameController.checkGameOver
    rw [if_neg hlimit]
    dsimp only
    rw [ha, hb]
    simp

/-- The instance of C14 at turn 500 with three bases of 3000 hit points on
each side: the totals are 9000 and 9000 and Team B wins. -/
theorem GameController.checkGameOver_at_turn_limit_witness :
    (controllerOf (worldWithBaseHp 3000 3000) 500).checkGameOver.model.gameOver = true ∧
    (controllerOf (worldWithBaseHp 3000 3000) 500).checkGameOver.model.winner = Team.TEAM_B :=
  ⟨(GameController.checkGameOver_at_turn_limit (controllerOf (worldWithBaseHp 3000 3000) 500)
      (by decide)).1,
   (GameController.checkGameOver_at_turn_limit (controllerOf (worldWithBaseHp 3000 3000) 500)
      (by decide)).2.2.2 (by decide) (by decide)⟩

/-- The instance of C15 at turn 40 when both teams have lost all their bases:
Team B is declared the winner. -/
theorem GameController.checkGameOver_before_turn_limit_witness :
    (controllerOf (worldWithBaseHp 0 0) 40).checkGameOver.model.gameOver = true ∧
    (controllerOf (worldWithBaseHp 0 0) 40).checkGameOver.model.winner = Team.TEAM_B :=
  (GameController.checkGameOver_before_turn_limit (controllerOf (worldWithBaseHp 0 0) 40)
    (by decide)).1 (by decide)

/-! ## Action import: `parseAndExecuteAction` -/

theorem mem_aliveBaseIndices (teamBases : List Base) (k : Nat)
    (h : k ∈ aliveBaseIndices teamBases) :
    ∃ b, teamBases[k]? = some b ∧ b.hp > 0 := by
  unfold aliveBaseIndices at h
  rw [List.mem_filter] at h
  obtain ⟨_, h2⟩ := h
  cases hk : teamBases[k]? with
  | none => rw [hk] at h2; exact absurd h2 Bool.false_ne_true
  | some b =>
      rw [hk] at h2
      exact ⟨b, rfl, of_decide_eq_true h2⟩

theorem aliveBaseIndices_isEmpty_iff (teamBases : List Base) :
    (aliveBaseIndices teamBases).isEmpty = true ↔ ¬ ∃ b ∈ teamBases, b.hp > 0 := by
  rw [List.isEmpty_iff]
  constructor
  · rintro h ⟨b, hb, hpos⟩
    obtain ⟨k, hk⟩ := List.mem_iff_getElem?.mp hb
    have hmem : k ∈ aliveBaseIndices teamBases := by
      unfold aliveBaseIndices
      rw [List.mem_filter, List.mem_range, hk]
      exact ⟨(List.getElem?_eq_some.mp hk).1, decide_eq_true hpos⟩
    rw [h] at hmem
    exact absurd hmem (List.not_mem_nil _)
  · intro h
    apply List.eq_nil_iff_forall_not_mem.mpr
    intro k hk
    obtain ⟨b, hb, hpos⟩ := mem_aliveBaseIndices teamBases k hk
    exact h ⟨b, List.mem_iff_getElem?.mpr ⟨k, hb⟩, hpos⟩

theorem getD_mod_mem (l : List Nat) (rnd : Nat) (h : l.isEmpty = false) :
    l.getD (rnd % l.length) 0 ∈ l := by
  have hne : l ≠ [] := by
    intro hl
    rw [hl] at h
    exact absurd h (by decide)
  have hpos : 0 < l.length := List.length_pos.mpr hne
  have hlt : rnd % l.length < l.length := Nat.mod_lt _ hpos
  rw [List.getD_eq_getElem l 0 hlt]
  exact List.getElem_mem _

theorem baseIdUnusable_false (teamBases : List Base) (baseId : Int)
    (h : baseIdUnusable teamBases baseId = false) :
    ∃ b, teamBases[baseId.toNat]? = some b ∧ b.hp > 0 := by
  unfold baseIdUnusable at h
  rw [Bool.or_eq_false_iff, Bool.or_eq_false_iff] at h
  cases hk : teamBases[baseId.toNat]? with
  | none => rw [hk] at h; exact absurd h.2 (by decide)
  | some b =>
      rw [hk] at h
      refine ⟨b, rfl, ?_⟩
      have h2 := h.2
      unfold Base.isAlive at h2
      simpa using h2

theorem GameController.executeSpawn_invalid (c : GameController) (team : Team) (baseId : Nat)
    (unitType : Int) (h : soldierTypeOfInt unitType = none) :
    c.executeSpawn team baseId unitType = (c, false) := by
  unfold GameController.executeSpawn
  rw [h]

theorem soldierTypeOfInt_none (unitType : Int) (h : unitType < 0 ∨ 4 < unitType) :
    soldierTypeOfInt unitType = none := by
  unfold soldierTypeOfInt
  rw [if_neg (by omega), if_neg (by omega), if_neg (by omega), if_neg (by omega),
    if_neg (by omega)]

/-- C17: for every world state and team, `parseAndExecuteAction` applied to a
wait action (`action_type` 0, any `base_id` and `unit_type`) returns true and
leaves the whole controller state (energy, units, bases, terminal status)
unchanged; hence applying the same wait action twice yields the same state as
applying it once. -/
theorem GameController.parseAndExecuteAction_wait (c : GameController) (team : Team)
    (action : GameAction) (rnd rnd2 : Nat) (hwait : action.action_type = 0) :
    (c.parseAndExecuteAction team action rnd).2 = true ∧
    (c.parseAndExecuteAction team action rnd).1 = c ∧
    ((c.parseAndExecuteAction team action rnd).1.parseAndExecuteAction team action rnd2).1 =
      (c.parseAndExecuteAction team action rnd).1 := by
  have h : ∀ r : Nat, c.parseAndExecuteAction team action r = (c, true) := by
    intro r
    unfold GameController.parseAndExecuteAction
    dsimp only
    rw [if_pos hwait]
  rw [h rnd]
  exact ⟨rfl, rfl, by rw [h rnd2]⟩

/-- The instance of C17 for the wait action that `tryPurchaseOnce` emits. -/
theorem GameController.parseAndExecuteAction_wait_witness :
    ((controllerOf (worldOn openMap [] 200 200) 3).parseAndExecuteAction Team.TEAM_A
      { action_type := 0, base_id := -1, unit_type := -1 } 0).2 = true :=
  (GameController.parseAndExecuteAction_wait (controllerOf (worldOn openMap [] 200 200) 3)
    Team.TEAM_A { action_type := 0, base_id := -1, unit_type := -1 } 0 0 rfl).1

/-- C16, as stated, fails: when the team has no living base, a spawn action
with `unit_type` 7 returns true. -/
theorem GameController.parseAndExecuteAction_invalid_type_counterexample :
    ¬ ((controllerOf (worldWithBaseHp 0 5000) 3).parseAndExecuteAction Team.TEAM_A
      { action_type := 1, base_id := 0, unit_type := 7 } 0).2 = false := by
  decide

/-- C16 (amended): for every world state, team and spawn action
(`action_type` different from 0, any `base_id`) whose `unit_type` is not one
of 0..4, `parseAndExecuteAction` spawns no unit and leaves the whole state
unchanged; it returns false when the team has at least one living base, and
true when the team has no living base. -/
theorem GameController.parseAndExecuteAction_invalid_type (c : GameController) (team : Team)
    (action : GameAction) (rnd : Nat) (hspawn : action.action_type ≠ 0)
    (htype : action.unit_type < 0 ∨ 4 < action.unit_type) :
    (c.parseAndExecuteAction team action rnd).1 = c ∧
    ((∃ b ∈ c.teamBases team, b.hp > 0) →
      (c.parseAndExecuteAction team action rnd).2 = false) ∧
    ((¬ ∃ b ∈ c.teamBases team, b.hp > 0) →
      (c.parseAndExecuteAction team action rnd).2 = true) := by
  have hnone := soldierTypeOfInt_none action.unit_type htype
  have hempty := aliveBaseIndices_isEmpty_iff (c.teamBases team)
  cases hun : baseIdUnusable (c.teamBases team) action.base_id with
  | true =>
      cases he : (aliveBaseIndices (c.teamBases team)).isEmpty with
      | true =>
          have hres : c.parseAndExecuteAction team action rnd = (c, true) := by
            unfold GameController.parseAndExecuteAction
            dsimp only
            rw [if_neg hspawn, hun, if_pos rfl, he, if_pos rfl]
          rw [hres]
          exact ⟨rfl, fun h => absurd h (hempty.mp he), fun _ => rfl⟩
      | false =>
          have hres : c.parseAndExecuteAction team action rnd = (c, false) := by
            unfold GameController.parseAndExecuteAction
            dsimp only
            rw [if_neg hspawn, hun, if_pos rfl, he, if_neg Bool.false_ne_true,
              GameController.executeSpawn_invalid c team _ _ hnone]
          rw [hres]
          refine ⟨rfl, fun _ => rfl, fun h => ?_⟩
          have := hempty.mpr h
          rw [he] at this
          exact absurd this Bool.false_ne_true
  | false =>
      have hres : c.parseAndExecuteAction team action rnd = (c, false) := by
        unfold GameController.parseAndExecuteAction
        dsimp only
        rw [if_neg hspawn, hun, if_neg Bool.false_ne_true,
          GameController.executeSpawn_invalid c team _ _ hnone]
      rw [hres]
      refine ⟨rfl, fun _ => rfl, fun h => ?_⟩
      obtain ⟨b, hb, hpos⟩ := baseIdUnusable_false _ _ hun
      exact absurd ⟨b, List.mem_iff_getElem?.mpr ⟨_, hb⟩, hpos⟩ h

/-- The instance of the amended C16 at the start of a game: `unit_type` 7
with a dead `base_id` is refused. -/
theorem GameController.parseAndExecuteAction_invalid_type_witness :
    ((controllerOf (worldOn openMap [] 200 200) 3).parseAndExecuteAction Team.TEAM_A
      { action_type := 1, base_id := 9, unit_type := 7 } 2).2 = false :=
  (GameController.parseAndExecuteAction_invalid_type (controllerOf (worldOn openMap [] 200 200) 3)
    Team.TEAM_A { action_type := 1, base_id := 9, unit_type := 7 } 2 (by decide)
    (Or.inr (by decide))).2.1 ⟨Base.new ⟨8, 12⟩ Team.TEAM_A, by decide, by decide⟩

theorem GameController.executeSpawn_purchase (c : GameController) (team : Team) (k : Nat)
    (unitType : Int) (kind : SoldierType) (b : Base)
    (hkind : soldierTypeOfInt unitType = some kind) (hb : (c.teamBases team)[k]? = some b) :
    (c.executeSpawn team k unitType).1.model =
      (GameController.purchaseSoldier c.model team kind b.position).1 ∧
    (c.executeSpawn team k unitType).2 =
      (GameController.purchaseSoldier c.model team kind b.position).2 := by
  unfold GameController.executeSpawn
  rw [hkind, hb]
  dsimp only
  split
  · exact ⟨GameController.logEvent_model _ _, rfl⟩
  · exact ⟨rfl, rfl⟩

theorem baseIdUnusable_of_bad (teamBases : List Base) (baseId : Int)
    (h : baseId < 0 ∨ baseId ≥ (teamBases.length : Int) ∨
      ∃ b, teamBases[baseId.toNat]? = some b ∧ b.hp ≤ 0) :
    baseIdUnusable teamBases baseId = true := by
  unfold baseIdUnusable
  rcases h with h | h | ⟨b, hb, hdead⟩
  · simp [h]
  · simp [h]
  · rw [hb]
    have : b.isAlive = false := by
      unfold Base.isAlive
      exact decide_eq_false (by omega)
    simp [this]

theorem soldierTypeOfInt_some (unitType : Int) (h0 : 0 ≤ unitType) (h4 : unitType ≤ 4) :
    ∃ kind, soldierTypeOfInt unitType = some kind := by
  unfold soldierTypeOfInt
  by_cases h : unitType = 0
  · exact ⟨_, if_pos h⟩
  · rw [if_neg h]
    by_cases h1 : unitType = 1
    · exact ⟨_, if_pos h1⟩
    · rw [if_neg h1]
      by_cases h2 : unitType = 2
      · exact ⟨_, if_pos h2⟩
      · rw [if_neg h2]
        by_cases h3 : unitType = 3
        · exact ⟨_, if_pos h3⟩
        · rw [if_neg h3]
          exact ⟨_, if_pos (by omega)⟩

/-- C18: for every world state, team and spawn action with a valid
`unit_type` (0..4) whose `base_id` is out of range of the team's base list or
names a dead base: if the team has at least one living base,
`parseAndExecuteAction` performs `purchaseSoldier` for the kind of the action at
the position of a living base of that team, whatever the random draw, and
returns its result; if the team has no living base it returns true and changes
nothing. -/
theorem GameController.parseAndExecuteAction_base_fallback (c : GameController) (team : Team)
    (action : GameAction) (rnd : Nat) (hspawn : action.action_type ≠ 0)
    (h0 : 0 ≤ action.unit_type) (h4 : action.unit_type ≤ 4)
    (hbad : action.base_id < 0 ∨ action.base_id ≥ ((c.teamBases team).length : Int) ∨
      ∃ b, (c.teamBases team)[action.base_id.toNat]? = some b ∧ b.hp ≤ 0) :
    ((∃ b ∈ c.teamBases team, b.hp > 0) →
      ∃ kind, soldierTypeOfInt action.unit_type = some kind ∧
        ∃ b ∈ c.teamBases team, b.hp > 0 ∧
          (c.parseAndExecuteAction team action rnd).1.model =
            (GameController.purchaseSoldier c.model team kind b.position).1 ∧
          (c.parseAndExecuteAction team action rnd).2 =
            (GameController.purchaseSoldier c.model team kind b.position).2) ∧
    ((¬ ∃ b ∈ c.teamBases team, b.hp > 0) →
      c.parseAndExecuteAction team action rnd = (c, true)) := by
  have hun := baseIdUnusable_of_bad (c.teamBases team) action.base_id hbad
  have hempty := aliveBaseIndices_isEmpty_iff (c.teamBases team)
  obtain ⟨kind, hkind⟩ := soldierTypeOfInt_some action.unit_type h0 h4
  constructor
  · intro hliving
    have he : (aliveBaseIndices (c.teamBases team)).isEmpty = false := by
      cases hx : (aliveBaseIndices (c.teamBases team)).isEmpty
      · rfl
      · exact absurd hliving (hempty.mp hx)
    have hres : c.parseAndExecuteAction team action rnd =
        c.executeSpawn team
          ((aliveBaseIndices (c.teamBases team)).getD
            (rnd % (aliveBaseIndices (c.teamBases team)).length) 0) action.unit_type := by
      unfold GameController.parseAndExecuteAction
      dsimp only
      rw [if_neg hspawn, hun, if_pos rfl, he, if_neg Bool.false_ne_true]
    obtain ⟨b, hb, hpos⟩ := mem_aliveBaseIndices _ _
      (getD_mod_mem (aliveBaseIndices (c.teamBases team)) rnd he)
    have hp := GameController.executeSpawn_purchase c team _ action.unit_type kind b hkind hb
    rw [hres]
    exact ⟨kind, hkind, b, List.mem_iff_getElem?.mpr ⟨_, hb⟩, hpos, hp.1, hp.2⟩
  · intro hnone
    have he := hempty.mpr hnone
    unfold GameController.parseAndExecuteAction
    dsimp only
    rw [if_neg hspawn, hun, if_pos rfl, he, if_pos rfl]

/-- The instance of C18 for Team A with only its third base alive and an
action naming base 7: the purchase is made at a living base of Team A. -/
theorem GameController.parseAndExecuteAction_base_fallback_witness :
    ∃ kind, soldierTypeOfInt 2 = some kind ∧
      ∃ b ∈ (controllerOf lastBaseWorld 3).teamBases Team.TEAM_A, b.hp > 0 ∧
        ((controllerOf lastBaseWorld 3).parseAndExecuteAction Team.TEAM_A
          { action_type := 1, base_id := 7, unit_type := 2 } 5).1.model =
          (GameController.purchaseSoldier lastBaseWorld Team.TEAM_A kind b.position).1 ∧
        ((controllerOf lastBaseWorld 3).parseAndExecuteAction Team.TEAM_A
          { action_type := 1, base_id := 7, unit_type := 2 } 5).2 =
          (GameController.purchaseSoldier lastBaseWorld Team.TEAM_A kind b.position).2 :=
  (GameController.parseAndExecuteAction_base_fallback (controllerOf lastBaseWorld 3)
    Team.TEAM_A { action_type := 1, base_id := 7, unit_type := 2 } 5
    (by decide) (by decide) (by decide) (Or.inr (Or.inl (by decide)))).1
    ⟨Base.new ⟨55, 18⟩ Team.TEAM_A, by decide, by decide⟩

/-! ## Combat resolver: who is hit in the unit attack phase -/

theorem CombatSystem.strike_soldiers (st : CombatSystem.CombatState) (i j : Nat) (turn : Int)
    (a t : Soldier) (hi : st.model.soldiers[i]? = some a) (hj : st.model.soldiers[j]? = some t) :
    (CombatSystem.strike st i j turn).model.soldiers =
      st.model.soldiers.set j (CombatSystem.attackTarget a t st.model st.events turn).1 ∧
    (CombatSystem.strike st i j turn).model.basesTeamA = st.model.basesTeamA ∧
    (CombatSystem.strike st i j turn).model.basesTeamB = st.model.basesTeamB := by
  unfold CombatSystem.strike
  rw [hi, hj]
  dsimp only
  split
  · refine ⟨?_, ?_, ?_⟩
    · rw [GameModel.addEnergy_soldiers]; rfl
    · unfold GameModel.addEnergy; split <;> rfl
    · unfold GameModel.addEnergy; split <;> rfl
  · exact ⟨rfl, rfl, rfl⟩

theorem CombatSystem.findTarget_pred_iff (attacker target : Soldier) :
    (target.isAlive && decide (attacker.getTeam ≠ target.getTeam) &&
        attacker.canAttack target.getPosition) = true ↔ isEnemyInRange attacker target := by
  unfold isEnemyInRange Soldier.isAlive Soldier.getTeam Soldier.getPosition Soldier.canAttack
  simp only [Bool.and_eq_true, decide_eq_true_iff]
  constructor
  · rintro ⟨⟨h1, h2⟩, h3⟩
    exact ⟨h1, fun h => h2 h.symm, h3⟩
  · rintro ⟨h1, h2, h3⟩
    exact ⟨⟨h1, fun h => h2 h.symm⟩, h3⟩

theorem CombatSystem.findTarget_none_iff (st : CombatSystem.CombatState) (i : Nat)
    (attacker : Soldier) (hi : st.model.soldiers[i]? = some attacker) :
    CombatSystem.findTarget st i = none ↔
      ∀ (j : Nat) (t : Soldier), st.model.soldiers[j]? = some t → ¬ isEnemyInRange attacker t := by
  unfold CombatSystem.findTarget
  rw [hi]
  dsimp only
  rw [List.findIdx?_eq_none_iff]
  constructor
  · intro h j t hj hr
    have := h t (List.mem_iff_getElem?.mpr ⟨j, hj⟩)
    rw [(CombatSystem.findTarget_pred_iff attacker t).mpr hr] at this
    exact absurd this (by decide)
  · intro h t ht
    obtain ⟨j, hj⟩ := List.mem_iff_getElem?.mp ht
    cases hp : (t.isAlive && decide (attacker.getTeam ≠ t.getTeam) &&
        attacker.canAttack t.getPosition)
    · rfl
    · exact absurd ((CombatSystem.findTarget_pred_iff attacker t).mp hp) (h j t hj)

theorem CombatSystem.findTarget_first (st : CombatSystem.CombatState) (i j : Nat)
    (attacker t : Soldier) (hi : st.model.soldiers[i]? = some attacker)
    (hj : st.model.soldiers[j]? = some t) (hr : isEnemyInRange attacker t)
    (hfirst : ∀ (k : Nat) (u : Soldier), k < j → st.model.soldiers[k]? = some u →
      ¬ isEnemyInRange attacker u) :
    CombatSystem.findTarget st i = some j := by
  unfold CombatSystem.findTarget
  rw [hi]
  dsimp only
  rw [List.findIdx?_eq_some_iff_getElem]
  obtain ⟨hlt, hget⟩ := List.getElem?_eq_some.mp hj
  refine ⟨hlt, ?_, ?_⟩
  · rw [hget]
    exact (CombatSystem.findTarget_pred_iff attacker t).mpr hr
  · intro k hk hp
    exact hfirst k _ hk (List.getElem?_eq_getElem (Nat.lt_trans hk hlt))
      ((CombatSystem.findTarget_pred_iff attacker _).mp hp)

theorem CombatSystem.findTarget_some (st : CombatSystem.CombatState) (i j : Nat)
    (attacker : Soldier) (hi : st.model.soldiers[i]? = some attacker)
    (h : CombatSystem.findTarget st i = some j) :
    ∃ t, st.model.soldiers[j]? = some t ∧ isEnemyInRange attacker t ∧
      ∀ (k : Nat) (u : Soldier), k < j → st.model.soldiers[k]? = some u →
        ¬ isEnemyInRange attacker u := by
  unfold CombatSystem.findTarget at h
  rw [hi] at h
  dsimp only at h
  rw [List.findIdx?_eq_some_iff_getElem] at h
  obtain ⟨hlt, hp, hfirst⟩ := h
  refine ⟨st.model.soldiers[j], List.getElem?_eq_getElem hlt,
    (CombatSystem.findTarget_pred_iff attacker _).mp hp, ?_⟩
  intro k u hk hu hr
  obtain ⟨hklt, hkget⟩ := List.getElem?_eq_some.mp hu
  apply hfirst k hk
  rw [hkget]
  exact (CombatSystem.findTarget_pred_iff attacker u).mpr hr

theorem CombatSystem.attackFrom_single (turn : Int) (st : CombatSystem.CombatState) (i : Nat)
    (attacker : Soldier) (hi : st.model.soldiers[i]? = some attacker)
    (halive : attacker.alive = true) (hkind : attacker.type ≠ SoldierType.CASTER) :
    CombatSystem.attackFrom turn st i =
      match CombatSystem.findTarget st i with
      | some j => CombatSystem.strike st i j turn
      | none => st := by
  unfold CombatSystem.attackFrom
  rw [hi]
  unfold Soldier.isAlive Soldier.getType
  simp [halive, hkind]

/-- C11: in the unit attack phase, a living attacker whose kind is not Caster,
acting in the state `st`, damages at most one unit: if no unit is alive, on the
other team and within Chebyshev distance of its attack range, the unit list is
unchanged; otherwise exactly the first such unit in unit-list order receives
`takeDamage` with the damage of `attackTarget` and every other unit is
unchanged; in both cases every teammate is unchanged. -/
theorem CombatSystem.attackFrom_single_target (turn : Int) (st : CombatSystem.CombatState)
    (i : Nat) (attacker : Soldier) (hi : st.model.soldiers[i]? = some attacker)
    (halive : attacker.alive = true) (hkind : attacker.type ≠ SoldierType.CASTER) :
    ((∀ (j : Nat) (t : Soldier), st.model.soldiers[j]? = some t → ¬ isEnemyInRange attacker t) →
      (CombatSystem.attackFrom turn st i).model.soldiers = st.model.soldiers) ∧
    (∀ (j : Nat) (t : Soldier), st.model.soldiers[j]? = some t → isEnemyInRange attacker t →
      (∀ (k : Nat) (u : Soldier), k < j → st.model.soldiers[k]? = some u →
        ¬ isEnemyInRange attacker u) →
      (CombatSystem.attackFrom turn st i).model.soldiers =
        st.model.soldiers.set j (t.takeDamage (CombatSystem.attackDamage attacker st.model))) ∧
    (∀ (k : Nat) (u : Soldier), st.model.soldiers[k]? = some u → u.team = attacker.team →
      (CombatSystem.attackFrom turn st i).model.soldiers[k]? = some u) := by
  have heq := CombatSystem.attackFrom_single turn st i attacker hi halive hkind
  have hhit : ∀ (j : Nat) (t : Soldier), st.model.soldiers[j]? = some t →
      isEnemyInRange attacker t → CombatSystem.findTarget st i = some j →
      (CombatSystem.attackFrom turn st i).model.soldiers =
        st.model.soldiers.set j (t.takeDamage (CombatSystem.attackDamage attacker st.model)) := by
    intro j t hj hr hfind
    rw [heq, hfind]
    dsimp only
    rw [(CombatSystem.strike_soldiers st i j turn attacker t hi hj).1,
      (CombatSystem.attackTarget_alive attacker t st.model st.events turn halive hr.1).1]
  refine ⟨?_, ?_, ?_⟩
  · intro hnone
    rw [heq, (CombatSystem.findTarget_none_iff st i attacker hi).mpr hnone]
  · intro j t hj hr hfirst
    exact hhit j t hj hr (CombatSystem.findTarget_first st i j attacker t hi hj hr hfirst)
  · intro k u hk hteam
    cases hfind : CombatSystem.findTarget st i with
    | none =>
        rw [heq, hfind]
        exact hk
    | some j =>
        obtain ⟨t, hj, hr, _⟩ := CombatSystem.findTarget_some st i j attacker hi hfind
        rw [hhit j t hj hr hfind, List.getElem?_set]
        have hne : j ≠ k := by
          intro hjk
          rw [hjk, hk] at hj
          have : u = t := Option.some.inj hj
          rw [this] at hteam
          exact hr.2.1 hteam
        rw [if_neg hne]
        exact hk

/-- The instance of C11 for the Team A Infantry of the skirmish (index 3)
acting on the entry state: the first enemy in its range is the Team B Archer at
index 1, which is hit for 70 - 5. -/
theorem CombatSystem.attackFrom_single_target_witness :
    (CombatSystem.attackFrom 3 skirmishState 3).model.soldiers =
      skirmishState.model.soldiers.set 1
        (({ Soldier.new ⟨32, 30⟩ SoldierType.ARCHER Team.TEAM_B with hp := 40 }).takeDamage
          (CombatSystem.attackDamage (Soldier.new ⟨32, 31⟩ SoldierType.INFANTRY Team.TEAM_A)
            skirmishState.model)) :=
  (CombatSystem.attackFrom_single_target 3 skirmishState 3
    (Soldier.new ⟨32, 31⟩ SoldierType.INFANTRY Team.TEAM_A) rfl rfl (by decide)).2.1 1
    { Soldier.new ⟨32, 30⟩ SoldierType.ARCHER Team.TEAM_B with hp := 40 } rfl (by decide)
    (by
      intro k u hk hu
      match k, hk with
      | 0, _ =>
          have : u = Soldier.new ⟨30, 30⟩ SoldierType.CASTER Team.TEAM_A :=
            (Option.some.inj hu).symm
          rw [this]
          decide)

theorem Soldier.takeDamage_position (s : Soldier) (amount : Int) :
    (s.takeDamage amount).position = s.position := by
  unfold Soldier.takeDamage
  dsimp only
  split <;> rfl

theorem CombatSystem.attackDamage_congr (a : Soldier) (m1 m2 : GameModel)
    (hA : m1.basesTeamA = m2.basesTeamA) (hB : m1.basesTeamB = m2.basesTeamB) :
    CombatSystem.attackDamage a m1 = CombatSystem.attackDamage a m2 := by
  unfold CombatSystem.attackDamage CombatSystem.nearOwnBase GameModel.basesOf
  rw [hA, hB]

theorem CombatSystem.casterHit_eq (st : CombatSystem.CombatState) (i main j : Nat) (turn : Int)
    (attacker mainTarget target : Soldier) (hi : st.model.soldiers[i]? = some attacker)
    (hm : st.model.soldiers[main]? = some mainTarget)
    (hj : st.model.soldiers[j]? = some target) :
    CombatSystem.casterHit st i main j turn =
      if isInBlast attacker mainTarget.position target then CombatSystem.strike st i j turn
      else st := by
  unfold CombatSystem.casterHit
  rw [hi, hm, hj]
  unfold isInBlast Position.distanceTo
  simp only [Soldier.isAlive, Soldier.getTeam, Soldier.getPosition, Caster.AOE_RANGE]
  by_cases hal : target.alive = true
  · by_cases ht : attacker.team = target.team
    · have ht2 : ¬ target.team ≠ attacker.team := fun h => h ht.symm
      simp [hal, ht, ht2]
    · have ht2 : target.team ≠ attacker.team := fun h => ht h.symm
      by_cases hd : cabs (target.position.x - mainTarget.position.x) +
          cabs (target.position.y - mainTarget.position.y) ≤ 1
      · simp [hal, ht, ht2, hd]
      · simp [hal, ht, ht2, hd]
  · simp [hal]

theorem CombatSystem.casterHit_none (st : CombatSystem.CombatState) (i main j : Nat)
    (turn : Int) (hj : st.model.soldiers[j]? = none) :
    CombatSystem.casterHit st i main j turn = st := by
  unfold CombatSystem.casterHit
  rw [hj]
  cases st.model.soldiers[i]? <;> cases st.model.soldiers[main]? <;> rfl

/-- The area loop of a living Caster at index `i` with main target at index
`main`, run over the first `A` indices: exactly the units below `A` that are
in the blast have received the damage of the Caster, and the bases are
untouched. -/
theorem CombatSystem.casterLoop_soldiers (st : CombatSystem.CombatState) (i main : Nat)
    (turn : Int) (attacker mainTarget : Soldier)
    (hi : st.model.soldiers[i]? = some attacker) (halive : attacker.alive = true)
    (hm : st.model.soldiers[main]? = some mainTarget) :
    ∀ A : Nat,
      (∀ k : Nat,
        ((List.range A).foldl (fun acc j => CombatSystem.casterHit acc i main j turn)
            st).model.soldiers[k]? =
          (st.model.soldiers[k]?).map (fun u =>
            if k < A ∧ isInBlast attacker mainTarget.position u then
              u.takeDamage (CombatSystem.attackDamage attacker st.model)
            else u)) ∧
      ((List.range A).foldl (fun acc j => CombatSystem.casterHit acc i main j turn)
          st).model.basesTeamA = st.model.basesTeamA ∧
      ((List.range A).foldl (fun acc j => CombatSystem.casterHit acc i main j turn)
          st).model.basesTeamB = st.model.basesTeamB := by
  intro A
  induction A with
  | zero =>
      refine ⟨fun k => ?_, rfl, rfl⟩
      simp
  | succ A ih =>
      obtain ⟨ihs, ihA, ihB⟩ := ih
      rw [List.range_succ, List.foldl_append]
      simp only [List.foldl_cons, List.foldl_nil]
      have hlt : ∀ k : Nat, k ≠ A → (k < A + 1 ↔ k < A) := fun k hk => by omega
      cases hA : st.model.soldiers[A]? with
      | none =>
          have hAA := ihs A
          rw [hA] at hAA
          rw [CombatSystem.casterHit_none _ i main A turn hAA]
          refine ⟨fun k => ?_, ihA, ihB⟩
          rw [ihs k]
          by_cases hk : k = A
          · subst hk
            rw [hA]
            rfl
          · simp only [hlt k hk]
      | some uA =>
          have hAA := ihs A
          rw [hA] at hAA
          simp only [Option.map_some', lt_self_iff_false, false_and, if_false] at hAA
          have hii := ihs i
          rw [hi] at hii
          have hself : ¬ isInBlast attacker mainTarget.position attacker :=
            fun h => h.2.1 rfl
          simp only [Option.map_some', hself, and_false, if_false] at hii
          have hmm := ihs main
          rw [hm] at hmm
          simp only [Option.map_some'] at hmm
          have hmpos : (if main < A ∧ isInBlast attacker mainTarget.position mainTarget then
              mainTarget.takeDamage (CombatSystem.attackDamage attacker st.model)
              else mainTarget).position = mainTarget.position := by
            split
            · exact Soldier.takeDamage_position _ _
            · rfl
          rw [CombatSystem.casterHit_eq _ i main A turn attacker _ uA hii hmm hAA, hmpos]
          by_cases hb : isInBlast attacker mainTarget.position uA
          · rw [if_pos hb]
            obtain ⟨hs1, hs2, hs3⟩ := CombatSystem.strike_soldiers _ i A turn attacker uA hii hAA
            refine ⟨fun k => ?_, hs2.trans ihA, hs3.trans ihB⟩
            rw [hs1, (CombatSystem.attackTarget_alive attacker uA _ _ turn halive hb.1).1,
              CombatSystem.attackDamage_congr attacker _ st.model ihA ihB, List.getElem?_set]
            by_cases hk : A = k
            · subst hk
              rw [if_pos rfl, if_pos (List.getElem?_eq_some.mp hAA).1, hA]
              simp only [Option.map_some']
              rw [if_pos ⟨by omega, hb⟩]
            · rw [if_neg hk, ihs k]
              simp only [hlt k (fun h => hk h.symm)]
          · rw [if_neg hb]
            refine ⟨fun k => ?_, ihA, ihB⟩
            by_cases hk : k = A
            · subst hk
              rw [hAA, hA]
              simp only [Option.map_some']
              rw [if_neg (fun h => hb h.2)]
            · rw [ihs k]
              simp only [hlt k hk]

theorem CombatSystem.attackFrom_area (turn : Int) (st : CombatSystem.CombatState) (i : Nat)
    (attacker : Soldier) (hi : st.model.soldiers[i]? = some attacker)
    (halive : attacker.alive = true) (hkind : attacker.type = SoldierType.CASTER) :
    CombatSystem.attackFrom turn st i =
      match CombatSystem.findTarget st i with
      | some main =>
          (List.range st.model.soldiers.length).foldl
            (fun acc j => CombatSystem.casterHit acc i main j turn) st
      | none => st := by
  unfold CombatSystem.attackFrom
  rw [hi]
  unfold Soldier.isAlive Soldier.getType
  simp [halive, hkind]

theorem CombatSystem.attackFrom_caster_hit (turn : Int) (st : CombatSystem.CombatState)
    (i main : Nat) (attacker m : Soldier) (hi : st.model.soldiers[i]? = some attacker)
    (halive : attacker.alive = true) (hkind : attacker.type = SoldierType.CASTER)
    (hm : st.model.soldiers[main]? = some m)
    (hfind : CombatSystem.findTarget st i = some main) (k : Nat) :
    (CombatSystem.attackFrom turn st i).model.soldiers[k]? =
      (st.model.soldiers[k]?).map (fun u =>
        if isInBlast attacker m.position u then
          u.takeDamage (CombatSystem.attackDamage attacker st.model)
        else u) := by
  rw [CombatSystem.attackFrom_area turn st i attacker hi halive hkind, hfind]
  dsimp only
  rw [(CombatSystem.casterLoop_soldiers st i main turn attacker m hi halive hm
    st.model.soldiers.length).1 k]
  cases hk : st.model.soldiers[k]? with
  | none => rfl
  | some u =>
      have hlt : k < st.model.soldiers.length := (List.getElem?_eq_some.mp hk).1
      simp only [Option.map_some', hlt, true_and]

/-- C12: in the unit attack phase, a living Caster acting in the state `st`
whose main target `m` is the first unit in unit-list order that is alive, on
the other team and within Chebyshev distance of its attack range (3 for a
Caster) damages exactly the living enemy units within Manhattan distance 1 of
`m`'s position, `m` included, each once with the damage of `attackTarget`, and
leaves every other unit, in particular every teammate, unchanged; if no enemy
is within its attack range the unit list is unchanged. -/
theorem CombatSystem.attackFrom_caster_area (turn : Int) (st : CombatSystem.CombatState)
    (i : Nat) (attacker : Soldier) (hi : st.model.soldiers[i]? = some attacker)
    (halive : attacker.alive = true) (hkind : attacker.type = SoldierType.CASTER) :
    ((∀ (j : Nat) (t : Soldier), st.model.soldiers[j]? = some t → ¬ isEnemyInRange attacker t) →
      (CombatSystem.attackFrom turn st i).model.soldiers = st.model.soldiers) ∧
    (∀ (main : Nat) (m : Soldier), st.model.soldiers[main]? = some m →
      isEnemyInRange attacker m →
      (∀ (k : Nat) (u : Soldier), k < main → st.model.soldiers[k]? = some u →
        ¬ isEnemyInRange attacker u) →
      (∀ k : Nat, (CombatSystem.attackFrom turn st i).model.soldiers[k]? =
        (st.model.soldiers[k]?).map (fun u =>
          if isInBlast attacker m.position u then
            u.takeDamage (CombatSystem.attackDamage attacker st.model)
          else u)) ∧
      (CombatSystem.attackFrom turn st i).model.soldiers[main]? =
        some (m.takeDamage (CombatSystem.attackDamage attacker st.model))) ∧
    (∀ (k : Nat) (u : Soldier), st.model.soldiers[k]? = some u → u.team = attacker.team →
      (CombatSystem.attackFrom turn st i).model.soldiers[k]? = some u) ∧
    (∀ (pos : Position) (team : Team),
      (Soldier.new pos SoldierType.CASTER team).attackRange = 3) := by
  refine ⟨?_, ?_, ?_, fun _ _ => rfl⟩
  · intro hnone
    rw [CombatSystem.attackFrom_area turn st i attacker hi halive hkind,
      (CombatSystem.findTarget_none_iff st i attacker hi).mpr hnone]
  · intro main m hm hr hfirst
    have hfind := CombatSystem.findTarget_first st i main attacker m hi hm hr hfirst
    have hall := CombatSystem.attackFrom_caster_hit turn st i main attacker m hi halive hkind
      hm hfind
    refine ⟨hall, ?_⟩
    rw [hall main, hm]
    simp only [Option.map_some']
    have hin : isInBlast attacker m.position m := by
      refine ⟨hr.1, hr.2.1, ?_⟩
      unfold Position.distanceTo cabs
      simp
    rw [if_pos hin]
  · intro k u hk hteam
    cases hfind : CombatSystem.findTarget st i with
    | none =>
        rw [CombatSystem.attackFrom_area turn st i attacker hi halive hkind, hfind]
        exact hk
    | some main =>
        obtain ⟨m, hm, _, _⟩ := CombatSystem.findTarget_some st i main attacker hi hfind
        rw [CombatSystem.attackFrom_caster_hit turn st i main attacker m hi halive hkind
          hm hfind k, hk]
        simp only [Option.map_some']
        rw [if_neg (fun h => h.2.1 hteam)]

/-- The instance of C12 for the Team A Caster of the skirmish (index 0): its
main target is the Team B Archer at index 1, and the Team B Cavalry at index 2,
one cell from the Archer, is hit for 50 - 15. -/
theorem CombatSystem.attackFrom_caster_area_witness :
    (CombatSystem.attackFrom 3 skirmishState 0).model.soldiers[2]? =
      (skirmishState.model.soldiers[2]?).map (fun u =>
        if isInBlast (Soldier.new ⟨30, 30⟩ SoldierType.CASTER Team.TEAM_A)
            ({ Soldier.new ⟨32, 30⟩ SoldierType.ARCHER Team.TEAM_B with hp := 40 }).position u then
          u.takeDamage (CombatSystem.attackDamage
            (Soldier.new ⟨30, 30⟩ SoldierType.CASTER Team.TEAM_A) skirmishState.model)
        else u) :=
  ((CombatSystem.attackFrom_caster_area 3 skirmishState 0
    (Soldier.new ⟨30, 30⟩ SoldierType.CASTER Team.TEAM_A) rfl rfl rfl).2.1 1
    { Soldier.new ⟨32, 30⟩ SoldierType.ARCHER Team.TEAM_B with hp := 40 } rfl (by decide)
    (by
      intro k u hk hu
      match k, hk with
      | 0, _ =>
          have : u = Soldier.new ⟨30, 30⟩ SoldierType.CASTER Team.TEAM_A :=
            (Option.some.inj hu).symm
          rw [this]
          decide)).1 2

/-! ## Target search: `findNearestEnemy` -/

theorem AIController.nearestStep_eq (soldiers : List Soldier) (soldier : Soldier)
    (acc : Option Nat × Int) (i : Nat) (other : Soldier) (hi : soldiers[i]? = some other) :
    AIController.nearestStep soldiers soldier acc i =
      if isDetectableEnemy soldier i other then
        (if soldier.position.distanceTo other.position < acc.2 then
          (some i, soldier.position.distanceTo other.position) else acc)
      else acc := by
  unfold AIController.nearestStep
  rw [hi]
  unfold isDetectableEnemy
  simp only [Soldier.isAlive, Soldier.getTeam, Soldier.getPosition, Soldier.canSee,
    Soldier.getSharedVisibleEnemies]
  by_cases hal : other.alive = true
  · by_cases ht : other.team = soldier.team
    · simp [hal, ht]
    · by_cases hsee : soldier.position.chebyshevDistanceTo other.position ≤ soldier.visionRange
      · simp [hal, ht, hsee]
      · by_cases hsh : (i : Int) ∈ soldier.sharedVisibleEnemies
        · simp [hal, ht, hsee, hsh]
        · simp [hal, ht, hsee, hsh]
  · simp [hal]

theorem AIController.nearestStep_none (soldiers : List Soldier) (soldier : Soldier)
    (acc : Option Nat × Int) (i : Nat) (hi : soldiers[i]? = none) :
    AIController.nearestStep soldiers soldier acc i = acc := by
  unfold AIController.nearestStep
  rw [hi]

/-- The loop of `findNearestEnemy` run over the first `A` indices: the
accumulator holds the least distance so far (capped by the initial 999999) and
the earliest index that attains it. -/
theorem AIController.nearestLoop_inv (soldiers : List Soldier) (soldier : Soldier) :
    ∀ A : Nat,
      (∀ (k : Nat) (u : Soldier), k < A → soldiers[k]? = some u →
        isDetectableEnemy soldier k u →
        ((List.range A).foldl (AIController.nearestStep soldiers soldier) (none, 999999)).2 ≤
          soldier.position.distanceTo u.position) ∧
      (((List.range A).foldl (AIController.nearestStep soldiers soldier) (none, 999999)).1 = none →
        ((List.range A).foldl (AIController.nearestStep soldiers soldier) (none, 999999)).2 =
          999999) ∧
      (∀ j : Nat,
        ((List.range A).foldl (AIController.nearestStep soldiers soldier) (none, 999999)).1 =
          some j →
        ∃ t, soldiers[j]? = some t ∧ isDetectableEnemy soldier j t ∧
          soldier.position.distanceTo t.position =
            ((List.range A).foldl (AIController.nearestStep soldiers soldier)
              (none, 999999)).2 ∧
          ∀ (k : Nat) (u : Soldier), k < j → soldiers[k]? = some u →
            isDetectableEnemy soldier k u →
            soldier.position.distanceTo t.position < soldier.position.distanceTo u.position) := by
  intro A
  induction A with
  | zero =>
      refine ⟨fun k u hk => absurd hk (Nat.not_lt_zero k), fun _ => rfl, fun j hj => ?_⟩
      exact absurd hj (by simp)
  | succ A ih =>
      obtain ⟨ih1, ih2, ih3⟩ := ih
      rw [List.range_succ, List.foldl_append]
      simp only [List.foldl_cons, List.foldl_nil]
      generalize (List.range A).foldl (AIController.nearestStep soldiers soldier)
        (none, 999999) = acc at ih1 ih2 ih3 ⊢
      cases hA : soldiers[A]? with
      | none =>
          rw [AIController.nearestStep_none soldiers soldier acc A hA]
          refine ⟨fun k u hk hu hd => ?_, ih2, ih3⟩
          by_cases hkA : k = A
          · rw [hkA, hA] at hu
            exact absurd hu (by simp)
          · exact ih1 k u (by omega) hu hd
      | some uA =>
          rw [AIController.nearestStep_eq soldiers soldier acc A uA hA]
          by_cases hdet : isDetectableEnemy soldier A uA
          · rw [if_pos hdet]
            by_cases hlt : soldier.position.distanceTo uA.position < acc.2
            · rw [if_pos hlt]
              refine ⟨fun k u hk hu hd => ?_, fun h => absurd h (by simp), fun j hj => ?_⟩
              · by_cases hkA : k = A
                · rw [hkA, hA] at hu
                  have : uA = u := Option.some.inj hu
                  rw [this]
                · have := ih1 k u (by omega) hu hd
                  show soldier.position.distanceTo uA.position ≤ _
                  omega
              · have hjA : A = j := Option.some.inj hj
                subst hjA
                refine ⟨uA, hA, hdet, rfl, fun k u hk hu hd => ?_⟩
                have := ih1 k u hk hu hd
                omega
            · rw [if_neg hlt]
              refine ⟨fun k u hk hu hd => ?_, ih2, ih3⟩
              by_cases hkA : k = A
              · rw [hkA, hA] at hu
                have : uA = u := Option.some.inj hu
                rw [← this]
                omega
              · exact ih1 k u (by omega) hu hd
          · rw [if_neg hdet]
            refine ⟨fun k u hk hu hd => ?_, ih2, ih3⟩
            by_cases hkA : k = A
            · rw [hkA, hA] at hu
              have : uA = u := Option.some.inj hu
              rw [← this] at hd
              rw [hkA] at hd
              exact absurd hd hdet
            · exact ih1 k u (by omega) hu hd

/-- C20: for every world state and unit `s` such that every living enemy that
`s` can detect is at Manhattan distance below 999999 (as on the 64x64 map):
`AIController::findNearestEnemy` returns no unit iff no living enemy is
detectable, where an enemy at list index `i` is detectable iff it is within
Chebyshev distance of `s`'s vision range or `i` is in `s`'s shared visible
set; otherwise it returns a detectable living enemy whose Manhattan distance
to `s` is minimal among all detectable living enemies, the earliest in
unit-list order on ties. -/
theorem AIController.findNearestEnemy_spec (m : GameModel) (s : Soldier)
    (hnear : ∀ (k : Nat) (u : Soldier), m.soldiers[k]? = some u → isDetectableEnemy s k u →
      s.position.distanceTo u.position < 999999) :
    (AIController.findNearestEnemy m s = none ↔
      ∀ (k : Nat) (u : Soldier), m.soldiers[k]? = some u → ¬ isDetectableEnemy s k u) ∧
    (∀ j : Nat, AIController.findNearestEnemy m s = some j →
      ∃ t, m.soldiers[j]? = some t ∧ isDetectableEnemy s j t ∧
        ∀ (k : Nat) (u : Soldier), m.soldiers[k]? = some u → isDetectableEnemy s k u →
          s.position.distanceTo t.position ≤ s.position.distanceTo u.position ∧
          (s.position.distanceTo u.position = s.position.distanceTo t.position → j ≤ k)) := by
  obtain ⟨h1, h2, h3⟩ := AIController.nearestLoop_inv m.soldiers s m.soldiers.length
  unfold AIController.findNearestEnemy GameModel.getSoldiers
  generalize (List.range m.soldiers.length).foldl (AIController.nearestStep m.soldiers s)
    (none, 999999) = acc at h1 h2 h3 ⊢
  constructor
  · constructor
    · intro hnone k u hu hd
      have hlt : k < m.soldiers.length := (List.getElem?_eq_some.mp hu).1
      have ha := h1 k u hlt hu hd
      have hb := h2 hnone
      have hc := hnear k u hu hd
      omega
    · intro hno
      cases hr : acc.1 with
      | none => rfl
      | some j =>
          obtain ⟨t, ht, hd, _⟩ := h3 j hr
          exact absurd hd (hno j t ht)
  · intro j hj
    obtain ⟨t, ht, hd, hdist, hfirst⟩ := h3 j hj
    refine ⟨t, ht, hd, fun k u hu hdu => ?_⟩
    have hlt : k < m.soldiers.length := (List.getElem?_eq_some.mp hu).1
    have ha := h1 k u hlt hu hdu
    refine ⟨by omega, fun heq => ?_⟩
    by_contra hjk
    have := hfirst k u (by omega) hu hdu
    omega

/-- The instance of C20 for the Team A Infantry of the skirmish: the Team B
Archer at index 1 and the Team B Infantry at index 4 are both at distance 1,
and the search returns index 1. -/
theorem AIController.findNearestEnemy_spec_witness :
    ∃ t, skirmishWorld.soldiers[1]? = some t ∧
      isDetectableEnemy (Soldier.new ⟨32, 31⟩ SoldierType.INFANTRY Team.TEAM_A) 1 t ∧
      ∀ (k : Nat) (u : Soldier), skirmishWorld.soldiers[k]? = some u →
        isDetectableEnemy (Soldier.new ⟨32, 31⟩ SoldierType.INFANTRY Team.TEAM_A) k u →
        (Soldier.new ⟨32, 31⟩ SoldierType.INFANTRY Team.TEAM_A).position.distanceTo t.position ≤
          (Soldier.new ⟨32, 31⟩ SoldierType.INFANTRY Team.TEAM_A).position.distanceTo
            u.position ∧
        ((Soldier.new ⟨32, 31⟩ SoldierType.INFANTRY Team.TEAM_A).position.distanceTo u.position =
          (Soldier.new ⟨32, 31⟩ SoldierType.INFANTRY Team.TEAM_A).position.distanceTo
            t.position → 1 ≤ k) :=
  (AIController.findNearestEnemy_spec skirmishWorld
    (Soldier.new ⟨32, 31⟩ SoldierType.INFANTRY Team.TEAM_A)
    (fun k u hu _ =>
      (by decide : ∀ u ∈ skirmishWorld.soldiers,
        (Soldier.new ⟨32, 31⟩ SoldierType.INFANTRY Team.TEAM_A).position.distanceTo u.position
          < 999999) u (List.mem_iff_getElem?.mpr ⟨k, hu⟩))).2 1 (by decide)

/-! ## Vision sharing: `updateSharedVision` -/

theorem visibleStep_eq (soldiers : List Soldier) (soldier : Soldier) (acc : Finset Int)
    (i : Nat) (other : Soldier) (hi : soldiers[i]? = some other) :
    visibleStep soldiers soldier acc i =
      if seesEnemy soldier other then insert (i : Int) acc else acc := by
  unfold visibleStep
  rw [hi]
  unfold seesEnemy
  simp only [Soldier.isAlive, Soldier.getTeam, Soldier.getPosition, Soldier.canSee]
  by_cases h1 : other.alive = true
  · by_cases h2 : other.team = soldier.team
    · simp [h1, h2]
    · by_cases h3 : soldier.position.chebyshevDistanceTo other.position ≤ soldier.visionRange
      · simp [h1, h2, h3]
      · simp [h1, h2, h3]
  · simp [h1]

theorem visibleStep_none (soldiers : List Soldier) (soldier : Soldier) (acc : Finset Int)
    (i : Nat) (hi : soldiers[i]? = none) : visibleStep soldiers soldier acc i = acc := by
  unfold visibleStep
  rw [hi]

theorem mem_visible_upTo (soldiers : List Soldier) (soldier : Soldier) :
    ∀ (A : Nat) (i : Int),
      i ∈ (List.range A).foldl (visibleStep soldiers soldier) (∅ : Finset Int) ↔
        ∃ (k : Nat) (t : Soldier), k < A ∧ (k : Int) = i ∧ soldiers[k]? = some t ∧
          seesEnemy soldier t := by
  intro A
  induction A with
  | zero =>
      intro i
      simp
  | succ A ih =>
      intro i
      rw [List.range_succ, List.foldl_append]
      simp only [List.foldl_cons, List.foldl_nil]
      generalize (List.range A).foldl (visibleStep soldiers soldier) (∅ : Finset Int) = acc
        at ih ⊢
      cases hA : soldiers[A]? with
      | none =>
          rw [visibleStep_none soldiers soldier acc A hA, ih i]
          constructor
          · rintro ⟨k, t, hk, h⟩
            exact ⟨k, t, by omega, h⟩
          · rintro ⟨k, t, hk, hki, hkt, hsee⟩
            by_cases hkA : k = A
            · rw [hkA, hA] at hkt
              exact absurd hkt (by simp)
            · exact ⟨k, t, by omega, hki, hkt, hsee⟩
      | some uA =>
          rw [visibleStep_eq soldiers soldier acc A uA hA]
          by_cases hsee : seesEnemy soldier uA
          · rw [if_pos hsee, Finset.mem_insert, ih i]
            constructor
            · rintro (h | ⟨k, t, hk, h⟩)
              · exact ⟨A, uA, by omega, h.symm, hA, hsee⟩
              · exact ⟨k, t, by omega, h⟩
            · rintro ⟨k, t, hk, hki, hkt, hs⟩
              by_cases hkA : k = A
              · rw [hkA] at hki
                exact Or.inl hki.symm
              · exact Or.inr ⟨k, t, by omega, hki, hkt, hs⟩
          · rw [if_neg hsee, ih i]
            constructor
            · rintro ⟨k, t, hk, h⟩
              exact ⟨k, t, by omega, h⟩
            · rintro ⟨k, t, hk, hki, hkt, hs⟩
              by_cases hkA : k = A
              · rw [hkA, hA] at hkt
                have : uA = t := Option.some.inj hkt
                rw [← this] at hs
                exact absurd hs hsee
              · exact ⟨k, t, by omega, hki, hkt, hs⟩

theorem mem_currentVisibleEnemies (soldiers : List Soldier) (soldier : Soldier) (i : Int) :
    i ∈ currentVisibleEnemies soldiers soldier ↔
      ∃ (k : Nat) (t : Soldier), (k : Int) = i ∧ soldiers[k]? = some t ∧
        seesEnemy soldier t := by
  unfold currentVisibleEnemies
  rw [mem_visible_upTo]
  constructor
  · rintro ⟨k, t, _, h⟩
    exact ⟨k, t, h⟩
  · rintro ⟨k, t, hki, hkt, hs⟩
    exact ⟨k, t, (List.getElem?_eq_some.mp hkt).1, hki, hkt, hs⟩

theorem shareStep_eq (soldiers : List Soldier) (k : Nat) (soldier : Soldier)
    (acc : Finset Int) (j : Nat) (teammate : Soldier) (hj : soldiers[j]? = some teammate) :
    shareStep soldiers k soldier acc j =
      if relaysTo teammate j soldier k then acc ∪ teammate.lastTurnVisibleEnemies else acc := by
  unfold shareStep
  rw [hj]
  unfold relaysTo
  simp only [Soldier.isAlive, Soldier.getTeam, Soldier.getPosition,
    Soldier.getLastTurnVisibleEnemies, COMMUNICATION_RANGE]
  by_cases h1 : teammate.alive = true
  · by_cases h2 : teammate.team = soldier.team
    · by_cases h3 : j = k
      · simp [h1, h2, h3]
      · by_cases h4 : soldier.position.chebyshevDistanceTo teammate.position ≤ 15
        · simp [h1, h2, h3, h4]
        · simp [h1, h2, h3, h4]
    · simp [h1, h2]
  · simp [h1]

theorem shareStep_none (soldiers : List Soldier) (k : Nat) (soldier : Soldier)
    (acc : Finset Int) (j : Nat) (hj : soldiers[j]? = none) :
    shareStep soldiers k soldier acc j = acc := by
  unfold shareStep
  rw [hj]

theorem mem_share_upTo (soldiers : List Soldier) (k : Nat) (soldier : Soldier) :
    ∀ (A : Nat) (i : Int),
      i ∈ (List.range A).foldl (shareStep soldiers k soldier) (∅ : Finset Int) ↔
        ∃ (j : Nat) (t : Soldier), j < A ∧ soldiers[j]? = some t ∧ relaysTo t j soldier k ∧
          i ∈ t.lastTurnVisibleEnemies := by
  intro A
  induction A with
  | zero =>
      intro i
      simp
  | succ A ih =>
      intro i
      rw [List.range_succ, List.foldl_append]
      simp only [List.foldl_cons, List.foldl_nil]
      generalize (List.range A).foldl (shareStep soldiers k soldier) (∅ : Finset Int) = acc
        at ih ⊢
      cases hA : soldiers[A]? with
      | none =>
          rw [shareStep_none soldiers k soldier acc A hA, ih i]
          constructor
          · rintro ⟨j, t, hj, h⟩
            exact ⟨j, t, by omega, h⟩
          · rintro ⟨j, t, hj, hjt, hr, hi⟩
            by_cases hjA : j = A
            · rw [hjA, hA] at hjt
              exact absurd hjt (by simp)
            · exact ⟨j, t, by omega, hjt, hr, hi⟩
      | some uA =>
          rw [shareStep_eq soldiers k soldier acc A uA hA]
          by_cases hrel : relaysTo uA A soldier k
          · rw [if_pos hrel, Finset.mem_union, ih i]
            constructor
            · rintro (⟨j, t, hj, h⟩ | h)
              · exact ⟨j, t, by omega, h⟩
              · exact ⟨A, uA, by omega, hA, hrel, h⟩
            · rintro ⟨j, t, hj, hjt, hr, hi⟩
              by_cases hjA : j = A
              · rw [hjA, hA] at hjt
                have : uA = t := Option.some.inj hjt
                rw [← this] at hi
                exact Or.inr hi
              · exact Or.inl ⟨j, t, by omega, hjt, hr, hi⟩
          · rw [if_neg hrel, ih i]
            constructor
            · rintro ⟨j, t, hj, h⟩
              exact ⟨j, t, by omega, h⟩
            · rintro ⟨j, t, hj, hjt, hr, hi⟩
              by_cases hjA : j = A
              · rw [hjA, hA] at hjt
                have : uA = t := Option.some.inj hjt
                rw [← this, hjA] at hr
                exact absurd hr hrel
              · exact ⟨j, t, by omega, hjt, hr, hi⟩

theorem mem_sharedEnemies (soldiers : List Soldier) (k : Nat) (soldier : Soldier) (i : Int) :
    i ∈ sharedEnemies soldiers k soldier ↔
      ∃ (j : Nat) (t : Soldier), soldiers[j]? = some t ∧ relaysTo t j soldier k ∧
        i ∈ t.lastTurnVisibleEnemies := by
  unfold sharedEnemies
  rw [mem_share_upTo]
  constructor
  · rintro ⟨j, t, _, h⟩
    exact ⟨j, t, h⟩
  · rintro ⟨j, t, hjt, hr, hi⟩
    exact ⟨j, t, (List.getElem?_eq_some.mp hjt).1, hjt, hr, hi⟩

theorem seesEnemy_congr (u t t2 : Soldier) (ha : t2.alive = t.alive) (ht : t2.team = t.team)
    (hp : t2.position = t.position) : seesEnemy u t2 ↔ seesEnemy u t := by
  unfold seesEnemy
  rw [ha, ht, hp]

theorem relaysTo_congr (u t t2 : Soldier) (j k : Nat) (ha : t2.alive = t.alive)
    (ht : t2.team = t.team) (hp : t2.position = t.position) :
    relaysTo t2 j u k ↔ relaysTo t j u k := by
  unfold relaysTo
  rw [ha, ht, hp]

theorem currentVisibleEnemies_congr (ss ss0 : List Soldier) (u : Soldier)
    (g : Nat → Soldier → Soldier) (h : ∀ k, ss[k]? = (ss0[k]?).map (g k))
    (hg : ∀ k t, seesEnemy u (g k t) ↔ seesEnemy u t) :
    currentVisibleEnemies ss u = currentVisibleEnemies ss0 u := by
  ext i
  rw [mem_currentVisibleEnemies, mem_currentVisibleEnemies]
  constructor
  · rintro ⟨k, t, hki, hkt, hs⟩
    rw [h k] at hkt
    cases h0 : ss0[k]? with
    | none => rw [h0] at hkt; exact absurd hkt (by simp)
    | some t0 =>
        rw [h0] at hkt
        have : g k t0 = t := Option.some.inj hkt
        rw [← this] at hs
        exact ⟨k, t0, hki, h0, (hg k t0).mp hs⟩
  · rintro ⟨k, t, hki, hkt, hs⟩
    refine ⟨k, g k t, hki, ?_, (hg k t).mpr hs⟩
    rw [h k, hkt]
    rfl

theorem sharedEnemies_congr (ss ss0 : List Soldier) (k : Nat) (u : Soldier)
    (g : Nat → Soldier → Soldier) (h : ∀ j, ss[j]? = (ss0[j]?).map (g j))
    (hg : ∀ j t, relaysTo (g j t) j u k ↔ relaysTo t j u k)
    (hl : ∀ j t, (g j t).lastTurnVisibleEnemies = t.lastTurnVisibleEnemies) :
    sharedEnemies ss k u = sharedEnemies ss0 k u := by
  ext i
  rw [mem_sharedEnemies, mem_sharedEnemies]
  constructor
  · rintro ⟨j, t, hjt, hr, hi⟩
    rw [h j] at hjt
    cases h0 : ss0[j]? with
    | none => rw [h0] at hjt; exact absurd hjt (by simp)
    | some t0 =>
        rw [h0] at hjt
        have : g j t0 = t := Option.some.inj hjt
        rw [← this] at hr hi
        rw [hl j t0] at hi
        exact ⟨j, t0, h0, (hg j t0).mp hr, hi⟩
  · rintro ⟨j, t, hjt, hr, hi⟩
    refine ⟨j, g j t, ?_, (hg j t).mpr hr, ?_⟩
    · rw [h j, hjt]
      rfl
    · rw [hl j t]
      exact hi

theorem firstPass_alive (ss0 : List Soldier) (u : Soldier) :
    (firstPass ss0 u).alive = u.alive ∧ (firstPass ss0 u).team = u.team ∧
      (firstPass ss0 u).position = u.position := by
  unfold firstPass Soldier.updateLastTurnVision
  by_cases h : u.alive = true
  · rw [if_pos h]
    exact ⟨rfl, rfl, rfl⟩
  · rw [if_neg h]
    exact ⟨rfl, rfl, rfl⟩

theorem secondPass_alive (ss1 : List Soldier) (k : Nat) (u : Soldier) :
    (secondPass ss1 k u).alive = u.alive ∧ (secondPass ss1 k u).team = u.team ∧
      (secondPass ss1 k u).position = u.position ∧
      (secondPass ss1 k u).lastTurnVisibleEnemies = u.lastTurnVisibleEnemies := by
  unfold secondPass Soldier.updateSharedVision
  by_cases h : u.alive = true
  · rw [if_pos h]
    exact ⟨rfl, rfl, rfl, rfl⟩
  · rw [if_neg h]
    exact ⟨rfl, rfl, rfl, rfl⟩

theorem map_prefix_step (f : Soldier → Soldier) (o : Option Soldier) (k A : Nat)
    (hkA : k ≠ A) :
    o.map (fun u => if k < A then f u else u) =
      o.map (fun u => if k < A + 1 then f u else u) := by
  have h : k < A ↔ k < A + 1 := by omega
  simp only [h]

/-- The first loop of `updateSharedVision` after its first `A` rounds. -/
theorem visionLoop1_upTo (ss0 : List Soldier) :
    ∀ (A : Nat) (k : Nat),
      ((List.range A).foldl visionStep1 ss0)[k]? =
        (ss0[k]?).map (fun u => if k < A then firstPass ss0 u else u) := by
  intro A
  induction A with
  | zero =>
      intro k
      simp
  | succ A ih =>
      intro k
      rw [List.range_succ, List.foldl_append]
      simp only [List.foldl_cons, List.foldl_nil]
      generalize (List.range A).foldl visionStep1 ss0 = ss at ih ⊢
      have hAeq : ss[A]? = ss0[A]? := by
        rw [ih A]
        cases ss0[A]? with
        | none => rfl
        | some x => simp only [Option.map_some', if_neg (Nat.lt_irrefl A)]
      unfold visionStep1
      cases h0 : ss0[A]? with
      | none =>
          rw [hAeq, h0]
          rw [ih k]
          by_cases hkA : k = A
          · rw [hkA, h0]
            rfl
          · exact map_prefix_step _ _ k A hkA
      | some u =>
          rw [hAeq, h0]
          have hcongr : currentVisibleEnemies ss u = currentVisibleEnemies ss0 u :=
            currentVisibleEnemies_congr ss ss0 u
              (fun k u => if k < A then firstPass ss0 u else u) ih
              (by
                intro j t
                by_cases hlt : j < A
                · simp only [if_pos hlt]
                  obtain ⟨h1, h2, h3⟩ := firstPass_alive ss0 t
                  exact seesEnemy_congr u t _ h1 h2 h3
                · simp only [if_neg hlt])
          by_cases hal : u.alive = true
          · have hn : (!u.isAlive) = false := by
              unfold Soldier.isAlive
              rw [hal]
              rfl
            simp only [hn, Bool.false_eq_true, if_false]
            rw [hcongr, List.getElem?_set]
            by_cases hkA : A = k
            · rw [if_pos hkA]
              have hlen : A < ss.length := by
                have := hAeq
                rw [h0] at this
                exact (List.getElem?_eq_some.mp this).1
              rw [if_pos hlen, ← hkA, h0]
              simp only [Option.map_some', if_pos (Nat.lt_succ_self A)]
              unfold firstPass
              rw [if_pos hal]
            · rw [if_neg hkA, ih k]
              exact map_prefix_step _ _ k A (fun h => hkA h.symm)
          · have hn : (!u.isAlive) = true := by
              unfold Soldier.isAlive
              simp only [Bool.not_eq_true] at hal
              rw [hal]
              rfl
            simp only [hn, if_true]
            rw [ih k]
            by_cases hkA : k = A
            · rw [hkA, h0]
              simp only [Option.map_some', if_neg (Nat.lt_irrefl A),
                if_pos (Nat.lt_succ_self A)]
              unfold firstPass
              rw [if_neg hal]
            · exact map_prefix_step _ _ k A hkA

theorem map_prefix_step2 (f : Nat → Soldier → Soldier) (o : Option Soldier) (k A : Nat)
    (hkA : k ≠ A) :
    o.map (fun u => if k < A then f k u else u) =
      o.map (fun u => if k < A + 1 then f k u else u) := by
  have h : k < A ↔ k < A + 1 := by omega
  simp only [h]

/-- The second loop of `updateSharedVision` after its first `A` rounds. -/
theorem visionLoop2_upTo (ss1 : List Soldier) :
    ∀ (A : Nat) (k : Nat),
      ((List.range A).foldl visionStep2 ss1)[k]? =
        (ss1[k]?).map (fun u => if k < A then secondPass ss1 k u else u) := by
  intro A
  induction A with
  | zero =>
      intro k
      simp
  | succ A ih =>
      intro k
      rw [List.range_succ, List.foldl_append]
      simp only [List.foldl_cons, List.foldl_nil]
      generalize (List.range A).foldl visionStep2 ss1 = ss at ih ⊢
      have hAeq : ss[A]? = ss1[A]? := by
        rw [ih A]
        cases ss1[A]? with
        | none => rfl
        | some x => simp only [Option.map_some', if_neg (Nat.lt_irrefl A)]
      unfold visionStep2
      cases h0 : ss1[A]? with
      | none =>
          rw [hAeq, h0]
          rw [ih k]
          by_cases hkA : k = A
          · rw [hkA, h0]
            rfl
          · exact map_prefix_step2 (secondPass ss1) _ k A hkA
      | some u =>
          rw [hAeq, h0]
          have hcongr : sharedEnemies ss A u = sharedEnemies ss1 A u :=
            sharedEnemies_congr ss ss1 A u
              (fun j t => if j < A then secondPass ss1 j t else t) ih
              (by
                intro j t
                by_cases hlt : j < A
                · simp only [if_pos hlt]
                  obtain ⟨h1, h2, h3, _⟩ := secondPass_alive ss1 j t
                  exact relaysTo_congr u t _ j A h1 h2 h3
                · simp only [if_neg hlt])
              (by
                intro j t
                by_cases hlt : j < A
                · simp only [if_pos hlt]
                  exact (secondPass_alive ss1 j t).2.2.2
                · simp only [if_neg hlt])
          by_cases hal : u.alive = true
          · have hn : (!u.isAlive) = false := by
              unfold Soldier.isAlive
              rw [hal]
              rfl
            simp only [hn, Bool.false_eq_true, if_false]
            rw [hcongr, List.getElem?_set]
            by_cases hkA : A = k
            · rw [if_pos hkA]
              have hlen : A < ss.length := by
                have := hAeq
                rw [h0] at this
                exact (List.getElem?_eq_some.mp this).1
              rw [if_pos hlen, ← hkA, h0]
              simp only [Option.map_some', if_pos (Nat.lt_succ_self A)]
              unfold secondPass
              rw [if_pos hal]
            · rw [if_neg hkA, ih k]
              exact map_prefix_step2 (secondPass ss1) _ k A (fun h => hkA h.symm)
          · have hn : (!u.isAlive) = true := by
              unfold Soldier.isAlive
              simp only [Bool.not_eq_true] at hal
              rw [hal]
              rfl
            simp only [hn, if_true]
            rw [ih k]
            by_cases hkA : k = A
            · rw [hkA, h0]
              simp only [Option.map_some', if_neg (Nat.lt_irrefl A),
                if_pos (Nat.lt_succ_self A)]
              unfold secondPass
              rw [if_neg hal]
            · exact map_prefix_step2 (secondPass ss1) _ k A hkA

/-- The unit list after the first loop of `updateSharedVision`. -/
theorem visionLoop1_full (ss0 : List Soldier) (k : Nat) :
    ((List.range ss0.length).foldl visionStep1 ss0)[k]? = (ss0[k]?).map (firstPass ss0) := by
  rw [visionLoop1_upTo]
  cases h0 : ss0[k]? with
  | none => rfl
  | some u =>
      have hk : k < ss0.length := (List.getElem?_eq_some.mp h0).1
      simp only [Option.map_some', if_pos hk]

/-- The unit list after the second loop of `updateSharedVision`. -/
theorem visionLoop2_full (ss1 : List Soldier) (k : Nat) :
    ((List.range ss1.length).foldl visionStep2 ss1)[k]? =
      (ss1[k]?).map (secondPass ss1 k) := by
  rw [visionLoop2_upTo]
  cases h0 : ss1[k]? with
  | none => rfl
  | some u =>
      have hk : k < ss1.length := (List.getElem?_eq_some.mp h0).1
      simp only [Option.map_some', if_pos hk]

/-- Every unit after `updateSharedVision`, in terms of the two passes. -/
theorem GameModel.updateSharedVision_getElem? (m : GameModel) (k : Nat) :
    (m.updateSharedVision).soldiers[k]? =
      (m.soldiers[k]?).map (fun u =>
        secondPass ((List.range m.soldiers.length).foldl visionStep1 m.soldiers) k
          (firstPass m.soldiers u)) := by
  unfold GameModel.updateSharedVision
  simp only
  rw [visionLoop2_full, visionLoop1_full]
  cases m.soldiers[k]? <;> rfl

theorem relaysTo_congr_receiver (t u u2 : Soldier) (j k : Nat) (ht : u2.team = u.team)
    (hp : u2.position = u.position) : relaysTo t j u2 k ↔ relaysTo t j u k := by
  unfold relaysTo
  rw [ht, hp]

/-- C19: after `GameModel::updateSharedVision` a dead unit is exactly as
before; a living unit `u` at index `k` differs from before only in its two
vision sets, its `lastTurnVisibleEnemies` holds exactly the indices `j` of the
units that are alive, on the other team and within Chebyshev distance at most
the vision range of `u`, and its `sharedVisibleEnemies` holds exactly the
members of the `lastTurnVisibleEnemies` of the living units of its team, other
than itself, within Chebyshev distance at most 15 of it. -/
theorem GameModel.updateSharedVision_spec (m : GameModel) (k : Nat) (u : Soldier)
    (hk : m.soldiers[k]? = some u) :
    ∃ v : Soldier, (m.updateSharedVision).soldiers[k]? = some v ∧
      (u.alive = false → v = u) ∧
      (u.alive = true →
        v = { u with lastTurnVisibleEnemies := v.lastTurnVisibleEnemies,
                     sharedVisibleEnemies := v.sharedVisibleEnemies } ∧
        (∀ i : Int, i ∈ v.lastTurnVisibleEnemies ↔
          ∃ (j : Nat) (t : Soldier), (j : Int) = i ∧ m.soldiers[j]? = some t ∧
            seesEnemy u t) ∧
        (∀ i : Int, i ∈ v.sharedVisibleEnemies ↔
          ∃ (j : Nat) (t : Soldier), (m.updateSharedVision).soldiers[j]? = some t ∧
            relaysTo t j u k ∧ i ∈ t.lastTurnVisibleEnemies)) := by
  have hpost := GameModel.updateSharedVision_getElem? m
  generalize hss1 : (List.range m.soldiers.length).foldl visionStep1 m.soldiers = ss1 at hpost
  have hone : ∀ j : Nat, ss1[j]? = (m.soldiers[j]?).map (firstPass m.soldiers) := by
    intro j
    rw [← hss1]
    exact visionLoop1_full m.soldiers j
  have htwo : ∀ j : Nat, (m.updateSharedVision).soldiers[j]? = (ss1[j]?).map (secondPass ss1 j) := by
    intro j
    rw [hpost j, hone j]
    cases m.soldiers[j]? <;> rfl
  refine ⟨secondPass ss1 k (firstPass m.soldiers u), ?_, ?_, ?_⟩
  · rw [hpost k, hk]
    rfl
  · intro hdead
    unfold secondPass firstPass
    simp [hdead]
  · intro hal
    have hv : secondPass ss1 k (firstPass m.soldiers u) =
        { u with lastTurnVisibleEnemies := currentVisibleEnemies m.soldiers u,
                 sharedVisibleEnemies :=
                   sharedEnemies ss1 k (firstPass m.soldiers u) } := by
      unfold secondPass
      have h1 : (firstPass m.soldiers u).alive = true := by
        rw [(firstPass_alive m.soldiers u).1]
        exact hal
      rw [if_pos h1]
      unfold firstPass
      rw [if_pos hal]
      rfl
    rw [hv]
    refine ⟨rfl, ?_, ?_⟩
    · intro i
      exact mem_currentVisibleEnemies m.soldiers u i
    · intro i
      show i ∈ sharedEnemies ss1 k (firstPass m.soldiers u) ↔ _
      rw [← sharedEnemies_congr (m.updateSharedVision).soldiers ss1 k
        (firstPass m.soldiers u) (secondPass ss1) htwo
        (by
          intro j t
          obtain ⟨h1, h2, h3, _⟩ := secondPass_alive ss1 j t
          exact relaysTo_congr _ t _ j k h1 h2 h3)
        (by
          intro j t
          exact (secondPass_alive ss1 j t).2.2.2)]
      rw [mem_sharedEnemies]
      obtain ⟨_, h2, h3⟩ := firstPass_alive m.soldiers u
      constructor
      · rintro ⟨j, t, hjt, hr, hi⟩
        exact ⟨j, t, hjt, (relaysTo_congr_receiver t u _ j k h2 h3).mp hr, hi⟩
      · rintro ⟨j, t, hjt, hr, hi⟩
        exact ⟨j, t, hjt, (relaysTo_congr_receiver t u _ j k h2 h3).mpr hr, hi⟩

/-- The statement of C19 at the Team A Caster of the skirmish. -/
theorem GameModel.updateSharedVision_spec_witness :
    ∃ v : Soldier, (skirmishWorld.updateSharedVision).soldiers[0]? = some v ∧
      ((Soldier.new ⟨30, 30⟩ SoldierType.CASTER Team.TEAM_A).alive = false →
        v = Soldier.new ⟨30, 30⟩ SoldierType.CASTER Team.TEAM_A) ∧
      ((Soldier.new ⟨30, 30⟩ SoldierType.CASTER Team.TEAM_A).alive = true →
        v = { Soldier.new ⟨30, 30⟩ SoldierType.CASTER Team.TEAM_A with
                lastTurnVisibleEnemies := v.lastTurnVisibleEnemies,
                sharedVisibleEnemies := v.sharedVisibleEnemies } ∧
        (∀ i : Int, i ∈ v.lastTurnVisibleEnemies ↔
          ∃ (j : Nat) (t : Soldier), (j : Int) = i ∧ skirmishWorld.soldiers[j]? = some t ∧
            seesEnemy (Soldier.new ⟨30, 30⟩ SoldierType.CASTER Team.TEAM_A) t) ∧
        (∀ i : Int, i ∈ v.sharedVisibleEnemies ↔
          ∃ (j : Nat) (t : Soldier), (skirmishWorld.updateSharedVision).soldiers[j]? = some t ∧
            relaysTo t j (Soldier.new ⟨30, 30⟩ SoldierType.CASTER Team.TEAM_A) 0 ∧
            i ∈ t.lastTurnVisibleEnemies)) :=
  GameModel.updateSharedVision_spec skirmishWorld 0
    (Soldier.new ⟨30, 30⟩ SoldierType.CASTER Team.TEAM_A) rfl

/-! ## Combat resolver: the base siege phase -/

theorem CombatSystem.applyBaseMultiplier_nonneg (d : Int) (hd : 0 ≤ d) :
    0 ≤ CombatSystem.applyBaseMultiplier d := by
  unfold CombatSystem.applyBaseMultiplier
  dsimp only
  rw [if_neg (by omega)]
  exact Int.ofNat_nonneg _

theorem CombatSystem.attackDamage_nonneg (a : Soldier) (m : GameModel) (ha : 0 ≤ a.attack) :
    0 ≤ CombatSystem.attackDamage a m := by
  unfold CombatSystem.attackDamage Soldier.getAttack
  dsimp only
  split
  · exact CombatSystem.applyBaseMultiplier_nonneg _ ha
  · exact ha

theorem siegeDamage_nonneg (m : GameModel) (team : Team) (base : Base) (a : Soldier)
    (ha : 0 ≤ a.attack) : 0 ≤ siegeDamage m team base a := by
  unfold siegeDamage
  split
  · exact CombatSystem.attackDamage_nonneg a m ha
  · exact Int.le_refl 0

theorem sum_map_nonneg (f : Soldier → Int) :
    ∀ l : List Soldier, (∀ a ∈ l, 0 ≤ f a) → 0 ≤ (l.map f).sum := by
  intro l
  induction l with
  | nil => intro _; simp
  | cons x rest ih =>
      intro h
      rw [List.map_cons, List.sum_cons]
      have h1 := h x (List.mem_cons_self x rest)
      have h2 := ih (fun a ha => h a (List.mem_cons_of_mem x ha))
      omega

theorem sum_map_zero (f : Soldier → Int) :
    ∀ l : List Soldier, (∀ a ∈ l, f a = 0) → (l.map f).sum = 0 := by
  intro l
  induction l with
  | nil => intro _; simp
  | cons x rest ih =>
      intro h
      rw [List.map_cons, List.sum_cons, h x (List.mem_cons_self x rest),
        ih (fun a ha => h a (List.mem_cons_of_mem x ha))]
      rfl

theorem siegeTotalUpTo_nonneg (m : GameModel) (hatk : AttacksNonneg m) (team : Team)
    (base : Base) (n : Nat) : 0 ≤ siegeTotalUpTo m team base n := by
  unfold siegeTotalUpTo
  apply sum_map_nonneg
  intro a ha
  exact siegeDamage_nonneg m team base a (hatk a (List.mem_of_mem_take ha))

theorem siegeTotalUpTo_zero (m : GameModel) (team : Team) (base : Base) (n : Nat)
    (h : ∀ e ∈ m.soldiers, ¬ besieges e team base) : siegeTotalUpTo m team base n = 0 := by
  unfold siegeTotalUpTo
  apply sum_map_zero
  intro a ha
  unfold siegeDamage
  rw [if_neg (h a (List.mem_of_mem_take ha))]

theorem siegeTotalUpTo_succ_some (m : GameModel) (team : Team) (base : Base) (n : Nat)
    (a : Soldier) (ha : m.soldiers[n]? = some a) :
    siegeTotalUpTo m team base (n + 1) =
      siegeTotalUpTo m team base n + siegeDamage m team base a := by
  unfold siegeTotalUpTo
  rw [List.take_succ, ha]
  simp

theorem siegeTotalUpTo_succ_none (m : GameModel) (team : Team) (base : Base) (n : Nat)
    (ha : m.soldiers[n]? = none) :
    siegeTotalUpTo m team base (n + 1) = siegeTotalUpTo m team base n := by
  unfold siegeTotalUpTo
  rw [List.take_succ, ha]
  simp

theorem siegeTotalUpTo_length (m : GameModel) (team : Team) (base : Base) :
    siegeTotalUpTo m team base m.soldiers.length = siegeTotal m team base := by
  unfold siegeTotalUpTo siegeTotal
  rw [List.take_length]

theorem CombatSystem.enemyOf_ne (team : Team) : CombatSystem.enemyOf team ≠ team := by
  cases team <;> decide

theorem CombatSystem.eq_enemyOf_of_ne (team other : Team) (h : team ≠ other) :
    other = CombatSystem.enemyOf team := by
  cases team <;> cases other <;> first | rfl | exact absurd rfl h

theorem CombatSystem.basesOf_setBase_same (st : CombatSystem.CombatState) (team : Team)
    (b : Nat) (base : Base) :
    (st.setBase team b base).model.basesOf team = (st.model.basesOf team).set b base := by
  cases team <;> rfl

theorem CombatSystem.basesOf_setBase_other (st : CombatSystem.CombatState) (team other : Team)
    (b : Nat) (base : Base) (h : other ≠ team) :
    (st.setBase team b base).model.basesOf other = st.model.basesOf other := by
  cases team <;> cases other <;> first | rfl | exact absurd rfl h

theorem CombatSystem.attackDamage_congr_own (a : Soldier) (m1 m2 : GameModel)
    (h : m1.basesOf a.team = m2.basesOf a.team) :
    CombatSystem.attackDamage a m1 = CombatSystem.attackDamage a m2 := by
  unfold CombatSystem.attackDamage CombatSystem.nearOwnBase Soldier.getTeam
  rw [h]

theorem set_getElem?_self (l : List Base) (b : Nat) (x : Base) (h : l[b]? = some x) :
    l.set b x = l := by
  apply List.ext_getElem?
  intro k
  rw [List.getElem?_set]
  by_cases hk : b = k
  · rw [if_pos hk, ← hk, h]
    rw [if_pos (List.getElem?_eq_some.mp h).1]
  · rw [if_neg hk]

theorem CombatSystem.siegeBase_hit (st : CombatSystem.CombatState) (i b : Nat) (turn : Int)
    (a : Soldier) (target : Base) (hi : st.model.soldiers[i]? = some a)
    (hal : a.alive = true)
    (hb : (st.model.basesOf (CombatSystem.enemyOf a.team))[b]? = some target) :
    (CombatSystem.siegeBase st i b turn).model.soldiers = st.model.soldiers ∧
    (CombatSystem.siegeBase st i b turn).model.basesOf a.team = st.model.basesOf a.team ∧
    (CombatSystem.siegeBase st i b turn).model.basesOf (CombatSystem.enemyOf a.team) =
      (st.model.basesOf (CombatSystem.enemyOf a.team)).set b
        (CombatSystem.hitBase a (CombatSystem.attackDamage a st.model) target) := by
  unfold CombatSystem.siegeBase CombatSystem.hitBase
  rw [hi]
  simp only [Soldier.getTeam]
  rw [hb]
  by_cases hc : (target.isAlive && a.canAttack target.getPosition) = true
  · simp only [if_pos hc]
    have hbl : target.isAlive = true := (Bool.and_eq_true _ _ ▸ hc).1
    have hatk : CombatSystem.attackBase a target st.model st.events turn =
        (target.takeDamage (CombatSystem.attackDamage a st.model),
          st.events ++ [{ GameEvent.new EventType.BASE_DAMAGED
            (target.takeDamage (CombatSystem.attackDamage a st.model)).team.toInt turn
            "Base Damaged" with damage := CombatSystem.attackDamage a st.model }]) := by
      unfold CombatSystem.attackBase Soldier.isAlive
      rw [hal, hbl]
      rfl
    rw [hatk]
    refine ⟨?_, ?_, ?_⟩
    · show (st.setBase (CombatSystem.enemyOf a.team) b _).model.soldiers = _
      unfold CombatSystem.CombatState.setBase
      split <;> rfl
    · show (st.setBase (CombatSystem.enemyOf a.team) b _).model.basesOf a.team = _
      exact CombatSystem.basesOf_setBase_other st _ _ b _ (CombatSystem.enemyOf_ne a.team).symm
    · show (st.setBase (CombatSystem.enemyOf a.team) b _).model.basesOf
        (CombatSystem.enemyOf a.team) = _
      exact CombatSystem.basesOf_setBase_same st _ b _
  · simp only [if_neg hc]
    refine ⟨trivial, trivial, ?_⟩
    exact (set_getElem?_self _ b target hb).symm

theorem CombatSystem.siegeBase_none (st : CombatSystem.CombatState) (i b : Nat) (turn : Int)
    (a : Soldier) (hi : st.model.soldiers[i]? = some a)
    (hb : (st.model.basesOf (CombatSystem.enemyOf a.team))[b]? = none) :
    CombatSystem.siegeBase st i b turn = st := by
  unfold CombatSystem.siegeBase
  rw [hi]
  simp only [Soldier.getTeam]
  rw [hb]

theorem option_map_prefix_step {α : Type} (f : α → α) (o : Option α) (k A : Nat)
    (hkA : k ≠ A) :
    o.map (fun u => if k < A then f u else u) =
      o.map (fun u => if k < A + 1 then f u else u) := by
  have h : k < A ↔ k < A + 1 := by omega
  simp only [h]

/-- The inner loop of the siege phase, for a living unit, after its first `B`
rounds. -/
theorem CombatSystem.siegeInner_upTo (st : CombatSystem.CombatState) (i : Nat) (turn : Int)
    (a : Soldier) (hi : st.model.soldiers[i]? = some a) (hal : a.alive = true) :
    ∀ B : Nat,
      ((List.range B).foldl (fun acc b => CombatSystem.siegeBase acc i b turn) st).model.soldiers
        = st.model.soldiers ∧
      ((List.range B).foldl (fun acc b => CombatSystem.siegeBase acc i b turn) st).model.basesOf
        a.team = st.model.basesOf a.team ∧
      ∀ b : Nat,
        (((List.range B).foldl (fun acc b => CombatSystem.siegeBase acc i b turn) st).model.basesOf
          (CombatSystem.enemyOf a.team))[b]? =
        ((st.model.basesOf (CombatSystem.enemyOf a.team))[b]?).map
          (fun target => if b < B then
            CombatSystem.hitBase a (CombatSystem.attackDamage a st.model) target else target) := by
  intro B
  induction B with
  | zero =>
      refine ⟨rfl, rfl, ?_⟩
      intro b
      simp
  | succ B ih =>
      rw [List.range_succ, List.foldl_append]
      simp only [List.foldl_cons, List.foldl_nil]
      generalize (List.range B).foldl (fun acc b => CombatSystem.siegeBase acc i b turn) st = acc
        at ih ⊢
      obtain ⟨hs, hown, hen⟩ := ih
      have hi2 : acc.model.soldiers[i]? = some a := by rw [hs]; exact hi
      have hBeq : (acc.model.basesOf (CombatSystem.enemyOf a.team))[B]? =
          (st.model.basesOf (CombatSystem.enemyOf a.team))[B]? := by
        rw [hen B]
        cases (st.model.basesOf (CombatSystem.enemyOf a.team))[B]? with
        | none => rfl
        | some x => simp only [Option.map_some', if_neg (Nat.lt_irrefl B)]
      cases h0 : (st.model.basesOf (CombatSystem.enemyOf a.team))[B]? with
      | none =>
          rw [h0] at hBeq
          rw [CombatSystem.siegeBase_none acc i B turn a hi2 hBeq]
          refine ⟨hs, hown, ?_⟩
          intro b
          rw [hen b]
          by_cases hbB : b = B
          · rw [hbB, h0]
            rfl
          · exact option_map_prefix_step _ _ b B hbB
      | some target =>
          rw [h0] at hBeq
          obtain ⟨h1, h2, h3⟩ := CombatSystem.siegeBase_hit acc i B turn a target hi2 hal hBeq
          refine ⟨h1.trans hs, h2.trans hown, ?_⟩
          intro b
          rw [h3, CombatSystem.attackDamage_congr_own a acc.model st.model hown,
            List.getElem?_set]
          by_cases hbB : B = b
          · rw [if_pos hbB]
            have hlen : B < (acc.model.basesOf (CombatSystem.enemyOf a.team)).length :=
              (List.getElem?_eq_some.mp hBeq).1
            rw [if_pos hlen, ← hbB, h0]
            simp only [Option.map_some', if_pos (Nat.lt_succ_self B)]
          · rw [if_neg hbB, hen b]
            exact option_map_prefix_step _ _ b B (fun h => hbB h.symm)

theorem list_eq_map_of_getElem? {α : Type} (l l0 : List α) (f : α → α)
    (h : ∀ k : Nat, l[k]? = (l0[k]?).map f) : l = l0.map f := by
  apply List.ext_getElem?
  intro k
  rw [h k, List.getElem?_map]

/-- One round of the outer loop of the siege phase, for a living unit. -/
theorem CombatSystem.siegeFrom_alive (st : CombatSystem.CombatState) (i : Nat) (turn : Int)
    (a : Soldier) (hi : st.model.soldiers[i]? = some a) (hal : a.alive = true) :
    (CombatSystem.siegeFrom turn st i).model.soldiers = st.model.soldiers ∧
    (CombatSystem.siegeFrom turn st i).model.basesOf a.team = st.model.basesOf a.team ∧
    (CombatSystem.siegeFrom turn st i).model.basesOf (CombatSystem.enemyOf a.team) =
      (st.model.basesOf (CombatSystem.enemyOf a.team)).map
        (CombatSystem.hitBase a (CombatSystem.attackDamage a st.model)) := by
  unfold CombatSystem.siegeFrom
  rw [hi]
  have hn : (!a.isAlive) = false := by
    unfold Soldier.isAlive
    rw [hal]
    rfl
  simp only [hn, Bool.false_eq_true, if_false, Soldier.getTeam]
  obtain ⟨h1, h2, h3⟩ := CombatSystem.siegeInner_upTo st i turn a hi hal
    (st.model.basesOf (CombatSystem.enemyOf a.team)).length
  refine ⟨h1, h2, ?_⟩
  apply list_eq_map_of_getElem?
  intro k
  rw [h3 k]
  cases h0 : (st.model.basesOf (CombatSystem.enemyOf a.team))[k]? with
  | none => rfl
  | some target =>
      have hk := (List.getElem?_eq_some.mp h0).1
      simp only [Option.map_some', if_pos hk]

/-- One round of the outer loop of the siege phase, for a dead unit or past
the end of the unit list. -/
theorem CombatSystem.siegeFrom_skip (st : CombatSystem.CombatState) (i : Nat) (turn : Int)
    (h : ∀ a, st.model.soldiers[i]? = some a → a.alive = false) :
    CombatSystem.siegeFrom turn st i = st := by
  unfold CombatSystem.siegeFrom
  cases h0 : st.model.soldiers[i]? with
  | none => rfl
  | some a =>
      have hd := h a h0
      have hn : (!a.isAlive) = true := by
        unfold Soldier.isAlive
        rw [hd]
        rfl
      simp only [hn, if_true]

theorem GameModel.mem_bases_of_basesOf (m : GameModel) (team : Team) (base : Base)
    (h : base ∈ m.basesOf team) : base ∈ m.bases := by
  unfold GameModel.basesOf at h
  unfold GameModel.bases
  rw [List.mem_append]
  split at h
  · exact Or.inl h
  · exact Or.inr h

theorem Base.afterSiegeUpTo_zero (m : GameModel) (team : Team) (base : Base)
    (h : 0 ≤ base.hp) : Base.afterSiegeUpTo m team 0 base = base := by
  unfold Base.afterSiegeUpTo siegeTotalUpTo
  have : max 0 (base.hp - ((List.take 0 m.soldiers).map (siegeDamage m team base)).sum)
      = base.hp := by
    simp only [List.take_zero, List.map_nil, List.sum_nil]
    omega
  rw [this]

/-- The home bonus of a unit that besieges a living enemy base is the same in
the middle of the siege phase as at its start. -/
theorem CombatSystem.nearOwnBase_stable (m0 m : GameModel)
    (hatk : AttacksNonneg m0) (hstab : SiegeBonusStable m0) (A : Nat) (a : Soldier)
    (ha : a ∈ m0.soldiers)
    (hown : m.basesOf a.team = (m0.basesOf a.team).map (Base.afterSiegeUpTo m0 a.team A))
    (target : Base) (ht : target ∈ m0.basesOf (CombatSystem.enemyOf a.team))
    (hth : target.hp > 0) (hbes : besieges a (CombatSystem.enemyOf a.team) target) :
    CombatSystem.nearOwnBase a m = CombatSystem.nearOwnBase a m0 := by
  rw [Bool.eq_iff_iff, CombatSystem.nearOwnBase_iff, CombatSystem.nearOwnBase_iff, hown]
  constructor
  · rintro ⟨x, hx, hhp, hd⟩
    rw [List.mem_map] at hx
    obtain ⟨x0, hx0, hxe⟩ := hx
    rw [← hxe] at hhp hd
    have htot := siegeTotalUpTo_nonneg m0 hatk a.team x0 A
    refine ⟨x0, hx0, ?_, hd⟩
    have h1 : (Base.afterSiegeUpTo m0 a.team A x0).hp =
        max 0 (x0.hp - siegeTotalUpTo m0 a.team x0 A) := rfl
    rw [h1] at hhp
    omega
  · rintro ⟨x0, hx0, hhp, hd⟩
    have hz := siegeTotalUpTo_zero m0 a.team x0 A
      (hstab a ha target ht hth hbes x0 hx0 hhp hd)
    refine ⟨Base.afterSiegeUpTo m0 a.team A x0, List.mem_map_of_mem _ hx0, ?_, hd⟩
    have h1 : (Base.afterSiegeUpTo m0 a.team A x0).hp =
        max 0 (x0.hp - siegeTotalUpTo m0 a.team x0 A) := rfl
    rw [h1, hz]
    omega

theorem CombatSystem.attackDamage_stable (m0 m : GameModel)
    (hatk : AttacksNonneg m0) (hstab : SiegeBonusStable m0) (A : Nat) (a : Soldier)
    (ha : a ∈ m0.soldiers)
    (hown : m.basesOf a.team = (m0.basesOf a.team).map (Base.afterSiegeUpTo m0 a.team A))
    (target : Base) (ht : target ∈ m0.basesOf (CombatSystem.enemyOf a.team))
    (hth : target.hp > 0) (hbes : besieges a (CombatSystem.enemyOf a.team) target) :
    CombatSystem.attackDamage a m = CombatSystem.attackDamage a m0 := by
  unfold CombatSystem.attackDamage
  rw [CombatSystem.nearOwnBase_stable m0 m hatk hstab A a ha hown target ht hth hbes]

/-- What the living unit at index `A` does to a base that the first `A` units
have already besieged. -/
theorem CombatSystem.hitBase_afterSiegeUpTo (m0 m : GameModel)
    (hatk : AttacksNonneg m0) (hstab : SiegeBonusStable m0) (A : Nat) (a : Soldier)
    (hA : m0.soldiers[A]? = some a) (hal : a.alive = true)
    (hown : m.basesOf a.team = (m0.basesOf a.team).map (Base.afterSiegeUpTo m0 a.team A))
    (target : Base) (ht : target ∈ m0.basesOf (CombatSystem.enemyOf a.team)) :
    CombatSystem.hitBase a (CombatSystem.attackDamage a m)
        (Base.afterSiegeUpTo m0 (CombatSystem.enemyOf a.team) A target) =
      Base.afterSiegeUpTo m0 (CombatSystem.enemyOf a.team) (A + 1) target := by
  have ha : a ∈ m0.soldiers := List.getElem?_mem hA
  have htot := siegeTotalUpTo_nonneg m0 hatk (CombatSystem.enemyOf a.team) target A
  have hsucc := siegeTotalUpTo_succ_some m0 (CombatSystem.enemyOf a.team) target A a hA
  have hbes_iff : besieges a (CombatSystem.enemyOf a.team) target ↔
      a.position.chebyshevDistanceTo target.position ≤ a.attackRange := by
    unfold besieges
    constructor
    · intro h; exact h.2.2
    · intro h; exact ⟨hal, (CombatSystem.enemyOf_ne a.team).symm, h⟩
  unfold CombatSystem.hitBase
  by_cases hc : ((Base.afterSiegeUpTo m0 (CombatSystem.enemyOf a.team) A target).isAlive &&
      a.canAttack (Base.afterSiegeUpTo m0 (CombatSystem.enemyOf a.team) A target).getPosition)
      = true
  · rw [if_pos hc]
    rw [Bool.and_eq_true] at hc
    obtain ⟨hc1, hc2⟩ := hc
    have hhp : max 0 (target.hp - siegeTotalUpTo m0 (CombatSystem.enemyOf a.team) target A) > 0 :=
      of_decide_eq_true hc1
    have hrange : a.position.chebyshevDistanceTo target.position ≤ a.attackRange :=
      of_decide_eq_true hc2
    have hbes := hbes_iff.mpr hrange
    have hth : target.hp > 0 := by omega
    rw [CombatSystem.attackDamage_stable m0 m hatk hstab A a ha hown target ht hth hbes]
    have hdn := CombatSystem.attackDamage_nonneg a m0 (hatk a ha)
    unfold Base.afterSiegeUpTo Base.takeDamage
    rw [hsucc]
    unfold siegeDamage
    rw [if_pos hbes]
    simp only
    congr 1
    omega
  · rw [if_neg hc]
    unfold Base.afterSiegeUpTo
    rw [hsucc]
    congr 1
    by_cases hbes : besieges a (CombatSystem.enemyOf a.team) target
    · have hrange := hbes_iff.mp hbes
      have hc2 : a.canAttack (Base.afterSiegeUpTo m0 (CombatSystem.enemyOf a.team) A
          target).getPosition = true := decide_eq_true hrange
      have hc1 : ¬ (Base.afterSiegeUpTo m0 (CombatSystem.enemyOf a.team) A target).isAlive
          = true := by
        intro h
        apply hc
        rw [h, hc2]
        rfl
      have hhp : ¬ max 0 (target.hp - siegeTotalUpTo m0 (CombatSystem.enemyOf a.team) target A)
          > 0 := by
        intro h
        exact hc1 (decide_eq_true h)
      have hdn := siegeDamage_nonneg m0 (CombatSystem.enemyOf a.team) target a (hatk a ha)
      omega
    · unfold siegeDamage
      rw [if_neg hbes]
      omega

theorem Base.afterSiegeUpTo_succ_skip (m : GameModel) (team : Team) (A : Nat) (base : Base)
    (h : ∀ a, m.soldiers[A]? = some a → ¬ besieges a team base) :
    Base.afterSiegeUpTo m team (A + 1) base = Base.afterSiegeUpTo m team A base := by
  unfold Base.afterSiegeUpTo
  cases h0 : m.soldiers[A]? with
  | none => rw [siegeTotalUpTo_succ_none m team base A h0]
  | some a =>
      rw [siegeTotalUpTo_succ_some m team base A a h0]
      unfold siegeDamage
      rw [if_neg (h a h0), Int.add_zero]

/-- The siege phase after the first `A` rounds of its outer loop. -/
theorem CombatSystem.siegeOuter_upTo (turn : Int) (st0 : CombatSystem.CombatState)
    (hsound : BasesSound st0.model) (hatk : AttacksNonneg st0.model)
    (hstab : SiegeBonusStable st0.model) :
    ∀ A : Nat,
      ((List.range A).foldl (CombatSystem.siegeFrom turn) st0).model.soldiers
        = st0.model.soldiers ∧
      ∀ team : Team,
        ((List.range A).foldl (CombatSystem.siegeFrom turn) st0).model.basesOf team =
          (st0.model.basesOf team).map (Base.afterSiegeUpTo st0.model team A) := by
  intro A
  induction A with
  | zero =>
      refine ⟨rfl, ?_⟩
      intro team
      simp only [List.range_zero, List.foldl_nil]
      have h : (st0.model.basesOf team).map (Base.afterSiegeUpTo st0.model team 0) =
          (st0.model.basesOf team).map id := by
        apply List.map_congr_left
        intro base hb
        exact Base.afterSiegeUpTo_zero st0.model team base
          (hsound base (GameModel.mem_bases_of_basesOf st0.model team base hb)).1
      rw [h, List.map_id]
  | succ A ih =>
      rw [List.range_succ, List.foldl_append]
      simp only [List.foldl_cons, List.foldl_nil]
      generalize (List.range A).foldl (CombatSystem.siegeFrom turn) st0 = st at ih ⊢
      obtain ⟨hs, hb⟩ := ih
      by_cases hlive : ∃ a, st0.model.soldiers[A]? = some a ∧ a.alive = true
      · obtain ⟨a, hA, hal⟩ := hlive
        have hA2 : st.model.soldiers[A]? = some a := by rw [hs]; exact hA
        obtain ⟨h1, h2, h3⟩ := CombatSystem.siegeFrom_alive st A turn a hA2 hal
        refine ⟨h1.trans hs, ?_⟩
        intro team
        by_cases hteam : team = a.team
        · rw [hteam, h2, hb a.team]
          apply List.map_congr_left
          intro base _
          symm
          apply Base.afterSiegeUpTo_succ_skip
          intro a2 ha2 hbes
          rw [hA] at ha2
          have : a = a2 := Option.some.inj ha2
          rw [← this] at hbes
          exact hbes.2.1 rfl
        · have hen : team = CombatSystem.enemyOf a.team :=
            CombatSystem.eq_enemyOf_of_ne a.team team (fun h => hteam h.symm)
          rw [hen, h3, hb (CombatSystem.enemyOf a.team), List.map_map]
          apply List.map_congr_left
          intro base hbase
          exact CombatSystem.hitBase_afterSiegeUpTo st0.model st.model hatk hstab A a hA hal
            (hb a.team) base hbase
      · have hskip : CombatSystem.siegeFrom turn st A = st := by
          apply CombatSystem.siegeFrom_skip
          intro a ha
          rw [hs] at ha
          cases hal : a.alive with
          | false => rfl
          | true => exact absurd ⟨a, ha, hal⟩ hlive
        rw [hskip]
        refine ⟨hs, ?_⟩
        intro team
        rw [hb team]
        apply List.map_congr_left
        intro base _
        symm
        apply Base.afterSiegeUpTo_succ_skip
        intro a ha hbes
        exact hlive ⟨a, ha, hbes.1⟩

/-- The bases of one team after the siege phase. -/
theorem CombatSystem.siegePhase_basesOf (turn : Int) (st0 : CombatSystem.CombatState)
    (hsound : BasesSound st0.model) (hatk : AttacksNonneg st0.model)
    (hstab : SiegeBonusStable st0.model) (team : Team) :
    (CombatSystem.siegePhase turn st0).model.basesOf team =
      (st0.model.basesOf team).map
        (fun base => { base with hp := max 0 (base.hp - siegeTotal st0.model team base) }) := by
  unfold CombatSystem.siegePhase
  rw [(CombatSystem.siegeOuter_upTo turn st0 hsound hatk hstab st0.model.soldiers.length).2 team]
  apply List.map_congr_left
  intro base _
  unfold Base.afterSiegeUpTo
  rw [siegeTotalUpTo_length]

theorem siegeTotal_nonneg (m : GameModel) (hatk : AttacksNonneg m) (team : Team)
    (base : Base) : 0 ≤ siegeTotal m team base := by
  rw [← siegeTotalUpTo_length]
  exact siegeTotalUpTo_nonneg m hatk team base _

theorem cabs_le_iff (x k : Int) : cabs x ≤ k ↔ -k ≤ x ∧ x ≤ k := by
  unfold cabs
  split <;> omega

/-- With the bases where `GameModel::initialize` puts them, no unit of attack
range at most 3 that is in range of an enemy base is within Manhattan distance
6 of a base of its own team. -/
theorem SiegeBonusStable_of_layout (m : GameModel) (hlay : InitialBaseLayout m)
    (hrange : ∀ a ∈ m.soldiers, a.attackRange ≤ 3) : SiegeBonusStable m := by
  obtain ⟨hA, hB⟩ := hlay
  have hyA : ∀ base ∈ m.basesTeamA, base.position.y ≤ 18 := by
    intro base hb
    have h := List.mem_map_of_mem Base.getPosition hb
    rw [hA] at h
    simp only [initialBasesTeamA, Base.new, Base.getPosition, List.map_cons, List.map_nil,
      List.mem_cons, List.mem_singleton, List.not_mem_nil, or_false] at h
    rcases h with h | h | h <;> rw [h] <;> decide
  have hyB : ∀ base ∈ m.basesTeamB, 44 ≤ base.position.y := by
    intro base hb
    have h := List.mem_map_of_mem Base.getPosition hb
    rw [hB] at h
    simp only [initialBasesTeamB, Base.new, Base.getPosition, List.map_cons, List.map_nil,
      List.mem_cons, List.mem_singleton, List.not_mem_nil, or_false] at h
    rcases h with h | h | h <;> rw [h] <;> decide
  intro a ha target ht _ hbes home hh _ hd
  exfalso
  have hr := hrange a ha
  have hc := hbes.2.2
  unfold Position.chebyshevDistanceTo at hc
  unfold Position.distanceTo at hd
  have h1 : cabs (a.position.y - target.position.y) ≤ 3 := by omega
  have h2 : cabs (a.position.y - home.position.y) ≤ 6 := by
    have : 0 ≤ cabs (a.position.x - home.position.x) := by
      unfold cabs
      split <;> omega
    omega
  rw [cabs_le_iff] at h1 h2
  cases hteam : a.team with
  | TEAM_A =>
      rw [hteam] at ht hh
      have := hyB target ht
      have := hyA home hh
      omega
  | TEAM_B =>
      rw [hteam] at ht hh
      have := hyA target ht
      have := hyB home hh
      omega

theorem CombatSystem.attackDamage_eq_rule (m : GameModel) (a : Soldier)
    (h : a.attack = (Soldier.new a.position a.type a.team).attack) :
    CombatSystem.attackDamage a m = ruleDamage m a := by
  unfold CombatSystem.attackDamage ruleDamage Soldier.getAttack
  by_cases hnear : ∃ b ∈ m.basesOf a.team, b.hp > 0 ∧ a.position.distanceTo b.position ≤ 6
  · rw [if_pos ((CombatSystem.nearOwnBase_iff a m).2 hnear), if_pos hnear, h,
      CombatSystem.applyBaseMultiplier_kind]
  · have hb : ¬ CombatSystem.nearOwnBase a m = true :=
      fun hn => hnear ((CombatSystem.nearOwnBase_iff a m).1 hn)
    rw [if_neg hb, if_neg hnear]

theorem siegeSum_eq_rule (m : GameModel) (team : Team) (base : Base) :
    ∀ l : List Soldier, (∀ a ∈ l, a.attack = (Soldier.new a.position a.type a.team).attack) →
      (l.map (siegeDamage m team base)).sum =
        ((l.filter fun a =>
            decide (a.alive = true ∧ a.team ≠ team ∧
              a.position.chebyshevDistanceTo base.position ≤ a.attackRange)).map
          (ruleDamage m)).sum := by
  intro l
  induction l with
  | nil => intro _; rfl
  | cons a rest ih =>
      intro h
      have hrest := ih (fun x hx => h x (List.mem_cons_of_mem a hx))
      have ha := CombatSystem.attackDamage_eq_rule m a (h a (List.mem_cons_self a rest))
      rw [List.map_cons, List.sum_cons, hrest]
      unfold siegeDamage besieges
      by_cases hb : a.alive = true ∧ a.team ≠ team ∧
          a.position.chebyshevDistanceTo base.position ≤ a.attackRange
      · rw [if_pos hb, List.filter_cons_of_pos (by simpa using hb), List.map_cons,
          List.sum_cons, ha]
      · rw [if_neg hb, List.filter_cons_of_neg (by simpa using hb), Int.zero_add]

theorem siegeTotal_eq_rule (m : GameModel) (team : Team) (base : Base)
    (hkind : ∀ a ∈ m.soldiers, a.attack = (Soldier.new a.position a.type a.team).attack) :
    siegeTotal m team base = ruleSiegeTotal m team base :=
  siegeSum_eq_rule m team base m.soldiers hkind

theorem AttacksNonneg_of_kind (m : GameModel)
    (hkind : ∀ a ∈ m.soldiers, a.attack = (Soldier.new a.position a.type a.team).attack) :
    AttacksNonneg m := by
  intro a ha
  rw [hkind a ha]
  exact (Soldier.new_attack_range a.position a.type a.team).1

/-- In the siege the three besiegers deal 50 + 70 + 60 to the base at (10, 49),
none of them with the home bonus. -/
theorem siegeTotal_siegeWorld :
    siegeTotal siegeState.model Team.TEAM_B { Base.new ⟨10, 49⟩ Team.TEAM_B with hp := 150 }
      = 180 := by
  decide

/-! ## Model set-up: `GameModel::initialize` -/

theorem GameModel.newBasesTeamA_eq :
    GameModel.newBasesTeamA =
      [Base.new ⟨8, 12⟩ Team.TEAM_A, Base.new ⟨32, 5⟩ Team.TEAM_A, Base.new ⟨55, 18⟩ Team.TEAM_A] := by
  decide

theorem GameModel.newBasesTeamB_eq :
    GameModel.newBasesTeamB =
      [Base.new ⟨10, 49⟩ Team.TEAM_B, Base.new ⟨35, 56⟩ Team.TEAM_B, Base.new ⟨58, 44⟩ Team.TEAM_B] := by
  decide

/-- C28 on the code: `GameModel::initialize` resets the turn count, the
game-over flag, the unit list and the bases (three per team at 5000 hit
points) and sets the two `teams[].energy` members to 200, but the energy that
`getEnergy` returns is the one the model had before the call, for every prior
state, generated map and team. -/
theorem GameModel.initialize_keeps_energy (m : GameModel) (generated : GameMap) (team : Team) :
    ( GameModel.initialize m generated).getEnergy team = m.getEnergy team ∧
    ( GameModel.initialize m generated).teams0.energy = 200 ∧
    ( GameModel.initialize m generated).teams1.energy = 200 ∧
    ( GameModel.initialize m generated).turnCount = 0 ∧
    ( GameModel.initialize m generated).gameOver = false ∧
    ( GameModel.initialize m generated).soldiers = [] ∧
    (( GameModel.initialize m generated).basesOf team).length = 3 ∧
    (∀ base ∈ ( GameModel.initialize m generated).basesOf team, base.hp = 5000) := by
  refine ⟨?_, rfl, rfl, rfl, rfl, rfl, ?_, ?_⟩
  · cases team <;> rfl
  · cases team
    · show GameModel.newBasesTeamA.length = 3
      rw [GameModel.newBasesTeamA_eq]
      rfl
    · show GameModel.newBasesTeamB.length = 3
      rw [GameModel.newBasesTeamB_eq]
      rfl
  · intro base hb
    cases team
    · have hb2 : base ∈ GameModel.newBasesTeamA := hb
      rw [GameModel.newBasesTeamA_eq] at hb2
      simp only [List.mem_cons, List.mem_singleton, List.not_mem_nil, or_false] at hb2
      rcases hb2 with h | h | h <;> rw [h] <;> rfl
    · have hb2 : base ∈ GameModel.newBasesTeamB := hb
      rw [GameModel.newBasesTeamB_eq] at hb2
      simp only [List.mem_cons, List.mem_singleton, List.not_mem_nil, or_false] at hb2
      rcases hb2 with h | h | h <;> rw [h] <;> rfl

/-- A model in which Team A has 100 energy and Team B 40 still reports 100 and
40 after `initialize`, not 200. -/
theorem GameModel.initialize_smallWorld :
    ( GameModel.initialize smallWorld openMap).getEnergy Team.TEAM_A = 100 ∧
    ( GameModel.initialize smallWorld openMap).getEnergy Team.TEAM_B = 40 := by
  decide

/-! ## End of turn: `cleanupDeadSoldiers` -/

theorem GameModel.removeSoldier_foldl (dead : List (Nat × Soldier)) :
    ∀ soldiers : List (Nat × Soldier),
      dead.foldl (fun acc d => GameModel.removeSoldier acc d.1) soldiers =
        soldiers.filter (fun p => decide (∀ d ∈ dead, p.1 ≠ d.1)) := by
  induction dead with
  | nil =>
      intro soldiers
      simp
  | cons d rest ih =>
      intro soldiers
      rw [List.foldl_cons, ih]
      unfold GameModel.removeSoldier
      rw [List.filter_filter]
      apply List.filter_congr
      intro p _
      simp only [List.mem_cons, forall_eq_or_imp, Bool.decide_and, ne_eq]
      rw [Bool.and_comm]

theorem enumFrom_filter_snd (f : Soldier → Bool) :
    ∀ (l : List Soldier) (n : Nat),
      ((l.enumFrom n).filter (fun p => f p.2)).map Prod.snd = l.filter f := by
  intro l
  induction l with
  | nil => intro n; rfl
  | cons a rest ih =>
      intro n
      rw [List.enumFrom_cons, List.filter_cons, List.filter_cons]
      by_cases h : f a = true
      · simp only [h, if_true, List.map_cons, ih]
      · simp only [h, if_false, ih, Bool.false_eq_true]

theorem GameController.cleanupDeadSoldiers_soldiers (m : GameModel) :
    (GameController.cleanupDeadSoldiers m).soldiers = m.soldiers.filter fun s => s.alive := by
  unfold GameController.cleanupDeadSoldiers GameModel.getSoldiers
  dsimp only
  rw [GameModel.removeSoldier_foldl]
  have hcongr : m.soldiers.enum.filter
      (fun p : Nat × Soldier =>
        decide (∀ d ∈ m.soldiers.enum.filter (fun q : Nat × Soldier => !q.2.isAlive),
          p.1 ≠ d.1)) =
      m.soldiers.enum.filter (fun p : Nat × Soldier => p.2.alive) := by
    apply List.filter_congr
    intro p hp
    cases hal : p.2.alive with
    | true =>
        apply decide_eq_true
        intro d hd hpd
        rw [List.mem_filter] at hd
        obtain ⟨hd1, hd2⟩ := hd
        have h1 : m.soldiers[p.1]? = some p.2 := List.mk_mem_enum_iff_getElem?.mp hp
        have h2 : m.soldiers[d.1]? = some d.2 := List.mk_mem_enum_iff_getElem?.mp hd1
        rw [hpd, h2] at h1
        have h3 : d.2 = p.2 := Option.some.inj h1
        unfold Soldier.isAlive at hd2
        rw [h3, hal] at hd2
        exact absurd hd2 (by decide)
    | false =>
        apply decide_eq_false
        intro hall
        apply hall p _ rfl
        rw [List.mem_filter]
        refine ⟨hp, ?_⟩
        unfold Soldier.isAlive
        rw [hal]
        rfl
  rw [hcongr]
  exact enumFrom_filter_snd (fun s => s.alive) m.soldiers 0

/-! ## Movement: `processSoldierBehavior` -/

theorem AIController.free_of_not_occupied_except (m : GameModel) (pos : Position) (i : Nat)
    (h : AIController.isPositionOccupied m pos (some i) = false) :
    ∀ (k : Nat) (s : Soldier), k ≠ i → m.soldiers[k]? = some s → s.alive = true →
      s.position ≠ pos := by
  intro k s hk hs halive hpos
  unfold AIController.isPositionOccupied GameModel.getSoldiers at h
  rw [List.any_eq_false] at h
  have hx := h (k, s) (List.mk_mem_enum_iff_getElem?.mpr hs)
  apply hx
  simp [Soldier.isAlive, Soldier.getPosition, halive, hpos, hk]

theorem OnlyUnitChanged.refl (i : Nat) (ss : List Soldier) : OnlyUnitChanged i ss ss :=
  ⟨rfl, fun _ _ => rfl⟩

theorem OnlyUnitChanged.trans (i : Nat) (a b c : List Soldier) (h1 : OnlyUnitChanged i a b)
    (h2 : OnlyUnitChanged i b c) : OnlyUnitChanged i a c :=
  ⟨h2.1.trans h1.1, fun k hk => (h2.2 k hk).trans (h1.2 k hk)⟩

/-- A guarded `setPosition` keeps the units on distinct cells and touches no
other unit. -/
theorem GameModel.moveSoldier_inv (m : GameModel) (i : Nat) (newPos : Position)
    (hns : NoStacking m.soldiers) (hfree : GameController.canEnter m i newPos = true) :
    NoStacking (m.moveSoldier i newPos).soldiers ∧
    OnlyUnitChanged i m.soldiers (m.moveSoldier i newPos).soldiers ∧
    (m.moveSoldier i newPos).gameMap = m.gameMap := by
  unfold GameController.canEnter at hfree
  rw [Bool.and_eq_true] at hfree
  have hocc : AIController.isPositionOccupied m newPos (some i) = false := by
    have := hfree.2
    simpa using this
  have hother := AIController.free_of_not_occupied_except m newPos i hocc
  unfold GameModel.moveSoldier
  cases hi : m.soldiers[i]? with
  | none => exact ⟨hns, OnlyUnitChanged.refl i _, rfl⟩
  | some s =>
      dsimp only
      refine ⟨?_, ⟨List.length_set _ _ _, ?_⟩, rfl⟩
      · intro a b x y hx hy hab hxa hya
        rw [List.getElem?_set] at hx hy
        by_cases hai : i = a
        · rw [if_pos hai] at hx
          have hbi : ¬ i = b := fun h => hab (hai.symm.trans h)
          rw [if_neg hbi] at hy
          split at hx
          · have hxe : s.setPosition newPos = x := Option.some.inj hx
            rw [← hxe]
            intro hp
            exact hother b y (fun h => hbi h.symm) hy hya hp.symm
          · exact absurd hx (by simp)
        · rw [if_neg hai] at hx
          by_cases hbi : i = b
          · rw [if_pos hbi] at hy
            split at hy
            · have hye : s.setPosition newPos = y := Option.some.inj hy
              rw [← hye]
              exact hother a x (fun h => hai h.symm) hx hxa
            · exact absurd hy (by simp)
          · rw [if_neg hbi] at hy
            exact hns a b x y hx hy hab hxa hya
      · intro k hk
        rw [List.getElem?_set, if_neg (fun h => hk h.symm)]

/-- Every property of the world that a guarded `setPosition` of the unit at
index `i` preserves is preserved by the loop that moves to the first candidate
that can be entered. -/
theorem GameController.moveToFirstFree_preserves (P : GameModel → Prop) (i : Nat)
    (hP : ∀ (m : GameModel) (p : Position), P m → GameController.canEnter m i p = true →
      P (m.moveSoldier i p))
    (m m2 : GameModel) (candidates : List Position) (hinv : P m)
    (h : GameController.moveToFirstFree m i candidates = some m2) : P m2 := by
  unfold GameController.moveToFirstFree at h
  cases hf : candidates.find? (fun newPos => GameController.canEnter m i newPos) with
  | none =>
      rw [hf] at h
      exact absurd h (by simp)
  | some p =>
      rw [hf] at h
      have hm2 : m.moveSoldier i p = m2 := Option.some.inj h
      have hp : GameController.canEnter m i p = true := by
        have := List.find?_some hf
        simpa using this
      rw [← hm2]
      exact hP m p hinv hp

theorem GameController.disperse_preserves (P : GameModel → Prop) (i : Nat)
    (hP : ∀ (m : GameModel) (p : Position), P m → GameController.canEnter m i p = true →
      P (m.moveSoldier i p))
    (positions : List Position) (m : GameModel) (hinv : P m) :
    P (GameController.disperse m i positions) := by
  unfold GameController.disperse
  apply foldl_preserves P _ _ positions m hinv
  intro acc p hacc
  by_cases hc : GameController.canEnter acc i p = true
  · rw [if_pos hc]
    exact hP acc p hacc hc
  · rw [if_neg hc]
    exact hacc

theorem GameController.moveStep_preserves (P : GameModel → Prop) (i : Nat)
    (hP : ∀ (m : GameModel) (p : Position), P m → GameController.canEnter m i p = true →
      P (m.moveSoldier i p))
    (isCrowded : Bool) (choices : Nat → MoveChoices) (acc : GameModel × Bool) (step : Nat)
    (hinv : P acc.1) : P (GameController.moveStep isCrowded i choices acc step).1 := by
  unfold GameController.moveStep
  by_cases hstop : acc.2 = true
  · rw [if_pos hstop]
    exact hinv
  · rw [if_neg hstop]
    cases hi : acc.1.soldiers[i]? with
    | none => exact hinv
    | some soldier =>
        dsimp only
        have hm1 : P
            (if (isCrowded && decide (step = 0)) = true then
              GameController.disperse acc.1 i
                (GameController.dispersePositions acc.1 soldier soldier.getPosition)
            else acc.1) := by
          split
          · exact GameController.disperse_preserves P i hP _ acc.1 hinv
          · exact hinv
        generalize (if (isCrowded && decide (step = 0)) = true then
              GameController.disperse acc.1 i
                (GameController.dispersePositions acc.1 soldier soldier.getPosition)
            else acc.1) = m1 at hm1 ⊢
        cases hi1 : m1.soldiers[i]? with
        | none => exact hm1
        | some soldier1 =>
            dsimp only
            split
            · exact hm1
            · cases h1 : GameController.moveToFirstFree m1 i
                  (AIController.getMoveCandidates m1 soldier1 (choices step)) with
              | some m2 => exact GameController.moveToFirstFree_preserves P i hP m1 m2 _ hm1 h1
              | none =>
                  dsimp only
                  cases h2 : GameController.moveToFirstFree m1 i
                      ((choices step).shuffleNear
                        (GameController.neighbors soldier.getPosition)) with
                  | some m2 =>
                      exact GameController.moveToFirstFree_preserves P i hP m1 m2 _ hm1 h2
                  | none =>
                      dsimp only
                      cases h3 : GameController.moveToFirstFree m1 i
                          ((choices step).shuffleFar
                            (GameController.farPositions soldier.getPosition)) with
                      | some m2 =>
                          exact GameController.moveToFirstFree_preserves P i hP m1 m2 _ hm1 h3
                      | none => exact hm1

theorem GameController.moveLoop_preserves (P : GameModel → Prop) (i : Nat)
    (hP : ∀ (m : GameModel) (p : Position), P m → GameController.canEnter m i p = true →
      P (m.moveSoldier i p))
    (m : GameModel) (isCrowded : Bool) (moveSpeed : Int) (choices : Nat → MoveChoices)
    (hinv : P m) : P (GameController.moveLoop m isCrowded i moveSpeed choices) := by
  unfold GameController.moveLoop
  exact foldl_preserves (fun x : GameModel × Bool => P x.1)
    (GameController.moveStep isCrowded i choices)
    (fun acc step hacc => GameController.moveStep_preserves P i hP isCrowded choices acc step hacc)
    _ (m, false) hinv

/-- Every property of the world that a guarded `setPosition` of the unit at
index `i` preserves is preserved by `processSoldierBehavior` for that unit. -/
theorem GameController.processSoldierBehavior_preserves (P : GameModel → Prop) (i : Nat)
    (hP : ∀ (m : GameModel) (p : Position), P m → GameController.canEnter m i p = true →
      P (m.moveSoldier i p))
    (m : GameModel) (choices : Nat → MoveChoices) (hstart : P m) :
    P (GameController.processSoldierBehavior m i choices) := by
  unfold GameController.processSoldierBehavior
  cases hi : m.soldiers[i]? with
  | none => exact hstart
  | some soldier =>
      dsimp only
      split
      · exact hstart
      · split
        · exact hstart
        · split
          · split
            · exact hstart
            · cases hm : GameController.nearestMelee m soldier soldier.getPosition with
              | none => exact GameController.moveLoop_preserves P i hP m _ _ choices hstart
              | some e =>
                  dsimp only
                  cases hr : GameController.moveToFirstFree m i
                      (AIController.getRetreatPositions soldier.getPosition e.getPosition) with
                  | some m1 =>
                      exact GameController.moveToFirstFree_preserves P i hP m m1 _ hstart hr
                  | none => exact GameController.moveLoop_preserves P i hP m _ _ choices hstart
          · exact GameController.moveLoop_preserves P i hP m _ _ choices hstart

theorem GameController.processSoldierBehavior_inv (m : GameModel) (i : Nat)
    (choices : Nat → MoveChoices) (hns : NoStacking m.soldiers) :
    NoStacking (GameController.processSoldierBehavior m i choices).soldiers ∧
      OnlyUnitChanged i m.soldiers (GameController.processSoldierBehavior m i choices).soldiers ∧
      (GameController.processSoldierBehavior m i choices).gameMap = m.gameMap := by
  apply GameController.processSoldierBehavior_preserves
    (fun x : GameModel => NoStacking x.soldiers ∧ OnlyUnitChanged i m.soldiers x.soldiers ∧
      x.gameMap = m.gameMap) i _ m choices ⟨hns, OnlyUnitChanged.refl i _, rfl⟩
  intro x p hx hp
  obtain ⟨h1, h2, h3⟩ := GameModel.moveSoldier_inv x i p hx.1 hp
  exact ⟨h1, OnlyUnitChanged.trans i _ _ _ hx.2.1 h2, h3.trans hx.2.2⟩

/-- A move changes the position of one unit and nothing else: the unit list
keeps its length, liveness, teams and kinds, and the rest of the world is the
same. -/
theorem GameModel.moveSoldier_frame (m : GameModel) (i : Nat) (p : Position) :
    (m.moveSoldier i p).soldiers.length = m.soldiers.length ∧
    (m.moveSoldier i p).soldiers.map (fun s => s.alive) = m.soldiers.map (fun s => s.alive) ∧
    (m.moveSoldier i p).basesTeamA = m.basesTeamA ∧
    (m.moveSoldier i p).basesTeamB = m.basesTeamB ∧
    (m.moveSoldier i p).energyTeamA = m.energyTeamA ∧
    (m.moveSoldier i p).energyTeamB = m.energyTeamB := by
  unfold GameModel.moveSoldier
  cases hi : m.soldiers[i]? with
  | none => exact ⟨rfl, rfl, rfl, rfl, rfl, rfl⟩
  | some s =>
      dsimp only
      refine ⟨List.length_set _ _ _, ?_, rfl, rfl, rfl, rfl⟩
      apply List.ext_getElem?
      intro k
      rw [List.getElem?_map, List.getElem?_map, List.getElem?_set]
      by_cases hk : i = k
      · rw [if_pos hk, ← hk, hi]
        rw [if_pos (List.getElem?_eq_some.mp hi).1]
        rfl
      · rw [if_neg hk]

theorem GameController.processSoldierBehavior_length (m : GameModel) (i : Nat)
    (choices : Nat → MoveChoices) :
    (GameController.processSoldierBehavior m i choices).soldiers.length = m.soldiers.length :=
  GameController.processSoldierBehavior_preserves
    (fun x : GameModel => x.soldiers.length = m.soldiers.length) i
    (fun x p hx _ => (GameModel.moveSoldier_frame x i p).1.trans hx) m choices rfl

theorem noStacking_of_positions (ss : List Soldier)
    (h : (ss.map Soldier.getPosition).Nodup) : NoStacking ss := by
  intro i j s t hs ht hij _ _ hpos
  have hi : i < ss.length := (List.getElem?_eq_some.mp hs).1
  have hj : j < ss.length := (List.getElem?_eq_some.mp ht).1
  have h1 : (ss.map Soldier.getPosition)[i]? = some s.position := by
    rw [List.getElem?_map, hs]
    rfl
  have h2 : (ss.map Soldier.getPosition)[j]? = some t.position := by
    rw [List.getElem?_map, ht]
    rfl
  rw [hpos] at h1
  have hlen_i : i < (ss.map Soldier.getPosition).length := by
    rw [List.length_map]
    exact hi
  have hlen_j : j < (ss.map Soldier.getPosition).length := by
    rw [List.length_map]
    exact hj
  rw [List.getElem?_eq_getElem hlen_i] at h1
  rw [List.getElem?_eq_getElem hlen_j] at h2
  have heq : (ss.map Soldier.getPosition)[i] = (ss.map Soldier.getPosition)[j] := by
    rw [Option.some.inj h1, Option.some.inj h2]
  exact hij ((List.Nodup.getElem_inj_iff h).mp heq)

/-- C22: for every world state in which no two living units occupy the same
cell, every index `i` of the unit list (in particular that of a living unit)
and every outcome of the random choices, after `processSoldierBehavior` for
the unit at `i` still no two living units occupy the same cell, the unit list
has the same length, and every unit other than the one at `i` is unchanged, so
that none of them has changed position. -/
theorem GameController.processSoldierBehavior_noStacking (m : GameModel) (i : Nat)
    (choices : Nat → MoveChoices) (hns : NoStacking m.soldiers) :
    NoStacking (GameController.processSoldierBehavior m i choices).soldiers ∧
    (GameController.processSoldierBehavior m i choices).soldiers.length = m.soldiers.length ∧
    (∀ k : Nat, k ≠ i →
      (GameController.processSoldierBehavior m i choices).soldiers[k]? = m.soldiers[k]?) := by
  obtain ⟨h1, h2, _⟩ := GameController.processSoldierBehavior_inv m i choices hns
  exact ⟨h1, h2.1, h2.2⟩

/-- The statement of C22 for the Team A Infantry behind the Archer. -/
theorem GameController.processSoldierBehavior_noStacking_witness :
    NoStacking archerWorld.soldiers ∧
    NoStacking
      (GameController.processSoldierBehavior archerWorld 2 (fun _ => plainChoices)).soldiers ∧
    (GameController.processSoldierBehavior archerWorld 2 (fun _ => plainChoices)).soldiers.length
      = archerWorld.soldiers.length ∧
    (∀ k : Nat, k ≠ 2 →
      (GameController.processSoldierBehavior archerWorld 2 (fun _ => plainChoices)).soldiers[k]?
        = archerWorld.soldiers[k]?) :=
  ⟨noStacking_of_positions _ (by decide),
    GameController.processSoldierBehavior_noStacking archerWorld 2 (fun _ => plainChoices)
      (noStacking_of_positions _ (by decide))⟩

theorem foldl_preserves_mem {σ α : Type} (P : σ → Prop) (f : σ → α → σ) (l : List α)
    (h : ∀ (s : σ) (x : α), x ∈ l → P s → P (f s x)) :
    ∀ s : σ, P s → P (l.foldl f s) := by
  induction l with
  | nil => intro s hs; exact hs
  | cons x rest ih =>
      intro s hs
      exact ih (fun s2 y hy => h s2 y (List.mem_cons_of_mem x hy)) (f s x)
        (h s x (List.mem_cons_self x rest) hs)

theorem cabs_nonneg2 (x : Int) : 0 ≤ cabs x := by
  unfold cabs
  split <;> omega

theorem chebyshev_le_manhattan (p q : Position) :
    p.chebyshevDistanceTo q ≤ cabs (q.x - p.x) + cabs (q.y - p.y) := by
  unfold Position.chebyshevDistanceTo cabs
  split <;> split <;> split <;> split <;> omega

theorem GameController.hasTargetInRange_of_enemy (m : GameModel) (s e : Soldier)
    (he : e ∈ m.soldiers) (hal : e.alive = true) (hteam : e.team ≠ s.team)
    (hrange : s.position.chebyshevDistanceTo e.position ≤ s.attackRange) :
    GameController.hasTargetInRange m s = true := by
  unfold GameController.hasTargetInRange GameModel.getSoldiers
  rw [List.any_eq_true]
  refine ⟨e, he, ?_⟩
  simp [Soldier.isAlive, Soldier.getTeam, Soldier.getPosition, Soldier.canAttack, hal, hteam,
    hrange]

theorem GameController.hasTargetInRange_false (m : GameModel) (s e : Soldier)
    (h : GameController.hasTargetInRange m s = false)
    (he : e ∈ m.soldiers) (hal : e.alive = true) (hteam : e.team ≠ s.team) :
    ¬ s.position.chebyshevDistanceTo e.position ≤ s.attackRange := by
  intro hrange
  rw [GameController.hasTargetInRange_of_enemy m s e he hal hteam hrange] at h
  exact absurd h (by decide)

/-- C29: for every living Archer `s` (at index `i`, with the attack range 3 of
its kind), every world state in which some living enemy unit is within
Chebyshev distance 3 of `s`, and every outcome of the random choices,
`processSoldierBehavior` for `s` returns the world unchanged; in particular the
position of `s` is unchanged. -/
theorem GameController.processSoldierBehavior_archer_holds (m : GameModel) (i : Nat)
    (s e : Soldier) (choices : Nat → MoveChoices) (hi : m.soldiers[i]? = some s)
    (hal : s.alive = true) (hkind : s.type = SoldierType.ARCHER) (hrange : s.attackRange = 3)
    (he : e ∈ m.soldiers) (heal : e.alive = true) (hteam : e.team ≠ s.team)
    (hdist : s.position.chebyshevDistanceTo e.position ≤ 3) :
    GameController.processSoldierBehavior m i choices = m ∧
    ∃ after, (GameController.processSoldierBehavior m i choices).soldiers[i]? = some after ∧
      after.position = s.position := by
  have htarget : GameController.hasTargetInRange m s = true :=
    GameController.hasTargetInRange_of_enemy m s e he heal hteam (by rw [hrange]; exact hdist)
  have hres : GameController.processSoldierBehavior m i choices = m := by
    unfold GameController.processSoldierBehavior
    rw [hi]
    dsimp only
    have hn : (!s.isAlive) = false := by
      unfold Soldier.isAlive
      rw [hal]
      rfl
    rw [hn, if_neg Bool.false_ne_true]
    simp [Soldier.getType, hkind, htarget]
  rw [hres]
  exact ⟨rfl, s, hi, rfl⟩

/-- The statement of C29 for the Archer at (30, 30) with the Team B Infantry at
(32, 30). -/
theorem GameController.processSoldierBehavior_archer_holds_witness :
    GameController.processSoldierBehavior archerWorld 0 (fun _ => plainChoices) = archerWorld :=
  (GameController.processSoldierBehavior_archer_holds archerWorld 0
    (Soldier.new ⟨30, 30⟩ SoldierType.ARCHER Team.TEAM_A)
    (Soldier.new ⟨32, 30⟩ SoldierType.INFANTRY Team.TEAM_B) (fun _ => plainChoices)
    rfl rfl rfl rfl (by decide) rfl (by decide) (by decide)).1

theorem GameController.nearestMelee_none (m : GameModel) (s : Soldier)
    (hrange : s.attackRange = 3) (h : GameController.hasTargetInRange m s = false) :
    GameController.nearestMelee m s s.position = none := by
  unfold GameController.nearestMelee GameModel.getSoldiers
  apply foldl_preserves_mem (fun acc : Option Soldier × Int => acc.1 = none)
    (GameController.meleeStep s s.position) m.soldiers _ (none, 999) rfl
  intro acc e he hacc
  unfold GameController.meleeStep
  split
  · exact hacc
  · rename_i hskip
    split
    · dsimp only
      split
      · rename_i hd
        exfalso
        simp only [Bool.or_eq_true, Bool.not_eq_true', decide_eq_true_eq, not_or,
          Bool.not_eq_false] at hskip
        have hal : e.alive = true := hskip.1
        have hteam : e.team ≠ s.team := hskip.2
        have hfar := GameController.hasTargetInRange_false m s e h he hal hteam
        have hle := chebyshev_le_manhattan s.position e.position
        unfold Soldier.getPosition at hd
        omega
      · exact hacc
    · exact hacc

/-- C30: for every world state and every Archer `s` with the attack range 3 of
its kind: every living enemy with attack range at most 1 within Manhattan
distance 2 of `s` is within the attack range of `s`; hence whenever the
in-range check of `processSoldierBehavior` finds no target, the scan for
`nearestMelee` finds no unit, and the function is the movement loop without
the retreat branch: `getRetreatPositions` is not called. -/
theorem GameController.archer_retreat_unreachable (m : GameModel) (i : Nat) (s : Soldier)
    (choices : Nat → MoveChoices) (hi : m.soldiers[i]? = some s) (hal : s.alive = true)
    (hkind : s.type = SoldierType.ARCHER) (hrange : s.attackRange = 3) :
    (∀ e ∈ m.soldiers, e.alive = true → e.team ≠ s.team → e.attackRange ≤ 1 →
      cabs (e.position.x - s.position.x) + cabs (e.position.y - s.position.y) ≤ 2 →
      s.canAttack e.position = true ∧ GameController.hasTargetInRange m s = true) ∧
    (GameController.hasTargetInRange m s = false →
      GameController.nearestMelee m s s.position = none) ∧
    GameController.processSoldierBehavior m i choices =
      (if (decide (AIController.countNearbyAllies m i s 2 ≥ 8) &&
          !GameController.inCombat m s s.position) = true then m
        else if GameController.hasTargetInRange m s = true then m
        else GameController.moveLoop m (decide (AIController.countNearbyAllies m i s 2 ≥ 6)) i
          s.moveSpeed choices) := by
  refine ⟨?_, GameController.nearestMelee_none m s hrange, ?_⟩
  · intro e he heal hteam _ hd
    have hle := chebyshev_le_manhattan s.position e.position
    have hin : s.position.chebyshevDistanceTo e.position ≤ s.attackRange := by omega
    exact ⟨decide_eq_true hin, GameController.hasTargetInRange_of_enemy m s e he heal hteam hin⟩
  · unfold GameController.processSoldierBehavior
    rw [hi]
    dsimp only
    have hn : (!s.isAlive) = false := by
      unfold Soldier.isAlive
      rw [hal]
      rfl
    rw [hn, if_neg Bool.false_ne_true]
    unfold Soldier.getType Soldier.getPosition
    rw [if_pos hkind]
    split
    · rfl
    · cases ht : GameController.hasTargetInRange m s with
      | true => simp
      | false =>
          rw [GameController.nearestMelee_none m s hrange ht]

/-- The statement of C30 for the Archer at (30, 30): the Team B Infantry two
cells away is within its attack range, so the in-range check finds a target. -/
theorem GameController.archer_retreat_unreachable_witness :
    (Soldier.new ⟨30, 30⟩ SoldierType.ARCHER Team.TEAM_A).canAttack
        (Soldier.new ⟨32, 30⟩ SoldierType.INFANTRY Team.TEAM_B).position = true ∧
      GameController.hasTargetInRange archerWorld
        (Soldier.new ⟨30, 30⟩ SoldierType.ARCHER Team.TEAM_A) = true :=
  (GameController.archer_retreat_unreachable archerWorld 0
    (Soldier.new ⟨30, 30⟩ SoldierType.ARCHER Team.TEAM_A) (fun _ => plainChoices)
    rfl rfl rfl rfl).1 (Soldier.new ⟨32, 30⟩ SoldierType.INFANTRY Team.TEAM_B)
    (by decide) rfl (by decide) (by decide) (by decide)

/-! ## Purchases: the spawn search -/

theorem filterMap_filter_box (f : Int → Option Position) (g : Position → Bool) :
    ∀ l : List Int,
      l.filterMap (fun dy => match f dy with
        | none => none
        | some p => if g p then some p else none) = (l.filterMap f).filter g := by
  intro l
  induction l with
  | nil => rfl
  | cons a rest ih =>
      rw [List.filterMap_cons, List.filterMap_cons]
      cases hf : f a with
      | none =>
          simp only [ih]
      | some p =>
          simp only [ih, List.filter_cons]
          by_cases hg : g p = true
          · simp [hg]
          · simp [hg]

/-- The list `possiblePositions` is the scan of the box, filtered. -/
theorem GameController.possiblePositions_eq_filter (m : GameModel) (basePos : Position) :
    GameController.possiblePositions m basePos =
      (GameController.boxCells basePos).filter (GameController.isSpawnCandidate m) := by
  unfold GameController.possiblePositions GameController.boxCells
  rw [List.filter_flatMap]
  congr 1
  funext dx
  rw [← filterMap_filter_box]
  apply List.filterMap_congr
  intro dy _
  by_cases h0 : dx = 0 ∧ dy = 0
  · simp only [if_pos h0]
  · simp only [if_neg h0]
    unfold GameController.isSpawnCandidate
    cases hw : m.gameMap.isWalkable { x := basePos.x + dx, y := basePos.y + dy } with
    | false => simp
    | true =>
        cases ho : AIController.isPositionOccupied m
            { x := basePos.x + dx, y := basePos.y + dy } none <;> simp

theorem foldl_count_eq (p : Soldier → Bool) :
    ∀ (l : List Soldier) (n : Int),
      l.foldl (fun count s => if p s = true then count + 1 else count) n =
        n + ((l.filter p).length : Int) := by
  intro l
  induction l with
  | nil => intro n; simp
  | cons a rest ih =>
      intro n
      rw [List.foldl_cons, ih, List.filter_cons]
      by_cases h : p a = true
      · simp only [h, if_true, List.length_cons]
        push_cast
        omega
      · simp only [h, if_false, Bool.false_eq_true]

/-- The crowdedness of a cell is the number of living units of the team within
the given Manhattan distance. -/
theorem AIController.getCrowdednessAtPosition_eq (m : GameModel) (pos : Position)
    (team : Team) (radius : Int) :
    AIController.getCrowdednessAtPosition m pos team radius = (crowdCount m pos team radius : Int) := by
  unfold AIController.getCrowdednessAtPosition crowdCount GameModel.getSoldiers
  have h := foldl_count_eq
    (fun s => s.alive && decide (s.team = team) &&
      decide (cabs (s.position.x - pos.x) + cabs (s.position.y - pos.y) ≤ radius))
    m.soldiers 0
  rw [Int.zero_add] at h
  rw [← h]
  congr 1
  funext count s
  simp only [Soldier.isAlive, Soldier.getTeam, Soldier.getPosition]
  by_cases h1 : (s.alive && decide (s.team = team)) = true
  · by_cases h2 : cabs (s.position.x - pos.x) + cabs (s.position.y - pos.y) ≤ radius
    · simp [h1, h2]
    · simp [h1, h2]
  · simp [h1]

/-- The running minimum of `findSpawnPosition`: with a best candidate that is
the first minimum of the cells scanned so far, the loop ends at the first
minimum of all cells. -/
theorem GameController.foldl_best_first (f : Position → Int) (l : List Position) :
    ∀ (pre : List Position) (b : Position) (post : List Position),
      (∀ q ∈ pre, f b < f q) → (∀ q ∈ post, f b ≤ f q) →
      ∃ (pre2 : List Position) (p : Position) (post2 : List Position),
        (pre ++ b :: post) ++ l = pre2 ++ p :: post2 ∧
        (∀ q ∈ pre2, f p < f q) ∧ (∀ q ∈ post2, f p ≤ f q) ∧
        (l.foldl (fun (best : Position × Int) pos =>
          if f pos < best.2 then (pos, f pos) else best) (b, f b)).1 = p := by
  induction l with
  | nil =>
      intro pre b post h1 h2
      exact ⟨pre, b, post, by simp, h1, h2, rfl⟩
  | cons a rest ih =>
      intro pre b post h1 h2
      rw [List.foldl_cons]
      by_cases hlt : f a < f b
      · rw [if_pos hlt]
        obtain ⟨pre2, p, post2, he, h3, h4, h5⟩ := ih (pre ++ b :: post) a []
          (by
            intro q hq
            rw [List.mem_append, List.mem_cons] at hq
            rcases hq with hq | hq | hq
            · have := h1 q hq
              omega
            · rw [hq]
              exact hlt
            · have := h2 q hq
              omega)
          (by intro q hq; exact absurd hq (List.not_mem_nil q))
        refine ⟨pre2, p, post2, ?_, h3, h4, h5⟩
        rw [← he]
        simp
      · rw [if_neg hlt]
        obtain ⟨pre2, p, post2, he, h3, h4, h5⟩ := ih pre b (post ++ [a]) h1
          (by
            intro q hq
            rw [List.mem_append, List.mem_singleton] at hq
            rcases hq with hq | hq
            · exact h2 q hq
            · rw [hq]
              omega)
        refine ⟨pre2, p, post2, ?_, h3, h4, h5⟩
        rw [← he]
        simp

/-- C27: the list of candidate cells of `findSpawnPosition` is the scan of the
7x7 box around the base (base cell excluded, `dx` ascending, then `dy`
ascending) restricted to the cells that are walkable and not occupied by a
living unit; when it is empty the result is the base position; otherwise the
result is a candidate `p` such that every candidate scanned before `p` has
strictly larger crowdedness and every candidate scanned after `p` has at least
the crowdedness of `p`, where the crowdedness of a cell is the number of living
units of the team within Manhattan distance 2. -/
theorem GameController.findSpawnPosition_spec (m : GameModel) (team : Team)
    (basePos : Position) :
    GameController.possiblePositions m basePos =
      (GameController.boxCells basePos).filter (GameController.isSpawnCandidate m) ∧
    (GameController.possiblePositions m basePos = [] →
      GameController.findSpawnPosition m team basePos = basePos) ∧
    (GameController.possiblePositions m basePos ≠ [] →
      ∃ (before : List Position) (p : Position) (after : List Position),
        GameController.possiblePositions m basePos = before ++ p :: after ∧
        GameController.findSpawnPosition m team basePos = p ∧
        GameController.isSpawnCandidate m p = true ∧
        (∀ q ∈ before, crowdCount m p team 2 < crowdCount m q team 2) ∧
        (∀ q ∈ after, crowdCount m p team 2 ≤ crowdCount m q team 2)) := by
  refine ⟨GameController.possiblePositions_eq_filter m basePos, ?_, ?_⟩
  · intro hnil
    unfold GameController.findSpawnPosition
    rw [hnil]
  · intro hne
    unfold GameController.findSpawnPosition
    cases hp : GameController.possiblePositions m basePos with
    | nil => exact absurd hp hne
    | cons first rest =>
        dsimp only
        rw [List.foldl_cons, if_neg (Int.lt_irrefl _)]
        obtain ⟨pre2, p, post2, he, h3, h4, h5⟩ := GameController.foldl_best_first
          (fun pos => AIController.getCrowdednessAtPosition m pos team 2) rest [] first []
          (by intro q hq; exact absurd hq (List.not_mem_nil q))
          (by intro q hq; exact absurd hq (List.not_mem_nil q))
        refine ⟨pre2, p, post2, ?_, h5, ?_, ?_, ?_⟩
        · rw [← he]
          rfl
        · have hmem : p ∈ GameController.possiblePositions m basePos := by
            rw [hp]
            have : p ∈ pre2 ++ p :: post2 := by simp
            rw [← he] at this
            simpa using this
          rw [GameController.possiblePositions_eq_filter, List.mem_filter] at hmem
          exact hmem.2
        · intro q hq
          have := h3 q hq
          simp only [AIController.getCrowdednessAtPosition_eq] at this
          exact_mod_cast this
        · intro q hq
          have := h4 q hq
          simp only [AIController.getCrowdednessAtPosition_eq] at this
          exact_mod_cast this

set_option maxRecDepth 1000000 in
/-- The statement of C27 on two worlds.  Around the base at (8, 12) of
`spawnCrowdWorld` the scan starts at (5, 9); the cell (5, 10) is occupied, the
candidates (5, 9), (5, 11) and (5, 12) have 2, 1 and 1 living Team A units
within Manhattan distance 2, and (5, 13) is the first candidate with none: it
is the result.  On the all-Mountain map there is no candidate and the result
is the base position. -/
theorem GameController.findSpawnPosition_spec_witness :
    GameController.findSpawnPosition spawnCrowdWorld Team.TEAM_A ⟨8, 12⟩ = ⟨5, 13⟩ ∧
    (GameController.possiblePositions spawnCrowdWorld ⟨8, 12⟩).take 4 =
      [⟨5, 9⟩, ⟨5, 11⟩, ⟨5, 12⟩, ⟨5, 13⟩] ∧
    [crowdCount spawnCrowdWorld ⟨5, 9⟩ Team.TEAM_A 2,
      crowdCount spawnCrowdWorld ⟨5, 11⟩ Team.TEAM_A 2,
      crowdCount spawnCrowdWorld ⟨5, 12⟩ Team.TEAM_A 2,
      crowdCount spawnCrowdWorld ⟨5, 13⟩ Team.TEAM_A 2] = [2, 1, 1, 0] ∧
    (∃ (before : List Position) (p : Position) (after : List Position),
      GameController.possiblePositions spawnCrowdWorld ⟨8, 12⟩ = before ++ p :: after ∧
      GameController.findSpawnPosition spawnCrowdWorld Team.TEAM_A ⟨8, 12⟩ = p ∧
      GameController.isSpawnCandidate spawnCrowdWorld p = true ∧
      (∀ q ∈ before,
        crowdCount spawnCrowdWorld p Team.TEAM_A 2 < crowdCount spawnCrowdWorld q Team.TEAM_A 2) ∧
      (∀ q ∈ after,
        crowdCount spawnCrowdWorld p Team.TEAM_A 2 ≤
          crowdCount spawnCrowdWorld q Team.TEAM_A 2)) ∧
    GameController.findSpawnPosition blockedWorld Team.TEAM_A ⟨5, 5⟩ = ⟨5, 5⟩ :=
  ⟨by decide, by decide, by decide,
   (GameController.findSpawnPosition_spec spawnCrowdWorld Team.TEAM_A ⟨8, 12⟩).2.2 (by decide),
   (GameController.findSpawnPosition_spec blockedWorld Team.TEAM_A ⟨5, 5⟩).2.1 (by decide)⟩

theorem GameController.possiblePositions_congr (m m2 : GameModel) (basePos : Position)
    (hmap : m2.gameMap = m.gameMap) (hs : m2.soldiers = m.soldiers) :
    GameController.possiblePositions m2 basePos = GameController.possiblePositions m basePos := by
  unfold GameController.possiblePositions AIController.isPositionOccupied GameModel.getSoldiers
  rw [hmap, hs]

/-- C26: for every world state in which the terrain of `basePos` is `BASE_A`
or `BASE_B`, every team and every unit kind, `purchaseSoldier` returns true if
and only if the team's energy is at least the cost of the kind; and when the
purchase is paid for and no cell of the 7x7 box around the base is walkable and
unoccupied, the new unit is appended to the unit list on the base cell itself,
whatever stands on that cell. -/
theorem GameController.purchaseSoldier_at_base_cell (m : GameModel) (team : Team)
    (type : SoldierType) (basePos : Position)
    (hcell : m.gameMap.getTerrainAt basePos = TerrainType.BASE_A ∨
      m.gameMap.getTerrainAt basePos = TerrainType.BASE_B) :
    ((GameController.purchaseSoldier m team type basePos).2 = true ↔
      m.getEnergy team ≥ CombatSystem.getSoldierCost type) ∧
    (m.getEnergy team ≥ CombatSystem.getSoldierCost type →
      (∀ p ∈ GameController.boxCells basePos, GameController.isSpawnCandidate m p = false) →
      (GameController.purchaseSoldier m team type basePos).1.soldiers =
        m.soldiers ++ [Soldier.new basePos type team]) := by
  have heq := GameController.purchaseSoldier_eq m team type basePos
  have hrest := GameModel.spendEnergy_rest m team (CombatSystem.getSoldierCost type)
  have hpp := GameController.possiblePositions_congr m
    (m.spendEnergy team (CombatSystem.getSoldierCost type)).1 basePos hrest.2.1 hrest.1
  have hw : (m.spendEnergy team (CombatSystem.getSoldierCost type)).1.gameMap.isWalkable
      (GameController.findSpawnPosition
        (m.spendEnergy team (CombatSystem.getSoldierCost type)).1 team basePos) = true := by
    rcases GameController.findSpawnPosition_cases
      (m.spendEnergy team (CombatSystem.getSoldierCost type)).1 team basePos with h | h
    · rw [h.2, hrest.2.1]
      exact GameMap.isWalkable_of_marker m.gameMap basePos hcell
    · exact (GameController.mem_possiblePositions _ _ _ h).1
  constructor
  · constructor
    · intro hres
      by_contra hc
      rw [if_neg hc] at heq
      rw [heq] at hres
      exact absurd hres Bool.false_ne_true
    · intro hc
      rw [if_pos hc, if_pos hw] at heq
      rw [heq]
  · intro hc hbox
    rw [if_pos hc, if_pos hw] at heq
    rw [heq]
    have hnil : GameController.possiblePositions
        (m.spendEnergy team (CombatSystem.getSoldierCost type)).1 basePos = [] := by
      rw [hpp, GameController.possiblePositions_eq_filter, List.filter_eq_nil_iff]
      intro p hp
      rw [hbox p hp]
      exact Bool.false_ne_true
    have hpos : GameController.findSpawnPosition
        (m.spendEnergy team (CombatSystem.getSoldierCost type)).1 team basePos = basePos := by
      unfold GameController.findSpawnPosition
      rw [hnil]
    rw [hpos]
    show (m.spendEnergy team (CombatSystem.getSoldierCost type)).1.soldiers ++ [_] = _
    rw [hrest.1]

/-- The statement of C26 on the map whose 48 cells around the Team A base at
(8, 12) are Mountain, with an Archer standing on the base cell: the purchase
succeeds and the Infantry is placed on the base cell. -/
theorem GameController.purchaseSoldier_at_base_cell_witness :
    (GameController.purchaseSoldier
      (worldOn enclosedMap [Soldier.new ⟨8, 12⟩ SoldierType.ARCHER Team.TEAM_A] 120 200)
      Team.TEAM_A SoldierType.INFANTRY ⟨8, 12⟩).1.soldiers =
      [Soldier.new ⟨8, 12⟩ SoldierType.ARCHER Team.TEAM_A] ++
        [Soldier.new ⟨8, 12⟩ SoldierType.INFANTRY Team.TEAM_A] :=
  (GameController.purchaseSoldier_at_base_cell
    (worldOn enclosedMap [Soldier.new ⟨8, 12⟩ SoldierType.ARCHER Team.TEAM_A] 120 200)
    Team.TEAM_A SoldierType.INFANTRY ⟨8, 12⟩ (Or.inl (by decide))).2 (by decide) (by decide)

/-! ## Purchases: the heuristic `tryPurchaseOnce` and the decision loop -/

theorem GameController.purchaseSoldier_success (m : GameModel) (team : Team)
    (type : SoldierType) (basePos : Position)
    (h : (GameController.purchaseSoldier m team type basePos).2 = true) :
    m.getEnergy team ≥ CombatSystem.getSoldierCost type ∧
    (GameController.purchaseSoldier m team type basePos).1.getEnergy team =
      m.getEnergy team - CombatSystem.getSoldierCost type ∧
    (∀ other : Team, other ≠ team →
      (GameController.purchaseSoldier m team type basePos).1.getEnergy other =
        m.getEnergy other) ∧
    ∃ pos : Position,
      (GameController.purchaseSoldier m team type basePos).1.soldiers =
        m.soldiers ++ [Soldier.new pos type team] := by
  have heq := GameController.purchaseSoldier_eq m team type basePos
  have hrest := GameModel.spendEnergy_rest m team (CombatSystem.getSoldierCost type)
  by_cases hc : m.getEnergy team ≥ CombatSystem.getSoldierCost type
  · have hs : (m.spendEnergy team (CombatSystem.getSoldierCost type)).2 = true := by
      rw [GameModel.spendEnergy_flag]
      exact decide_eq_true hc
    rw [if_pos hc] at heq
    split at heq
    · rw [heq]
      refine ⟨hc, ?_, ?_, GameController.findSpawnPosition
        (m.spendEnergy team (CombatSystem.getSoldierCost type)).1 team basePos, ?_⟩
      · show (m.spendEnergy team (CombatSystem.getSoldierCost type)).1.getEnergy team = _
        rw [GameModel.spendEnergy_energy m team team _ hs, if_pos rfl]
      · intro other hne
        show (m.spendEnergy team (CombatSystem.getSoldierCost type)).1.getEnergy other = _
        rw [GameModel.spendEnergy_energy m team other _ hs, if_neg hne]
      · show (m.spendEnergy team (CombatSystem.getSoldierCost type)).1.soldiers ++ [_] = _
        rw [hrest.1]
    · rw [heq] at h
      exact absurd h Bool.false_ne_true
  · rw [if_neg hc] at heq
    rw [heq] at h
    exact absurd h Bool.false_ne_true

theorem AIController.new_length (typeDraw : Nat → Int) :
    (AIController.new typeDraw).purchaseQueue.length = 5 := by
  unfold AIController.new
  simp [List.range_succ]

/-- The three outcomes of `tryPurchaseOnce`. -/
theorem AIController.tryPurchaseOnce_cases (ai : AIController) (m : GameModel) (team : Team)
    (baseDraw : Nat) (typeDraw : Int) :
    (ai.tryPurchaseOnce m team baseDraw typeDraw = (ai, m, defaultAction)) ∨
    (∃ (head : SoldierType) (rest : List SoldierType) (basePos : Position),
      ai.purchaseQueue = head :: rest ∧
      (GameController.purchaseSoldier m team head basePos).2 = false ∧
      ai.tryPurchaseOnce m team baseDraw typeDraw =
        (ai, (GameController.purchaseSoldier m team head basePos).1, defaultAction)) ∨
    (∃ (head : SoldierType) (rest : List SoldierType) (base : Base) (idx : Nat),
      ai.purchaseQueue = head :: rest ∧
      base ∈ m.basesOf team ∧ base.hp > 0 ∧
      (GameController.purchaseSoldier m team head base.position).2 = true ∧
      ai.tryPurchaseOnce m team baseDraw typeDraw =
        ({ purchaseQueue := rest ++ [AIController.kindOfChoice typeDraw] },
          (GameController.purchaseSoldier m team head base.position).1,
          { action_type := 1, base_id := (idx : Int),
            unit_type := AIController.unitTypeInt head })) := by
  unfold AIController.tryPurchaseOnce
  cases hq : ai.purchaseQueue with
  | nil => exact Or.inl rfl
  | cons head rest =>
      dsimp only
      by_cases hlow : m.getEnergy team < CombatSystem.getSoldierCost head
      · rw [if_pos hlow]
        exact Or.inl rfl
      · rw [if_neg hlow]
        by_cases hnil : (m.basesOf team).filter (fun base => base.isAlive) = []
        · rw [dif_pos hnil]
          exact Or.inl rfl
        · rw [dif_neg hnil]
          have hmem := List.get_mem ((m.basesOf team).filter fun base => base.isAlive)
            (baseDraw % ((m.basesOf team).filter fun base => base.isAlive).length)
            (Nat.mod_lt _ (List.length_pos.mpr hnil))
          generalize ((m.basesOf team).filter fun base => base.isAlive).get
            ⟨baseDraw % ((m.basesOf team).filter fun base => base.isAlive).length,
              Nat.mod_lt _ (List.length_pos.mpr hnil)⟩ = base at hmem ⊢
          rw [List.mem_filter] at hmem
          by_cases hres : (GameController.purchaseSoldier m team head base.getPosition).2 = true
          · rw [if_pos hres]
            right
            right
            exact ⟨head, rest, base, _, rfl, hmem.1, of_decide_eq_true hmem.2, hres, rfl⟩
          · rw [if_neg hres]
            right
            left
            refine ⟨head, rest, base.getPosition, rfl, ?_, rfl⟩
            simpa using hres

/-- C25: `tryPurchaseOnce` keeps the length of the purchase queue, which the
constructor sets to 5, for every world state and every outcome of the draws.
When it returns the wait action, the heuristic (hence the queue), both energy
balances and the unit list are unchanged.  When it returns a spawn action, the
queue had a head, the new queue is the old queue without its head followed by
the kind drawn, exactly one unit of the kind of the old head and of the team
is appended to the unit list, and the team has paid the cost of that kind. -/
theorem AIController.tryPurchaseOnce_spec (ai : AIController) (m : GameModel) (team : Team)
    (baseDraw : Nat) (typeDraw : Int) (seed : Nat → Int) :
    (AIController.new seed).purchaseQueue.length = 5 ∧
    (ai.tryPurchaseOnce m team baseDraw typeDraw).1.purchaseQueue.length =
      ai.purchaseQueue.length ∧
    ((ai.tryPurchaseOnce m team baseDraw typeDraw).2.2.action_type = 0 →
      (ai.tryPurchaseOnce m team baseDraw typeDraw).2.2 = defaultAction ∧
      (ai.tryPurchaseOnce m team baseDraw typeDraw).1 = ai ∧
      (∀ t : Team, (ai.tryPurchaseOnce m team baseDraw typeDraw).2.1.getEnergy t
        = m.getEnergy t) ∧
      (ai.tryPurchaseOnce m team baseDraw typeDraw).2.1.soldiers = m.soldiers) ∧
    ((ai.tryPurchaseOnce m team baseDraw typeDraw).2.2.action_type ≠ 0 →
      ∃ (head : SoldierType) (rest : List SoldierType) (pos : Position),
        ai.purchaseQueue = head :: rest ∧
        (ai.tryPurchaseOnce m team baseDraw typeDraw).1.purchaseQueue =
          rest ++ [AIController.kindOfChoice typeDraw] ∧
        (ai.tryPurchaseOnce m team baseDraw typeDraw).2.1.soldiers =
          m.soldiers ++ [Soldier.new pos head team] ∧
        (ai.tryPurchaseOnce m team baseDraw typeDraw).2.1.getEnergy team =
          m.getEnergy team - CombatSystem.getSoldierCost head ∧
        (ai.tryPurchaseOnce m team baseDraw typeDraw).2.2.action_type = 1 ∧
        (ai.tryPurchaseOnce m team baseDraw typeDraw).2.2.unit_type =
          AIController.unitTypeInt head) := by
  refine ⟨AIController.new_length seed, ?_⟩
  rcases AIController.tryPurchaseOnce_cases ai m team baseDraw typeDraw with
    h | ⟨head, rest, basePos, hq, hfail, h⟩ | ⟨head, rest, base, idx, hq, _, _, hok, h⟩
  · rw [h]
    refine ⟨rfl, fun _ => ⟨rfl, rfl, fun _ => rfl, rfl⟩, fun hne => absurd rfl hne⟩
  · rw [h]
    obtain ⟨h1, h2⟩ := GameController.purchaseSoldier_fail_eq m team head basePos hfail
    refine ⟨rfl, fun _ => ⟨rfl, rfl, h1, h2⟩, fun hne => absurd rfl hne⟩
  · rw [h]
    obtain ⟨_, h2, _, pos, h4⟩ := GameController.purchaseSoldier_success m team head
      base.position hok
    refine ⟨?_, ?_, ?_⟩
    · show (rest ++ [AIController.kindOfChoice typeDraw]).length = ai.purchaseQueue.length
      rw [hq, List.length_append]
      rfl
    · intro h0
      exact absurd (show (1 : Int) = 0 from h0) (by decide)
    · intro _
      exact ⟨head, rest, pos, hq, rfl, h4, h2, rfl, rfl⟩

set_option maxRecDepth 100000 in
/-- The statement of C25 on the obstacle-free map with 200 energy and a queue
of five Infantry: a spawn action is returned. -/
theorem AIController.tryPurchaseOnce_spec_witness :
    ∃ (head : SoldierType) (rest : List SoldierType) (pos : Position),
      (AIController.new fun _ => 1).purchaseQueue = head :: rest ∧
      ((AIController.new fun _ => 1).tryPurchaseOnce (worldOn openMap [] 200 200)
        Team.TEAM_A 0 2).1.purchaseQueue = rest ++ [AIController.kindOfChoice 2] ∧
      ((AIController.new fun _ => 1).tryPurchaseOnce (worldOn openMap [] 200 200)
        Team.TEAM_A 0 2).2.1.soldiers =
        (worldOn openMap [] 200 200).soldiers ++ [Soldier.new pos head Team.TEAM_A] ∧
      ((AIController.new fun _ => 1).tryPurchaseOnce (worldOn openMap [] 200 200)
        Team.TEAM_A 0 2).2.1.getEnergy Team.TEAM_A =
        (worldOn openMap [] 200 200).getEnergy Team.TEAM_A - CombatSystem.getSoldierCost head ∧
      ((AIController.new fun _ => 1).tryPurchaseOnce (worldOn openMap [] 200 200)
        Team.TEAM_A 0 2).2.2.action_type = 1 ∧
      ((AIController.new fun _ => 1).tryPurchaseOnce (worldOn openMap [] 200 200)
        Team.TEAM_A 0 2).2.2.unit_type = AIController.unitTypeInt head :=
  (AIController.tryPurchaseOnce_spec (AIController.new fun _ => 1) (worldOn openMap [] 200 200)
    Team.TEAM_A 0 2 (fun _ => 1)).2.2.2 (by decide)

/-! ## The whole turn: `processTurn` -/

theorem CombatSystem.healAlly_length (st : CombatSystem.CombatState) (d a : Nat) :
    (CombatSystem.healAlly st d a).model.soldiers.length = st.model.soldiers.length := by
  unfold CombatSystem.healAlly
  split
  · split
    · rfl
    · split
      · rfl
      · split
        · rfl
        · dsimp only
          split
          · unfold CombatSystem.CombatState.addHeal CombatSystem.CombatState.setSoldier
            split <;> exact List.length_set _ _ _
          · rfl
  · rfl

theorem CombatSystem.strike_length (st : CombatSystem.CombatState) (i j : Nat) (turn : Int) :
    (CombatSystem.strike st i j turn).model.soldiers.length = st.model.soldiers.length := by
  unfold CombatSystem.strike
  split
  · dsimp only
    split
    · show (GameModel.addEnergy _ _ _).soldiers.length = _
      rw [GameModel.addEnergy_soldiers]
      exact List.length_set _ _ _
    · exact List.length_set _ _ _
  · rfl

theorem CombatSystem.casterHit_length (st : CombatSystem.CombatState) (i main j : Nat)
    (turn : Int) :
    (CombatSystem.casterHit st i main j turn).model.soldiers.length
      = st.model.soldiers.length := by
  unfold CombatSystem.casterHit
  split
  · split
    · rfl
    · split
      · rfl
      · dsimp only
        split
        · exact CombatSystem.strike_length st i j turn
        · rfl
  · rfl

theorem CombatSystem.healFrom_length (st : CombatSystem.CombatState) (d : Nat) :
    (CombatSystem.healFrom st d).model.soldiers.length = st.model.soldiers.length := by
  unfold CombatSystem.healFrom
  split
  · split
    · rfl
    · split
      · rfl
      · exact foldl_preserves
          (fun x : CombatSystem.CombatState => x.model.soldiers.length = st.model.soldiers.length)
          (fun acc a => CombatSystem.healAlly acc d a)
          (fun x a hx => (CombatSystem.healAlly_length x d a).trans hx) _ st rfl
  · rfl

theorem CombatSystem.attackFrom_length (turn : Int) (st : CombatSystem.CombatState) (i : Nat) :
    (CombatSystem.attackFrom turn st i).model.soldiers.length = st.model.soldiers.length := by
  unfold CombatSystem.attackFrom
  split
  · split
    · rfl
    · split
      · split
        · exact foldl_preserves
            (fun x : CombatSystem.CombatState =>
              x.model.soldiers.length = st.model.soldiers.length)
            (fun acc j => CombatSystem.casterHit acc i _ j turn)
            (fun x j hx => (CombatSystem.casterHit_length x i _ j turn).trans hx) _ st rfl
        · rfl
      · split
        · exact CombatSystem.strike_length st i _ turn
        · rfl
  · rfl

/-- The resolver never changes the number of units. -/
theorem CombatSystem.processCombat_length (m : GameModel) (events : List GameEvent)
    (turn : Int) :
    (CombatSystem.processCombat m events turn).model.soldiers.length = m.soldiers.length := by
  unfold CombatSystem.processCombat
  rw [(CombatSystem.siegePhase_frame turn _).1]
  have h1 : (CombatSystem.healPhase (CombatSystem.CombatState.start m events)).model.soldiers.length
      = m.soldiers.length := by
    unfold CombatSystem.healPhase
    exact foldl_preserves
      (fun x : CombatSystem.CombatState => x.model.soldiers.length = m.soldiers.length)
      CombatSystem.healFrom
      (fun x d hx => (CombatSystem.healFrom_length x d).trans hx) _ _ rfl
  unfold CombatSystem.attackPhase
  exact foldl_preserves
    (fun x : CombatSystem.CombatState => x.model.soldiers.length = m.soldiers.length)
    (CombatSystem.attackFrom turn)
    (fun x i hx => (CombatSystem.attackFrom_length turn x i).trans hx) _ _ h1

theorem GameController.movementPhase_length (m : GameModel) (moves : Nat → Nat → MoveChoices) :
    (GameController.movementPhase m moves).soldiers.length = m.soldiers.length := by
  unfold GameController.movementPhase
  apply foldl_preserves (fun x : GameModel => x.soldiers.length = m.soldiers.length) _ _ _ m rfl
  intro acc i hacc
  dsimp only
  split
  · split
    · exact (GameController.processSoldierBehavior_length acc i (moves i)).trans hacc
    · exact hacc
  · exact hacc

theorem GameController.logEvents_model (events : List GameEvent) :
    ∀ c : GameController,
      (events.foldl (fun acc evt => acc.logEvent evt) c).model = c.model := by
  induction events with
  | nil => intro c; rfl
  | cons e rest ih =>
      intro c
      rw [List.foldl_cons, ih, GameController.logEvent_model]

theorem GameController.checkGameOver_soldiers (c : GameController) :
    c.checkGameOver.model.soldiers = c.model.soldiers := by
  unfold GameController.checkGameOver
  split
  · dsimp only
    split <;> rw [GameController.logEvent_model] <;> rfl
  · dsimp only
    split
    · rw [GameController.logEvent_model]
      rfl
    · split
      · rw [GameController.logEvent_model]
        rfl
      · rfl

/-- The unit list at the end of `resolveTurn`: the living units of the list
that the resolver leaves. -/
theorem GameController.resolveTurn_soldiers (c : GameController)
    (moves : Nat → Nat → MoveChoices) :
    (c.resolveTurn moves).model.soldiers =
      (CombatSystem.processCombat (GameController.movementPhase c.model moves) []
        c.currentTurn).model.soldiers.filter fun s => s.alive := by
  unfold GameController.resolveTurn
  dsimp only
  have hlog : ∀ x : GameController, (match x.trainingLogger with
      | some l =>
          if x.gameMode = GameMode.TRAINING then
            { x with trainingLogger := some (l.recordTurn x.currentTurn) }
          else x
      | none => x).model = x.model := by
    intro x
    split
    · split <;> rfl
    · rfl
  rw [hlog, GameController.checkGameOver_soldiers]
  dsimp only
  rw [GameController.cleanupDeadSoldiers_soldiers]
  split
  · rw [GameController.logEvents_model]
  · rfl

theorem length_eq_of_getElem?_map (ss ss0 : List Soldier) (g : Nat → Soldier → Soldier)
    (h : ∀ k : Nat, ss[k]? = (ss0[k]?).map (g k)) : ss.length = ss0.length := by
  apply Nat.le_antisymm
  · by_contra hlt
    have h1 := h ss0.length
    rw [List.getElem?_eq_none (Nat.le_refl _)] at h1
    have h2 : ss0.length < ss.length := by omega
    rw [List.getElem?_eq_getElem h2] at h1
    exact absurd h1 (by simp)
  · by_contra hlt
    have h1 := h ss.length
    rw [List.getElem?_eq_none (Nat.le_refl _)] at h1
    have h2 : ss.length < ss0.length := by omega
    rw [List.getElem?_eq_getElem h2] at h1
    exact absurd h1 (by simp)

theorem GameModel.updateSharedVision_length (m : GameModel) :
    m.updateSharedVision.soldiers.length = m.soldiers.length :=
  length_eq_of_getElem?_map _ _ _ (GameModel.updateSharedVision_getElem? m)

theorem GameController.decisionsOf_human (c : GameController) (team : Team)
    (choices : Nat → PurchaseChoices) :
    c.decisionsOf team PlayerType.HUMAN choices = c := by
  unfold GameController.decisionsOf
  rw [if_neg (by simp), if_neg (by decide)]

/-- C23: for every world state, after `cleanupDeadSoldiers` the unit list is
exactly the sub-list of the units that were alive before the call, in their
original order.  Hence, for every controller state and every outcome of the
choices, after `processTurn` every unit of the world is alive, the number of
units is at most the number after the purchase decisions of the turn, and when
no team is played by a program (both are human, so that the turn holds no
purchase) it is at most the number before the turn. -/
theorem GameController.cleanupDeadSoldiers_spec (m : GameModel) (c : GameController)
    (ch : TurnChoices) :
    (GameController.cleanupDeadSoldiers m).soldiers = m.soldiers.filter (fun s => s.alive) ∧
    (∀ s ∈ (c.processTurn ch).model.soldiers, s.alive = true) ∧
    (c.processTurn ch).model.soldiers.length ≤ (c.purchasePhase ch).model.soldiers.length ∧
    (c.team0Type = PlayerType.HUMAN → c.team1Type = PlayerType.HUMAN →
      (c.processTurn ch).model.soldiers.length ≤ c.model.soldiers.length) := by
  have hres := GameController.resolveTurn_soldiers (c.purchasePhase ch) ch.moves
  have hlen : (c.processTurn ch).model.soldiers.length ≤
      (c.purchasePhase ch).model.soldiers.length := by
    unfold GameController.processTurn
    rw [hres]
    refine Nat.le_trans (List.length_filter_le _ _) ?_
    rw [CombatSystem.processCombat_length, GameController.movementPhase_length]
  refine ⟨GameController.cleanupDeadSoldiers_soldiers m, ?_, hlen, ?_⟩
  · intro s hs
    unfold GameController.processTurn at hs
    rw [hres, List.mem_filter] at hs
    exact hs.2
  · intro h0 h1
    refine Nat.le_trans hlen ?_
    unfold GameController.purchasePhase
    dsimp only
    have e0 : c.generateEnergy.team0Type = PlayerType.HUMAN := h0
    have e1 : c.generateEnergy.team1Type = PlayerType.HUMAN := h1
    rw [e0, GameController.decisionsOf_human, e1, GameController.decisionsOf_human]
    show c.generateEnergy.model.updateSharedVision.soldiers.length ≤ _
    rw [GameModel.updateSharedVision_length]
    unfold GameController.generateEnergy
    dsimp only
    rw [GameModel.addEnergy_soldiers, GameModel.addEnergy_soldiers]

/-- The statement of C23 for a turn played by two human teams in the skirmish:
the number of units does not grow. -/
theorem GameController.cleanupDeadSoldiers_spec_witness :
    (({ controllerOf skirmishWorld 3 with
        team0Type := PlayerType.HUMAN, team1Type := PlayerType.HUMAN } :
      GameController).processTurn plainTurn).model.soldiers.length ≤ skirmishWorld.soldiers.length :=
  (GameController.cleanupDeadSoldiers_spec skirmishWorld
    { controllerOf skirmishWorld 3 with
      team0Type := PlayerType.HUMAN, team1Type := PlayerType.HUMAN } plainTurn).2.2.2 rfl rfl

/-! ## The decision loop of the rule-based heuristic -/

set_option maxRecDepth 1000000 in
/-- C21 on the code, at the first turn of a game between two rule-based teams
(no unit, 200 energy each, queues of five Infantry at 80): with 230 energy
after the income, the first call of `tryPurchaseOnce` for Team A returns a
spawn action and has already bought one Infantry; `processTurn` then passes
that action to `parseAndExecuteAction`, which buys a second Infantry.  After
the round Team A has two units and 70 energy for one spawn decision (its queue
has advanced by one kind), the second round returns the wait action, and at the
end of the turn each team has two units and 70 energy.  At a turn that starts
with 450 energy and no unit, one call of `processTurn` adds six units to Team
A, two per round of the decision loop, and leaves it without energy. -/
theorem GameController.processTurn_buys_twice :
    (((firstTurn.generateEnergy.aiControllerOf Team.TEAM_A).tryPurchaseOnce
        firstTurn.generateEnergy.model Team.TEAM_A 0 2).2.2.action_type = 1 ∧
      ((firstTurn.generateEnergy.aiControllerOf Team.TEAM_A).tryPurchaseOnce
        firstTurn.generateEnergy.model Team.TEAM_A 0 2).2.1.soldiers.length = 1) ∧
    ((GameController.rulePurchaseStep Team.TEAM_A (plainTurn.purchase Team.TEAM_A)
        (firstTurn.generateEnergy, false) 0).1.model.soldiers.length = 2 ∧
      (GameController.rulePurchaseStep Team.TEAM_A (plainTurn.purchase Team.TEAM_A)
        (firstTurn.generateEnergy, false) 0).1.model.getEnergy Team.TEAM_A = 70 ∧
      (GameController.rulePurchaseStep Team.TEAM_A (plainTurn.purchase Team.TEAM_A)
        (firstTurn.generateEnergy, false) 0).1.aiControllerTeam0.purchaseQueue =
        [SoldierType.INFANTRY, SoldierType.INFANTRY, SoldierType.INFANTRY,
         SoldierType.INFANTRY, SoldierType.CAVALRY]) ∧
    ((firstTurn.processTurn plainTurn).model.soldiers.map (fun s => (s.team, s.type)) =
        [(Team.TEAM_A, SoldierType.INFANTRY), (Team.TEAM_A, SoldierType.INFANTRY),
         (Team.TEAM_B, SoldierType.INFANTRY), (Team.TEAM_B, SoldierType.INFANTRY)] ∧
      (firstTurn.processTurn plainTurn).model.getEnergy Team.TEAM_A = 70 ∧
      (firstTurn.processTurn plainTurn).model.getEnergy Team.TEAM_B = 70) ∧
    (((richTurn.processTurn plainTurn).model.soldiers.filter
        fun s => decide (s.team = Team.TEAM_A)).length = 6 ∧
      (richTurn.processTurn plainTurn).model.getEnergy Team.TEAM_A = 0) := by
  decide

/-! ## The home bonus on the baseline attack values -/

/-- C39: for the baseline attack values 10, 50, 60 and 70, the home-bonus
damage `static_cast<int>(a * 1.2f)` (binary32 product, truncation) equals
`floor(6a/5)`, that is 12, 60, 72 and 84; and an Infantry two cells from a
living base of its team deals 84 - 5 = 79 to an Archer at full hit points and
leaves it alive at 21. -/
theorem CombatSystem.applyBaseMultiplier_baseline :
    (CombatSystem.applyBaseMultiplier 10 = 12 ∧ CombatSystem.applyBaseMultiplier 50 = 60 ∧
      CombatSystem.applyBaseMultiplier 60 = 72 ∧ CombatSystem.applyBaseMultiplier 70 = 84) ∧
    (∀ a ∈ [(10 : Int), 50, 60, 70], CombatSystem.applyBaseMultiplier a = 6 * a / 5) ∧
    CombatSystem.nearOwnBase (Soldier.new ⟨10, 12⟩ SoldierType.INFANTRY Team.TEAM_A)
      homeDefenceWorld = true ∧
    CombatSystem.attackDamage (Soldier.new ⟨10, 12⟩ SoldierType.INFANTRY Team.TEAM_A)
      homeDefenceWorld = 84 ∧
    (CombatSystem.attackTarget (Soldier.new ⟨10, 12⟩ SoldierType.INFANTRY Team.TEAM_A)
      (Soldier.new ⟨11, 12⟩ SoldierType.ARCHER Team.TEAM_B) homeDefenceWorld [] 1).1.hp = 21 ∧
    (CombatSystem.attackTarget (Soldier.new ⟨10, 12⟩ SoldierType.INFANTRY Team.TEAM_A)
      (Soldier.new ⟨11, 12⟩ SoldierType.ARCHER Team.TEAM_B) homeDefenceWorld [] 1).1.alive
        = true := by
  decide

/-! ## The action that `tryPurchaseOnce` reports -/

set_option maxRecDepth 1000000 in
/-- C40 on the code, for Team A with its first base destroyed and the draw
that selects the second living base: `tryPurchaseOnce` buys an Infantry, which
is placed in the box around the base at (55, 18), and returns the action with
`unit_type` 1 and `base_id` 1, the index among the living bases; in the base
list of the team, index 1 is the living base at (32, 5), and
`parseAndExecuteAction` on that action buys a unit in the box around (32, 5). -/
theorem AIController.tryPurchaseOnce_reports_other_base :
    ((AIController.new fun _ => 1).tryPurchaseOnce firstBaseLostWorld Team.TEAM_A 1 2).2.2 =
      { action_type := 1, base_id := 1, unit_type := 1 } ∧
    ((AIController.new fun _ => 1).tryPurchaseOnce firstBaseLostWorld Team.TEAM_A 1 2).2.1.soldiers
      = [Soldier.new ⟨52, 15⟩ SoldierType.INFANTRY Team.TEAM_A] ∧
    ((controllerOf firstBaseLostWorld 3).teamBases Team.TEAM_A)[1]? =
      some (Base.new ⟨32, 5⟩ Team.TEAM_A) ∧
    ((controllerOf firstBaseLostWorld 3).parseAndExecuteAction Team.TEAM_A
      { action_type := 1, base_id := 1, unit_type := 1 } 0).1.model.soldiers =
      [Soldier.new ⟨29, 2⟩ SoldierType.INFANTRY Team.TEAM_A] := by
  decide

/-! ## The dead do not fight -/

theorem CombatSystem.strike_keeps_dead (st : CombatSystem.CombatState) (a j : Nat) (turn : Int)
    (k : Nat) (s : Soldier) (hk : st.model.soldiers[k]? = some s) (hs : s.isAlive = false) :
    (CombatSystem.strike st a j turn).model.soldiers[k]? = some s := by
  unfold CombatSystem.strike
  split
  · rename_i attacker target ha hj
    have hset : (st.model.soldiers.set j
        (CombatSystem.attackTarget attacker target st.model st.events turn).1)[k]? = some s := by
      by_cases hjk : j = k
      · subst hjk
        have ht : target = s := by
          rw [hk] at hj
          exact (Option.some.inj hj).symm
        subst ht
        have hr : (CombatSystem.attackTarget attacker target st.model st.events turn).1
            = target := by
          unfold CombatSystem.attackTarget
          simp [hs]
        rw [hr, List.getElem?_set]
        have hlt : j < st.model.soldiers.length := by
          rcases Nat.lt_or_ge j st.model.soldiers.length with h | h
          · exact h
          · rw [List.getElem?_eq_none h] at hk
            exact absurd hk (by simp)
        simp [hlt]
      · rw [List.getElem?_set]
        simp [hjk, hk]
    dsimp only
    split
    · show (GameModel.addEnergy _ _ _).soldiers[k]? = _
      rw [GameModel.addEnergy_soldiers]
      exact hset
    · exact hset
  · exact hk

theorem CombatSystem.casterHit_keeps_dead (st : CombatSystem.CombatState) (i main j : Nat)
    (turn : Int) (k : Nat) (s : Soldier) (hk : st.model.soldiers[k]? = some s)
    (hs : s.isAlive = false) :
    (CombatSystem.casterHit st i main j turn).model.soldiers[k]? = some s := by
  unfold CombatSystem.casterHit
  split
  · split
    · exact hk
    · split
      · exact hk
      · dsimp only
        split
        · exact CombatSystem.strike_keeps_dead st i j turn k s hk hs
        · exact hk
  · exact hk

theorem CombatSystem.attackFrom_keeps_dead (turn : Int) (st : CombatSystem.CombatState) (i : Nat)
    (k : Nat) (s : Soldier) (hk : st.model.soldiers[k]? = some s) (hs : s.isAlive = false) :
    (CombatSystem.attackFrom turn st i).model.soldiers[k]? = some s := by
  unfold CombatSystem.attackFrom
  split
  · split
    · exact hk
    · split
      · split
        · exact foldl_preserves
            (fun x : CombatSystem.CombatState => x.model.soldiers[k]? = some s)
            (fun acc j => CombatSystem.casterHit acc i _ j turn)
            (fun x j hx => CombatSystem.casterHit_keeps_dead x i _ j turn k s hx hs) _ st hk
        · exact hk
      · split
        · exact CombatSystem.strike_keeps_dead st i _ turn k s hk hs
        · exact hk
  · exact hk

theorem CombatSystem.siegeFrom_soldiers (turn : Int) (st : CombatSystem.CombatState) (i : Nat) :
    (CombatSystem.siegeFrom turn st i).model.soldiers = st.model.soldiers := by
  unfold CombatSystem.siegeFrom
  split
  · split
    · rfl
    · exact foldl_preserves
        (fun x : CombatSystem.CombatState => x.model.soldiers = st.model.soldiers)
        (fun acc b => CombatSystem.siegeBase acc i b turn)
        (fun x b hx => ((CombatSystem.siegeBase_frame x i b turn).1).trans hx) _ st rfl
  · rfl

theorem CombatSystem.CombatState.isDead_iff (st : CombatSystem.CombatState) (i : Nat) :
    st.isDead i = true ↔ ∃ s, st.model.soldiers[i]? = some s ∧ s.isAlive = false := by
  unfold CombatSystem.CombatState.isDead
  cases h : st.model.soldiers[i]? with
  | none => simp
  | some s => simp

set_option maxRecDepth 100000 in
/-- C36: a unit that is dead in a state of `processCombat` (its `alive` flag
was cleared when its hit points reached 0) does nothing when its turn comes in
the unit attack phase or in the siege phase, the state is left as it is; and it
stays dead through any further steps of the two phases.  In the duel of two
adjacent enemy Infantry that can each kill the other in one hit, the unit that
is first in the unit list survives unhurt and the other one dies, whichever
team is first. -/
theorem CombatSystem.dead_units_do_not_fight (turn : Int) (st : CombatSystem.CombatState)
    (i : Nat) (hdead : st.isDead i = true) :
    CombatSystem.attackFrom turn st i = st ∧
    CombatSystem.siegeFrom turn st i = st ∧
    (∀ steps : List Nat, (steps.foldl (CombatSystem.attackFrom turn) st).isDead i = true) ∧
    (∀ steps : List Nat, (steps.foldl (CombatSystem.siegeFrom turn) st).isDead i = true) ∧
    ((CombatSystem.processCombat duelWorld [] 1).model.soldiers =
      [weakInfantry ⟨30, 30⟩ Team.TEAM_A,
       { weakInfantry ⟨31, 30⟩ Team.TEAM_B with hp := 0, alive := false }]) ∧
    ((CombatSystem.processCombat duelWorldSwapped [] 1).model.soldiers =
      [weakInfantry ⟨31, 30⟩ Team.TEAM_B,
       { weakInfantry ⟨30, 30⟩ Team.TEAM_A with hp := 0, alive := false }]) := by
  obtain ⟨s, hk, hs⟩ := (CombatSystem.CombatState.isDead_iff st i).1 hdead
  refine ⟨?_, ?_, ?_, ?_, ?_, ?_⟩
  · unfold CombatSystem.attackFrom
    rw [hk]
    simp [hs]
  · unfold CombatSystem.siegeFrom
    rw [hk]
    simp [hs]
  · intro steps
    apply (CombatSystem.CombatState.isDead_iff _ i).2
    exact ⟨s, foldl_preserves
      (fun x : CombatSystem.CombatState => x.model.soldiers[i]? = some s)
      (CombatSystem.attackFrom turn)
      (fun x j hx => CombatSystem.attackFrom_keeps_dead turn x j i s hx hs) steps st hk, hs⟩
  · intro steps
    apply (CombatSystem.CombatState.isDead_iff _ i).2
    exact ⟨s, foldl_preserves
      (fun x : CombatSystem.CombatState => x.model.soldiers[i]? = some s)
      (CombatSystem.siegeFrom turn)
      (fun x j hx => by
        show (CombatSystem.siegeFrom turn x j).model.soldiers[i]? = some s
        rw [CombatSystem.siegeFrom_soldiers]; exact hx) steps st hk, hs⟩
  · decide
  · decide

set_option maxRecDepth 100000 in
/-- Witness for C36: after the first unit of the duel has struck, the second
one is dead, and its own steps leave the state as it is. -/
theorem CombatSystem.dead_units_do_not_fight_witness :
    (CombatSystem.attackFrom 1 (CombatSystem.CombatState.start duelWorld []) 0).isDead 1 = true ∧
    CombatSystem.attackFrom 1
        (CombatSystem.attackFrom 1 (CombatSystem.CombatState.start duelWorld []) 0) 1 =
      CombatSystem.attackFrom 1 (CombatSystem.CombatState.start duelWorld []) 0 ∧
    CombatSystem.siegeFrom 1
        (CombatSystem.attackFrom 1 (CombatSystem.CombatState.start duelWorld []) 0) 1 =
      CombatSystem.attackFrom 1 (CombatSystem.CombatState.start duelWorld []) 0 :=
  ⟨by decide,
   (CombatSystem.dead_units_do_not_fight 1
      (CombatSystem.attackFrom 1 (CombatSystem.CombatState.start duelWorld []) 0) 1
      (by decide)).1,
   (CombatSystem.dead_units_do_not_fight 1
      (CombatSystem.attackFrom 1 (CombatSystem.CombatState.start duelWorld []) 0) 1
      (by decide)).2.1⟩

/-! ## Map generation: the two exclusion squares -/

theorem GameMap.setCell_zonePlain (g : GameMap) (x y : Int) (type : TerrainType)
    (hg : g.ZonePlain) (h : GameMap.inBaseZone x y = false ∨ type = TerrainType.PLAIN) :
    (g.setCell x y type).ZonePlain := by
  intro a b hab
  show (if a = x ∧ b = y then type else g.terrain a b) = TerrainType.PLAIN
  split
  · rename_i heq
    rcases h with h | h
    · rw [heq.1, heq.2, h] at hab
      exact absurd hab (by simp)
    · exact h
  · exact hg a b hab

theorem GameMap.nearStep_zonePlain (obstacleType : TerrainType) (x y : Int) (draw : Nat → Int)
    (g : GameMap) (d : Nat) (hg : g.ZonePlain) :
    (GameMap.nearStep obstacleType x y draw g d).ZonePlain := by
  unfold GameMap.nearStep
  split
  · exact hg
  · dsimp only
    split
    · exact hg
    · split
      · exact hg
      · rename_i hz
        split
        · exact GameMap.setCell_zonePlain g _ _ _ hg (Or.inl (by simpa using hz))
        · exact hg

theorem GameMap.farStep_zonePlain (obstacleType : TerrainType) (x y : Int) (draw : Nat → Int)
    (g : GameMap) (d : Nat) (hg : g.ZonePlain) :
    (GameMap.farStep obstacleType x y draw g d).ZonePlain := by
  unfold GameMap.farStep
  split
  · exact hg
  · dsimp only
    split
    · exact hg
    · split
      · exact hg
      · rename_i hz
        split
        · exact GameMap.setCell_zonePlain g _ _ _ hg (Or.inl (by simpa using hz))
        · exact hg

theorem GameMap.obstacleStep_zonePlain (draws : ObstacleDraws) (g : GameMap) (i : Nat)
    (hg : g.ZonePlain) : (GameMap.obstacleStep draws g i).ZonePlain := by
  unfold GameMap.obstacleStep
  dsimp only
  split
  · exact hg
  · rename_i hz
    split
    · apply foldl_preserves GameMap.ZonePlain _
        (fun s d hs => GameMap.farStep_zonePlain _ _ _ _ s d hs)
      apply foldl_preserves GameMap.ZonePlain _
        (fun s d hs => GameMap.nearStep_zonePlain _ _ _ _ s d hs)
      exact GameMap.setCell_zonePlain g _ _ _ hg (Or.inl (by simpa using hz))
    · exact hg

theorem GameMap.clearSquare_zonePlain (lo hi : Int) (g : GameMap) (hg : g.ZonePlain) :
    (GameMap.clearSquare lo hi g).ZonePlain := by
  unfold GameMap.clearSquare
  apply foldl_preserves GameMap.ZonePlain _ _ _ g hg
  intro s x hs
  apply foldl_preserves GameMap.ZonePlain _ _ _ s hs
  intro s2 y hs2
  dsimp only
  split
  · exact GameMap.setCell_zonePlain s2 _ _ _ hs2 (Or.inr rfl)
  · exact hs2

theorem GameMap.initialize_zonePlain (g : GameMap) (draws : ObstacleDraws) :
    ( GameMap.initialize g draws).ZonePlain := by
  unfold GameMap.initialize GameMap.generateObstacles
  dsimp only
  apply GameMap.clearSquare_zonePlain
  apply GameMap.clearSquare_zonePlain
  apply foldl_preserves GameMap.ZonePlain _
    (fun s i hs => GameMap.obstacleStep_zonePlain draws s i hs)
  intro x y hxy
  have h : 0 ≤ x ∧ x < MAP_SIZE ∧ 0 ≤ y ∧ y < MAP_SIZE := by
    simp [GameMap.inBaseZone, MAP_SIZE] at hxy ⊢
    omega
  show (if 0 ≤ x ∧ x < MAP_SIZE ∧ 0 ≤ y ∧ y < MAP_SIZE then TerrainType.PLAIN
    else g.terrain x y) = TerrainType.PLAIN
  rw [if_pos h]

/-- C33: for every earlier map and every outcome of the draws, after
`GameMap::initialize` every cell (x, y) with 2 <= x, y <= 8 and every cell with
55 <= x, y <= 61 has terrain Plain, is reported so by `getTerrainAt`, and is
walkable. -/
theorem GameMap.initialize_exclusion_squares_plain (g : GameMap) (draws : ObstacleDraws)
    (x y : Int)
    (h : (2 ≤ x ∧ x ≤ 8 ∧ 2 ≤ y ∧ y ≤ 8) ∨ (55 ≤ x ∧ x ≤ 61 ∧ 55 ≤ y ∧ y ≤ 61)) :
    ( GameMap.initialize g draws).terrain x y = TerrainType.PLAIN ∧
    ( GameMap.initialize g draws).getTerrainAt ⟨x, y⟩ = TerrainType.PLAIN ∧
    ( GameMap.initialize g draws).isWalkable ⟨x, y⟩ = true := by
  have hz : GameMap.inBaseZone x y = true := by
    simp [GameMap.inBaseZone, MAP_SIZE]
    omega
  have ht := GameMap.initialize_zonePlain g draws x y hz
  have hv : ( GameMap.initialize g draws).isValidPosition ⟨x, y⟩ = true := by
    simp [GameMap.isValidPosition, MAP_SIZE]
    omega
  refine ⟨ht, ?_, ?_⟩
  · unfold GameMap.getTerrainAt
    simp [hv, ht]
  · unfold GameMap.isWalkable
    simp [hv, ht]

set_option maxRecDepth 1000000 in
/-- Witness for C33: with seeds at (9, 5) and every cluster draw below its
threshold, the cell (8, 5) of the first exclusion square stays Plain while the
seed cell next to it is Mountain. -/
theorem GameMap.initialize_exclusion_squares_plain_witness :
    (( GameMap.initialize smallWorld.gameMap denseDraws).terrain 8 5 = TerrainType.PLAIN ∧
      ( GameMap.initialize smallWorld.gameMap denseDraws).getTerrainAt ⟨8, 5⟩
        = TerrainType.PLAIN ∧
      ( GameMap.initialize smallWorld.gameMap denseDraws).isWalkable ⟨8, 5⟩ = true) ∧
    ( GameMap.initialize smallWorld.gameMap denseDraws).terrain 9 5 = TerrainType.MOUNTAIN ∧
    ( GameMap.initialize smallWorld.gameMap denseDraws).terrain 10 5 = TerrainType.MOUNTAIN :=
  ⟨GameMap.initialize_exclusion_squares_plain smallWorld.gameMap denseDraws 8 5
      (Or.inl (by decide)),
   by decide, by decide⟩

/-! ## Map generation: the ground around the six bases -/

set_option maxRecDepth 1000000 in
/-- C34 on the code: for the draws `nearBaseDraws` (one Mountain seed at
(9, 12), nothing else), the map that `GameMap::initialize` generates and
`GameModel::initialize` completes has a Mountain at (9, 12), which is not
walkable and lies at Chebyshev distance 1 of the Team A base at (8, 12); the
clearing loops only cover the squares 2..8 and 55..61. -/
theorem GameModel.initialize_mountain_next_to_base :
    (( GameModel.initialize smallWorld
        ( GameMap.initialize smallWorld.gameMap nearBaseDraws)).gameMap.getTerrainAt ⟨9, 12⟩
      = TerrainType.MOUNTAIN) ∧
    (( GameModel.initialize smallWorld
        ( GameMap.initialize smallWorld.gameMap nearBaseDraws)).gameMap.isWalkable ⟨9, 12⟩
      = false) ∧
    Base.new ⟨8, 12⟩ Team.TEAM_A ∈
      ( GameModel.initialize smallWorld
        ( GameMap.initialize smallWorld.gameMap nearBaseDraws)).basesTeamA ∧
    (Position.chebyshevDistanceTo ⟨8, 12⟩ ⟨9, 12⟩ = 1) ∧
    GameMap.inBaseZone 9 12 = false := by
  decide

/-! ## Units stand on walkable ground -/

theorem GameMap.isWalkable_iff (g : GameMap) (pos : Position) :
    g.isWalkable pos = true ↔
      (0 ≤ pos.x ∧ pos.x < MAP_SIZE ∧ 0 ≤ pos.y ∧ pos.y < MAP_SIZE) ∧
      (g.terrain pos.x pos.y = TerrainType.PLAIN ∨ g.terrain pos.x pos.y = TerrainType.BASE_A ∨
        g.terrain pos.x pos.y = TerrainType.BASE_B) := by
  unfold GameMap.isWalkable GameMap.isValidPosition
  by_cases hv : 0 ≤ pos.x ∧ pos.x < MAP_SIZE ∧ 0 ≤ pos.y ∧ pos.y < MAP_SIZE
  · obtain ⟨h1, h2, h3, h4⟩ := hv
    simp [h1, h2, h3, h4, or_assoc]
  · constructor
    · intro h
      exfalso
      apply hv
      split at h
      · exact absurd h (by simp)
      · rename_i hvalid
        simp at hvalid
        exact ⟨hvalid.1.1.1, hvalid.1.1.2, hvalid.1.2, hvalid.2⟩
    · intro h
      exact absurd h.1 hv

theorem GameModel.unitsOnOpenGround_of_walkable (m : GameModel) (h : m.UnitsOnWalkable) :
    m.UnitsOnOpenGround := fun s hs =>
  (GameMap.isWalkable_iff m.gameMap s.getPosition).1 (h s hs)

theorem Soldier.new_getPosition (pos : Position) (type : SoldierType) (team : Team) :
    (Soldier.new pos type team).getPosition = pos := by
  cases type <;> rfl

theorem GameModel.moveSoldier_unitsOnWalkable (m : GameModel) (i : Nat) (p : Position)
    (h : m.UnitsOnWalkable) (hp : GameController.canEnter m i p = true) :
    (m.moveSoldier i p).UnitsOnWalkable := by
  have hw : m.gameMap.isWalkable p = true := by
    unfold GameController.canEnter at hp
    simp at hp
    exact hp.1
  unfold GameModel.moveSoldier
  cases hi : m.soldiers[i]? with
  | none => exact h
  | some soldier =>
      intro s hs
      show m.gameMap.isWalkable s.getPosition = true
      have hs2 : s ∈ m.soldiers.set i (soldier.setPosition p) := hs
      rcases List.mem_or_eq_of_mem_set hs2 with hmem | heq
      · exact h s hmem
      · rw [heq]
        exact hw

theorem GameController.purchaseSoldier_unitsOnWalkable (m : GameModel) (team : Team)
    (type : SoldierType) (basePos : Position) (h : m.UnitsOnWalkable)
    (hok : (GameController.purchaseSoldier m team type basePos).2 = true) :
    (GameController.purchaseSoldier m team type basePos).1.UnitsOnWalkable := by
  have heq := GameController.purchaseSoldier_eq m team type basePos
  have hrest := GameModel.spendEnergy_rest m team (CombatSystem.getSoldierCost type)
  rw [heq] at hok ⊢
  by_cases hc : m.getEnergy team ≥ CombatSystem.getSoldierCost type
  · rw [if_pos hc] at hok ⊢
    by_cases hw : (m.spendEnergy team (CombatSystem.getSoldierCost type)).1.gameMap.isWalkable
        (GameController.findSpawnPosition
          (m.spendEnergy team (CombatSystem.getSoldierCost type)).1 team basePos) = true
    · rw [if_pos hw]
      intro s hs
      have hs2 : s ∈ (m.spendEnergy team (CombatSystem.getSoldierCost type)).1.soldiers ++
          [Soldier.new (GameController.findSpawnPosition
            (m.spendEnergy team (CombatSystem.getSoldierCost type)).1 team basePos) type team] :=
        hs
      show (m.spendEnergy team (CombatSystem.getSoldierCost type)).1.gameMap.isWalkable
        s.getPosition = true
      rcases List.mem_append.1 hs2 with hmem | hnew
      · rw [hrest.2.1]
        rw [hrest.1] at hmem
        exact h s hmem
      · rw [List.mem_singleton.1 hnew, Soldier.new_getPosition]
        exact hw
    · rw [if_neg hw] at hok
      exact absurd hok (by simp)
  · rw [if_neg hc] at hok
    exact absurd hok (by simp)

/-- C35: in a world in which every unit stands on a walkable cell, after a
successful `purchaseSoldier` (any team, kind and base position) and after
`processSoldierBehavior` (any unit index, any outcome of the random choices)
every unit, the new or moved one included, stands on a cell of the grid whose
terrain is Plain or a base marker, and `isWalkable` accepts it. -/
theorem GameController.units_stay_on_walkable_ground (m : GameModel)
    (h : m.UnitsOnWalkable) :
    (∀ (team : Team) (type : SoldierType) (basePos : Position),
      (GameController.purchaseSoldier m team type basePos).2 = true →
        (GameController.purchaseSoldier m team type basePos).1.UnitsOnWalkable ∧
        (GameController.purchaseSoldier m team type basePos).1.UnitsOnOpenGround) ∧
    (∀ (i : Nat) (choices : Nat → MoveChoices),
      (GameController.processSoldierBehavior m i choices).UnitsOnWalkable ∧
      (GameController.processSoldierBehavior m i choices).UnitsOnOpenGround) := by
  constructor
  · intro team type basePos hok
    have hw := GameController.purchaseSoldier_unitsOnWalkable m team type basePos h hok
    exact ⟨hw, GameModel.unitsOnOpenGround_of_walkable _ hw⟩
  · intro i choices
    have hw := GameController.processSoldierBehavior_preserves GameModel.UnitsOnWalkable i
      (fun m2 p hm2 hp => GameModel.moveSoldier_unitsOnWalkable m2 i p hm2 hp) m choices h
    exact ⟨hw, GameModel.unitsOnOpenGround_of_walkable _ hw⟩

set_option maxRecDepth 1000000 in
/-- Witness for C35: the world with the Archer and the two Infantry; the
purchase of a Cavalry at the base (8, 12) succeeds there and the third unit
moves. -/
theorem GameController.units_stay_on_walkable_ground_witness :
    archerWorld.UnitsOnWalkable ∧
    (GameController.purchaseSoldier archerWorld Team.TEAM_A SoldierType.CAVALRY ⟨8, 12⟩).2
      = true ∧
    (GameController.purchaseSoldier archerWorld Team.TEAM_A SoldierType.CAVALRY
      ⟨8, 12⟩).1.UnitsOnOpenGround ∧
    (GameController.processSoldierBehavior archerWorld 2 fun _ => plainChoices).soldiers
      ≠ archerWorld.soldiers ∧
    (GameController.processSoldierBehavior archerWorld 2
      fun _ => plainChoices).UnitsOnOpenGround :=
  ⟨by decide, by decide,
   ((GameController.units_stay_on_walkable_ground archerWorld (by decide)).1
      Team.TEAM_A SoldierType.CAVALRY ⟨8, 12⟩ (by decide)).2,
   by decide,
   ((GameController.units_stay_on_walkable_ground archerWorld (by decide)).2 2
      fun _ => plainChoices).2⟩

/-! ## The turn loop: what a turn leaves alone -/

theorem GameModel.addEnergy_clock (m : GameModel) (team : Team) (c : Int) :
    (m.addEnergy team c).clock = m.clock := by
  unfold GameModel.addEnergy
  split <;> rfl

theorem GameModel.spendEnergy_clock (m : GameModel) (team : Team) (c : Int) :
    (m.spendEnergy team c).1.clock = m.clock := by
  unfold GameModel.spendEnergy
  split
  · dsimp only
    split <;> rfl
  · dsimp only
    split <;> rfl

theorem GameController.purchaseSoldier_clock (m : GameModel) (team : Team)
    (type : SoldierType) (basePos : Position) :
    (GameController.purchaseSoldier m team type basePos).1.clock = m.clock := by
  unfold GameController.purchaseSoldier
  dsimp only
  split
  · rfl
  · split
    · rw [GameModel.addEnergy_clock, GameModel.spendEnergy_clock]
    · exact GameModel.spendEnergy_clock m team _

theorem GameModel.moveSoldier_clock (m : GameModel) (i : Nat) (p : Position) :
    (m.moveSoldier i p).clock = m.clock := by
  unfold GameModel.moveSoldier
  split <;> rfl

theorem AIController.tryPurchaseOnce_clock (ai : AIController) (m : GameModel) (team : Team)
    (baseDraw : Nat) (typeDraw : Int) :
    (ai.tryPurchaseOnce m team baseDraw typeDraw).2.1.clock = m.clock := by
  unfold AIController.tryPurchaseOnce
  split
  · rfl
  · dsimp only
    split
    · rfl
    · split
      · rfl
      · split
        · exact GameController.purchaseSoldier_clock m team _ _
        · exact GameController.purchaseSoldier_clock m team _ _

theorem GameController.logEvent_currentTurn (c : GameController) (event : GameEvent) :
    (c.logEvent event).currentTurn = c.currentTurn := by
  unfold GameController.logEvent
  split <;> rfl

theorem GameController.executeSpawn_clock (c : GameController) (team : Team) (baseId : Nat)
    (unitType : Int) :
    (c.executeSpawn team baseId unitType).1.currentTurn = c.currentTurn ∧
    (c.executeSpawn team baseId unitType).1.model.clock = c.model.clock := by
  unfold GameController.executeSpawn
  split
  · exact ⟨rfl, rfl⟩
  · split
    · exact ⟨rfl, rfl⟩
    · dsimp only
      split
      · rw [GameController.logEvent_currentTurn, GameController.logEvent_model]
        exact ⟨rfl, GameController.purchaseSoldier_clock _ _ _ _⟩
      · exact ⟨rfl, GameController.purchaseSoldier_clock _ _ _ _⟩

theorem GameController.parseAndExecuteAction_clock (c : GameController) (team : Team)
    (action : GameAction) (rnd : Nat) :
    (c.parseAndExecuteAction team action rnd).1.currentTurn = c.currentTurn ∧
    (c.parseAndExecuteAction team action rnd).1.model.clock = c.model.clock := by
  unfold GameController.parseAndExecuteAction
  dsimp only
  split
  · exact ⟨rfl, rfl⟩
  · split
    · split
      · exact ⟨rfl, rfl⟩
      · exact GameController.executeSpawn_clock c team _ _
    · exact GameController.executeSpawn_clock c team _ _

/-- The turn number of the controller and the clock of its world. -/
theorem GameController.afterTry_clock (c : GameController) (team : Team)
    (r : AIController × GameModel × GameAction) :
    (c.afterTry team r).currentTurn = c.currentTurn ∧ (c.afterTry team r).model = r.2.1 := by
  unfold GameController.afterTry
  split <;> exact ⟨rfl, rfl⟩

theorem GameController.rulePurchaseStep_clock (team : Team) (choices : Nat → PurchaseChoices)
    (acc : GameController × Bool) (i : Nat) :
    (GameController.rulePurchaseStep team choices acc i).1.currentTurn = acc.1.currentTurn ∧
    (GameController.rulePurchaseStep team choices acc i).1.model.clock = acc.1.model.clock := by
  have htry := AIController.tryPurchaseOnce_clock (acc.1.aiControllerOf team) acc.1.model team
    (choices i).baseDraw (choices i).typeDraw
  have hafter := GameController.afterTry_clock acc.1 team
    ((acc.1.aiControllerOf team).tryPurchaseOnce acc.1.model team
      (choices i).baseDraw (choices i).typeDraw)
  have hparse := GameController.parseAndExecuteAction_clock
    (acc.1.afterTry team ((acc.1.aiControllerOf team).tryPurchaseOnce acc.1.model team
      (choices i).baseDraw (choices i).typeDraw)) team
    ((acc.1.aiControllerOf team).tryPurchaseOnce acc.1.model team
      (choices i).baseDraw (choices i).typeDraw).2.2 (choices i).fallbackDraw
  unfold GameController.rulePurchaseStep
  split
  · exact ⟨rfl, rfl⟩
  · dsimp only
    split
    · exact ⟨hafter.1, by rw [hafter.2]; exact htry⟩
    · split
      · exact ⟨hparse.1.trans hafter.1, hparse.2.trans (by rw [hafter.2]; exact htry)⟩
      · exact ⟨hparse.1.trans hafter.1, hparse.2.trans (by rw [hafter.2]; exact htry)⟩

theorem GameController.pythonPurchaseStep_clock (team : Team)
    (choices : Nat → PurchaseChoices) (acc : GameController × Bool) (i : Nat) :
    (GameController.pythonPurchaseStep team choices acc i).1.currentTurn = acc.1.currentTurn ∧
    (GameController.pythonPurchaseStep team choices acc i).1.model.clock
      = acc.1.model.clock := by
  unfold GameController.pythonPurchaseStep
  split
  · exact ⟨rfl, rfl⟩
  · dsimp only
    split
    · exact ⟨rfl, rfl⟩
    · cases hparsed : (choices i).python.parsed with
      | none =>
          dsimp only
          split <;> exact ⟨rfl, rfl⟩
      | some action =>
          dsimp only
          split <;> exact GameController.parseAndExecuteAction_clock acc.1 team action _

theorem GameController.decisionsOf_clock (c : GameController) (team : Team) (type : PlayerType)
    (choices : Nat → PurchaseChoices) :
    (c.decisionsOf team type choices).currentTurn = c.currentTurn ∧
    (c.decisionsOf team type choices).model.clock = c.model.clock := by
  unfold GameController.decisionsOf
  split
  · exact foldl_preserves
      (fun x : GameController × Bool =>
        x.1.currentTurn = c.currentTurn ∧ x.1.model.clock = c.model.clock)
      (GameController.pythonPurchaseStep team choices)
      (fun x i hx =>
        ⟨(GameController.pythonPurchaseStep_clock team choices x i).1.trans hx.1,
         (GameController.pythonPurchaseStep_clock team choices x i).2.trans hx.2⟩)
      _ (c, false) ⟨rfl, rfl⟩
  · split
    · exact foldl_preserves
        (fun x : GameController × Bool =>
          x.1.currentTurn = c.currentTurn ∧ x.1.model.clock = c.model.clock)
        (GameController.rulePurchaseStep team choices)
        (fun x i hx =>
          ⟨(GameController.rulePurchaseStep_clock team choices x i).1.trans hx.1,
           (GameController.rulePurchaseStep_clock team choices x i).2.trans hx.2⟩)
        _ (c, false) ⟨rfl, rfl⟩
    · exact ⟨rfl, rfl⟩

theorem GameController.purchasePhase_clock (c : GameController) (ch : TurnChoices) :
    (c.purchasePhase ch).currentTurn = c.currentTurn ∧
    (c.purchasePhase ch).model.clock = c.model.clock := by
  unfold GameController.purchasePhase
  dsimp only
  have h2 := GameController.decisionsOf_clock
    ({ c.generateEnergy with model := c.generateEnergy.model.updateSharedVision }.decisionsOf
      Team.TEAM_A c.generateEnergy.team0Type (ch.purchase Team.TEAM_A)) Team.TEAM_B
    ({ c.generateEnergy with model := c.generateEnergy.model.updateSharedVision }.decisionsOf
      Team.TEAM_A c.generateEnergy.team0Type (ch.purchase Team.TEAM_A)).team1Type
    (ch.purchase Team.TEAM_B)
  have h1 := GameController.decisionsOf_clock
    { c.generateEnergy with model := c.generateEnergy.model.updateSharedVision }
    Team.TEAM_A c.generateEnergy.team0Type (ch.purchase Team.TEAM_A)
  have h0 : c.generateEnergy.model.updateSharedVision.clock = c.model.clock := by
    show (GameModel.updateSharedVision
      ((c.model.addEnergy Team.TEAM_A ENERGY_PER_TURN).addEnergy Team.TEAM_B
        ENERGY_PER_TURN)).clock = c.model.clock
    show ((c.model.addEnergy Team.TEAM_A ENERGY_PER_TURN).addEnergy Team.TEAM_B
        ENERGY_PER_TURN).clock = c.model.clock
    rw [GameModel.addEnergy_clock, GameModel.addEnergy_clock]
  exact ⟨h2.1.trans h1.1, h2.2.trans (h1.2.trans h0)⟩

theorem GameController.movementPhase_clock (m : GameModel) (moves : Nat → Nat → MoveChoices) :
    (GameController.movementPhase m moves).clock = m.clock := by
  unfold GameController.movementPhase
  apply foldl_preserves (fun x : GameModel => x.clock = m.clock) _ _ _ m rfl
  intro acc i hacc
  dsimp only
  split
  · split
    · exact GameController.processSoldierBehavior_preserves
        (fun x : GameModel => x.clock = m.clock) i
        (fun m2 p hm2 _ => (GameModel.moveSoldier_clock m2 i p).trans hm2) acc (moves i) hacc
    · exact hacc
  · exact hacc

theorem CombatSystem.healAlly_clock (st : CombatSystem.CombatState) (d a : Nat) :
    (CombatSystem.healAlly st d a).model.clock = st.model.clock := by
  unfold CombatSystem.healAlly
  split
  · split
    · rfl
    · split
      · rfl
      · split
        · rfl
        · dsimp only
          split
          · unfold CombatSystem.CombatState.addHeal CombatSystem.CombatState.setSoldier
            split <;> rfl
          · rfl
  · rfl

theorem CombatSystem.healFrom_clock (st : CombatSystem.CombatState) (d : Nat) :
    (CombatSystem.healFrom st d).model.clock = st.model.clock := by
  unfold CombatSystem.healFrom
  split
  · split
    · rfl
    · split
      · rfl
      · exact foldl_preserves
          (fun x : CombatSystem.CombatState => x.model.clock = st.model.clock)
          (fun acc a => CombatSystem.healAlly acc d a)
          (fun x a hx => (CombatSystem.healAlly_clock x d a).trans hx) _ st rfl
  · rfl

theorem CombatSystem.strike_clock (st : CombatSystem.CombatState) (i j : Nat) (turn : Int) :
    (CombatSystem.strike st i j turn).model.clock = st.model.clock := by
  unfold CombatSystem.strike
  split
  · dsimp only
    split
    · show (GameModel.addEnergy _ _ _).clock = _
      rw [GameModel.addEnergy_clock]
      rfl
    · rfl
  · rfl

theorem CombatSystem.casterHit_clock (st : CombatSystem.CombatState) (i main j : Nat)
    (turn : Int) :
    (CombatSystem.casterHit st i main j turn).model.clock = st.model.clock := by
  unfold CombatSystem.casterHit
  split
  · split
    · rfl
    · split
      · rfl
      · dsimp only
        split
        · exact CombatSystem.strike_clock st i j turn
        · rfl
  · rfl

theorem CombatSystem.attackFrom_clock (turn : Int) (st : CombatSystem.CombatState) (i : Nat) :
    (CombatSystem.attackFrom turn st i).model.clock = st.model.clock := by
  unfold CombatSystem.attackFrom
  split
  · split
    · rfl
    · split
      · split
        · exact foldl_preserves
            (fun x : CombatSystem.CombatState => x.model.clock = st.model.clock)
            (fun acc j => CombatSystem.casterHit acc i _ j turn)
            (fun x j hx => (CombatSystem.casterHit_clock x i _ j turn).trans hx) _ st rfl
        · rfl
      · split
        · exact CombatSystem.strike_clock st i _ turn
        · rfl
  · rfl

theorem CombatSystem.siegeBase_clock (st : CombatSystem.CombatState) (i b : Nat) (turn : Int) :
    (CombatSystem.siegeBase st i b turn).model.clock = st.model.clock := by
  unfold CombatSystem.siegeBase
  split
  · split
    · split
      · unfold CombatSystem.CombatState.setBase
        split <;> rfl
      · rfl
    · rfl
  · rfl

theorem CombatSystem.siegeFrom_clock (turn : Int) (st : CombatSystem.CombatState) (i : Nat) :
    (CombatSystem.siegeFrom turn st i).model.clock = st.model.clock := by
  unfold CombatSystem.siegeFrom
  split
  · split
    · rfl
    · exact foldl_preserves
        (fun x : CombatSystem.CombatState => x.model.clock = st.model.clock)
        (fun acc b => CombatSystem.siegeBase acc i b turn)
        (fun x b hx => (CombatSystem.siegeBase_clock x i b turn).trans hx) _ st rfl
  · rfl

theorem CombatSystem.processCombat_clock (m : GameModel) (events : List GameEvent)
    (turn : Int) : (CombatSystem.processCombat m events turn).model.clock = m.clock := by
  unfold CombatSystem.processCombat CombatSystem.siegePhase CombatSystem.attackPhase
    CombatSystem.healPhase
  apply foldl_preserves (fun x : CombatSystem.CombatState => x.model.clock = m.clock)
    (CombatSystem.siegeFrom turn)
    (fun x i hx => (CombatSystem.siegeFrom_clock turn x i).trans hx)
  apply foldl_preserves (fun x : CombatSystem.CombatState => x.model.clock = m.clock)
    (CombatSystem.attackFrom turn)
    (fun x i hx => (CombatSystem.attackFrom_clock turn x i).trans hx)
  apply foldl_preserves (fun x : CombatSystem.CombatState => x.model.clock = m.clock)
    CombatSystem.healFrom
    (fun x i hx => (CombatSystem.healFrom_clock x i).trans hx)
  rfl

theorem GameController.logEvents_currentTurn (events : List GameEvent) :
    ∀ c : GameController,
      (events.foldl (fun acc evt => acc.logEvent evt) c).currentTurn = c.currentTurn := by
  induction events with
  | nil => intro c; rfl
  | cons e rest ih =>
      intro c
      rw [List.foldl_cons, ih, GameController.logEvent_currentTurn]

/-! ## The turn loop: `gameLoop` ends -/

theorem GameController.checkGameOver_clock (c : GameController) :
    c.checkGameOver.currentTurn = c.currentTurn ∧
    c.checkGameOver.model.turnCount = c.model.turnCount ∧
    c.checkGameOver.model.basesTeamA = c.model.basesTeamA ∧
    c.checkGameOver.model.basesTeamB = c.model.basesTeamB ∧
    (c.currentTurn ≥ MAX_TURNS → c.checkGameOver.model.gameOver = true) ∧
    (c.model.gameOver = false → c.checkGameOver.model.gameOver = true →
      c.checkGameOver.model.winner = GameController.winnerAt c.currentTurn c.model) := by
  unfold GameController.checkGameOver GameController.winnerAt
  by_cases hlimit : c.currentTurn ≥ MAX_TURNS
  · rw [if_pos hlimit, if_pos hlimit]
    dsimp only
    by_cases hhp : totalBaseHp c.model.basesTeamA > totalBaseHp c.model.basesTeamB
    · rw [if_pos hhp, if_pos hhp, GameController.logEvent_currentTurn,
        GameController.logEvent_model]
      exact ⟨rfl, rfl, rfl, rfl, fun _ => rfl, fun _ _ => rfl⟩
    · rw [if_neg hhp, if_neg hhp, GameController.logEvent_currentTurn,
        GameController.logEvent_model]
      exact ⟨rfl, rfl, rfl, rfl, fun _ => rfl, fun _ _ => rfl⟩
  · rw [if_neg hlimit, if_neg hlimit]
    dsimp only
    by_cases hA : (!anyBaseAlive c.model.basesTeamA) = true
    · rw [if_pos hA, if_pos hA, GameController.logEvent_currentTurn,
        GameController.logEvent_model]
      exact ⟨rfl, rfl, rfl, rfl, fun h => absurd h hlimit, fun _ _ => rfl⟩
    · rw [if_neg hA, if_neg hA]
      by_cases hB : (!anyBaseAlive c.model.basesTeamB) = true
      · rw [if_pos hB, GameController.logEvent_currentTurn, GameController.logEvent_model]
        exact ⟨rfl, rfl, rfl, rfl, fun h => absurd h hlimit, fun _ _ => rfl⟩
      · rw [if_neg hB]
        exact ⟨rfl, rfl, rfl, rfl, fun h => absurd h hlimit,
          fun h1 h2 => absurd (h1.symm.trans h2) (by simp)⟩

theorem GameController.cleanupDeadSoldiers_clock (m : GameModel) :
    (GameController.cleanupDeadSoldiers m).clock = m.clock := rfl

theorem GameController.resolveTurn_shape (c : GameController)
    (moves : Nat → Nat → MoveChoices) :
    ∃ c7 : GameController, c7.currentTurn = c.currentTurn ∧ c7.model.clock = c.model.clock ∧
      (c.resolveTurn moves).model = c7.checkGameOver.model ∧
      (c.resolveTurn moves).currentTurn = c7.checkGameOver.currentTurn := by
  unfold GameController.resolveTurn
  dsimp only
  have hlog : ∀ x : GameController, (match x.trainingLogger with
      | some l =>
          if x.gameMode = GameMode.TRAINING then
            { x with trainingLogger := some (l.recordTurn x.currentTurn) }
          else x
      | none => x).model = x.model ∧ (match x.trainingLogger with
      | some l =>
          if x.gameMode = GameMode.TRAINING then
            { x with trainingLogger := some (l.recordTurn x.currentTurn) }
          else x
      | none => x).currentTurn = x.currentTurn := by
    intro x
    split
    · split <;> exact ⟨rfl, rfl⟩
    · exact ⟨rfl, rfl⟩
  refine ⟨_, ?_, ?_, (hlog _).1, (hlog _).2⟩
  · dsimp only
    split
    · rw [GameController.logEvents_currentTurn]
    · rfl
  · dsimp only
    rw [GameController.cleanupDeadSoldiers_clock]
    have hcombat := CombatSystem.processCombat_clock
      (GameController.movementPhase c.model moves) [] c.currentTurn
    rw [GameController.movementPhase_clock] at hcombat
    split
    · rw [GameController.logEvents_model]
      exact hcombat
    · exact hcombat

theorem GameController.loopRound_spec (c : GameController) (ch : TurnChoices) :
    (c.loopRound ch).currentTurn = c.currentTurn + 1 ∧
    (c.loopRound ch).model.turnCount = c.model.turnCount + 1 ∧
    (c.currentTurn ≥ MAX_TURNS → (c.loopRound ch).model.gameOver = true) ∧
    (c.model.gameOver = false → (c.loopRound ch).model.gameOver = true →
      (c.loopRound ch).model.winner =
        GameController.winnerAt c.currentTurn (c.loopRound ch).model) := by
  obtain ⟨c7, h7turn, h7clock, hmodel, hturn⟩ :=
    GameController.resolveTurn_shape (c.purchasePhase ch) ch.moves
  have hp := GameController.purchasePhase_clock c ch
  have hck := GameController.checkGameOver_clock c7
  have hclock : c7.model.clock = c.model.clock := h7clock.trans hp.2
  have hgo : c7.model.gameOver = c.model.gameOver := congrArg (fun x => x.1) hclock
  have htc : c7.model.turnCount = c.model.turnCount := congrArg (fun x => x.2.2) hclock
  have h7t : c7.currentTurn = c.currentTurn := h7turn.trans hp.1
  have hm : (c.loopRound ch).model = c7.checkGameOver.model.incrementTurn := by
    show ((c.purchasePhase ch).resolveTurn ch.moves).model.incrementTurn = _
    rw [hmodel]
  have ht : (c.loopRound ch).currentTurn = c7.checkGameOver.currentTurn + 1 := by
    show ((c.purchasePhase ch).resolveTurn ch.moves).currentTurn + 1 = _
    rw [hturn]
  refine ⟨?_, ?_, ?_, ?_⟩
  · rw [ht, hck.1, h7t]
  · rw [hm]
    show c7.checkGameOver.model.turnCount + 1 = _
    rw [hck.2.1, htc]
  · intro hlimit
    rw [hm]
    exact hck.2.2.2.2.1 (by rw [h7t]; exact hlimit)
  · intro hbefore hafter
    rw [hm] at hafter ⊢
    have hw := hck.2.2.2.2.2 (hgo.trans hbefore) hafter
    show c7.checkGameOver.model.winner = _
    rw [hw, h7t]
    unfold GameController.winnerAt
    show _ = (if c.currentTurn ≥ MAX_TURNS then
        if totalBaseHp c7.checkGameOver.model.basesTeamA
            > totalBaseHp c7.checkGameOver.model.basesTeamB then Team.TEAM_A
        else Team.TEAM_B
      else if !anyBaseAlive c7.checkGameOver.model.basesTeamA then Team.TEAM_B
      else Team.TEAM_A)
    rw [hck.2.2.1, hck.2.2.2.1]

theorem GameController.loopFrom_spec (choices : Nat → TurnChoices) :
    ∀ (n : Nat) (c : GameController) (calls fuel : Nat),
      c.currentTurn = (calls : Int) → calls + n = 501 → n + 1 ≤ fuel →
      (calls = 501 → c.model.gameOver = true) →
      (c.model.gameOver = true → 0 < calls →
        c.model.winner = GameController.winnerAt ((calls : Int) - 1) c.model) →
      ∃ (final : GameController) (k : Nat),
        GameController.loopFrom choices fuel c calls = some (final, k) ∧
        k ≤ 501 ∧ calls ≤ k ∧ final.model.gameOver = true ∧
        final.currentTurn = (k : Int) ∧
        final.model.turnCount + (calls : Int) = c.model.turnCount + (k : Int) ∧
        (0 < k → final.model.winner = GameController.winnerAt ((k : Int) - 1) final.model) ∧
        (calls < k → c.model.gameOver = false) := by
  intro n
  induction n with
  | zero =>
      intro c calls fuel hturn hcalls hfuel hlast hwin
      have hover : c.model.gameOver = true := hlast (by omega)
      obtain ⟨f, rfl⟩ : ∃ f, fuel = f + 1 := ⟨fuel - 1, by omega⟩
      refine ⟨c, calls, ?_, by omega, Nat.le_refl _, hover, hturn, rfl, hwin hover, ?_⟩
      · unfold GameController.loopFrom
        simp [GameModel.isGameOver, hover]
      · intro h
        exact absurd h (Nat.lt_irrefl _)
  | succ n ih =>
      intro c calls fuel hturn hcalls hfuel hlast hwin
      obtain ⟨f, rfl⟩ : ∃ f, fuel = f + 1 := ⟨fuel - 1, by omega⟩
      cases hover : c.model.gameOver with
      | true =>
          refine ⟨c, calls, ?_, by omega, Nat.le_refl _, hover, hturn, rfl, hwin hover, ?_⟩
          · unfold GameController.loopFrom
            simp [GameModel.isGameOver, hover]
          · intro h
            exact absurd h (Nat.lt_irrefl _)
      | false =>
          have hround := GameController.loopRound_spec c (choices calls)
          have hnext : (c.loopRound (choices calls)).currentTurn = ((calls + 1 : Nat) : Int) := by
            rw [hround.1, hturn]
            push_cast
            rfl
          obtain ⟨final, k, hrun, hk, hle, hfover, hfturn, hfcount, hfwin, _⟩ :=
            ih (c.loopRound (choices calls)) (calls + 1) f hnext (by omega) (by omega)
              (fun h501 => hround.2.2.1 (by
                rw [hturn]
                unfold MAX_TURNS
                omega))
              (fun hafter _ => by
                have hw := hround.2.2.2 hover hafter
                rw [hw, hturn]
                push_cast
                congr 1
                omega)
          refine ⟨final, k, ?_, hk, by omega, hfover, hfturn, ?_, hfwin, fun _ => rfl⟩
          · rw [GameController.loopFrom]
            simp only [GameModel.isGameOver, hover, Bool.false_eq_true, if_false]
            exact hrun
          · rw [hround.2.1] at hfcount
            push_cast at hfcount
            omega

/-- C37: for every controller state and every outcome of the choices of every
turn, `gameLoop` (not stopped from outside) leaves its loop: with 502 or more
tests of the loop condition it returns, after at most MAX_TURNS + 1 = 501 calls
of `processTurn`, with the game-over flag set; `currentTurn` equals the number
of calls and the turn counter of the world has grown by that number; and when
at least one turn was played, the recorded winner is the one that
`checkGameOver` determines from the bases at the turn of the last call. -/
theorem GameController.gameLoop_ends (c : GameController) (choices : Nat → TurnChoices)
    (fuel : Nat) (hfuel : 502 ≤ fuel) :
    ∃ (final : GameController) (calls : Nat),
      c.gameLoop fuel choices = some (final, calls) ∧
      calls ≤ 501 ∧ (calls : Int) ≤ MAX_TURNS + 1 ∧
      final.model.isGameOver = true ∧
      final.currentTurn = (calls : Int) ∧
      final.model.turnCount = c.model.turnCount + (calls : Int) ∧
      (0 < calls →
        final.model.getWinner = GameController.winnerAt ((calls : Int) - 1) final.model) := by
  obtain ⟨final, k, hrun, hk, _, hover, hturn, hcount, hwin, _⟩ :=
    GameController.loopFrom_spec choices 501 { c with currentTurn := 0 } 0 fuel rfl rfl
      (by omega) (fun h => absurd h (by decide)) (fun _ h => absurd h (by decide))
  have hcount2 : final.model.turnCount = c.model.turnCount + (k : Int) := by
    have h : final.model.turnCount + ((0 : Nat) : Int) = c.model.turnCount + (k : Int) := hcount
    simpa using h
  have hk2 : (k : Int) ≤ MAX_TURNS + 1 := by
    unfold MAX_TURNS
    omega
  unfold GameController.gameLoop
  rw [hrun]
  dsimp only
  cases hl : final.trainingLogger with
  | none => exact ⟨final, k, rfl, hk, hk2, hover, hturn, hcount2, hwin⟩
  | some l =>
      exact ⟨_, k, rfl, hk, hk2, hover, hturn, hcount2, hwin⟩

set_option maxRecDepth 1000000 in
/-- Witness for C37: in the world without bases the first call of `processTurn`
ends the game, and `gameLoop` returns after that one call. -/
theorem GameController.gameLoop_ends_witness :
    (((controllerOf smallWorld 7).gameLoop 502 fun _ => plainTurn).map fun r => r.2)
      = some 1 ∧
    ∃ (final : GameController) (calls : Nat),
      (controllerOf smallWorld 7).gameLoop 502 (fun _ => plainTurn) = some (final, calls) ∧
      calls ≤ 501 ∧ (calls : Int) ≤ MAX_TURNS + 1 ∧
      final.model.isGameOver = true ∧
      final.currentTurn = (calls : Int) ∧
      final.model.turnCount = smallWorld.turnCount + (calls : Int) ∧
      (0 < calls →
        final.model.getWinner = GameController.winnerAt ((calls : Int) - 1) final.model) :=
  ⟨by decide,
   GameController.gameLoop_ends (controllerOf smallWorld 7) (fun _ => plainTurn) 502
     (by decide)⟩

/-! ## The candidate list of a move -/

theorem AIController.moveDirection_range (cur target : Position) (ch : MoveChoices) :
    ((AIController.moveDirection cur target ch).1 = -1 ∨
      (AIController.moveDirection cur target ch).1 = 0 ∨
      (AIController.moveDirection cur target ch).1 = 1) ∧
    ((AIController.moveDirection cur target ch).2 = -1 ∨
      (AIController.moveDirection cur target ch).2 = 0 ∨
      (AIController.moveDirection cur target ch).2 = 1) := by
  unfold AIController.moveDirection
  dsimp only
  split_ifs <;> simp

theorem AIController.moveDirection_unperturbed (cur target : Position) (ch : MoveChoices)
    (h : ¬ ch.randomDraw < 3) :
    AIController.moveDirection cur target ch =
      (AIController.stepToward cur.x target.x, AIController.stepToward cur.y target.y) := by
  unfold AIController.moveDirection AIController.stepToward
  dsimp only
  rw [if_neg h]

set_option maxHeartbeats 4000000 in
theorem AIController.candidateMoves_shift (cur : Position) (crowd : Position → Int)
    (dx dy : Int) (hdx : dx = -1 ∨ dx = 0 ∨ dx = 1) (hdy : dy = -1 ∨ dy = 0 ∨ dy = 1) :
    AIController.candidateMoves cur crowd dx dy =
      (AIController.candidateMoves ⟨0, 0⟩ (fun _ => 0) dx dy).map fun c =>
        { pos := cur.shift c.pos, priority := c.priority, crowdedness := crowd (cur.shift c.pos) } := by
  rcases hdx with rfl | rfl | rfl <;> rcases hdy with rfl | rfl | rfl <;>
    simp [AIController.candidateMoves, AIController.stepRange, Position.shift]

theorem AIController.candidateMoves_origin :
    ∀ dx ∈ AIController.stepRange, ∀ dy ∈ AIController.stepRange,
      ((AIController.candidateMoves ⟨0, 0⟩ (fun _ => 0) dx dy).map fun c => c.pos).Perm
        (GameController.neighbors ⟨0, 0⟩) ∧
      ∀ c ∈ AIController.candidateMoves ⟨0, 0⟩ (fun _ => 0) dx dy,
        c.priority = AIController.priorityOf ⟨0, 0⟩ dx dy c.pos := by
  decide

theorem GameController.neighbors_shift (cur : Position) :
    GameController.neighbors cur = (GameController.neighbors ⟨0, 0⟩).map cur.shift := by
  simp [GameController.neighbors, Position.shift, sub_eq_add_neg]

theorem AIController.priorityOf_shift (cur p : Position) (dx dy : Int) :
    AIController.priorityOf cur dx dy (cur.shift p) = AIController.priorityOf ⟨0, 0⟩ dx dy p := by
  cases p with
  | mk px py =>
    simp [AIController.priorityOf, Position.shift]

theorem chebyshev_one_iff (a b : Int) :
    max (cabs a) (cabs b) = 1 ↔ (-1 ≤ a ∧ a ≤ 1 ∧ -1 ≤ b ∧ b ≤ 1 ∧ (a ≠ 0 ∨ b ≠ 0)) := by
  unfold cabs
  split_ifs <;> omega

theorem GameController.mem_neighbors_iff (cur p : Position) :
    p ∈ GameController.neighbors cur ↔ cur.chebyshevDistanceTo p = 1 := by
  cases p with
  | mk px py =>
    cases cur with
    | mk cx cy =>
      unfold Position.chebyshevDistanceTo
      rw [chebyshev_one_iff]
      simp only [GameController.neighbors, List.mem_cons, Position.mk.injEq,
        List.mem_singleton, List.not_mem_nil, or_false]
      constructor
      · rintro (⟨rfl, rfl⟩ | ⟨rfl, rfl⟩ | ⟨rfl, rfl⟩ | ⟨rfl, rfl⟩ | ⟨rfl, rfl⟩ | ⟨rfl, rfl⟩ |
          ⟨rfl, rfl⟩ | ⟨rfl, rfl⟩) <;> omega
      · rintro ⟨h1, h2, h3, h4, h5⟩
        have hx : px = cx - 1 ∨ px = cx ∨ px = cx + 1 := by omega
        have hy : py = cy - 1 ∨ py = cy ∨ py = cy + 1 := by omega
        rcases hx with rfl | rfl | rfl <;> rcases hy with rfl | rfl | rfl <;> simp at h5 ⊢

theorem GameController.neighbors_nodup (cur : Position) :
    (GameController.neighbors cur).Nodup := by
  rw [GameController.neighbors_shift]
  apply List.Nodup.map
  · intro a b hab
    cases a
    cases b
    simp only [Position.shift, Position.mk.injEq] at hab
    simp only [Position.mk.injEq]
    omega
  · decide


theorem AIController.unsortedMoves_facts (m : GameModel) (soldier : Soldier) (ch : MoveChoices) :
    ((AIController.unsortedMoves m soldier ch).map fun c => c.pos).Perm
      (GameController.neighbors soldier.getPosition) ∧
    ∀ c ∈ AIController.unsortedMoves m soldier ch,
      c.priority = AIController.priorityOf soldier.getPosition
        (AIController.moveDirection soldier.getPosition
          (AIController.targetPosition m soldier) ch).1
        (AIController.moveDirection soldier.getPosition
          (AIController.targetPosition m soldier) ch).2 c.pos ∧
      c.crowdedness = AIController.getCrowdednessAtPosition m c.pos soldier.getTeam 2 := by
  have hrange := AIController.moveDirection_range soldier.getPosition
    (AIController.targetPosition m soldier) ch
  have hU : AIController.unsortedMoves m soldier ch =
      AIController.candidateMoves soldier.getPosition
        (fun pos => AIController.getCrowdednessAtPosition m pos soldier.getTeam 2)
        (AIController.moveDirection soldier.getPosition
          (AIController.targetPosition m soldier) ch).1
        (AIController.moveDirection soldier.getPosition
          (AIController.targetPosition m soldier) ch).2 := rfl
  rw [hU]
  generalize AIController.moveDirection soldier.getPosition
    (AIController.targetPosition m soldier) ch = d at hrange
  have hshift := AIController.candidateMoves_shift soldier.getPosition
    (fun pos => AIController.getCrowdednessAtPosition m pos soldier.getTeam 2) d.1 d.2
    hrange.1 hrange.2
  have horigin := AIController.candidateMoves_origin d.1
    (by rcases hrange.1 with h | h | h <;> rw [h] <;> decide) d.2
    (by rcases hrange.2 with h | h | h <;> rw [h] <;> decide)
  rw [hshift]
  constructor
  · rw [List.map_map, GameController.neighbors_shift]
    have hmap : ((fun c : CandidateMove => c.pos) ∘ fun c : CandidateMove =>
        ({ pos := soldier.getPosition.shift c.pos, priority := c.priority,
           crowdedness := AIController.getCrowdednessAtPosition m
             (soldier.getPosition.shift c.pos) soldier.getTeam 2 } : CandidateMove)) =
        (soldier.getPosition.shift ∘ fun c : CandidateMove => c.pos) := rfl
    rw [hmap, ← List.map_map]
    exact horigin.1.map _
  · intro c hc
    obtain ⟨c0, hc0, rfl⟩ := List.mem_map.1 hc
    dsimp only
    rw [AIController.priorityOf_shift]
    exact ⟨horigin.2 c0 hc0, rfl⟩

theorem AIController.moveBefore_false_iff (cc : Int) (a b : CandidateMove) :
    AIController.moveBefore cc b a = false ↔
      a.priority ≤ b.priority ∧ (a.priority = b.priority → a.crowdedness ≤ b.crowdedness) := by
  unfold AIController.moveBefore
  by_cases hp : b.priority ≠ a.priority
  · rw [if_pos hp]
    simp only [decide_eq_false_iff_not]
    constructor
    · intro h
      exact ⟨by omega, fun heq => absurd heq.symm hp⟩
    · intro h
      omega
  · rw [if_neg hp]
    have heq : b.priority = a.priority := by
      by_contra h
      exact hp h
    split <;>
    · simp only [decide_eq_false_iff_not]
      constructor
      · intro h
        exact ⟨by omega, fun _ => by omega⟩
      · intro h
        have := h.2 heq.symm
        omega

theorem AIController.getMoveCandidates_cases (m : GameModel) (soldier : Soldier)
    (ch : MoveChoices) :
    AIController.getMoveCandidates m soldier ch = [] ∨
    AIController.getMoveCandidates m soldier ch =
      (ch.sorted (AIController.unsortedMoves m soldier ch)).map fun cm => cm.pos := by
  unfold AIController.getMoveCandidates
  dsimp only
  split
  · exact Or.inl rfl
  · split
    · exact Or.inl rfl
    · rename_i heq _
      rw [heq]
      exact Or.inr rfl

/-- C31, amended: for every world, unit, outcome of the random side step and
outcome of `std::sort`, `getMoveCandidates` returns the empty list or a list of
exactly the 8 cells at Chebyshev distance 1 of the unit, each once; the list is
ordered so that the priority class is non-decreasing and, within one class, the
number of living units of the team within Manhattan distance 2 of the cell is
non-decreasing.  The classes are those of the direction `(dx, dy)` after the
side step (1 the diagonal cell in that direction, 2 its axis cells, 3 every
other cell), and only when no side step is drawn is that direction the one
toward the target. -/
theorem AIController.getMoveCandidates_ordered (m : GameModel) (soldier : Soldier)
    (ch : MoveChoices)
    (hsort : IsSortOutcome
      (AIController.moveBefore
        (AIController.getCrowdednessAtPosition m soldier.getPosition soldier.getTeam 2))
      (AIController.unsortedMoves m soldier ch)
      (ch.sorted (AIController.unsortedMoves m soldier ch))) :
    (AIController.getMoveCandidates m soldier ch = [] ∨
      ((AIController.getMoveCandidates m soldier ch).Perm
          (GameController.neighbors soldier.getPosition) ∧
        (AIController.getMoveCandidates m soldier ch).length = 8 ∧
        (AIController.getMoveCandidates m soldier ch).Nodup ∧
        ∀ p : Position, p ∈ AIController.getMoveCandidates m soldier ch ↔
          soldier.getPosition.chebyshevDistanceTo p = 1)) ∧
    (AIController.getMoveCandidates m soldier ch).Pairwise (fun p q =>
      AIController.priorityOf soldier.getPosition
          (AIController.moveDirection soldier.getPosition
            (AIController.targetPosition m soldier) ch).1
          (AIController.moveDirection soldier.getPosition
            (AIController.targetPosition m soldier) ch).2 p ≤
        AIController.priorityOf soldier.getPosition
          (AIController.moveDirection soldier.getPosition
            (AIController.targetPosition m soldier) ch).1
          (AIController.moveDirection soldier.getPosition
            (AIController.targetPosition m soldier) ch).2 q ∧
      (AIController.priorityOf soldier.getPosition
          (AIController.moveDirection soldier.getPosition
            (AIController.targetPosition m soldier) ch).1
          (AIController.moveDirection soldier.getPosition
            (AIController.targetPosition m soldier) ch).2 p =
        AIController.priorityOf soldier.getPosition
          (AIController.moveDirection soldier.getPosition
            (AIController.targetPosition m soldier) ch).1
          (AIController.moveDirection soldier.getPosition
            (AIController.targetPosition m soldier) ch).2 q →
        crowdCount m p soldier.getTeam 2 ≤ crowdCount m q soldier.getTeam 2)) ∧
    (¬ ch.randomDraw < 3 →
      AIController.moveDirection soldier.getPosition (AIController.targetPosition m soldier) ch =
        (AIController.stepToward soldier.getPosition.x (AIController.targetPosition m soldier).x,
         AIController.stepToward soldier.getPosition.y
          (AIController.targetPosition m soldier).y)) := by
  have hfacts := AIController.unsortedMoves_facts m soldier ch
  have hperm : ((ch.sorted (AIController.unsortedMoves m soldier ch)).map fun cm => cm.pos).Perm
      (GameController.neighbors soldier.getPosition) :=
    (hsort.1.map _).trans hfacts.1
  refine ⟨?_, ?_, AIController.moveDirection_unperturbed _ _ ch⟩
  · rcases AIController.getMoveCandidates_cases m soldier ch with h | h
    · exact Or.inl h
    · right
      rw [h]
      refine ⟨hperm, ?_, ?_, ?_⟩
      · rw [hperm.length_eq]
        rfl
      · exact (hperm.nodup_iff).2 (GameController.neighbors_nodup _)
      · intro p
        rw [hperm.mem_iff]
        exact GameController.mem_neighbors_iff _ p
  · rcases AIController.getMoveCandidates_cases m soldier ch with h | h
    · rw [h]
      exact List.Pairwise.nil
    · rw [h, List.pairwise_map]
      refine List.Pairwise.imp_of_mem ?_ hsort.2
      intro a b ha hb hab
      have hfa := hfacts.2 a (hsort.1.mem_iff.1 ha)
      have hfb := hfacts.2 b (hsort.1.mem_iff.1 hb)
      have hle := (AIController.moveBefore_false_iff _ a b).1 hab
      rw [hfa.1, hfb.1, hfa.2, hfb.2, AIController.getCrowdednessAtPosition_eq,
        AIController.getCrowdednessAtPosition_eq] at hle
      exact ⟨hle.1, fun heq => Int.ofNat_le.1 (hle.2 heq)⟩

set_option maxRecDepth 1000000 in
/-- Witness for C31: the lone Infantry with the side step drawn; leaving the
records in place is an outcome of the sort there. -/
theorem AIController.getMoveCandidates_ordered_witness :
    IsSortOutcome
      (AIController.moveBefore
        (AIController.getCrowdednessAtPosition loneWorld
          (Soldier.new ⟨30, 30⟩ SoldierType.INFANTRY Team.TEAM_A).getPosition
          (Soldier.new ⟨30, 30⟩ SoldierType.INFANTRY Team.TEAM_A).getTeam 2))
      (AIController.unsortedMoves loneWorld
        (Soldier.new ⟨30, 30⟩ SoldierType.INFANTRY Team.TEAM_A) sideStepChoices)
      (sideStepChoices.sorted (AIController.unsortedMoves loneWorld
        (Soldier.new ⟨30, 30⟩ SoldierType.INFANTRY Team.TEAM_A) sideStepChoices)) ∧
    (AIController.getMoveCandidates loneWorld
      (Soldier.new ⟨30, 30⟩ SoldierType.INFANTRY Team.TEAM_A) sideStepChoices).Perm
        (GameController.neighbors ⟨30, 30⟩) :=
  ⟨⟨List.Perm.refl _, by decide⟩,
   ((AIController.getMoveCandidates_ordered loneWorld
      (Soldier.new ⟨30, 30⟩ SoldierType.INFANTRY Team.TEAM_A) sideStepChoices
      ⟨List.Perm.refl _, by decide⟩).1.resolve_left (by decide)).1⟩

set_option maxRecDepth 1000000 in
/-- C31 as stated fails: the lone Team A Infantry at (30, 30) has its target,
the base at (35, 56), up and to the right, so the diagonal cell toward the
target is (31, 31) and the axis cells toward it are (31, 30) and (30, 31).
With the side step drawn the direction becomes (1, -1), and the list starts
with (31, 29), (31, 30), (30, 29), while (30, 31) and (31, 31) come last
(leaving the records in place is an outcome of the sort here): in terms of the
direction toward the target the classes of the list are not non-decreasing. -/
theorem AIController.getMoveCandidates_side_step :
    AIController.targetPosition loneWorld
      (Soldier.new ⟨30, 30⟩ SoldierType.INFANTRY Team.TEAM_A) = ⟨35, 56⟩ ∧
    AIController.moveDirection ⟨30, 30⟩ ⟨35, 56⟩ sideStepChoices = (1, -1) ∧
    AIController.getMoveCandidates loneWorld
      (Soldier.new ⟨30, 30⟩ SoldierType.INFANTRY Team.TEAM_A) sideStepChoices =
      [⟨31, 29⟩, ⟨31, 30⟩, ⟨30, 29⟩, ⟨29, 29⟩, ⟨29, 30⟩, ⟨29, 31⟩, ⟨30, 31⟩, ⟨31, 31⟩] ∧
    (AIController.unsortedMoves loneWorld
      (Soldier.new ⟨30, 30⟩ SoldierType.INFANTRY Team.TEAM_A) sideStepChoices).Pairwise
      (fun a b => AIController.moveBefore 1 b a = false) ∧
    AIController.priorityOf ⟨30, 30⟩ (AIController.stepToward 30 35)
      (AIController.stepToward 30 56) ⟨31, 29⟩ = 3 ∧
    AIController.priorityOf ⟨30, 30⟩ (AIController.stepToward 30 35)
      (AIController.stepToward 30 56) ⟨31, 31⟩ = 1 ∧
    ¬ (AIController.getMoveCandidates loneWorld
      (Soldier.new ⟨30, 30⟩ SoldierType.INFANTRY Team.TEAM_A) sideStepChoices).Pairwise
      (fun p q =>
        AIController.priorityOf ⟨30, 30⟩ (AIController.stepToward 30 35)
            (AIController.stepToward 30 56) p ≤
          AIController.priorityOf ⟨30, 30⟩ (AIController.stepToward 30 35)
            (AIController.stepToward 30 56) q) := by
  decide

/-! ## When the candidate list is empty -/

/-- C32: for every world, unit, outcome of the random side step and outcome of
`std::sort`, the sorted record vector of `getMoveCandidates` has a first
record; it is a record of the best priority class present and has the least
crowdedness of that class, its crowdedness is that of its cell; and
`getMoveCandidates` returns the empty list exactly when the crowdedness of the
current cell of the unit is below 6 and that of the first record is at least
6. -/
theorem AIController.getMoveCandidates_empty_iff (m : GameModel) (soldier : Soldier)
    (ch : MoveChoices)
    (hsort : IsSortOutcome
      (AIController.moveBefore
        (AIController.getCrowdednessAtPosition m soldier.getPosition soldier.getTeam 2))
      (AIController.unsortedMoves m soldier ch)
      (ch.sorted (AIController.unsortedMoves m soldier ch))) :
    ∃ (best : CandidateMove) (rest : List CandidateMove),
      ch.sorted (AIController.unsortedMoves m soldier ch) = best :: rest ∧
      best ∈ AIController.unsortedMoves m soldier ch ∧
      (∀ c ∈ AIController.unsortedMoves m soldier ch,
        best.priority ≤ c.priority ∧
        (c.priority = best.priority → best.crowdedness ≤ c.crowdedness)) ∧
      best.crowdedness = AIController.getCrowdednessAtPosition m best.pos soldier.getTeam 2 ∧
      (AIController.getMoveCandidates m soldier ch = [] ↔
        AIController.getCrowdednessAtPosition m soldier.getPosition soldier.getTeam 2 < 6 ∧
        best.crowdedness ≥ 6) := by
  have hfacts := AIController.unsortedMoves_facts m soldier ch
  have hlen : (ch.sorted (AIController.unsortedMoves m soldier ch)).length = 8 := by
    have h1 := hsort.1.length_eq
    have h2 := hfacts.1.length_eq
    rw [List.length_map] at h2
    rw [h1, h2]
    rfl
  cases hS : ch.sorted (AIController.unsortedMoves m soldier ch) with
  | nil =>
      rw [hS] at hlen
      exact absurd hlen (by simp)
  | cons best rest =>
      have hpair := hsort.2
      rw [hS] at hpair
      have hmem : best ∈ AIController.unsortedMoves m soldier ch :=
        hsort.1.mem_iff.1 (by rw [hS]; exact List.mem_cons_self _ _)
      refine ⟨best, rest, rfl, hmem, ?_, (hfacts.2 best hmem).2, ?_⟩
      · intro c hc
        have hc2 : c ∈ best :: rest := by
          rw [← hS]
          exact hsort.1.mem_iff.2 hc
        rcases List.mem_cons.1 hc2 with heq | hrest
        · rw [heq]
          exact ⟨Int.le_refl _, fun _ => Int.le_refl _⟩
        · have h := (AIController.moveBefore_false_iff _ best c).1
            ((List.pairwise_cons.1 hpair).1 c hrest)
          exact ⟨h.1, fun heq => h.2 heq.symm⟩
      · unfold AIController.getMoveCandidates
        dsimp only
        rw [hS]
        dsimp only
        constructor
        · intro h
          by_cases hc : best.crowdedness ≥ 6 ∧
              AIController.getCrowdednessAtPosition m soldier.getPosition soldier.getTeam 2 < 6
          · exact ⟨hc.2, hc.1⟩
          · rw [if_neg hc] at h
            exact absurd h (by simp)
        · intro h
          rw [if_pos ⟨h.2, h.1⟩]

set_option maxRecDepth 1000000 in
/-- Witness for C32: the Infantry at (30, 30) whose diagonal cell toward the
target has six living units of its team within two cells, while its own cell
has one: the list is empty. -/
theorem AIController.getMoveCandidates_empty_iff_witness :
    AIController.getMoveCandidates crowdAheadWorld
      (Soldier.new ⟨30, 30⟩ SoldierType.INFANTRY Team.TEAM_A) plainChoices = [] ∧
    AIController.getCrowdednessAtPosition crowdAheadWorld ⟨30, 30⟩ Team.TEAM_A 2 = 1 ∧
    AIController.getCrowdednessAtPosition crowdAheadWorld ⟨31, 31⟩ Team.TEAM_A 2 = 6 ∧
    ∃ (best : CandidateMove) (rest : List CandidateMove),
      plainChoices.sorted (AIController.unsortedMoves crowdAheadWorld
        (Soldier.new ⟨30, 30⟩ SoldierType.INFANTRY Team.TEAM_A) plainChoices) = best :: rest ∧
      best ∈ AIController.unsortedMoves crowdAheadWorld
        (Soldier.new ⟨30, 30⟩ SoldierType.INFANTRY Team.TEAM_A) plainChoices ∧
      (∀ c ∈ AIController.unsortedMoves crowdAheadWorld
          (Soldier.new ⟨30, 30⟩ SoldierType.INFANTRY Team.TEAM_A) plainChoices,
        best.priority ≤ c.priority ∧
        (c.priority = best.priority → best.crowdedness ≤ c.crowdedness)) ∧
      best.crowdedness = AIController.getCrowdednessAtPosition crowdAheadWorld best.pos
        (Soldier.new ⟨30, 30⟩ SoldierType.INFANTRY Team.TEAM_A).getTeam 2 ∧
      (AIController.getMoveCandidates crowdAheadWorld
          (Soldier.new ⟨30, 30⟩ SoldierType.INFANTRY Team.TEAM_A) plainChoices = [] ↔
        AIController.getCrowdednessAtPosition crowdAheadWorld
          (Soldier.new ⟨30, 30⟩ SoldierType.INFANTRY Team.TEAM_A).getPosition
          (Soldier.new ⟨30, 30⟩ SoldierType.INFANTRY Team.TEAM_A).getTeam 2 < 6 ∧
        best.crowdedness ≥ 6) :=
  ⟨by decide, by decide, by decide,
   AIController.getMoveCandidates_empty_iff crowdAheadWorld
     (Soldier.new ⟨30, 30⟩ SoldierType.INFANTRY Team.TEAM_A) plainChoices
     ⟨List.Perm.refl _, by decide⟩⟩

/-! ## The reach of a move -/

theorem GameController.moveToFirstFree_some (m m2 : GameModel) (i : Nat)
    (candidates : List Position)
    (h : GameController.moveToFirstFree m i candidates = some m2) :
    ∃ p ∈ candidates, GameController.canEnter m i p = true ∧ m2 = m.moveSoldier i p := by
  unfold GameController.moveToFirstFree at h
  cases hf : candidates.find? (fun newPos => GameController.canEnter m i newPos) with
  | none =>
      rw [hf] at h
      exact absurd h (by simp)
  | some p =>
      rw [hf] at h
      have hp : GameController.canEnter m i p = true := by
        have := List.find?_some hf
        simpa using this
      exact ⟨p, List.mem_of_find?_eq_some hf, hp, (Option.some.inj h).symm⟩

theorem GameController.moveToFirstFree_none (m : GameModel) (i : Nat)
    (candidates : List Position)
    (h : GameController.moveToFirstFree m i candidates = none) :
    ∀ p ∈ candidates, GameController.canEnter m i p = false := by
  unfold GameController.moveToFirstFree at h
  cases hf : candidates.find? (fun newPos => GameController.canEnter m i newPos) with
  | none =>
      intro p hp
      have := List.find?_eq_none.1 hf p hp
      simpa using this
  | some p =>
      rw [hf] at h
      exact absurd h (by simp)

theorem GameModel.moveSoldier_getElem (m : GameModel) (i : Nat) (p : Position) (s : Soldier)
    (hi : m.soldiers[i]? = some s) :
    (m.moveSoldier i p).soldiers[i]? = some (s.setPosition p) := by
  unfold GameModel.moveSoldier
  rw [hi]
  show (m.soldiers.set i (s.setPosition p))[i]? = _
  have hlt : i < m.soldiers.length := by
    rcases Nat.lt_or_ge i m.soldiers.length with h | h
    · exact h
    · rw [List.getElem?_eq_none h] at hi
      exact absurd hi (by simp)
  rw [List.getElem?_set]
  simp [hlt]

theorem GameController.mem_farPositions (cur p : Position)
    (h : p ∈ GameController.farPositions cur) : cur.distanceTo p ≤ 2 := by
  unfold GameController.farPositions at h
  obtain ⟨a, _, ha⟩ := List.mem_flatMap.1 h
  obtain ⟨b, _, hb⟩ := List.mem_filterMap.1 ha
  split at hb
  · rename_i hab
    have hp : p = { x := cur.x + a, y := cur.y + b } := (Option.some.inj hb).symm
    rw [hp]
    unfold Position.distanceTo
    dsimp only
    have h1 := hab.1
    unfold cabs at h1 ⊢
    split_ifs at h1 ⊢ <;> omega
  · exact absurd hb (by simp)

theorem GameController.neighbors_near (cur p : Position)
    (h : p ∈ GameController.neighbors cur) :
    cur.chebyshevDistanceTo p = 1 ∧ cur.distanceTo p ≤ 2 := by
  have h1 := (GameController.mem_neighbors_iff cur p).1 h
  refine ⟨h1, ?_⟩
  unfold Position.chebyshevDistanceTo at h1
  unfold Position.distanceTo
  unfold cabs at h1 ⊢
  split_ifs at h1 ⊢ <;> omega

theorem AIController.getRetreatPositions_near (cur enemy p : Position)
    (h : p ∈ AIController.getRetreatPositions cur enemy) :
    p ∈ GameController.neighbors cur := by
  apply (GameController.mem_neighbors_iff cur p).2
  cases p with
  | mk px py =>
    unfold AIController.getRetreatPositions at h
    unfold Position.chebyshevDistanceTo cabs
    dsimp only at h ⊢
    split_ifs at h <;> simp at h <;> split_ifs <;> omega

theorem AIController.getMoveCandidates_subset (m : GameModel) (soldier : Soldier)
    (ch : MoveChoices) (hvalid : ch.Rearranges) :
    ∀ p ∈ AIController.getMoveCandidates m soldier ch,
      p ∈ GameController.neighbors soldier.getPosition := by
  intro p hp
  rcases AIController.getMoveCandidates_cases m soldier ch with h | h
  · rw [h] at hp
    exact absurd hp (List.not_mem_nil _)
  · rw [h] at hp
    exact (((hvalid.1 _).map _).trans (AIController.unsortedMoves_facts m soldier ch).1).mem_iff.1 hp

/-- One round of the movement loop without dispersal: the unit stays, or it
enters one of its 8 neighbour cells, or none of these can be entered and it
enters a cell of `farPositions`. -/
theorem GameController.moveStep_reach (m : GameModel) (i : Nat) (soldier : Soldier)
    (choices : Nat → MoveChoices) (step : Nat)
    (hi : m.soldiers[i]? = some soldier) (hvalid : (choices step).Rearranges) :
    ∃ after : Soldier,
      (GameController.moveStep false i choices (m, false) step).1.soldiers[i]? = some after ∧
      (after = soldier ∨
        (∃ p ∈ GameController.neighbors soldier.getPosition,
          GameController.canEnter m i p = true ∧ after = soldier.setPosition p) ∨
        (∃ p ∈ GameController.farPositions soldier.getPosition,
          after = soldier.setPosition p ∧
          ∀ q ∈ GameController.neighbors soldier.getPosition,
            GameController.canEnter m i q = false)) := by
  unfold GameController.moveStep
  simp only [Bool.false_eq_true, if_false, Bool.false_and, hi]
  by_cases hempty : (AIController.getMoveCandidates m soldier (choices step)).isEmpty = true
  · rw [if_pos hempty]
    exact ⟨soldier, hi, Or.inl rfl⟩
  · rw [if_neg hempty]
    cases h1 : GameController.moveToFirstFree m i
        (AIController.getMoveCandidates m soldier (choices step)) with
    | some m2 =>
        obtain ⟨p, hp, hcan, rfl⟩ := GameController.moveToFirstFree_some m m2 i _ h1
        exact ⟨_, GameModel.moveSoldier_getElem m i p soldier hi, Or.inr (Or.inl
          ⟨p, AIController.getMoveCandidates_subset m soldier _ hvalid p hp, hcan, rfl⟩)⟩
    | none =>
        dsimp only
        cases h2 : GameController.moveToFirstFree m i
            ((choices step).shuffleNear (GameController.neighbors soldier.getPosition)) with
        | some m2 =>
            obtain ⟨p, hp, hcan, rfl⟩ := GameController.moveToFirstFree_some m m2 i _ h2
            exact ⟨_, GameModel.moveSoldier_getElem m i p soldier hi, Or.inr (Or.inl
              ⟨p, (hvalid.2.1 _).mem_iff.1 hp, hcan, rfl⟩)⟩
        | none =>
            dsimp only
            have hnone : ∀ q ∈ GameController.neighbors soldier.getPosition,
                GameController.canEnter m i q = false := fun q hq =>
              GameController.moveToFirstFree_none m i _ h2 q ((hvalid.2.1 _).mem_iff.2 hq)
            cases h3 : GameController.moveToFirstFree m i
                ((choices step).shuffleFar (GameController.farPositions soldier.getPosition)) with
            | some m2 =>
                obtain ⟨p, hp, _, rfl⟩ := GameController.moveToFirstFree_some m m2 i _ h3
                exact ⟨_, GameModel.moveSoldier_getElem m i p soldier hi, Or.inr (Or.inr
                  ⟨p, (hvalid.2.2 _).mem_iff.1 hp, rfl, hnone⟩)⟩
            | none => exact ⟨soldier, hi, Or.inl rfl⟩

theorem Position.chebyshev_le_distanceTo (p q : Position) :
    p.chebyshevDistanceTo q ≤ p.distanceTo q := by
  unfold Position.chebyshevDistanceTo Position.distanceTo cabs
  split <;> split <;> omega

theorem Position.distanceTo_self (p : Position) : p.distanceTo p = 0 := by
  unfold Position.distanceTo cabs
  simp

theorem Position.chebyshevDistanceTo_self (p : Position) : p.chebyshevDistanceTo p = 0 := by
  unfold Position.chebyshevDistanceTo cabs
  simp

/-- C38, amended: for a unit of move speed 1 with fewer than 6 living
teammates within Manhattan distance 2 (so that the dispersal step does not
run), with a sort and shuffles that rearrange their input,
`processSoldierBehavior` leaves the unit within Manhattan distance 2 of the
cell it stood on, and within Chebyshev distance 1 of it when one of its 8
neighbour cells can be entered; nothing but its position changes. -/
theorem GameController.processSoldierBehavior_reach (m : GameModel) (i : Nat)
    (soldier : Soldier) (choices : Nat → MoveChoices)
    (hi : m.soldiers[i]? = some soldier) (hspeed : soldier.moveSpeed = 1)
    (hcrowd : AIController.countNearbyAllies m i soldier 2 < 6)
    (hvalid : (choices 0).Rearranges) :
    ∃ pos : Position,
      (GameController.processSoldierBehavior m i choices).soldiers[i]?
        = some (soldier.setPosition pos) ∧
      soldier.getPosition.distanceTo pos ≤ 2 ∧
      soldier.getPosition.chebyshevDistanceTo pos ≤ 2 ∧
      ((∃ q ∈ GameController.neighbors soldier.getPosition,
          GameController.canEnter m i q = true) →
        soldier.getPosition.chebyshevDistanceTo pos ≤ 1) := by
  have hstay : ∃ pos : Position, m.soldiers[i]? = some (soldier.setPosition pos) ∧
      soldier.getPosition.distanceTo pos ≤ 2 ∧
      soldier.getPosition.chebyshevDistanceTo pos ≤ 2 ∧
      ((∃ q ∈ GameController.neighbors soldier.getPosition,
          GameController.canEnter m i q = true) →
        soldier.getPosition.chebyshevDistanceTo pos ≤ 1) :=
    ⟨soldier.getPosition, hi, by rw [Position.distanceTo_self]; decide,
      by rw [Position.chebyshevDistanceTo_self]; decide,
      fun _ => by rw [Position.chebyshevDistanceTo_self]; decide⟩
  have hloop : ∃ pos : Position,
      (GameController.moveLoop m false i 1 choices).soldiers[i]?
        = some (soldier.setPosition pos) ∧
      soldier.getPosition.distanceTo pos ≤ 2 ∧
      soldier.getPosition.chebyshevDistanceTo pos ≤ 2 ∧
      ((∃ q ∈ GameController.neighbors soldier.getPosition,
          GameController.canEnter m i q = true) →
        soldier.getPosition.chebyshevDistanceTo pos ≤ 1) := by
    have hone : GameController.moveLoop m false i 1 choices =
        (GameController.moveStep false i choices (m, false) 0).1 := rfl
    rw [hone]
    obtain ⟨after, hafter, hcases⟩ := GameController.moveStep_reach m i soldier choices 0 hi hvalid
    rcases hcases with h | ⟨p, hp, _, h⟩ | ⟨p, hp, h, hnone⟩
    · rw [hafter, h]
      exact ⟨soldier.getPosition, rfl, by rw [Position.distanceTo_self]; decide,
        by rw [Position.chebyshevDistanceTo_self]; decide,
        fun _ => by rw [Position.chebyshevDistanceTo_self]; decide⟩
    · rw [hafter, h]
      have hnear := GameController.neighbors_near soldier.getPosition p hp
      exact ⟨p, rfl, hnear.2, by rw [hnear.1]; decide, fun _ => by rw [hnear.1]⟩
    · rw [hafter, h]
      have hfar := GameController.mem_farPositions soldier.getPosition p hp
      refine ⟨p, rfl, hfar, Int.le_trans (Position.chebyshev_le_distanceTo _ _) hfar, ?_⟩
      rintro ⟨q, hq, hcan⟩
      rw [hnone q hq] at hcan
      exact absurd hcan (by simp)
  have hc : decide (AIController.countNearbyAllies m i soldier 2 ≥ 6) = false := by
    simp only [decide_eq_false_iff_not]
    omega
  have hc8 : decide (AIController.countNearbyAllies m i soldier 2 ≥ 8) = false := by
    simp only [decide_eq_false_iff_not]
    omega
  unfold GameController.processSoldierBehavior
  rw [hi]
  dsimp only
  rw [hc, hc8, hspeed]
  split
  · exact hstay
  · split
    · exact hstay
    · split
      · split
        · exact hstay
        · split
          · rename_i nearestMelee _
            cases hr : GameController.moveToFirstFree m i
                (AIController.getRetreatPositions soldier.getPosition
                  nearestMelee.getPosition) with
            | some m1 =>
                dsimp only
                obtain ⟨p, hp, _, rfl⟩ := GameController.moveToFirstFree_some m m1 i _ hr
                have hnear := GameController.neighbors_near soldier.getPosition p
                  (AIController.getRetreatPositions_near _ _ p hp)
                exact ⟨p, GameModel.moveSoldier_getElem m i p soldier hi, hnear.2,
                  by rw [hnear.1]; decide, fun _ => by rw [hnear.1]⟩
            | none => exact hloop
          · exact hloop
      · exact hloop

set_option maxRecDepth 1000000 in
/-- Witness for C38: the lone Infantry at (30, 30) steps to (31, 31). -/
theorem GameController.processSoldierBehavior_reach_witness :
    (GameController.processSoldierBehavior loneWorld 0 fun _ => plainChoices).soldiers[0]? =
      some ((Soldier.new ⟨30, 30⟩ SoldierType.INFANTRY Team.TEAM_A).setPosition ⟨31, 31⟩) ∧
    ∃ pos : Position,
      (GameController.processSoldierBehavior loneWorld 0 fun _ => plainChoices).soldiers[0]?
        = some ((Soldier.new ⟨30, 30⟩ SoldierType.INFANTRY Team.TEAM_A).setPosition pos) ∧
      (Soldier.new ⟨30, 30⟩ SoldierType.INFANTRY Team.TEAM_A).getPosition.distanceTo pos ≤ 2 ∧
      (Soldier.new ⟨30, 30⟩ SoldierType.INFANTRY
        Team.TEAM_A).getPosition.chebyshevDistanceTo pos ≤ 2 ∧
      ((∃ q ∈ GameController.neighbors
            (Soldier.new ⟨30, 30⟩ SoldierType.INFANTRY Team.TEAM_A).getPosition,
          GameController.canEnter loneWorld 0 q = true) →
        (Soldier.new ⟨30, 30⟩ SoldierType.INFANTRY
          Team.TEAM_A).getPosition.chebyshevDistanceTo pos ≤ 1) :=
  ⟨by decide,
   GameController.processSoldierBehavior_reach loneWorld 0
     (Soldier.new ⟨30, 30⟩ SoldierType.INFANTRY Team.TEAM_A) (fun _ => plainChoices)
     rfl rfl (by decide)
     ⟨fun l => List.Perm.refl l, fun l => List.Perm.refl l, fun l => List.Perm.refl l⟩⟩

set_option maxRecDepth 1000000 in
/-- C38 as stated fails: the Infantry (move speed 1) at (30, 30) inside the
ring of Mountain can enter none of its 8 neighbour cells, and the fallback to
`farPositions` moves it to (28, 30), at Chebyshev distance 2. -/
theorem GameController.processSoldierBehavior_far_step :
    (Soldier.new ⟨30, 30⟩ SoldierType.INFANTRY Team.TEAM_A).moveSpeed = 1 ∧
    ringWorld.soldiers[0]? = some (Soldier.new ⟨30, 30⟩ SoldierType.INFANTRY Team.TEAM_A) ∧
    (GameController.processSoldierBehavior ringWorld 0 fun _ => plainChoices).soldiers[0]? =
      some ((Soldier.new ⟨30, 30⟩ SoldierType.INFANTRY Team.TEAM_A).setPosition ⟨28, 30⟩) ∧
    Position.chebyshevDistanceTo ⟨30, 30⟩ ⟨28, 30⟩ = 2 ∧
    (∀ q ∈ GameController.neighbors ⟨30, 30⟩, GameController.canEnter ringWorld 0 q = false) := by
  decide

set_option maxRecDepth 1000000 in
/-- With six teammates within Manhattan distance 2 the dispersal step runs
first: its `continue` goes on with the next dispersal cell, the unit ends on the
last of the three that can be entered, (30, 31), and the candidate move from
there takes it on to (31, 32), at Chebyshev distance 2 of (30, 30). -/
theorem GameController.processSoldierBehavior_disperse_then_step :
    AIController.countNearbyAllies crowdBehindWorld 0
      (Soldier.new ⟨30, 30⟩ SoldierType.INFANTRY Team.TEAM_A) 2 = 6 ∧
    (GameController.disperse crowdBehindWorld 0
      (GameController.dispersePositions crowdBehindWorld
        (Soldier.new ⟨30, 30⟩ SoldierType.INFANTRY Team.TEAM_A) ⟨30, 30⟩)).soldiers[0]? =
      some ((Soldier.new ⟨30, 30⟩ SoldierType.INFANTRY Team.TEAM_A).setPosition ⟨30, 31⟩) ∧
    (GameController.processSoldierBehavior crowdBehindWorld 0
      fun _ => plainChoices).soldiers[0]? =
      some ((Soldier.new ⟨30, 30⟩ SoldierType.INFANTRY Team.TEAM_A).setPosition ⟨31, 32⟩) := by
  decide
